import Mathlib

/-!
# liquidityScope: window aggregator and event decoder

A shallow embedding of the aggregation stage of the indexer
(`internal/aggregate`) and of its event decoder (`internal/dex`), with the
record types of `internal/model`, and the properties of its specification.

Conventions of the embedding.

* `*big.Int` is `Int`; the pointers held by an accumulator are never nil after
  `NewAccumulator`, so the accumulator fields are plain integers.
* `uint64` values that come from the input (timestamps, block numbers, the
  window size) are `Nat`; the one place where the source can wrap,
  `windowStart + WindowSeconds`, is reduced modulo `2 ^ 64`.  Counters that
  grow by one per input record (`SwapCount`, `total`, `decoded`, ...) are `Nat`:
  they cannot reach `2 ^ 64` within a run over a finite file.
* A method that mutates its receiver and returns an `error` becomes a function
  that returns the new receiver together with an optional error.
* What the run does to the outside world (the metric store and the state
  store) is kept as the ordered list of the calls it has made.
* In the decoder a byte array of fixed size (`common.Hash`, `common.Address`)
  is the number it spells, most significant byte first; what go-ethereum
  derives with Keccak-256 is a parameter (`EthLib`).
* A Go string is a `String`, that is text in UTF-8; only the JSON form of a
  log record (`Model.LogRecord`) keeps raw bytes.  `strings.ToLower` maps every
  rune through the lower-case table of the `unicode` package (Unicode 15.0.0).
-/

namespace LiquidityScope

/-! ## Machine integers -/

/-- Number of values of a Go `uint64`. -/
def uint64Size : Nat := 2 ^ 64

/-- Go conversion `int64(x)` of a `uint64` value. -/
def toInt64 (x : Nat) : Int :=
  if x % uint64Size < 2 ^ 63 then ((x % uint64Size : Nat) : Int)
  else ((x % uint64Size : Nat) : Int) - (2 : Int) ^ 64

/-! ## Strings -/

/-- The runes above ASCII that Go `unicode.ToLower` changes, after the
lower-case deltas of `unicode.CaseRanges` (Unicode 15.0.0): `(lo, hi, stride,
target)` stands for the runes `lo, lo + stride, .., hi`, of which `lo + i` has
the lower case `target + i`. -/
def lowerRanges : List (Nat × Nat × Nat × Nat) :=
  [(0xC0, 0xD6, 1, 0xE0), (0xD8, 0xDE, 1, 0xF8), (0x100, 0x12E, 2, 0x101),
   (0x130, 0x130, 1, 0x69), (0x132, 0x136, 2, 0x133), (0x139, 0x147, 2, 0x13A),
   (0x14A, 0x176, 2, 0x14B), (0x178, 0x178, 1, 0xFF), (0x179, 0x17D, 2, 0x17A),
   (0x181, 0x181, 1, 0x253), (0x182, 0x184, 2, 0x183), (0x186, 0x186, 1, 0x254),
   (0x187, 0x187, 1, 0x188), (0x189, 0x18A, 1, 0x256), (0x18B, 0x18B, 1, 0x18C),
   (0x18E, 0x18E, 1, 0x1DD), (0x18F, 0x18F, 1, 0x259), (0x190, 0x190, 1, 0x25B),
   (0x191, 0x191, 1, 0x192), (0x193, 0x193, 1, 0x260), (0x194, 0x194, 1, 0x263),
   (0x196, 0x196, 1, 0x269), (0x197, 0x197, 1, 0x268), (0x198, 0x198, 1, 0x199),
   (0x19C, 0x19C, 1, 0x26F), (0x19D, 0x19D, 1, 0x272), (0x19F, 0x19F, 1, 0x275),
   (0x1A0, 0x1A4, 2, 0x1A1), (0x1A6, 0x1A6, 1, 0x280), (0x1A7, 0x1A7, 1, 0x1A8),
   (0x1A9, 0x1A9, 1, 0x283), (0x1AC, 0x1AC, 1, 0x1AD), (0x1AE, 0x1AE, 1, 0x288),
   (0x1AF, 0x1AF, 1, 0x1B0), (0x1B1, 0x1B2, 1, 0x28A), (0x1B3, 0x1B5, 2, 0x1B4),
   (0x1B7, 0x1B7, 1, 0x292), (0x1B8, 0x1B8, 1, 0x1B9), (0x1BC, 0x1BC, 1, 0x1BD),
   (0x1C4, 0x1C4, 1, 0x1C6), (0x1C5, 0x1C5, 1, 0x1C6), (0x1C7, 0x1C7, 1, 0x1C9),
   (0x1C8, 0x1C8, 1, 0x1C9), (0x1CA, 0x1CA, 1, 0x1CC), (0x1CB, 0x1DB, 2, 0x1CC),
   (0x1DE, 0x1EE, 2, 0x1DF), (0x1F1, 0x1F1, 1, 0x1F3), (0x1F2, 0x1F4, 2, 0x1F3),
   (0x1F6, 0x1F6, 1, 0x195), (0x1F7, 0x1F7, 1, 0x1BF), (0x1F8, 0x21E, 2, 0x1F9),
   (0x220, 0x220, 1, 0x19E), (0x222, 0x232, 2, 0x223), (0x23A, 0x23A, 1, 0x2C65),
   (0x23B, 0x23B, 1, 0x23C), (0x23D, 0x23D, 1, 0x19A), (0x23E, 0x23E, 1, 0x2C66),
   (0x241, 0x241, 1, 0x242), (0x243, 0x243, 1, 0x180), (0x244, 0x244, 1, 0x289),
   (0x245, 0x245, 1, 0x28C), (0x246, 0x24E, 2, 0x247), (0x370, 0x372, 2, 0x371),
   (0x376, 0x376, 1, 0x377), (0x37F, 0x37F, 1, 0x3F3), (0x386, 0x386, 1, 0x3AC),
   (0x388, 0x38A, 1, 0x3AD), (0x38C, 0x38C, 1, 0x3CC), (0x38E, 0x38F, 1, 0x3CD),
   (0x391, 0x3A1, 1, 0x3B1), (0x3A3, 0x3AB, 1, 0x3C3), (0x3CF, 0x3CF, 1, 0x3D7),
   (0x3D8, 0x3EE, 2, 0x3D9), (0x3F4, 0x3F4, 1, 0x3B8), (0x3F7, 0x3F7, 1, 0x3F8),
   (0x3F9, 0x3F9, 1, 0x3F2), (0x3FA, 0x3FA, 1, 0x3FB), (0x3FD, 0x3FF, 1, 0x37B),
   (0x400, 0x40F, 1, 0x450), (0x410, 0x42F, 1, 0x430), (0x460, 0x480, 2, 0x461),
   (0x48A, 0x4BE, 2, 0x48B), (0x4C0, 0x4C0, 1, 0x4CF), (0x4C1, 0x4CD, 2, 0x4C2),
   (0x4D0, 0x52E, 2, 0x4D1), (0x531, 0x556, 1, 0x561), (0x10A0, 0x10C5, 1, 0x2D00),
   (0x10C7, 0x10C7, 1, 0x2D27), (0x10CD, 0x10CD, 1, 0x2D2D), (0x13A0, 0x13EF, 1, 0xAB70),
   (0x13F0, 0x13F5, 1, 0x13F8), (0x1C90, 0x1CBA, 1, 0x10D0), (0x1CBD, 0x1CBF, 1, 0x10FD),
   (0x1E00, 0x1E94, 2, 0x1E01), (0x1E9E, 0x1E9E, 1, 0xDF), (0x1EA0, 0x1EFE, 2, 0x1EA1),
   (0x1F08, 0x1F0F, 1, 0x1F00), (0x1F18, 0x1F1D, 1, 0x1F10), (0x1F28, 0x1F2F, 1, 0x1F20),
   (0x1F38, 0x1F3F, 1, 0x1F30), (0x1F48, 0x1F4D, 1, 0x1F40), (0x1F59, 0x1F5F, 2, 0x1F51),
   (0x1F68, 0x1F6F, 1, 0x1F60), (0x1F88, 0x1F8F, 1, 0x1F80), (0x1F98, 0x1F9F, 1, 0x1F90),
   (0x1FA8, 0x1FAF, 1, 0x1FA0), (0x1FB8, 0x1FB9, 1, 0x1FB0), (0x1FBA, 0x1FBB, 1, 0x1F70),
   (0x1FBC, 0x1FBC, 1, 0x1FB3), (0x1FC8, 0x1FCB, 1, 0x1F72), (0x1FCC, 0x1FCC, 1, 0x1FC3),
   (0x1FD8, 0x1FD9, 1, 0x1FD0), (0x1FDA, 0x1FDB, 1, 0x1F76), (0x1FE8, 0x1FE9, 1, 0x1FE0),
   (0x1FEA, 0x1FEB, 1, 0x1F7A), (0x1FEC, 0x1FEC, 1, 0x1FE5), (0x1FF8, 0x1FF9, 1, 0x1F78),
   (0x1FFA, 0x1FFB, 1, 0x1F7C), (0x1FFC, 0x1FFC, 1, 0x1FF3), (0x2126, 0x2126, 1, 0x3C9),
   (0x212A, 0x212A, 1, 0x6B), (0x212B, 0x212B, 1, 0xE5), (0x2132, 0x2132, 1, 0x214E),
   (0x2160, 0x216F, 1, 0x2170), (0x2183, 0x2183, 1, 0x2184), (0x24B6, 0x24CF, 1, 0x24D0),
   (0x2C00, 0x2C2F, 1, 0x2C30), (0x2C60, 0x2C60, 1, 0x2C61), (0x2C62, 0x2C62, 1, 0x26B),
   (0x2C63, 0x2C63, 1, 0x1D7D), (0x2C64, 0x2C64, 1, 0x27D), (0x2C67, 0x2C6B, 2, 0x2C68),
   (0x2C6D, 0x2C6D, 1, 0x251), (0x2C6E, 0x2C6E, 1, 0x271), (0x2C6F, 0x2C6F, 1, 0x250),
   (0x2C70, 0x2C70, 1, 0x252), (0x2C72, 0x2C72, 1, 0x2C73), (0x2C75, 0x2C75, 1, 0x2C76),
   (0x2C7E, 0x2C7F, 1, 0x23F), (0x2C80, 0x2CE2, 2, 0x2C81), (0x2CEB, 0x2CED, 2, 0x2CEC),
   (0x2CF2, 0x2CF2, 1, 0x2CF3), (0xA640, 0xA66C, 2, 0xA641), (0xA680, 0xA69A, 2, 0xA681),
   (0xA722, 0xA72E, 2, 0xA723), (0xA732, 0xA76E, 2, 0xA733), (0xA779, 0xA77B, 2, 0xA77A),
   (0xA77D, 0xA77D, 1, 0x1D79), (0xA77E, 0xA786, 2, 0xA77F), (0xA78B, 0xA78B, 1, 0xA78C),
   (0xA78D, 0xA78D, 1, 0x265), (0xA790, 0xA792, 2, 0xA791), (0xA796, 0xA7A8, 2, 0xA797),
   (0xA7AA, 0xA7AA, 1, 0x266), (0xA7AB, 0xA7AB, 1, 0x25C), (0xA7AC, 0xA7AC, 1, 0x261),
   (0xA7AD, 0xA7AD, 1, 0x26C), (0xA7AE, 0xA7AE, 1, 0x26A), (0xA7B0, 0xA7B0, 1, 0x29E),
   (0xA7B1, 0xA7B1, 1, 0x287), (0xA7B2, 0xA7B2, 1, 0x29D), (0xA7B3, 0xA7B3, 1, 0xAB53),
   (0xA7B4, 0xA7C2, 2, 0xA7B5), (0xA7C4, 0xA7C4, 1, 0xA794), (0xA7C5, 0xA7C5, 1, 0x282),
   (0xA7C6, 0xA7C6, 1, 0x1D8E), (0xA7C7, 0xA7C9, 2, 0xA7C8), (0xA7D0, 0xA7D0, 1, 0xA7D1),
   (0xA7D6, 0xA7D8, 2, 0xA7D7), (0xA7F5, 0xA7F5, 1, 0xA7F6), (0xFF21, 0xFF3A, 1, 0xFF41),
   (0x10400, 0x10427, 1, 0x10428), (0x104B0, 0x104D3, 1, 0x104D8),
   (0x10570, 0x1057A, 1, 0x10597), (0x1057C, 0x1058A, 1, 0x105A3),
   (0x1058C, 0x10592, 1, 0x105B3), (0x10594, 0x10595, 1, 0x105BB),
   (0x10C80, 0x10CB2, 1, 0x10CC0), (0x118A0, 0x118BF, 1, 0x118C0),
   (0x16E40, 0x16E5F, 1, 0x16E60), (0x1E900, 0x1E921, 1, 0x1E922)]

/-- Go `unicode.ToLower`: `A`..`Z` in ASCII, the table above it. -/
def lowerRune (c : Char) : Char :=
  if c.toNat < 0x80 then c.toLower
  else
    match lowerRanges.find? (fun r =>
      decide (r.1 ≤ c.toNat) && decide (c.toNat ≤ r.2.1) &&
        decide ((c.toNat - r.1) % r.2.2.1 = 0)) with
    | some r => Char.ofNat (r.2.2.2 + (c.toNat - r.1))
    | none => c

/-- Go `strings.ToLower`: every rune through `unicode.ToLower`. -/
def toLower (s : String) : String := String.mk (s.data.map lowerRune)

/-- Value of a run of decimal digits, most significant first. -/
def digitsValue (cs : List Char) : Nat :=
  cs.foldl (fun n c => 10 * n + (c.toNat - 48)) 0

/-- Go `(*big.Int).SetString(s, 10)` on the characters of `s`: an optional sign
`+` or `-`, then one or more decimal digits and nothing else. -/
def bigIntSetString (cs : List Char) : Option Int :=
  match cs with
  | [] => none
  | '-' :: ds => if ds ≠ [] ∧ ds.all Char.isDigit then some (-(digitsValue ds : Int)) else none
  | '+' :: ds => if ds ≠ [] ∧ ds.all Char.isDigit then some (digitsValue ds : Int) else none
  | ds => if ds.all Char.isDigit then some (digitsValue ds : Int) else none

/-- Decimal digits of a natural number (Go `nat.utoa(10)`). -/
def utoa (n : Nat) : List Char := Nat.toDigits 10 n

/-- Go `(*big.Int).String()`, as characters. -/
def bigIntString (v : Int) : List Char :=
  if v < 0 then '-' :: utoa v.natAbs else utoa v.natAbs

/-! ## Records (`internal/model`) -/

/-- Pool metadata; the optional live fields (`liquidity`, `slot0`) are not read
by the aggregator and are left out. -/
structure PoolMeta where
  Token0 : String
  Token1 : String
  Fee : Nat
  TickSpacing : Int
deriving DecidableEq, Repr

/-- The two fields of the decoded Swap payload that the aggregator reads. -/
structure SwapEventData where
  Amount0 : String
  Amount1 : String
deriving DecidableEq, Repr

/-- Typed event record.  `Decoded` holds the result of
`json.Unmarshal(record.Decoded, &swap)`: `none` when the raw message does not
unmarshal into a `SwapEventData`. -/
structure TypedEventRecord where
  ChainID : Nat
  BlockNumber : Nat
  Address : String
  EventName : String
  Timestamp : Nat
  Decoded : Option SwapEventData
  PoolMeta : PoolMeta
deriving DecidableEq, Repr

/-- Pool row. -/
structure Pool where
  ChainID : Nat
  Address : String
  Token0 : String
  Token1 : String
  Fee : Nat
  TickSpacing : Int
  FirstSeenBlock : Nat
deriving DecidableEq, Repr

/-- Window metrics row.  A `time.Time` built by `time.Unix(sec, 0).UTC()` is
identified with `sec`. -/
structure PoolWindowMetrics where
  ChainID : Nat
  PoolAddress : String
  WindowSizeSecs : Int
  WindowStart : Int
  WindowEnd : Int
  SwapCount : Nat
  Volume0 : String
  Volume1 : String
  Fee0 : String
  Fee1 : String
  FeeUSD : Option String
  FeeRate0 : Option String
  FeeRate1 : Option String
  TVL0 : Option String
  TVL1 : Option String
  TVLUSD : Option String
  APR : Option String
  FeeMethod : String
  TVLMethod : String
deriving DecidableEq, Repr

/-- Errors of the aggregation stage. -/
inductive Err where
  | storeNil
  | chainClientNil
  | windowZero
  | decodeSwap
  | invalidInt (value : String)
  | loadState
  | upsertPools
  | upsertMetrics
  | stateSave
  | invalidAddress
  | balanceOfFailed
  | tokenDecimals
deriving DecidableEq, Repr

/-! ## Accumulator (`accumulator.go`) -/

/-- Aggregate values of one pool window. -/
structure Accumulator where
  ChainID : Nat
  PoolAddress : String
  PoolMeta : PoolMeta
  WindowStart : Nat
  WindowEnd : Nat
  SwapCount : Nat
  Volume0 : Int
  Volume1 : Int
  Fee0 : Int
  Fee1 : Int
  LastBlock : Nat
  LastTS : Nat
  FirstBlock : Nat
deriving DecidableEq, Repr

def NewAccumulator (record : TypedEventRecord) (windowStart windowEnd : Nat) : Accumulator :=
  { ChainID := record.ChainID
    PoolAddress := record.Address
    PoolMeta := record.PoolMeta
    WindowStart := windowStart
    WindowEnd := windowEnd
    SwapCount := 0
    Volume0 := 0
    Volume1 := 0
    Fee0 := 0
    Fee1 := 0
    LastBlock := record.BlockNumber
    LastTS := record.Timestamp
    FirstBlock := record.BlockNumber }

def parseBigInt (value : String) : Option Int :=
  if value = "" then some 0 else bigIntSetString value.data

/-- The new value of `target` after `absAdd(target, value)`. -/
def absAdd (target value : Int) : Int := target + (value.natAbs : Int)

def feeFromAmount (amountIn : Int) (feeRate : Nat) : Int :=
  (amountIn.natAbs : Int) * (feeRate : Int) / 1000000

def Accumulator.applySwap (a : Accumulator) (swap : SwapEventData) : Accumulator × Option Err :=
  match parseBigInt swap.Amount0 with
  | none => (a, some (Err.invalidInt swap.Amount0))
  | some amount0 =>
    match parseBigInt swap.Amount1 with
    | none => (a, some (Err.invalidInt swap.Amount1))
    | some amount1 =>
      let a1 := { a with Volume0 := absAdd a.Volume0 amount0, Volume1 := absAdd a.Volume1 amount1 }
      let feeRate := a1.PoolMeta.Fee
      if feeRate = 0 then
        ({ a1 with SwapCount := a1.SwapCount + 1 }, none)
      else
        let a2 :=
          if amount0 < 0 ∧ amount1 > 0 then
            { a1 with Fee1 := a1.Fee1 + feeFromAmount amount1 feeRate }
          else if amount1 < 0 ∧ amount0 > 0 then
            { a1 with Fee0 := a1.Fee0 + feeFromAmount amount0 feeRate }
          else a1
        ({ a2 with SwapCount := a2.SwapCount + 1 }, none)

def Accumulator.AddEvent (a : Accumulator) (record : TypedEventRecord) : Accumulator × Option Err :=
  let a1 :=
    if record.Timestamp ≥ a.LastTS then
      { a with LastTS := record.Timestamp, LastBlock := record.BlockNumber }
    else a
  let a2 :=
    if a1.FirstBlock = 0 ∨ record.BlockNumber < a1.FirstBlock then
      { a1 with FirstBlock := record.BlockNumber }
    else a1
  if toLower record.EventName = "swap" then
    match record.Decoded with
    | none => (a2, some Err.decodeSwap)
    | some swap => a2.applySwap swap
  else (a2, none)

/-! ## Window arithmetic (`aggregator.go`) -/

def windowStart (ts windowSec : Nat) : Nat := ts - (ts % windowSec)

/-- The `windowEnd` local of `Run`: `windowStart + a.cfg.WindowSeconds` in `uint64`. -/
def windowEnd (ts windowSec : Nat) : Nat := (windowStart ts windowSec + windowSec) % uint64Size

def poolKey (address : String) : String := toLower address

/-! ## Numeric helpers (`helpers.go`) -/

/-- Go `big.Rat`: numerator `a` and denominator `b`, kept in lowest terms with
`b > 0` by every constructor below. -/
structure BigRat where
  a : Int
  b : Nat
deriving DecidableEq, Repr

/-- Go `(*big.Rat).SetFrac(a, b)` for `b ≠ 0` (the source never passes a zero
denominator): the sign goes to the numerator and the fraction is reduced. -/
def BigRat.SetFrac (a b : Int) : BigRat :=
  let g := Nat.gcd a.natAbs b.natAbs
  let num : Int := ((a.natAbs / g : Nat) : Int)
  { a := if (decide (a < 0)) != (decide (b < 0)) then -num else num
    b := b.natAbs / g }

/-- Go `big.NewRat(a, b)`. -/
def BigRat.NewRat (a b : Int) : BigRat := BigRat.SetFrac a b

/-- Go `(*big.Rat).Mul`. -/
def BigRat.Mul (x y : BigRat) : BigRat := BigRat.SetFrac (x.a * y.a) ((x.b * y.b : Nat) : Int)

/-- Go `(*big.Rat).Quo(x, y)` for `y ≠ 0`. -/
def BigRat.Quo (x y : BigRat) : BigRat := BigRat.SetFrac (x.a * (y.b : Int)) ((x.b : Int) * y.a)

/-- Go `(*big.Rat).FloatString(prec)`: `prec` digits after the point, the last
one rounded to nearest with halves away from zero. -/
def BigRat.FloatString (x : BigRat) (prec : Nat) : String :=
  if x.b = 1 then
    String.mk (bigIntString x.a ++ (if prec > 0 then '.' :: List.replicate prec '0' else []))
  else
    let q := x.a.natAbs / x.b
    let r := x.a.natAbs % x.b
    let p := 10 ^ prec
    let r1 := (r * p) / x.b
    let r2 := (r * p) % x.b
    let up : Bool := decide (x.b ≤ r2 + r2)
    let r3 := if up then r1 + 1 else r1
    let carry : Bool := up && decide (r3 ≥ p)
    let q1 := if carry then q + 1 else q
    let r4 := if carry then r3 - p else r3
    String.mk ((if x.a < 0 then ['-'] else []) ++ utoa q1 ++
      (if prec > 0 then '.' :: (List.replicate (prec - (utoa r4).length) '0' ++ utoa r4) else []))

/-- Go `(*big.Rat).SetString` on plain decimal text, the only shape the source
hands to it (the output of `FloatString`): an optional sign, digits, and an
optional point followed by digits, with at least one digit overall. -/
def BigRat.SetString (s : String) : Option BigRat :=
  let body (cs : List Char) : Option (Nat × Nat) :=
    let ip := cs.takeWhile Char.isDigit
    let rest := cs.dropWhile Char.isDigit
    match rest with
    | [] => if ip ≠ [] then some (digitsValue ip, 0) else none
    | '.' :: fp =>
      if fp.all Char.isDigit ∧ (ip ≠ [] ∨ fp ≠ []) then
        some (digitsValue (ip ++ fp), fp.length)
      else none
    | _ => none
  match s.data with
  | '-' :: cs => (body cs).map (fun m => BigRat.SetFrac (-(m.1 : Int)) ((10 ^ m.2 : Nat) : Int))
  | '+' :: cs => (body cs).map (fun m => BigRat.SetFrac (m.1 : Int) ((10 ^ m.2 : Nat) : Int))
  | cs => (body cs).map (fun m => BigRat.SetFrac (m.1 : Int) ((10 ^ m.2 : Nat) : Int))

def ratioScale : Nat := 18

/-- `formatTokenAmount(value, decimals)`; `value = none` is the nil pointer. -/
def formatTokenAmount (value : Option Int) (decimals : Nat) : String :=
  match value with
  | none => "0"
  | some v =>
    if decimals = 0 then String.mk (bigIntString v)
    else
      let abs : Int := (v.natAbs : Int)
      let denom : Int := (10 : Int) ^ decimals
      let rat := BigRat.SetFrac abs denom
      let text := rat.FloatString decimals
      if v < 0 then "-" ++ text else text

def computeRateFromInt (fee tvl : Option Int) : String :=
  match fee, tvl with
  | some f, some t =>
    if f = 0 ∨ t = 0 then "" else (BigRat.SetFrac f t).FloatString ratioScale
  | _, _ => ""

def computeFeeRates (fee0 fee1 tvl0 tvl1 : Option Int) : Option String × Option String :=
  let rate0 := computeRateFromInt fee0 tvl0
  let rate1 := computeRateFromInt fee1 tvl1
  (if rate0 ≠ "" then some rate0 else none, if rate1 ≠ "" then some rate1 else none)

def computeAPR (feeRate0 feeRate1 : Option String) (windowSeconds : Nat) : Option String :=
  if windowSeconds = 0 then none
  else
    let selected : Option String :=
      match feeRate0, feeRate1 with
      | some r0, none => some r0
      | none, some r1 => some r1
      | _, _ => none
    match selected with
    | none => none
    | some sel =>
      match BigRat.SetString sel with
      | none => none
      | some rat =>
        let yearSeconds := BigRat.NewRat 31536000 1
        let window := BigRat.NewRat (toInt64 windowSeconds) 1
        let apr := (rat.Mul yearSeconds).Quo window
        some (apr.FloatString ratioScale)

/-! ## External collaborators -/

/-- What `StateStore.Load` returns: `(last, ok, err)`, with `failed` for `err != nil`. -/
structure LoadResult where
  last : Nat
  ok : Bool
  failed : Bool
deriving DecidableEq, Repr

/-- The state store as the aggregator sees it: the answer of `Load` and, for
each value, whether `Save` returns an error. -/
structure StateStore where
  load : LoadResult
  saveFails : Nat → Bool

/-- Aggregation settings; `StateStore = none` is the nil interface. -/
structure Config where
  WindowSeconds : Nat
  BatchSize : Int
  RecomputeFrom : Nat
  StateStore : Option StateStore

/-- Answers of the collaborators the aggregator calls, all deterministic:
the address helpers of go-ethereum, the chain RPC, the metric store, and the
order in which a `range` over the accumulator map visits its entries. -/
structure Env where
  isHexAddress : String → Bool
  hexToAddress : String → String
  fetchTokenDecimals : String → Option Nat
  balanceOf : String → String → Option Nat → Option Int
  upsertPoolsFails : List Pool → Bool
  upsertMetricsFails : List PoolWindowMetrics → Bool
  rangeOrder : List (String × Accumulator) → List (String × Accumulator)

/-- Calls made to the metric store and to the state store. -/
inductive StoreCall where
  | UpsertPools (pools : List Pool)
  | UpsertWindowMetrics (batch : List PoolWindowMetrics)
  | Save (ts : Nat)
deriving DecidableEq, Repr

/-! ## Go maps with string keys -/

/-- Assignment `m[k] = v`. -/
def mapSet {α : Type} (m : List (String × α)) (k : String) (v : α) : List (String × α) :=
  match m with
  | [] => [(k, v)]
  | e :: rest => if e.1 = k then (k, v) :: rest else e :: mapSet rest k v

/-- Lookup `m[k]`. -/
def mapGet {α : Type} (m : List (String × α)) (k : String) : Option α :=
  match m with
  | [] => none
  | e :: rest => if e.1 = k then some e.2 else mapGet rest k

/-! ## Aggregator (`aggregator.go`, `tvl.go`, `token_cache.go`) -/

def feeMethodApprox : String := "approx_from_feeTier"
def tvlMethodBlock : String := "balance_of_block"
def tvlMethodLatest : String := "balance_of_latest"
def tvlMethodNone : String := "unavailable"

/-- Aggregator; `hasStore` and `hasChainClient` say that the two pointers are
not nil, `decimals` is the token-decimals cache. -/
structure Aggregator where
  cfg : Config
  hasStore : Bool
  hasChainClient : Bool
  decimals : List (String × Nat)
  accumulators : List (String × Accumulator)
  poolSeen : List (String × Pool)

def NewAggregator (cfg : Config) (hasStore hasChainClient : Bool) : Aggregator :=
  { cfg := cfg, hasStore := hasStore, hasChainClient := hasChainClient,
    decimals := [], accumulators := [], poolSeen := [] }

def minOpenWindowStart (acc : List (String × Accumulator)) : Nat :=
  acc.foldl (fun min entry => if min = 0 ∨ entry.2.WindowStart < min then entry.2.WindowStart else min) 0

def Aggregator.loadStartTimestamp (a : Aggregator) : Except Err Nat :=
  if a.cfg.RecomputeFrom > 0 then Except.ok (a.cfg.RecomputeFrom - 1)
  else
    match a.cfg.StateStore with
    | none => Except.ok 0
    | some store =>
      if store.load.failed then Except.error Err.loadState
      else if !store.load.ok then Except.ok 0
      else Except.ok store.load.last

/-- The value `saveState` hands to `StateStore.Save`. -/
def Aggregator.saveValue (env : Env) (a : Aggregator) : Nat :=
  if a.accumulators.length = 0 then a.cfg.RecomputeFrom
  else
    let safeTs := minOpenWindowStart (env.rangeOrder a.accumulators)
    let safeTs := if safeTs > 0 then safeTs - 1 else safeTs
    if safeTs = 0 then a.cfg.RecomputeFrom else safeTs

def Aggregator.saveState (env : Env) (a : Aggregator) (calls : List StoreCall) :
    Except Err (List StoreCall) :=
  match a.cfg.StateStore with
  | none => Except.ok calls
  | some store =>
    if store.saveFails (a.saveValue env) then Except.error Err.stateSave
    else Except.ok (calls ++ [StoreCall.Save (a.saveValue env)])

def flushBatches (env : Env) (batch : List PoolWindowMetrics) (pools : List Pool)
    (calls : List StoreCall) : Except Err (List StoreCall) :=
  if pools.length > 0 ∧ env.upsertPoolsFails pools = true then Except.error Err.upsertPools
  else
    let calls1 := if pools.length > 0 then calls ++ [StoreCall.UpsertPools pools] else calls
    if batch.length > 0 ∧ env.upsertMetricsFails batch = true then Except.error Err.upsertMetrics
    else Except.ok (if batch.length > 0 then calls1 ++ [StoreCall.UpsertWindowMetrics batch] else calls1)

def Aggregator.registerPool (a : Aggregator) (acc : Accumulator) : Aggregator × Option Pool :=
  let key := poolKey acc.PoolAddress
  let pool : Pool :=
    { ChainID := acc.ChainID
      Address := acc.PoolAddress
      Token0 := acc.PoolMeta.Token0
      Token1 := acc.PoolMeta.Token1
      Fee := acc.PoolMeta.Fee
      TickSpacing := acc.PoolMeta.TickSpacing
      FirstSeenBlock := acc.FirstBlock }
  match mapGet a.poolSeen key with
  | some existing =>
    if existing.FirstSeenBlock ≤ pool.FirstSeenBlock then (a, none)
    else ({ a with poolSeen := mapSet a.poolSeen key pool }, some pool)
  | none => ({ a with poolSeen := mapSet a.poolSeen key pool }, some pool)

def Aggregator.getTokenDecimals (env : Env) (a : Aggregator) (token : String) :
    Aggregator × Nat × Option Err :=
  if env.isHexAddress token = false then (a, 0, some Err.invalidAddress)
  else
    let addr := env.hexToAddress token
    match mapGet a.decimals addr with
    | some d => (a, d, none)
    | none =>
      match env.fetchTokenDecimals addr with
      | none => (a, 0, some Err.tokenDecimals)
      | some d => ({ a with decimals := mapSet a.decimals addr d }, d, none)

/-- `fetchTVL`: the two balances, the method and the error. -/
def fetchTVL (env : Env) (token0 token1 poolAddr : String) (blockNumber : Nat) :
    Option Int × Option Int × String × Option Err :=
  if env.isHexAddress token0 = false ∨ env.isHexAddress token1 = false ∨
      env.isHexAddress poolAddr = false then
    (none, none, tvlMethodNone, some Err.invalidAddress)
  else
    let pool := env.hexToAddress poolAddr
    match env.balanceOf (env.hexToAddress token0) pool (some blockNumber),
        env.balanceOf (env.hexToAddress token1) pool (some blockNumber) with
    | some bal0, some bal1 => (some bal0, some bal1, tvlMethodBlock, none)
    | _, _ =>
      match env.balanceOf (env.hexToAddress token0) pool none,
          env.balanceOf (env.hexToAddress token1) pool none with
      | some bal0, some bal1 => (some bal0, some bal1, tvlMethodLatest, none)
      | _, _ => (none, none, tvlMethodNone, some Err.balanceOfFailed)

/-- The part of `flushAccumulator` that follows the two decimals lookups: the
formatted amounts, the TVL, the fee rates, the APR and the row itself. -/
def buildMetrics (env : Env) (windowSeconds : Nat) (acc : Accumulator)
    (decimals0 decimals1 : Nat) : PoolWindowMetrics :=
  let volume0 := formatTokenAmount (some acc.Volume0) decimals0
  let volume1 := formatTokenAmount (some acc.Volume1) decimals1
  let fee0 := formatTokenAmount (some acc.Fee0) decimals0
  let fee1 := formatTokenAmount (some acc.Fee1) decimals1
  let tvl : Option Int × Option Int × String :=
    if acc.LastBlock > 0 then
      let r := fetchTVL env acc.PoolMeta.Token0 acc.PoolMeta.Token1 acc.PoolAddress acc.LastBlock
      match r.2.2.2 with
      | some _ => (none, none, tvlMethodNone)
      | none => (r.1, r.2.1, r.2.2.1)
    else (none, none, tvlMethodNone)
  let tvl0Str := tvl.1.map (fun b => formatTokenAmount (some b) decimals0)
  let tvl1Str := tvl.2.1.map (fun b => formatTokenAmount (some b) decimals1)
  let rates := computeFeeRates (some acc.Fee0) (some acc.Fee1) tvl.1 tvl.2.1
  let apr := computeAPR rates.1 rates.2 windowSeconds
  { ChainID := acc.ChainID
    PoolAddress := acc.PoolAddress
    WindowSizeSecs := toInt64 windowSeconds
    WindowStart := toInt64 acc.WindowStart
    WindowEnd := toInt64 acc.WindowEnd
    SwapCount := acc.SwapCount
    Volume0 := volume0
    Volume1 := volume1
    Fee0 := fee0
    Fee1 := fee1
    FeeUSD := none
    FeeRate0 := rates.1
    FeeRate1 := rates.2
    TVL0 := tvl0Str
    TVL1 := tvl1Str
    TVLUSD := none
    APR := apr
    FeeMethod := feeMethodApprox
    TVLMethod := tvl.2.2 }

/-- `flushAccumulator` for a non-nil accumulator; its error result is always nil. -/
def Aggregator.flushAccumulator (env : Env) (a : Aggregator) (acc : Accumulator) :
    Aggregator × Option PoolWindowMetrics × Option Pool :=
  if acc.PoolMeta.Token0 = "" ∨ acc.PoolMeta.Token1 = "" then (a, none, none)
  else
    let reg := a.registerPool acc
    let d0 := reg.1.getTokenDecimals env acc.PoolMeta.Token0
    let d1 := d0.1.getTokenDecimals env acc.PoolMeta.Token1
    (d1.1, some (buildMetrics env a.cfg.WindowSeconds acc d0.2.1 d1.2.1), reg.2)

/-- One line of the input file after `bytes.TrimSpace` and `json.Unmarshal`. -/
inductive Line where
  | blank
  | malformed
  | record (r : TypedEventRecord)
deriving DecidableEq, Repr

/-- The aggregator together with the locals of `Run` and the store calls made so far. -/
structure RunState where
  a : Aggregator
  batch : List PoolWindowMetrics
  pools : List Pool
  maxTs : Nat
  total : Nat
  decoded : Nat
  skipped : Nat
  failed : Nat
  calls : List StoreCall

/-- Flush one accumulator and append what it yields to the pending batch and pools. -/
def RunState.flush (env : Env) (st : RunState) (acc : Accumulator) : RunState :=
  let r := st.a.flushAccumulator env acc
  { st with
    a := r.1
    batch := st.batch ++ r.2.1.toList
    decoded := if r.2.1.isSome then st.decoded + 1 else st.decoded
    pools := st.pools ++ r.2.2.toList }

/-- The part of the loop body from the window computation to the `maxTs`
update, for a record that passed the cut-off: open or roll the accumulator of
the pool, add the record to it, and raise `maxTs` when the add succeeded.  The
second component is the error of `AddEvent`. -/
def RunState.aggregate (env : Env) (st : RunState) (record : TypedEventRecord) :
    RunState × Option Err :=
  let ws := windowStart record.Timestamp st.a.cfg.WindowSeconds
  let we := windowEnd record.Timestamp st.a.cfg.WindowSeconds
  let accKey := poolKey record.Address
  let opened : RunState × Accumulator :=
    match mapGet st.a.accumulators accKey with
    | none => (st, NewAccumulator record ws we)
    | some acc =>
      if acc.WindowStart ≠ ws then (st.flush env acc, NewAccumulator record ws we)
      else (st, acc)
  let added := opened.2.AddEvent record
  let st1 : RunState :=
    { opened.1 with
      a := { opened.1.a with accumulators := mapSet opened.1.a.accumulators accKey added.1 } }
  match added.2 with
  | some e => (st1, some e)
  | none =>
    ({ st1 with maxTs := if record.Timestamp > st1.maxTs then record.Timestamp else st1.maxTs },
      none)

/-- The end of the loop body: once the pending batch has reached `BatchSize`,
persist it and save the state. -/
def RunState.persistIfFull (env : Env) (st : RunState) : Except Err RunState :=
  if (st.batch.length : Int) ≥ st.a.cfg.BatchSize then
    match flushBatches env st.batch st.pools st.calls with
    | Except.error e => Except.error e
    | Except.ok calls1 =>
      match st.a.saveState env calls1 with
      | Except.error e => Except.error e
      | Except.ok calls2 => Except.ok { st with batch := [], pools := [], calls := calls2 }
  else Except.ok st

/-- Body of the scanning loop of `Run` for one line. -/
def processLine (env : Env) (startTs : Nat) (st : RunState) (line : Line) : Except Err RunState :=
  match line with
  | Line.blank => Except.ok st
  | Line.malformed => Except.ok { st with total := st.total + 1, failed := st.failed + 1 }
  | Line.record record =>
    let st := { st with total := st.total + 1 }
    if record.Timestamp ≤ startTs then Except.ok { st with skipped := st.skipped + 1 }
    else
      let r := st.aggregate env record
      match r.2 with
      | some _ => Except.ok { r.1 with failed := r.1.failed + 1 }
      | none => r.1.persistIfFull env

/-- The scanning loop of `Run`. -/
def runLoop (env : Env) (startTs : Nat) (st : RunState) (input : List Line) : Except Err RunState :=
  match input with
  | [] => Except.ok st
  | line :: rest =>
    match processLine env startTs st line with
    | Except.error e => Except.error e
    | Except.ok st1 => runLoop env startTs st1 rest

/-- What follows the loop: flush every accumulator in `range` order, empty the
map, persist the trailing batch, and save `maxTs`. -/
def finishRun (env : Env) (st : RunState) : Except Err RunState :=
  let st1 := (env.rangeOrder st.a.accumulators).foldl (fun s e => s.flush env e.2) st
  let st2 : RunState := { st1 with a := { st1.a with accumulators := [] } }
  let flushed : Except Err (List StoreCall) :=
    if st2.batch.length > 0 ∨ st2.pools.length > 0 then flushBatches env st2.batch st2.pools st2.calls
    else Except.ok st2.calls
  match flushed with
  | Except.error e => Except.error e
  | Except.ok calls1 =>
    let a3 : Aggregator := { st2.a with cfg := { st2.a.cfg with RecomputeFrom := st2.maxTs } }
    match a3.saveState env calls1 with
    | Except.error e => Except.error e
    | Except.ok calls2 => Except.ok { st2 with a := a3, calls := calls2 }

/-- `Run` over the lines of the input file (the file opens and scans without error). -/
def Aggregator.Run (env : Env) (a : Aggregator) (input : List Line) : Except Err RunState :=
  if a.hasStore = false then Except.error Err.storeNil
  else if a.hasChainClient = false then Except.error Err.chainClientNil
  else if a.cfg.WindowSeconds = 0 then Except.error Err.windowZero
  else
    let a1 : Aggregator :=
      if a.cfg.BatchSize ≤ 0 then { a with cfg := { a.cfg with BatchSize := 1000 } } else a
    match a1.loadStartTimestamp with
    | Except.error e => Except.error e
    | Except.ok startTs =>
      let st0 : RunState :=
        { a := a1, batch := [], pools := [], maxTs := startTs,
          total := 0, decoded := 0, skipped := 0, failed := 0, calls := [] }
      match runLoop env startTs st0 input with
      | Except.error e => Except.error e
      | Except.ok st => finishRun env st

/-! ## Vocabulary of the properties -/

/-- The record is a swap: its event name is "swap" up to letter case. -/
def isSwap (r : TypedEventRecord) : Prop := toLower r.EventName = "swap"

instance (r : TypedEventRecord) : Decidable (isSwap r) := by
  unfold isSwap; infer_instance

/-- The two amounts of a swap record whose payload is well formed. -/
def swapAmounts (r : TypedEventRecord) : Option (Int × Int) :=
  if isSwap r then
    match r.Decoded with
    | none => none
    | some swap =>
      match parseBigInt swap.Amount0, parseBigInt swap.Amount1 with
      | some a0, some a1 => some (a0, a1)
      | _, _ => none
  else none

/-- The payload is well formed: a swap record carries a payload whose two
amounts parse. -/
def wellFormedPayload (r : TypedEventRecord) : Prop := isSwap r → (swapAmounts r).isSome = true

instance (r : TypedEventRecord) : Decidable (wellFormedPayload r) := by
  unfold wellFormedPayload; infer_instance

/-- Fold of `AddEvent` over a list of records, an error leaving the accumulator
as `AddEvent` left it (the loop of `Run` logs the error and goes on). -/
def addAll (a : Accumulator) (rs : List TypedEventRecord) : Accumulator :=
  rs.foldl (fun acc r => (acc.AddEvent r).1) a

/-- The five swap-weighted totals of an accumulator. -/
def Accumulator.totals (a : Accumulator) : Nat × Int × Int × Int × Int :=
  (a.SwapCount, a.Volume0, a.Volume1, a.Fee0, a.Fee1)

/-- Fee attributed to sides 0 and 1 by one swap of amounts `a0`, `a1` in a pool
of fee tier `f`. -/
def feeShare (f : Nat) (a0 a1 : Int) : Int × Int :=
  if f = 0 then (0, 0)
  else if a0 < 0 ∧ a1 > 0 then (0, feeFromAmount a1 f)
  else if a1 < 0 ∧ a0 > 0 then (feeFromAmount a0 f, 0)
  else (0, 0)

/-- What one record adds to the totals of an accumulator of fee tier `f`. -/
def swapDelta (f : Nat) (r : TypedEventRecord) : Nat × Int × Int × Int × Int :=
  match swapAmounts r with
  | none => (0, 0, 0, 0, 0)
  | some p =>
    (1, (p.1.natAbs : Int), (p.2.natAbs : Int), (feeShare f p.1 p.2).1, (feeShare f p.1 p.2).2)

/-- The accumulator after the `LastTS`, `LastBlock` and `FirstBlock` updates
that open `AddEvent`. -/
def Accumulator.touch (a : Accumulator) (record : TypedEventRecord) : Accumulator :=
  let a1 :=
    if record.Timestamp ≥ a.LastTS then
      { a with LastTS := record.Timestamp, LastBlock := record.BlockNumber }
    else a
  if a1.FirstBlock = 0 ∨ record.BlockNumber < a1.FirstBlock then
    { a1 with FirstBlock := record.BlockNumber }
  else a1

/-- Absolute value of `amount0` of a well-formed swap record, `0` otherwise. -/
def absAmount0 (r : TypedEventRecord) : Int :=
  match swapAmounts r with
  | some p => (p.1.natAbs : Int)
  | none => 0

/-- Absolute value of `amount1` of a well-formed swap record, `0` otherwise. -/
def absAmount1 (r : TypedEventRecord) : Int :=
  match swapAmounts r with
  | some p => (p.2.natAbs : Int)
  | none => 0

/-! ## Sample data -/

def sampleMeta : PoolMeta := { Token0 := "t0", Token1 := "t1", Fee := 500, TickSpacing := 10 }

/-- A swap record of pool `addr` at time `ts`, in block `ts`. -/
def sampleSwap (addr : String) (ts : Nat) (a0 a1 : String) : TypedEventRecord :=
  { ChainID := 56, BlockNumber := ts, Address := addr, EventName := "Swap", Timestamp := ts,
    Decoded := some { Amount0 := a0, Amount1 := a1 }, PoolMeta := sampleMeta }

/-- A mint record of pool `addr` at time `ts`; the aggregator does not read its payload. -/
def sampleMint (addr : String) (ts : Nat) : TypedEventRecord :=
  { ChainID := 56, BlockNumber := ts, Address := addr, EventName := "Mint", Timestamp := ts,
    Decoded := none, PoolMeta := sampleMeta }

/-- Collaborators that always answer: two decimals per token, a balance of
1000 for every token, stores that accept every call, maps ranged in insertion
order. -/
def sampleEnv : Env :=
  { isHexAddress := fun _ => true
    hexToAddress := fun s => toLower s
    fetchTokenDecimals := fun _ => some 2
    balanceOf := fun _ _ _ => some 1000
    upsertPoolsFails := fun _ => false
    upsertMetricsFails := fun _ => false
    rangeOrder := fun l => l }

/-- An empty state store that accepts every save. -/
def sampleStore : StateStore :=
  { load := { last := 0, ok := false, failed := false }, saveFails := fun _ => false }

def sampleConfig (windowSeconds : Nat) (batchSize : Int) (recomputeFrom : Nat) : Config :=
  { WindowSeconds := windowSeconds, BatchSize := batchSize, RecomputeFrom := recomputeFrom,
    StateStore := some sampleStore }

/-! ## Store calls and pure views of the run -/

/-- The values handed to `StateStore.Save`, in order. -/
def savedValues (calls : List StoreCall) : List Nat :=
  calls.filterMap (fun c => match c with
    | StoreCall.Save ts => some ts
    | _ => none)

/-- The metric rows handed to `UpsertWindowMetrics`, in order. -/
def metricRows (calls : List StoreCall) : List PoolWindowMetrics :=
  match calls with
  | [] => []
  | StoreCall.UpsertWindowMetrics batch :: rest => batch ++ metricRows rest
  | _ :: rest => metricRows rest

/-- Every row the run has produced so far: those persisted and those pending. -/
def RunState.emitted (st : RunState) : List PoolWindowMetrics := metricRows st.calls ++ st.batch

/-- The metric store and the state store accept every call. -/
def StoresAccept (env : Env) (cfg : Config) : Prop :=
  (∀ pools, env.upsertPoolsFails pools = false) ∧
  (∀ batch, env.upsertMetricsFails batch = false) ∧
  (∀ store, cfg.StateStore = some store → ∀ ts, store.saveFails ts = false)

/-- Decimals of a token as the chain reports them, 0 when the address is not
valid or the call fails: what `getTokenDecimals` returns on a cache that holds
only earlier answers of the chain. -/
def tokenDecimals (env : Env) (token : String) : Nat :=
  if env.isHexAddress token = false then 0
  else (env.fetchTokenDecimals (env.hexToAddress token)).getD 0

/-- The row `flushAccumulator` produces for an accumulator, if any. -/
def rowOf (env : Env) (windowSeconds : Nat) (acc : Accumulator) : Option PoolWindowMetrics :=
  if acc.PoolMeta.Token0 = "" ∨ acc.PoolMeta.Token1 = "" then none
  else some (buildMetrics env windowSeconds acc (tokenDecimals env acc.PoolMeta.Token0)
    (tokenDecimals env acc.PoolMeta.Token1))

/-- The decimals cache holds only answers of the chain. -/
def CacheOk (env : Env) (a : Aggregator) : Prop :=
  ∀ addr d, mapGet a.decimals addr = some d → env.fetchTokenDecimals addr = some d

/-- `AddEvent` accepts the record (whether it does depends on the record only). -/
def addSucceeds (r : TypedEventRecord) : Bool := ((NewAccumulator r 0 0).AddEvent r).2.isNone

/-- The records of the input, in order. -/
def recordsOf (input : List Line) : List TypedEventRecord :=
  input.filterMap (fun l => match l with
    | Line.record r => some r
    | _ => none)

/-- The largest of `startTs` and the timestamps of the records that pass the
cut-off `startTs` and are added without error. -/
def expectedMaxTs (startTs : Nat) (input : List Line) : Nat :=
  (((recordsOf input).filter (fun r => decide (startTs < r.Timestamp) && addSucceeds r)).map
    (fun r => r.Timestamp)).foldl max startTs

/-- A state store that holds the checkpoint `last` and accepts every save. -/
def sampleStoreAt (last : Nat) : StateStore :=
  { load := { last := last, ok := true, failed := false }, saveFails := fun _ => false }

/-- The accumulator to which the loop adds a record: the open accumulator of
the pool when it is of the record's window, a new one otherwise. -/
def RunState.target (st : RunState) (record : TypedEventRecord) : Accumulator :=
  match mapGet st.a.accumulators (poolKey record.Address) with
  | none =>
    NewAccumulator record (windowStart record.Timestamp st.a.cfg.WindowSeconds)
      (windowEnd record.Timestamp st.a.cfg.WindowSeconds)
  | some acc =>
    if acc.WindowStart ≠ windowStart record.Timestamp st.a.cfg.WindowSeconds then
      NewAccumulator record (windowStart record.Timestamp st.a.cfg.WindowSeconds)
        (windowEnd record.Timestamp st.a.cfg.WindowSeconds)
    else acc

/-- The state after the loop has closed the pool's open accumulator, when that
one is of another window than the record. -/
def RunState.rolled (env : Env) (st : RunState) (record : TypedEventRecord) : RunState :=
  match mapGet st.a.accumulators (poolKey record.Address) with
  | none => st
  | some acc =>
    if acc.WindowStart ≠ windowStart record.Timestamp st.a.cfg.WindowSeconds then st.flush env acc
    else st

/-- An aggregator with two open accumulators, of windows 1700000400 and 1700000100. -/
def sampleOpen : Aggregator :=
  { cfg := sampleConfig 300 1000 0, hasStore := true, hasChainClient := true, decimals := [],
    accumulators :=
      [("0xa", NewAccumulator (sampleSwap "0xA" 1700000410 "1" "-1") 1700000400 1700000700),
        ("0xb", NewAccumulator (sampleSwap "0xB" 1700000110 "1" "-1") 1700000100 1700000400)],
    poolSeen := [] }

/-- Settings of a run resumed from the stored checkpoint `last`. -/
def sampleConfigAt (windowSeconds : Nat) (batchSize : Int) (last : Nat) : Config :=
  { WindowSeconds := windowSeconds, BatchSize := batchSize, RecomputeFrom := 0,
    StateStore := some (sampleStoreAt last) }

/-! ## Group-by reference -/

/-- Key of the group of a record: lower-cased pool address and window start. -/
def groupKey (windowSeconds : Nat) (r : TypedEventRecord) : String × Nat :=
  (poolKey r.Address, windowStart r.Timestamp windowSeconds)

/-- The distinct group keys of a list of records. -/
def groupKeys (windowSeconds : Nat) (rs : List TypedEventRecord) : List (String × Nat) :=
  (rs.map (groupKey windowSeconds)).dedup

/-- The records of one group, in input order. -/
def groupOf (windowSeconds : Nat) (rs : List TypedEventRecord) (key : String × Nat) :
    List TypedEventRecord :=
  rs.filter (fun r => decide (groupKey windowSeconds r = key))

/-- One group folded on its own: an accumulator created from the first record
of the group, to which every record of the group is added in order. -/
def foldGroup (windowSeconds : Nat) (g : List TypedEventRecord) : Option Accumulator :=
  match g with
  | [] => none
  | r :: _ =>
    some (addAll (NewAccumulator r (windowStart r.Timestamp windowSeconds)
      (windowEnd r.Timestamp windowSeconds)) g)

/-- The row of one group, if its accumulator yields one. -/
def groupRow (env : Env) (windowSeconds : Nat) (rs : List TypedEventRecord) (key : String × Nat) :
    Option PoolWindowMetrics :=
  (foldGroup windowSeconds (groupOf windowSeconds rs key)).bind (rowOf env windowSeconds)

/-- Group-by reference: the records grouped by (pool, window start), each group
folded separately and turned into its row. -/
def groupByRows (env : Env) (windowSeconds : Nat) (rs : List TypedEventRecord) :
    List PoolWindowMetrics :=
  (groupKeys windowSeconds rs).filterMap (groupRow env windowSeconds rs)

/-- Window start of the last record of pool `k`. -/
def lastWindow (windowSeconds : Nat) (rs : List TypedEventRecord) (k : String) : Option Nat :=
  ((rs.filter (fun r => decide (poolKey r.Address = k))).getLast?).map
    (fun r => windowStart r.Timestamp windowSeconds)

/-- The folded group of the last window of pool `k`. -/
def openAcc (windowSeconds : Nat) (rs : List TypedEventRecord) (k : String) : Option Accumulator :=
  (lastWindow windowSeconds rs k).bind
    (fun ws => foldGroup windowSeconds (groupOf windowSeconds rs (k, ws)))

/-- Each pool's records arrive with non-decreasing window starts. -/
def PoolMonotone (windowSeconds : Nat) (rs : List TypedEventRecord) : Prop :=
  rs.Pairwise (fun r1 r2 => poolKey r1.Address = poolKey r2.Address →
    windowStart r1.Timestamp windowSeconds ≤ windowStart r2.Timestamp windowSeconds)

/-- The records of the input that pass the cut-off `startTs`. -/
def passing (startTs : Nat) (input : List Line) : List TypedEventRecord :=
  (recordsOf input).filter (fun r => decide (startTs < r.Timestamp))

/-- The row the loop emits when it closes the pool's open accumulator on the
arrival of a record of another window. -/
def RunState.closing (env : Env) (st : RunState) (record : TypedEventRecord) :
    List PoolWindowMetrics :=
  match mapGet st.a.accumulators (poolKey record.Address) with
  | none => []
  | some acc =>
    if acc.WindowStart ≠ windowStart record.Timestamp st.a.cfg.WindowSeconds then
      (rowOf env st.a.cfg.WindowSeconds acc).toList
    else []

/-- The group keys whose window is not the last one of their pool. -/
def closedKeys (windowSeconds : Nat) (rs : List TypedEventRecord) : List (String × Nat) :=
  (groupKeys windowSeconds rs).filter
    (fun key => decide (lastWindow windowSeconds rs key.1 ≠ some key.2))

/-- The state follows the records `rs`: every pool's open accumulator is the
folded group of the pool's last window, and the rows emitted so far are those
of the groups already closed. -/
def Tracks (env : Env) (windowSeconds : Nat) (rs : List TypedEventRecord) (st : RunState) : Prop :=
  (∀ k, mapGet st.a.accumulators k = openAcc windowSeconds rs k) ∧
  (st.a.accumulators.map Prod.fst).Nodup ∧
  st.emitted.Perm ((closedKeys windowSeconds rs).filterMap (groupRow env windowSeconds rs))

/-- The record of a line, when the line holds one that passes the cut-off. -/
def passingLine (startTs : Nat) (line : Line) : List TypedEventRecord :=
  match line with
  | Line.record r => if startTs < r.Timestamp then [r] else []
  | _ => []

/-- Three swaps of two pools over two windows of 300 seconds. -/
def sampleInput : List Line :=
  [Line.record (sampleSwap "0xA" 1700000050 "-1000000000000000000" "2000000"),
    Line.blank,
    Line.record (sampleSwap "0xB" 1700000060 "5" "-7"),
    Line.record (sampleSwap "0xa" 1700000350 "5" "-7")]

/-! ## Resumability -/

/-- The primary key of a metrics row in the store. -/
def rowKey (row : PoolWindowMetrics) : Nat × String × Int × Int :=
  (row.ChainID, row.PoolAddress, row.WindowSizeSecs, row.WindowStart)

/-- Upsert of one row into the metrics table: a row of the same key is
replaced, otherwise the row is added. -/
def upsertRow (table : List PoolWindowMetrics) (row : PoolWindowMetrics) : List PoolWindowMetrics :=
  match table with
  | [] => [row]
  | old :: rest => if rowKey old = rowKey row then row :: rest else old :: upsertRow rest row

/-- Upsert of a sequence of rows, in order. -/
def upsertAll (table rows : List PoolWindowMetrics) : List PoolWindowMetrics :=
  rows.foldl upsertRow table

/-- Every save in the trace is a safe watermark: it is one less than a multiple
of the window size, every accumulator still open and every row produced after
it belong to windows that start after it, and so do the records to come (those
with timestamp at least `hi`). -/
def SafeTrace (env : Env) (windowSeconds hi : Nat) (st : RunState) : Prop :=
  ∀ pre s post, st.calls = pre ++ StoreCall.Save s :: post →
    (s + 1) % windowSeconds = 0 ∧ s < windowStart hi windowSeconds ∧
    (∀ e ∈ st.a.accumulators, s < e.2.WindowStart) ∧
    ∀ row ∈ metricRows post ++ st.batch, ∃ acc, rowOf env windowSeconds acc = some row ∧
      s < acc.WindowStart ∧ acc.WindowStart < uint64Size

/-- The open accumulators are aligned windows that start after 0 and not after
the window of `hi`. -/
def AccsOk (windowSeconds hi : Nat) (st : RunState) : Prop :=
  ∀ e ∈ st.a.accumulators, e.2.WindowStart % windowSeconds = 0 ∧ 0 < e.2.WindowStart ∧
    e.2.WindowStart ≤ windowStart hi windowSeconds ∧ e.2.WindowStart < uint64Size

/-- The store calls of a run, none when it failed. -/
def callsOf (r : Except Err RunState) : List StoreCall :=
  match r with
  | Except.ok st => st.calls
  | Except.error _ => []

/-- Records that are not in timestamp order across pools: pool B's only swap
comes last and is the oldest. -/
def unorderedInput : List Line :=
  [Line.record (sampleSwap "0xA" 100 "-1000" "2000000"),
    Line.record (sampleSwap "0xA" 110 "5" "-7"),
    Line.record (sampleSwap "0xB" 5 "1" "-1")]

/-- Records in timestamp order whose first timestamps lie before the first full
window of 10 seconds, so that two accumulators start at 0. -/
def earlyInput : List Line :=
  [Line.record (sampleSwap "0xA" 3 "1" "-1"),
    Line.record (sampleSwap "0xC" 4 "1" "-1"),
    Line.record (sampleSwap "0xB" 12 "1" "-1"),
    Line.record (sampleSwap "0xC" 13 "1" "-1")]

/-- Records in timestamp order, one window, the last with an amount that does
not parse. -/
def failedAddInput : List Line :=
  [Line.record (sampleSwap "0xA" 101 "1" "-1"),
    Line.record (sampleSwap "0xA" 105 "x" "-1")]

/-! ## Fixed-point text (vocabulary of the rate properties) -/

/-- Nearest integer to `a / b`, halves up. -/
def roundDiv (a b : Nat) : Nat := (2 * a + b) / (2 * b)

/-- Decimal text of `n / 10 ^ d` with exactly `d` fractional digits, after a
`-` when `neg`: the integer part, a point, and `n % 10 ^ d` left-padded with
zeros to `d` digits. -/
def fixedText (neg : Bool) (n d : Nat) : String :=
  String.mk ((if neg then ['-'] else []) ++ utoa (n / 10 ^ d) ++
    '.' :: (List.replicate (d - (utoa (n % 10 ^ d)).length) '0' ++ utoa (n % 10 ^ d)))

/-- Both values are present and non-zero. -/
def bothNonZero (fee tvl : Option Int) : Prop :=
  ∃ f t : Int, fee = some f ∧ tvl = some t ∧ f ≠ 0 ∧ t ≠ 0

/-! ## TVL (vocabulary) -/

/-- The two `balanceOf` answers for the tokens of an accumulator's pool at a
block (`none` is the latest block), when both calls succeed. -/
def balancesAt (env : Env) (acc : Accumulator) (block : Option Nat) : Option (Int × Int) :=
  match env.balanceOf (env.hexToAddress acc.PoolMeta.Token0) (env.hexToAddress acc.PoolAddress) block,
      env.balanceOf (env.hexToAddress acc.PoolMeta.Token1) (env.hexToAddress acc.PoolAddress) block with
  | some b0, some b1 => some (b0, b1)
  | _, _ => none

/-- The tokens and the pool of an accumulator are hex addresses. -/
def validAddresses (env : Env) (acc : Accumulator) : Prop :=
  env.isHexAddress acc.PoolMeta.Token0 = true ∧ env.isHexAddress acc.PoolMeta.Token1 = true ∧
    env.isHexAddress acc.PoolAddress = true

/-- An accumulator of pool `0xA` opened by a swap in block 100. -/
def sampleAcc : Accumulator := NewAccumulator (sampleSwap "0xA" 100 "-1000" "2000000") 100 110

/-! ## Pool registration (vocabulary) -/

/-- `registerPool` called for each accumulator of a list in turn. -/
def registerAll (a : Aggregator) (accs : List Accumulator) : Aggregator :=
  accs.foldl (fun s acc => (s.registerPool acc).1) a

/-- A record of pool `0xA` at time 100 in a given block; not a swap. -/
def sampleAt (block : Nat) : TypedEventRecord :=
  { sampleMint "0xA" 100 with BlockNumber := block }

/-! ## Accumulator invariants (vocabulary) -/

/-- The invariants of an accumulator for the window size `W`. -/
def AccInv (W : Nat) (acc : Accumulator) : Prop :=
  acc.WindowStart % W = 0 ∧ acc.WindowEnd = acc.WindowStart + W ∧
  0 ≤ acc.Volume0 ∧ 0 ≤ acc.Volume1 ∧ 0 ≤ acc.Fee0 ∧ 0 ≤ acc.Fee1 ∧
  acc.WindowStart ≤ acc.LastTS ∧ acc.LastTS < acc.WindowEnd

instance (W : Nat) (acc : Accumulator) : Decidable (AccInv W acc) := by
  unfold AccInv
  infer_instance

/-- The state in which `Run` enters its loop: the aggregator with the default
batch size filled in, empty pending lists, `maxTs = startTs`, zero counters. -/
def Aggregator.initState (a : Aggregator) (startTs : Nat) : RunState :=
  { a := if a.cfg.BatchSize ≤ 0 then { a with cfg := { a.cfg with BatchSize := 1000 } } else a
    batch := [], pools := [], maxTs := startTs,
    total := 0, decoded := 0, skipped := 0, failed := 0, calls := [] }

/-- The accumulators held in the map of a state, `[]` for an error. -/
def openAccumulators (r : Except Err RunState) : List Accumulator :=
  match r with
  | Except.ok st => st.a.accumulators.map (fun e => e.2)
  | Except.error _ => []

/-- One swap at the last 64-bit timestamp. -/
def lateInput : List Line := [Line.record (sampleSwap "0xA" (2 ^ 64 - 1) "1" "-1")]

/-- The state of the sample run after its first three lines. -/
def sampleMid : RunState :=
  match runLoop sampleEnv 0 ((NewAggregator (sampleConfig 300 1 0) true true).initState 0)
      (sampleInput.take 3) with
  | Except.ok st => st
  | Except.error _ => (NewAggregator (sampleConfig 300 1 0) true true).initState 0

/-! ## Decoder: go-ethereum primitives (`common`, `hexutil`, `accounts/abi`) -/

instance {ε α : Type} [DecidableEq ε] [DecidableEq α] : DecidableEq (Except ε α) := fun a b =>
  match a, b with
  | Except.ok x, Except.ok y =>
    if h : x = y then isTrue (by rw [h]) else isFalse (fun e => h (Except.ok.inj e))
  | Except.error x, Except.error y =>
    if h : x = y then isTrue (by rw [h]) else isFalse (fun e => h (Except.error.inj e))
  | Except.ok _, Except.error _ => isFalse (fun e => Except.noConfusion e)
  | Except.error _, Except.ok _ => isFalse (fun e => Except.noConfusion e)

/-- Value of a hexadecimal digit, in either case. -/
def hexDigitValue (c : Char) : Option Nat :=
  if '0' ≤ c ∧ c ≤ '9' then some (c.toNat - 48)
  else if 'a' ≤ c ∧ c ≤ 'f' then some (c.toNat - 87)
  else if 'A' ≤ c ∧ c ≤ 'F' then some (c.toNat - 55)
  else none

/-- Go `hex.DecodeString` on the characters of its input: pairs of hex digits
to bytes; an odd length or another character is an error. -/
def hexDecode : List Char → Option (List Nat)
  | [] => some []
  | [_] => none
  | h :: l :: rest =>
    match hexDigitValue h, hexDigitValue l, hexDecode rest with
    | some a, some b, some bs => some ((16 * a + b) :: bs)
    | _, _, _ => none

/-- go-ethereum `hexutil.Decode`: the input starts with `0x` or `0X` and goes
on with an even number of hex digits, possibly none. -/
def hexutilDecode (s : String) : Option (List Nat) :=
  match s.data with
  | '0' :: x :: rest => if x = 'x' ∨ x = 'X' then hexDecode rest else none
  | _ => none

/-- Big-endian value of a byte string. -/
def bytesToNat (bs : List Nat) : Nat := bs.foldl (fun n b => 256 * n + b) 0

/-- go-ethereum `common.BytesToHash`; a `common.Hash`, an array of 32 bytes, is
kept as the 256-bit number it spells, so keeping the last 32 bytes and padding
on the left is a reduction modulo `2 ^ 256`. -/
def bytesToHash (bs : List Nat) : Nat := bytesToNat bs % 2 ^ 256

/-- go-ethereum `common.BytesToAddress` on the 32 bytes of a word: the last 20
bytes; a `common.Address` is kept as the 160-bit number it spells. -/
def wordToAddress (w : Nat) : Nat := w % 2 ^ 160

/-- go-ethereum `abi.ReadInteger` for the integer sizes of the pool events (24,
128, 160 and 256 bits, which unpack to `*big.Int` without a range check): the
word itself when unsigned, its two's-complement reading when signed. -/
def readInteger (signed : Bool) (w : Nat) : Int :=
  if signed = true ∧ 2 ^ 255 ≤ w then (w : Int) - 2 ^ 256 else (w : Int)

/-- go-ethereum `common.IsHexAddress`: 40 hex digits after an optional `0x` or `0X`. -/
def isHexAddress (s : String) : Bool :=
  let body : List Char :=
    match s.data with
    | '0' :: 'x' :: rest => rest
    | '0' :: 'X' :: rest => rest
    | cs => cs
  decide (body.length = 40) && body.all (fun c => (hexDigitValue c).isSome)

/-- go-ethereum `common.HexToAddress` on a string that `IsHexAddress` accepts. -/
def hexToAddress (s : String) : Nat :=
  let body : List Char :=
    match s.data with
    | '0' :: 'x' :: rest => rest
    | '0' :: 'X' :: rest => rest
    | cs => cs
  match hexDecode body with
  | some bs => bytesToNat bs % 2 ^ 160
  | none => 0

/-- What go-ethereum derives with Keccak-256: the selector of each event as
`ID.Hex()` prints it, and the mixed-case text `Address.Hex()` of an address. -/
structure EthLib where
  eventID : String → String
  addressHex : Nat → String

/-- Types of the event inputs of the pool ABI. -/
inductive AbiType where
  | address
  | int (bits : Nat)
  | uint (bits : Nat)
deriving DecidableEq, Repr

/-- One input of an event (`abi.Argument`). -/
structure Argument where
  Name : String
  Ty : AbiType
  Indexed : Bool
deriving DecidableEq, Repr

/-- An event of the ABI (`abi.Event`). -/
structure Event where
  Name : String
  Inputs : List Argument
deriving DecidableEq, Repr

/-- A value the ABI layer hands back as `interface{}`: a `common.Address` or a `*big.Int`. -/
inductive AbiValue where
  | address (a : Nat)
  | bigInt (v : Int)
deriving DecidableEq, Repr

/-- go-ethereum `toGoType` on one 32-byte word. -/
def toGoType (t : AbiType) (w : Nat) : AbiValue :=
  match t with
  | AbiType.address => AbiValue.address (wordToAddress w)
  | AbiType.int _ => AbiValue.bigInt (readInteger true w)
  | AbiType.uint _ => AbiValue.bigInt (readInteger false w)

/-- The loop of go-ethereum `Arguments.UnpackValues` for static types: the
argument at position `i` reads the bytes `32 * i` to `32 * i + 32` of the data,
which must be there; here the data already read is dropped. -/
def unpackFrom (args : List Argument) (data : List Nat) : Option (List AbiValue) :=
  match args with
  | [] => some []
  | arg :: rest =>
    if data.length < 32 then none
    else
      match unpackFrom rest (data.drop 32) with
      | none => none
      | some vs => some (toGoType arg.Ty (bytesToNat (data.take 32)) :: vs)

/-- go-ethereum `Arguments.Unpack` on non-indexed arguments: empty data is an
error when a value is expected; bytes after the last word are not read. -/
def unpackValues (args : List Argument) (data : List Nat) : Option (List AbiValue) :=
  if data.length = 0 then (if args.length ≠ 0 then none else some [])
  else unpackFrom args data

/-- go-ethereum `abi.ParseTopics`: as many topics as fields, all fields
indexed, each topic word read at the type of its field. -/
def parseTopics (fields : List Argument) (topics : List Nat) : Option (List AbiValue) :=
  if fields.length ≠ topics.length then none
  else if fields.any (fun f => !f.Indexed) then none
  else some (List.zipWith (fun f t => toGoType f.Ty t) fields topics)

/-- go-ethereum `Arguments.NonIndexed`. -/
def nonIndexed (args : List Argument) : List Argument := args.filter (fun a => !a.Indexed)

/-! ## Decoder: records (`internal/model`) -/

/-- Errors of the decoder, one for each error the source builds. -/
inductive DecodeErr where
  | missingTopics
  | unsupportedTopic0
  | invalidPoolAddress
  | chainClientNil
  | fetchPoolMeta
  | topicCount
  | invalidTopic
  | topicLength
  | parseTopics
  | invalidData
  | unpack
  | unexpectedValues
  | unsupportedIntType
  | unsupportedAddressType
  | int24Overflow
  | unsupportedEventName
  | unsupportedNameInMap
deriving DecidableEq, Repr

/-- Raw log record, the input of the decoder. -/
structure LogRecord where
  ChainID : Nat
  BlockNumber : Nat
  BlockHash : String
  TxHash : String
  TxIndex : Nat
  LogIndex : Nat
  Address : String
  Topics : List String
  Data : String
  Removed : Bool
  Timestamp : Nat
  IngestedAt : String
deriving DecidableEq, Repr

structure PoolSlot0 where
  SqrtPriceX96 : String
  Tick : Int
deriving DecidableEq, Repr

/-- Pool metadata with all its fields, as the decoder fills it; `Slot0 = none`
is the nil pointer. -/
structure Dex.PoolMeta where
  Token0 : String
  Token1 : String
  Fee : Nat
  TickSpacing : Int
  Liquidity : String
  Slot0 : Option PoolSlot0
deriving DecidableEq, Repr

/-- Decoded Swap payload with all its fields. -/
structure Dex.SwapEventData where
  Sender : String
  Recipient : String
  Amount0 : String
  Amount1 : String
  SqrtPriceX96 : String
  Liquidity : String
  Tick : Int
deriving DecidableEq, Repr

structure MintEventData where
  Sender : String
  Owner : String
  TickLower : Int
  TickUpper : Int
  Amount : String
  Amount0 : String
  Amount1 : String
deriving DecidableEq, Repr

structure BurnEventData where
  Owner : String
  TickLower : Int
  TickUpper : Int
  Amount : String
  Amount0 : String
  Amount1 : String
deriving DecidableEq, Repr

structure CollectEventData where
  Owner : String
  Recipient : String
  TickLower : Int
  TickUpper : Int
  Amount0 : String
  Amount1 : String
deriving DecidableEq, Repr

/-- The `Decoded interface{}` of a typed event: one variant for each payload type. -/
inductive Decoded where
  | swap (d : Dex.SwapEventData)
  | mint (d : MintEventData)
  | burn (d : BurnEventData)
  | collect (d : CollectEventData)
deriving DecidableEq, Repr

structure RawLogRef where
  Topic0 : String
  Data : String
deriving DecidableEq, Repr

/-- Typed event, the output of the decoder. -/
structure TypedEvent where
  ChainID : Nat
  BlockNumber : Nat
  BlockHash : String
  TxHash : String
  LogIndex : Nat
  Address : String
  EventName : String
  Timestamp : Nat
  Decoded : Decoded
  PoolMeta : Dex.PoolMeta
  Raw : Option RawLogRef
deriving DecidableEq, Repr

/-! ## Decoder (`abi.go`, `metadata.go`, `v3_pool_decoder.go`) -/

/-- The four events of `v3PoolABIJSON`, inputs in the order of the JSON text. -/
def swapEvent : Event :=
  { Name := "Swap"
    Inputs :=
      [{ Name := "sender", Ty := AbiType.address, Indexed := true },
        { Name := "recipient", Ty := AbiType.address, Indexed := true },
        { Name := "amount0", Ty := AbiType.int 256, Indexed := false },
        { Name := "amount1", Ty := AbiType.int 256, Indexed := false },
        { Name := "sqrtPriceX96", Ty := AbiType.uint 160, Indexed := false },
        { Name := "liquidity", Ty := AbiType.uint 128, Indexed := false },
        { Name := "tick", Ty := AbiType.int 24, Indexed := false }] }

def mintEvent : Event :=
  { Name := "Mint"
    Inputs :=
      [{ Name := "sender", Ty := AbiType.address, Indexed := false },
        { Name := "owner", Ty := AbiType.address, Indexed := true },
        { Name := "tickLower", Ty := AbiType.int 24, Indexed := true },
        { Name := "tickUpper", Ty := AbiType.int 24, Indexed := true },
        { Name := "amount", Ty := AbiType.uint 128, Indexed := false },
        { Name := "amount0", Ty := AbiType.uint 256, Indexed := false },
        { Name := "amount1", Ty := AbiType.uint 256, Indexed := false }] }

def burnEvent : Event :=
  { Name := "Burn"
    Inputs :=
      [{ Name := "owner", Ty := AbiType.address, Indexed := true },
        { Name := "tickLower", Ty := AbiType.int 24, Indexed := true },
        { Name := "tickUpper", Ty := AbiType.int 24, Indexed := true },
        { Name := "amount", Ty := AbiType.uint 128, Indexed := false },
        { Name := "amount0", Ty := AbiType.uint 256, Indexed := false },
        { Name := "amount1", Ty := AbiType.uint 256, Indexed := false }] }

def collectEvent : Event :=
  { Name := "Collect"
    Inputs :=
      [{ Name := "owner", Ty := AbiType.address, Indexed := true },
        { Name := "recipient", Ty := AbiType.address, Indexed := false },
        { Name := "tickLower", Ty := AbiType.int 24, Indexed := true },
        { Name := "tickUpper", Ty := AbiType.int 24, Indexed := true },
        { Name := "amount0", Ty := AbiType.uint 128, Indexed := false },
        { Name := "amount1", Ty := AbiType.uint 128, Indexed := false }] }

def asAddress (value : AbiValue) : Except DecodeErr Nat :=
  match value with
  | AbiValue.address a => Except.ok a
  | _ => Except.error DecodeErr.unsupportedAddressType

def asBigInt (value : AbiValue) : Except DecodeErr Int :=
  match value with
  | AbiValue.bigInt v => Except.ok v
  | _ => Except.error DecodeErr.unsupportedIntType

/-- Go `(*big.Int).Int64()`: the low 64 bits as a signed value. -/
def bigToInt64 (v : Int) : Int := (v + 2 ^ 63) % 2 ^ 64 - 2 ^ 63

/-- Go conversion `int32(x)` of an `int64`. -/
def toInt32 (v : Int) : Int := (v + 2 ^ 31) % 2 ^ 32 - 2 ^ 31

def int24FromBig (value : Int) : Except DecodeErr Int :=
  if value < -(2 ^ 23) ∨ value > 2 ^ 23 - 1 then Except.error DecodeErr.int24Overflow
  else Except.ok (toInt32 (bigToInt64 value))

def indexedArguments (args : List Argument) : List Argument := args.filter (fun a => a.Indexed)

def parseTopicHashes (topics : List String) : Except DecodeErr (List Nat) :=
  match topics with
  | [] => Except.ok []
  | topic :: rest =>
    match hexutilDecode topic with
    | none => Except.error DecodeErr.invalidTopic
    | some data =>
      if data.length > 32 then Except.error DecodeErr.topicLength
      else
        match parseTopicHashes rest with
        | Except.error e => Except.error e
        | Except.ok out => Except.ok (bytesToHash data :: out)

def parseIndexedTopics (event : Event) (topics : List String) : Except DecodeErr (List Nat) :=
  if topics.length ≠ (indexedArguments event.Inputs).length + 1 then
    Except.error DecodeErr.topicCount
  else parseTopicHashes (topics.drop 1)

def unpackNonIndexed (event : Event) (dataHex : String) : Except DecodeErr (List AbiValue) :=
  match hexutilDecode dataHex with
  | none => Except.error DecodeErr.invalidData
  | some data =>
    match unpackValues (nonIndexed event.Inputs) data with
    | none => Except.error DecodeErr.unpack
    | some values => Except.ok values

/-- `ParseTopics` into the struct of `decodeSwap`: two addresses. -/
def swapIndexed (topics : List Nat) : Except DecodeErr (Nat × Nat) :=
  match parseTopics (indexedArguments swapEvent.Inputs) topics with
  | some [AbiValue.address sender, AbiValue.address recipient] => Except.ok (sender, recipient)
  | _ => Except.error DecodeErr.parseTopics

/-- `ParseTopics` into the struct of `decodeMint`, `decodeBurn` and
`decodeCollect`: an address and two integers. -/
def rangeIndexed (event : Event) (topics : List Nat) : Except DecodeErr (Nat × Int × Int) :=
  match parseTopics (indexedArguments event.Inputs) topics with
  | some [AbiValue.address owner, AbiValue.bigInt tickLower, AbiValue.bigInt tickUpper] =>
    Except.ok (owner, tickLower, tickUpper)
  | _ => Except.error DecodeErr.parseTopics

def decodeSwap (k : EthLib) (log : LogRecord) : Except DecodeErr Dex.SwapEventData := do
  let indexedTopics ← parseIndexedTopics swapEvent log.Topics
  let indexed ← swapIndexed indexedTopics
  let values ← unpackNonIndexed swapEvent log.Data
  match values with
  | [v0, v1, v2, v3, v4] =>
    let amount0 ← asBigInt v0
    let amount1 ← asBigInt v1
    let sqrtPrice ← asBigInt v2
    let liquidity ← asBigInt v3
    let tickInt ← asBigInt v4
    let tick ← int24FromBig tickInt
    pure
      { Sender := k.addressHex indexed.1
        Recipient := k.addressHex indexed.2
        Amount0 := String.mk (bigIntString amount0)
        Amount1 := String.mk (bigIntString amount1)
        SqrtPriceX96 := String.mk (bigIntString sqrtPrice)
        Liquidity := String.mk (bigIntString liquidity)
        Tick := tick }
  | _ => Except.error DecodeErr.unexpectedValues

def decodeMint (k : EthLib) (log : LogRecord) : Except DecodeErr MintEventData := do
  let indexedTopics ← parseIndexedTopics mintEvent log.Topics
  let indexed ← rangeIndexed mintEvent indexedTopics
  let values ← unpackNonIndexed mintEvent log.Data
  match values with
  | [v0, v1, v2, v3] =>
    let sender ← asAddress v0
    let amount ← asBigInt v1
    let amount0 ← asBigInt v2
    let amount1 ← asBigInt v3
    let tickLower ← int24FromBig indexed.2.1
    let tickUpper ← int24FromBig indexed.2.2
    pure
      { Sender := k.addressHex sender
        Owner := k.addressHex indexed.1
        TickLower := tickLower
        TickUpper := tickUpper
        Amount := String.mk (bigIntString amount)
        Amount0 := String.mk (bigIntString amount0)
        Amount1 := String.mk (bigIntString amount1) }
  | _ => Except.error DecodeErr.unexpectedValues

def decodeBurn (k : EthLib) (log : LogRecord) : Except DecodeErr BurnEventData := do
  let indexedTopics ← parseIndexedTopics burnEvent log.Topics
  let indexed ← rangeIndexed burnEvent indexedTopics
  let values ← unpackNonIndexed burnEvent log.Data
  match values with
  | [v0, v1, v2] =>
    let amount ← asBigInt v0
    let amount0 ← asBigInt v1
    let amount1 ← asBigInt v2
    let tickLower ← int24FromBig indexed.2.1
    let tickUpper ← int24FromBig indexed.2.2
    pure
      { Owner := k.addressHex indexed.1
        TickLower := tickLower
        TickUpper := tickUpper
        Amount := String.mk (bigIntString amount)
        Amount0 := String.mk (bigIntString amount0)
        Amount1 := String.mk (bigIntString amount1) }
  | _ => Except.error DecodeErr.unexpectedValues

def decodeCollect (k : EthLib) (log : LogRecord) : Except DecodeErr CollectEventData := do
  let indexedTopics ← parseIndexedTopics collectEvent log.Topics
  let indexed ← rangeIndexed collectEvent indexedTopics
  let values ← unpackNonIndexed collectEvent log.Data
  match values with
  | [v0, v1, v2] =>
    let recipient ← asAddress v0
    let amount0 ← asBigInt v1
    let amount1 ← asBigInt v2
    let tickLower ← int24FromBig indexed.2.1
    let tickUpper ← int24FromBig indexed.2.2
    pure
      { Owner := k.addressHex indexed.1
        Recipient := k.addressHex recipient
        TickLower := tickLower
        TickUpper := tickUpper
        Amount0 := String.mk (bigIntString amount0)
        Amount1 := String.mk (bigIntString amount1) }
  | _ => Except.error DecodeErr.unexpectedValues

/-- The chain as the decoder sees it: what `FetchPoolMeta` returns for a pool
(`none` for an error) and what `FetchPoolOptionalMeta` returns for a pool and a
block. -/
structure ChainClient where
  fetchPoolMeta : Nat → Option Dex.PoolMeta
  fetchPoolOptionalMeta : Nat → Nat → Dex.PoolMeta

/-- Decode context; `Chain = none` and `PoolMetaCache = none` are nil pointers.
The cache is keyed by address. -/
structure DecodeContext where
  Chain : Option ChainClient
  PoolMetaCache : Option (List (Nat × Dex.PoolMeta))
  IncludeLiveMeta : Bool

/-- `PoolMetaCache.Set`. -/
def cacheSet (m : List (Nat × Dex.PoolMeta)) (k : Nat) (v : Dex.PoolMeta) :
    List (Nat × Dex.PoolMeta) :=
  match m with
  | [] => [(k, v)]
  | e :: rest => if e.1 = k then (k, v) :: rest else e :: cacheSet rest k v

/-- `PoolMetaCache.Get`. -/
def cacheGet (m : List (Nat × Dex.PoolMeta)) (k : Nat) : Option Dex.PoolMeta :=
  match m with
  | [] => none
  | e :: rest => if e.1 = k then some e.2 else cacheGet rest k

/-- `getPoolMeta`: the context with its cache as the call leaves it, and the
metadata or the error. -/
def getPoolMeta (ctx : DecodeContext) (pool : Nat) (blockNumber : Nat) :
    DecodeContext × Except DecodeErr Dex.PoolMeta :=
  let cached : Option Dex.PoolMeta :=
    match ctx.PoolMetaCache with
    | some cache => cacheGet cache pool
    | none => none
  match ctx.Chain with
  | none => (ctx, Except.error DecodeErr.chainClientNil)
  | some chain =>
    let fetched : DecodeContext × Except DecodeErr Dex.PoolMeta :=
      match cached with
      | some m => (ctx, Except.ok m)
      | none =>
        match chain.fetchPoolMeta pool with
        | none => (ctx, Except.error DecodeErr.fetchPoolMeta)
        | some m =>
          ({ ctx with PoolMetaCache := ctx.PoolMetaCache.map (fun cache => cacheSet cache pool m) },
            Except.ok m)
    match fetched.2 with
    | Except.error e => (fetched.1, Except.error e)
    | Except.ok m =>
      if ctx.IncludeLiveMeta then
        let optional := chain.fetchPoolOptionalMeta pool blockNumber
        let m1 := if optional.Liquidity ≠ "" then { m with Liquidity := optional.Liquidity } else m
        let m2 := if optional.Slot0.isSome then { m1 with Slot0 := optional.Slot0 } else m1
        (fetched.1, Except.ok m2)
      else (fetched.1, Except.ok m)

def buildTypedEvent (log : LogRecord) (name : String) (decoded : Decoded) (poolMeta : Dex.PoolMeta) :
    TypedEvent :=
  { ChainID := log.ChainID
    BlockNumber := log.BlockNumber
    BlockHash := log.BlockHash
    TxHash := log.TxHash
    LogIndex := log.LogIndex
    Address := log.Address
    EventName := name
    Timestamp := log.Timestamp
    Decoded := decoded
    PoolMeta := poolMeta
    Raw := some { Topic0 := log.Topics.headD "", Data := log.Data } }

/-- Go `unicode.IsSpace`. -/
def isSpace (c : Char) : Bool :=
  decide (c.toNat ∈ [9, 10, 11, 12, 13, 32, 0x85, 0xA0, 0x1680, 0x2028, 0x2029, 0x202F, 0x205F, 0x3000]) ||
    (decide (0x2000 ≤ c.toNat) && decide (c.toNat ≤ 0x200A))

/-- Go `strings.TrimSpace`. -/
def trimSpace (s : String) : String :=
  String.mk ((s.data.dropWhile isSpace).reverse.dropWhile isSpace).reverse

def normalizeEventName (name : String) : String :=
  let n := toLower (trimSpace name)
  if n = "swap" then "Swap"
  else if n = "mint" then "Mint"
  else if n = "burn" then "Burn"
  else if n = "collect" then "Collect"
  else ""

/-- Decoder settings: the operator's map from topic0 to event name, as the list
of its entries in the order in which `range` visits them. -/
structure DecoderConfig where
  Topic0Map : List (String × String)

/-- The decoder; its ABI is the constant table above. -/
structure V3PoolDecoder where
  topicToName : List (String × String)

def NewV3PoolDecoder (k : EthLib) (cfg : DecoderConfig) : Except DecodeErr V3PoolDecoder :=
  let builtin : List (String × String) :=
    mapSet (mapSet (mapSet (mapSet [] (toLower (k.eventID "Swap")) "Swap")
      (toLower (k.eventID "Mint")) "Mint") (toLower (k.eventID "Burn")) "Burn")
      (toLower (k.eventID "Collect")) "Collect"
  let merged : Except DecodeErr (List (String × String)) :=
    cfg.Topic0Map.foldl (fun acc entry =>
      match acc with
      | Except.error e => Except.error e
      | Except.ok m =>
        let name := normalizeEventName entry.2
        if name = "" then Except.error DecodeErr.unsupportedNameInMap
        else if entry.1 = "" then Except.ok m
        else Except.ok (mapSet m (toLower entry.1) name)) (Except.ok builtin)
  match merged with
  | Except.error e => Except.error e
  | Except.ok m => Except.ok { topicToName := m }

def V3PoolDecoder.CanDecode (d : V3PoolDecoder) (topic0 : String) : Bool :=
  if topic0 = "" then false
  else (mapGet d.topicToName (toLower topic0)).isSome

def V3PoolDecoder.Decode (k : EthLib) (d : V3PoolDecoder) (log : LogRecord) (ctx : DecodeContext) :
    DecodeContext × Except DecodeErr TypedEvent :=
  match log.Topics with
  | [] => (ctx, Except.error DecodeErr.missingTopics)
  | topic0 :: _ =>
    match mapGet d.topicToName (toLower topic0) with
    | none => (ctx, Except.error DecodeErr.unsupportedTopic0)
    | some name =>
      if isHexAddress log.Address = false then (ctx, Except.error DecodeErr.invalidPoolAddress)
      else
        let pool := hexToAddress log.Address
        let r := getPoolMeta ctx pool log.BlockNumber
        match r.2 with
        | Except.error e => (r.1, Except.error e)
        | Except.ok poolMeta =>
          let decoded : Except DecodeErr Decoded :=
            if name = "Swap" then (decodeSwap k log).map Decoded.swap
            else if name = "Mint" then (decodeMint k log).map Decoded.mint
            else if name = "Burn" then (decodeBurn k log).map Decoded.burn
            else if name = "Collect" then (decodeCollect k log).map Decoded.collect
            else Except.error DecodeErr.unsupportedEventName
          match decoded with
          | Except.error e => (r.1, Except.error e)
          | Except.ok payload => (r.1, Except.ok (buildTypedEvent log name payload poolMeta))

/-! ## ABI encoding of a log (the encoding that the decoder undoes) -/

/-- The low `n` bytes of `w`, most significant first. -/
def toBytes : Nat → Nat → List Nat
  | 0, _ => []
  | n + 1, w => toBytes n (w / 256) ++ [w % 256]

/-- The two lower-case hex digits of each byte. -/
def hexChars : List Nat → List Char
  | [] => []
  | b :: bs => Nat.digitChar (b / 16) :: Nat.digitChar (b % 16) :: hexChars bs

/-- go-ethereum `hexutil.Encode`: `0x` and the hex digits of the bytes. -/
def hexEncode (bs : List Nat) : String := String.mk ('0' :: 'x' :: hexChars bs)

/-- The 256-bit two's-complement word of an integer. -/
def encodeWord (v : Int) : Nat := (v % 2 ^ 256).toNat

/-- A 32-byte word as a topic (`common.Hash.Hex`). -/
def topicOf (w : Nat) : String := hexEncode (toBytes 32 w)

/-- The bytes of a sequence of 32-byte words. -/
def wordsBytes : List Nat → List Nat
  | [] => []
  | w :: ws => toBytes 32 w ++ wordsBytes ws

/-- ABI packing of static values, one 32-byte word each, as the hex text of a log's data. -/
def packWords (ws : List Nat) : String := hexEncode (wordsBytes ws)

/-- The Swap log that encodes the given values: the selector and the two
addresses as topics, the five other values packed in the data; the other
fields come from `base`. -/
def swapLog (k : EthLib) (base : LogRecord) (sender recipient : Nat) (amount0 amount1 : Int)
    (sqrtPriceX96 liquidity : Nat) (tick : Int) : LogRecord :=
  { base with
    Topics := [k.eventID "Swap", topicOf sender, topicOf recipient]
    Data := packWords [encodeWord amount0, encodeWord amount1, sqrtPriceX96, liquidity,
      encodeWord tick] }

def mintLog (k : EthLib) (base : LogRecord) (sender owner : Nat) (tickLower tickUpper : Int)
    (amount amount0 amount1 : Nat) : LogRecord :=
  { base with
    Topics := [k.eventID "Mint", topicOf owner, topicOf (encodeWord tickLower),
      topicOf (encodeWord tickUpper)]
    Data := packWords [sender, amount, amount0, amount1] }

def burnLog (k : EthLib) (base : LogRecord) (owner : Nat) (tickLower tickUpper : Int)
    (amount amount0 amount1 : Nat) : LogRecord :=
  { base with
    Topics := [k.eventID "Burn", topicOf owner, topicOf (encodeWord tickLower),
      topicOf (encodeWord tickUpper)]
    Data := packWords [amount, amount0, amount1] }

def collectLog (k : EthLib) (base : LogRecord) (owner recipient : Nat) (tickLower tickUpper : Int)
    (amount0 amount1 : Nat) : LogRecord :=
  { base with
    Topics := [k.eventID "Collect", topicOf owner, topicOf (encodeWord tickLower),
      topicOf (encodeWord tickUpper)]
    Data := packWords [recipient, amount0, amount1] }

/-- The four event selectors are different, also after lower-casing. -/
def distinctSelectors (k : EthLib) : Prop :=
  [toLower (k.eventID "Swap"), toLower (k.eventID "Mint"), toLower (k.eventID "Burn"),
    toLower (k.eventID "Collect")].Nodup

/-- Sample selectors and a lower-case address text. -/
def sampleLib : EthLib :=
  { eventID := fun name =>
      if name = "Swap" then "0xc42079f94a6350d7e6235f29174924f928cc2ac818eb64fed8004e115fbcca67"
      else if name = "Mint" then "0x7a53080ba414158be7ec69b987b5fb7d07dee101fe85488f0853ae16239d0bde"
      else if name = "Burn" then "0x0c396cd989a39f4459b5fa1aed6a9a8dcdbc45908acfd67e028cd568da98982c"
      else "0x70935338e69775456a85ddef226c395fb668b63fa0115f5f20610b388e6ca9c0"
    addressHex := fun a => hexEncode (toBytes 20 a) }

/-- The metadata that the decoder tests put in the cache. -/
def sampleDexMeta : Dex.PoolMeta :=
  { Token0 := "0xaaaaaaaaaaaaaaaaaaaaaaaaaaaaaaaaaaaaaaaa"
    Token1 := "0xbbbbbbbbbbbbbbbbbbbbbbbbbbbbbbbbbbbbbbbb"
    Fee := 2500, TickSpacing := 60, Liquidity := "", Slot0 := none }

/-- The fields that `buildLogRecord` of the decoder tests gives every log. -/
def sampleLog : LogRecord :=
  { ChainID := 56, BlockNumber := 12345, BlockHash := "0xabc", TxHash := "0xdef", TxIndex := 0,
    LogIndex := 1, Address := "0x1111111111111111111111111111111111111111", Topics := [],
    Data := "", Removed := false, Timestamp := 1700000000, IngestedAt := "" }

/-- A chain on which every metadata fetch fails. -/
def deadChain : ChainClient :=
  { fetchPoolMeta := fun _ => none
    fetchPoolOptionalMeta := fun _ _ =>
      { Token0 := "", Token1 := "", Fee := 0, TickSpacing := 0, Liquidity := "", Slot0 := none } }

/-- The context of the decoder tests: the pool in the cache, no chain client,
no live metadata. -/
def testContext : DecodeContext :=
  { Chain := none
    PoolMetaCache := some [(hexToAddress sampleLog.Address, sampleDexMeta)]
    IncludeLiveMeta := false }

/-- The context of the decoder tests with a chain client added. -/
def chainContext : DecodeContext := { testContext with Chain := some deadChain }

/-- The decoder built from an empty configuration, as in the tests. -/
def sampleDecoder : V3PoolDecoder :=
  match NewV3PoolDecoder sampleLib { Topic0Map := [] } with
  | Except.ok d => d
  | Except.error _ => { topicToName := [] }

/-- The Swap log of `TestV3PoolDecoderSwap`. -/
def testSwapLog : LogRecord :=
  swapLog sampleLib sampleLog 0x2222222222222222222222222222222222222222
    0x3333333333333333333333333333333333333333 (-1000) 2000 123456789 987654321 (-15)

/-- The Mint log of `TestV3PoolDecoderMintBurnCollect`. -/
def testMintLog : LogRecord :=
  mintLog sampleLib sampleLog 0xaaaaaaaaaaaaaaaaaaaaaaaaaaaaaaaaaaaaaaaa
    0xbbbbbbbbbbbbbbbbbbbbbbbbbbbbbbbbbbbbbbbb (-120) 120 5000 100 200

instance (k : EthLib) : Decidable (distinctSelectors k) := by
  unfold distinctSelectors
  infer_instance

/-- Two open accumulators, the first with `WindowStart = 0`, the second with `WindowStart = 5`. -/
def zeroFirst : List (String × Accumulator) :=
  [("0xa", { sampleAcc with WindowStart := 0 }), ("0xb", { sampleAcc with WindowStart := 5 })]

/-- Two open accumulators with `WindowStart` 5 and 3. -/
def positiveOpen : List (String × Accumulator) :=
  [("0xb", { sampleAcc with WindowStart := 5 }), ("0xc", { sampleAcc with WindowStart := 3 })]

/-- A Swap log with the selector as its only topic. -/
def shortSwapLog : LogRecord := { testSwapLog with Topics := [sampleLib.eventID "Swap"] }

/-- The four event names of the pool ABI. -/
def eventNames : List String := ["Swap", "Mint", "Burn", "Collect"]

/-- An operator map with a key in upper case and a name to be normalised. -/
def sampleTopic0Map : DecoderConfig := { Topic0Map := [("0xABCD", "  sWaP "), ("", "mint")] }

/-- The four entries with which `NewV3PoolDecoder` starts its map. -/
def builtinTopics (k : EthLib) : List (String × String) :=
  mapSet (mapSet (mapSet (mapSet [] (toLower (k.eventID "Swap")) "Swap")
    (toLower (k.eventID "Mint")) "Mint") (toLower (k.eventID "Burn")) "Burn")
    (toLower (k.eventID "Collect")) "Collect"

/-- One round of the loop of `NewV3PoolDecoder` over the operator's entries:
`acc` is the map so far, or the error with which the constructor has returned. -/
def mergeTopic0 (acc : Except DecodeErr (List (String × String))) (entry : String × String) :
    Except DecodeErr (List (String × String)) :=
  match acc with
  | Except.error e => Except.error e
  | Except.ok m =>
    let name := normalizeEventName entry.2
    if name = "" then Except.error DecodeErr.unsupportedNameInMap
    else if entry.1 = "" then Except.ok m
    else Except.ok (mapSet m (toLower entry.1) name)

/-- The selectors of the four events, lower-cased: the built-in keys. -/
def builtinKeys (k : EthLib) : List String :=
  [toLower (k.eventID "Swap"), toLower (k.eventID "Mint"), toLower (k.eventID "Burn"),
    toLower (k.eventID "Collect")]

/-- A log without topics. -/
def noTopicLog : LogRecord := { testSwapLog with Topics := [] }

/-! ## Block ranges (`internal/indexer/range.go`) -/

/-- An inclusive range of blocks. -/
structure BlockRange where
  From : Nat
  To : Nat
deriving DecidableEq, Repr

/-- The two errors of `SplitRange`. -/
inductive RangeErr where
  | batchSizeZero
  | toBeforeFrom
deriving DecidableEq, Repr

/-- Go `a + b` on `uint64`. -/
def add64 (a b : Nat) : Nat := (a + b) % uint64Size

/-- Go `a - b` on `uint64`. -/
def sub64 (a b : Nat) : Nat := (a + uint64Size - b % uint64Size) % uint64Size

/-- The `for start <= to` loop of `SplitRange`, at most `fuel` rounds of it:
`none` when the rounds run out before the loop is left. -/
def splitLoop (toBlock batchSize : Nat) : Nat → Nat → List BlockRange → Option (List BlockRange)
  | 0, _, _ => none
  | fuel + 1, start, ranges =>
    if start ≤ toBlock then
      let remaining := add64 (sub64 toBlock start) 1
      let stop := if remaining ≤ batchSize then toBlock else sub64 (add64 start batchSize) 1
      let ranges1 := ranges ++ [{ From := start, To := stop }]
      if stop = toBlock then some ranges1
      else splitLoop toBlock batchSize fuel (add64 stop 1) ranges1
    else some ranges

/-- `SplitRange(from, to, batchSize)` with at most `fuel` rounds of its loop. -/
def SplitRange (fromBlock toBlock batchSize fuel : Nat) :
    Option (Except RangeErr (List BlockRange)) :=
  if batchSize = 0 then some (Except.error RangeErr.batchSizeZero)
  else if toBlock < fromBlock then some (Except.error RangeErr.toBeforeFrom)
  else (splitLoop toBlock batchSize fuel fromBlock []).map Except.ok

/-- The blocks of a range, in order. -/
def BlockRange.blocks (b : BlockRange) : List Nat := List.range' b.From (b.To - b.From + 1)

/-! ## JSON form of the records (`internal/model` through `encoding/json`)

The library is embedded at the level of JSON values: `Marshal` builds the value
whose text it writes, `Unmarshal` reads the value that the text denotes. -/

/-- A JSON value as `encoding/json` reads it: a number keeps its literal, a
string is the Go string (a sequence of bytes) that its literal denotes. -/
inductive JsonValue where
  | null
  | bool (b : Bool)
  | number (text : List Char)
  | string (bytes : List Nat)
  | array (items : List JsonValue)
  | object (members : List (String × JsonValue))

/-- Go `utf8.first` with `utf8.acceptRanges`: for a leading byte above ASCII,
the width of its encoding and the bounds of the second byte; `none` for a byte
that starts no encoding. -/
def acceptRange (b0 : Nat) : Option (Nat × Nat × Nat) :=
  if 0xC2 ≤ b0 ∧ b0 ≤ 0xDF then some (2, 0x80, 0xBF)
  else if b0 = 0xE0 then some (3, 0xA0, 0xBF)
  else if (0xE1 ≤ b0 ∧ b0 ≤ 0xEC) ∨ b0 = 0xEE ∨ b0 = 0xEF then some (3, 0x80, 0xBF)
  else if b0 = 0xED then some (3, 0x80, 0x9F)
  else if b0 = 0xF0 then some (4, 0x90, 0xBF)
  else if 0xF1 ≤ b0 ∧ b0 ≤ 0xF3 then some (4, 0x80, 0xBF)
  else if b0 = 0xF4 then some (4, 0x80, 0x8F)
  else none

/-- A continuation byte, `0x80..0xBF`. -/
def isCont (b : Nat) : Bool := decide (0x80 ≤ b) && decide (b ≤ 0xBF)

/-- Go `utf8.DecodeRuneInString`, its second result: the width of the encoding
at the head of `s`, with 0 for the case in which Go answers `(RuneError, 1)`. -/
def runeWidth (s : List Nat) : Nat :=
  match s with
  | [] => 0
  | b0 :: rest =>
    if b0 < 0x80 then 1
    else
      match acceptRange b0, rest with
      | some (2, lo, hi), b1 :: _ => if decide (lo ≤ b1) && decide (b1 ≤ hi) then 2 else 0
      | some (3, lo, hi), b1 :: b2 :: _ =>
        if decide (lo ≤ b1) && decide (b1 ≤ hi) && isCont b2 then 3 else 0
      | some (4, lo, hi), b1 :: b2 :: b3 :: _ =>
        if decide (lo ≤ b1) && decide (b1 ≤ hi) && isCont b2 && isCont b3 then 4 else 0
      | _, _ => 0

/-- The string that comes back from the JSON literal which `encoding/json`
writes for `s`: the encoder copies every well-formed encoding (escaped or not)
and writes U+FFFD for every other byte.  `skip` counts the bytes of the
current encoding that are still to be copied. -/
def coerceFrom : Nat → List Nat → List Nat
  | _, [] => []
  | skip + 1, b :: rest => b :: coerceFrom skip rest
  | 0, b :: rest =>
    match runeWidth (b :: rest) with
    | 0 => 0xEF :: 0xBF :: 0xBD :: coerceFrom 0 rest
    | w + 1 => b :: coerceFrom w rest

def coerceUTF8 (s : List Nat) : List Nat := coerceFrom 0 s

/-- Go `utf8.ValidString`, with the same counter as `coerceFrom`. -/
def validFrom : Nat → List Nat → Bool
  | _, [] => true
  | skip + 1, _ :: rest => validFrom skip rest
  | 0, b :: rest =>
    match runeWidth (b :: rest) with
    | 0 => false
    | w + 1 => validFrom w rest

def validString (s : List Nat) : Bool := validFrom 0 s

/-- Go `utf8.AppendRune` for a Unicode scalar value. -/
def encodeRune (r : Nat) : List Nat :=
  if r < 0x80 then [r]
  else if r < 0x800 then [0xC0 + r / 64, 0x80 + r % 64]
  else if r < 0x10000 then [0xE0 + r / 4096, 0x80 + r / 64 % 64, 0x80 + r % 64]
  else [0xF0 + r / 262144, 0x80 + r / 4096 % 64, 0x80 + r / 64 % 64, 0x80 + r % 64]

/-- The bytes of a string of the embedding. -/
def goBytes (s : String) : List Nat := s.data.flatMap (fun c => encodeRune c.toNat)

/-- Member `key` of a JSON object, as `map[string]interface{}` holds it after
`Unmarshal`: the last member with that name. -/
def jsonMember (v : JsonValue) (key : String) : Option JsonValue :=
  match v with
  | JsonValue.object members => (members.reverse.find? (fun m => m.1 = key)).map Prod.snd
  | _ => none

/-- Go `json.Marshal` of a `SwapEventData`, after its struct tags. -/
def marshalSwapEventData (s : Dex.SwapEventData) : JsonValue :=
  JsonValue.object
    [("sender", JsonValue.string (coerceUTF8 (goBytes s.Sender))),
     ("recipient", JsonValue.string (coerceUTF8 (goBytes s.Recipient))),
     ("amount0", JsonValue.string (coerceUTF8 (goBytes s.Amount0))),
     ("amount1", JsonValue.string (coerceUTF8 (goBytes s.Amount1))),
     ("sqrt_price_x96", JsonValue.string (coerceUTF8 (goBytes s.SqrtPriceX96))),
     ("liquidity", JsonValue.string (coerceUTF8 (goBytes s.Liquidity))),
     ("tick", JsonValue.number (bigIntString s.Tick))]

/-- The payload of `TestSwapEventDataJSONStringFields`. -/
def testSwapPayload : Dex.SwapEventData :=
  { Sender := "0x1111111111111111111111111111111111111111"
    Recipient := "0x2222222222222222222222222222222222222222"
    Amount0 := "12345678901234567890"
    Amount1 := "-42"
    SqrtPriceX96 := "79228162514264337593543950336"
    Liquidity := "5000000000000000000"
    Tick := 10 }

/-- `LogRecord` as `encoding/json` sees it: strings are Go strings, sequences of
bytes that need not be UTF-8, and `Topics` is `none` for a nil slice. -/
structure Model.LogRecord where
  ChainID : Nat
  BlockNumber : Nat
  BlockHash : List Nat
  TxHash : List Nat
  TxIndex : Nat
  LogIndex : Nat
  Address : List Nat
  Topics : Option (List (List Nat))
  Data : List Nat
  Removed : Bool
  Timestamp : Nat
  IngestedAt : List Nat
deriving DecidableEq, Repr

/-- The zero value of `LogRecord`. -/
def Model.LogRecord.zero : Model.LogRecord :=
  { ChainID := 0, BlockNumber := 0, BlockHash := [], TxHash := [], TxIndex := 0, LogIndex := 0,
    Address := [], Topics := none, Data := [], Removed := false, Timestamp := 0, IngestedAt := [] }

/-- `LogRecord.MarshalJSON`: `json.Marshal` of the alias type, the fields in
the order of the struct under their tags. -/
def Model.LogRecord.MarshalJSON (lr : Model.LogRecord) : JsonValue :=
  JsonValue.object
    [("chain_id", JsonValue.number (utoa lr.ChainID)),
     ("block_number", JsonValue.number (utoa lr.BlockNumber)),
     ("block_hash", JsonValue.string (coerceUTF8 lr.BlockHash)),
     ("tx_hash", JsonValue.string (coerceUTF8 lr.TxHash)),
     ("tx_index", JsonValue.number (utoa lr.TxIndex)),
     ("log_index", JsonValue.number (utoa lr.LogIndex)),
     ("address", JsonValue.string (coerceUTF8 lr.Address)),
     ("topics",
       match lr.Topics with
       | none => JsonValue.null
       | some ts => JsonValue.array (ts.map (fun t => JsonValue.string (coerceUTF8 t)))),
     ("data", JsonValue.string (coerceUTF8 lr.Data)),
     ("removed", JsonValue.bool lr.Removed),
     ("timestamp", JsonValue.number (utoa lr.Timestamp)),
     ("ingested_at", JsonValue.string (coerceUTF8 lr.IngestedAt))]

/-- Errors of `json.Unmarshal` on a well-formed text. -/
inductive JsonErr where
  | typeMismatch (field : String)
deriving DecidableEq, Repr

/-- Go `strconv.ParseUint(text, 10, 64)` on a JSON number literal. -/
def parseUint64 (text : List Char) : Option Nat :=
  if text ≠ [] ∧ text.all Char.isDigit = true ∧ digitsValue text < uint64Size then
    some (digitsValue text)
  else none

/-- A JSON value stored into a `uint64` field. -/
def storeUint64 (field : String) (v : JsonValue) (old : Nat) : Except JsonErr Nat :=
  match v with
  | JsonValue.null => Except.ok old
  | JsonValue.number text =>
    match parseUint64 text with
    | some n => Except.ok n
    | none => Except.error (JsonErr.typeMismatch field)
  | _ => Except.error (JsonErr.typeMismatch field)

/-- A JSON value stored into a `string` field. -/
def storeString (field : String) (v : JsonValue) (old : List Nat) : Except JsonErr (List Nat) :=
  match v with
  | JsonValue.null => Except.ok old
  | JsonValue.string bytes => Except.ok bytes
  | _ => Except.error (JsonErr.typeMismatch field)

/-- A JSON value stored into a `bool` field. -/
def storeBool (field : String) (v : JsonValue) (old : Bool) : Except JsonErr Bool :=
  match v with
  | JsonValue.null => Except.ok old
  | JsonValue.bool b => Except.ok b
  | _ => Except.error (JsonErr.typeMismatch field)

/-- The items of a JSON array stored into the elements of a fresh `[]string`. -/
def storeItems (field : String) : List JsonValue → Except JsonErr (List (List Nat))
  | [] => Except.ok []
  | v :: rest =>
    match storeString field v [], storeItems field rest with
    | Except.ok s, Except.ok ss => Except.ok (s :: ss)
    | Except.error e, _ => Except.error e
    | _, Except.error e => Except.error e

/-- A JSON value stored into a `[]string` field. -/
def storeStrings (field : String) (v : JsonValue) (old : Option (List (List Nat))) :
    Except JsonErr (Option (List (List Nat))) :=
  match v with
  | JsonValue.null => Except.ok old
  | JsonValue.array items => (storeItems field items).map some
  | _ => Except.error (JsonErr.typeMismatch field)

/-- Go `foldRune` as far as it can meet an ASCII letter: lower-case ASCII
letters go to upper case, U+017F to `S` and U+212A to `K`. -/
def foldRune (c : Char) : Char :=
  if c.toNat = 0x17F then 'S' else if c.toNat = 0x212A then 'K' else c.toUpper

/-- Go `foldName` of `encoding/json`. -/
def foldName (s : String) : String := String.mk (s.data.map foldRune)

/-- The JSON names of the fields of `LogRecord`, in the order of the struct. -/
def logRecordTags : List String :=
  ["chain_id", "block_number", "block_hash", "tx_hash", "tx_index", "log_index", "address",
    "topics", "data", "removed", "timestamp", "ingested_at"]

/-- The field that an object key addresses: the one with that very name, else
the first whose name is equal to it under case folding. -/
def fieldFor (key : String) : Option String :=
  match logRecordTags.find? (fun t => t = key) with
  | some t => some t
  | none => logRecordTags.find? (fun t => foldName t = foldName key)

/-- One object member stored into the record; a member that addresses no field
is skipped. -/
def Model.LogRecord.setField (a : Model.LogRecord) (m : String × JsonValue) :
    Except JsonErr Model.LogRecord :=
  match fieldFor m.1 with
  | none => Except.ok a
  | some f =>
    if f = "chain_id" then (storeUint64 f m.2 a.ChainID).map (fun n => { a with ChainID := n })
    else if f = "block_number" then
      (storeUint64 f m.2 a.BlockNumber).map (fun n => { a with BlockNumber := n })
    else if f = "block_hash" then
      (storeString f m.2 a.BlockHash).map (fun s => { a with BlockHash := s })
    else if f = "tx_hash" then (storeString f m.2 a.TxHash).map (fun s => { a with TxHash := s })
    else if f = "tx_index" then (storeUint64 f m.2 a.TxIndex).map (fun n => { a with TxIndex := n })
    else if f = "log_index" then
      (storeUint64 f m.2 a.LogIndex).map (fun n => { a with LogIndex := n })
    else if f = "address" then (storeString f m.2 a.Address).map (fun s => { a with Address := s })
    else if f = "topics" then (storeStrings f m.2 a.Topics).map (fun t => { a with Topics := t })
    else if f = "data" then (storeString f m.2 a.Data).map (fun s => { a with Data := s })
    else if f = "removed" then (storeBool f m.2 a.Removed).map (fun b => { a with Removed := b })
    else if f = "timestamp" then
      (storeUint64 f m.2 a.Timestamp).map (fun n => { a with Timestamp := n })
    else (storeString f m.2 a.IngestedAt).map (fun s => { a with IngestedAt := s })

/-- The members of an object stored one after the other. -/
def storeMembers (a : Model.LogRecord) : List (String × JsonValue) → Except JsonErr Model.LogRecord
  | [] => Except.ok a
  | m :: rest =>
    match a.setField m with
    | Except.ok a1 => storeMembers a1 rest
    | Except.error e =>
      match storeMembers a rest with
      | Except.ok _ => Except.error e
      | Except.error _ => Except.error e

/-- `(*LogRecord).UnmarshalJSON`: `json.Unmarshal` into a zero value of the
alias type, which is the result unless an error comes back. -/
def Model.LogRecord.UnmarshalJSON (v : JsonValue) : Except JsonErr Model.LogRecord :=
  match v with
  | JsonValue.null => Except.ok Model.LogRecord.zero
  | JsonValue.object members => storeMembers Model.LogRecord.zero members
  | _ => Except.error (JsonErr.typeMismatch "")

/-- The fields of a `LogRecord` that Go types as `uint64` are below `2^64`. -/
def Model.LogRecord.inRange (lr : Model.LogRecord) : Prop :=
  lr.ChainID < uint64Size ∧ lr.BlockNumber < uint64Size ∧ lr.TxIndex < uint64Size ∧
    lr.LogIndex < uint64Size ∧ lr.Timestamp < uint64Size

/-- Every string of the record is well-formed UTF-8 (`utf8.ValidString`). -/
def Model.LogRecord.validStrings (lr : Model.LogRecord) : Prop :=
  validString lr.BlockHash = true ∧ validString lr.TxHash = true ∧
    validString lr.Address = true ∧ validString lr.Data = true ∧
    validString lr.IngestedAt = true ∧
    ∀ ts, lr.Topics = some ts → ∀ t ∈ ts, validString t = true

/-- What `UnmarshalJSON` reads back from `MarshalJSON`: the record with its
strings coerced to UTF-8. -/
def Model.LogRecord.coerced (lr : Model.LogRecord) : Model.LogRecord :=
  { lr with
    BlockHash := coerceUTF8 lr.BlockHash
    TxHash := coerceUTF8 lr.TxHash
    Address := coerceUTF8 lr.Address
    Topics := lr.Topics.map (fun ts => ts.map coerceUTF8)
    Data := coerceUTF8 lr.Data
    IngestedAt := coerceUTF8 lr.IngestedAt }

/-- The record of `TestLogRecordJSONRoundTrip`. -/
def testLogRecord : Model.LogRecord :=
  { ChainID := 56
    BlockNumber := 36000000
    BlockHash := goBytes "0xabc123"
    TxHash := goBytes "0xdef456"
    TxIndex := 7
    LogIndex := 12
    Address := goBytes "0x1111111111111111111111111111111111111111"
    Topics := some [goBytes "0xaaa", goBytes "0xbbb"]
    Data := goBytes "0xdeadbeef"
    Removed := false
    Timestamp := 1700000000
    IngestedAt := goBytes "2024-01-01T00:00:00Z" }

/-- The test record with a block hash that is no UTF-8: the single byte `0xFF`. -/
def brokenHashRecord : Model.LogRecord := { testLogRecord with BlockHash := [0xFF] }

/-- A swap at the stored checkpoint and one ten seconds later. -/
def cutoffInput : List Line :=
  [Line.record (sampleSwap "0xA" 1700000200 "-5" "7"),
    Line.record (sampleSwap "0xA" 1700000210 "-5" "7")]

/-- Two swaps of one pool in one window of 300 seconds, the address written
with a capital and with a small letter outside ASCII. -/
def accentInput : List Line :=
  [Line.record (sampleSwap "0xÉ" 1700000050 "1" "-1"),
    Line.record (sampleSwap "0xé" 1700000060 "1" "-1")]

/-! # Properties -/

/-! ## Window arithmetic -/

theorem windowStart_le (t W : Nat) : windowStart t W ≤ t := Nat.sub_le _ _

theorem windowStart_mod (t W : Nat) : windowStart t W % W = 0 := by
  unfold windowStart
  have h : t - t % W = W * (t / W) := by
    have := Nat.div_add_mod t W
    omega
  rw [h]; exact Nat.mul_mod_right _ _

theorem lt_windowStart_add (t W : Nat) (hW : 0 < W) : t < windowStart t W + W := by
  unfold windowStart
  have := Nat.mod_lt t hW
  have := Nat.mod_le t W
  omega

/-- C5 as stated fails: for the 64-bit timestamp `2 ^ 64 - 1` and a window of 2
seconds the `uint64` sum `windowStart + WindowSeconds` wraps to 0, so the
timestamp is not below `windowEnd`. -/
theorem window_alignment_overflow :
    ¬ (∀ t W : Nat, t < uint64Size → 0 < W → W < uint64Size →
        windowStart t W ≤ t ∧ t < windowEnd t W ∧ windowStart t W % W = 0 ∧
          windowEnd t W = windowStart t W + W) := by
  intro h
  have h1 := (h (2 ^ 64 - 1) 2 (by decide) (by decide) (by decide)).2.1
  revert h1
  decide

/-- C5, amended: for every timestamp `t` and every window size `W > 0`,
`windowStart t ≤ t < windowStart t + W` and `windowStart t` is a multiple of
`W`; and whenever `windowStart t + W` fits in 64 bits, the `windowEnd` computed
in `Run` equals `windowStart t + W` and lies above `t`. -/
theorem window_alignment (t W : Nat) (hW : 0 < W) :
    (windowStart t W ≤ t ∧ t < windowStart t W + W ∧ windowStart t W % W = 0) ∧
    (windowStart t W + W < uint64Size →
      windowEnd t W = windowStart t W + W ∧ t < windowEnd t W) := by
  refine ⟨⟨windowStart_le t W, lt_windowStart_add t W hW, windowStart_mod t W⟩, ?_⟩
  intro hfit
  have he : windowEnd t W = windowStart t W + W := by
    unfold windowEnd; exact Nat.mod_eq_of_lt hfit
  rw [he]; exact ⟨rfl, lt_windowStart_add t W hW⟩

theorem window_alignment_witness :
    0 < 300 ∧
    ((windowStart 1700000050 300 ≤ 1700000050 ∧
        1700000050 < windowStart 1700000050 300 + 300 ∧ windowStart 1700000050 300 % 300 = 0) ∧
      (windowStart 1700000050 300 + 300 < uint64Size →
        windowEnd 1700000050 300 = windowStart 1700000050 300 + 300 ∧
          1700000050 < windowEnd 1700000050 300)) :=
  ⟨by decide, window_alignment 1700000050 300 (by decide)⟩

/-! ## Accumulator -/



theorem applySwap_ok (a : Accumulator) (swap : SwapEventData) (a0 a1 : Int)
    (h0 : parseBigInt swap.Amount0 = some a0) (h1 : parseBigInt swap.Amount1 = some a1) :
    (a.applySwap swap).2 = none ∧
    (a.applySwap swap).1 =
      { a with
        SwapCount := a.SwapCount + 1
        Volume0 := a.Volume0 + (a0.natAbs : Int)
        Volume1 := a.Volume1 + (a1.natAbs : Int)
        Fee0 := a.Fee0 + (feeShare a.PoolMeta.Fee a0 a1).1
        Fee1 := a.Fee1 + (feeShare a.PoolMeta.Fee a0 a1).2 } := by
  unfold Accumulator.applySwap feeShare absAdd
  simp only [h0, h1]
  by_cases hf : a.PoolMeta.Fee = 0
  · simp [hf]
  · by_cases hA : a0 < 0 ∧ a1 > 0
    · simp [hf, hA]
    · by_cases hB : a1 < 0 ∧ a0 > 0
      · simp [hf, hA, hB]
      · simp [hf, hA, hB]

theorem applySwap_err (a : Accumulator) (swap : SwapEventData)
    (h : parseBigInt swap.Amount0 = none ∨ parseBigInt swap.Amount1 = none) :
    (a.applySwap swap).1 = a ∧ (a.applySwap swap).2 ≠ none := by
  unfold Accumulator.applySwap
  cases h0 : parseBigInt swap.Amount0 with
  | none => simp
  | some a0 =>
    cases h1 : parseBigInt swap.Amount1 with
    | none => simp
    | some a1 => rcases h with h | h <;> simp_all

theorem touch_totals (a : Accumulator) (r : TypedEventRecord) :
    (a.touch r).totals = a.totals ∧ (a.touch r).PoolMeta = a.PoolMeta ∧
    (a.touch r).WindowStart = a.WindowStart ∧ (a.touch r).WindowEnd = a.WindowEnd ∧
    (a.touch r).PoolAddress = a.PoolAddress ∧ (a.touch r).ChainID = a.ChainID := by
  unfold Accumulator.touch Accumulator.totals
  by_cases h1 : r.Timestamp ≥ a.LastTS <;> by_cases h2 : a.FirstBlock = 0 ∨ r.BlockNumber < a.FirstBlock <;>
    simp [h1, h2]

theorem addEvent_eq (a : Accumulator) (r : TypedEventRecord) :
    a.AddEvent r =
      if isSwap r then
        match r.Decoded with
        | none => (a.touch r, some Err.decodeSwap)
        | some swap => (a.touch r).applySwap swap
      else (a.touch r, none) := rfl

theorem swapAmounts_some {r : TypedEventRecord} {p : Int × Int} (h : swapAmounts r = some p) :
    isSwap r ∧ ∃ swap, r.Decoded = some swap ∧ parseBigInt swap.Amount0 = some p.1 ∧
      parseBigInt swap.Amount1 = some p.2 := by
  unfold swapAmounts at h
  by_cases hs : isSwap r
  · rw [if_pos hs] at h
    cases hd : r.Decoded with
    | none => simp [hd] at h
    | some swap =>
      simp only [hd] at h
      cases h0 : parseBigInt swap.Amount0 with
      | none => simp [h0] at h
      | some a0 =>
        cases h1 : parseBigInt swap.Amount1 with
        | none => simp [h0, h1] at h
        | some a1 =>
          simp only [h0, h1, Option.some.injEq] at h
          subst h
          exact ⟨hs, swap, rfl, h0, h1⟩
  · rw [if_neg hs] at h; cases h

theorem swapAmounts_none {r : TypedEventRecord} (h : swapAmounts r = none) :
    ¬ isSwap r ∨ r.Decoded = none ∨
      ∃ swap, r.Decoded = some swap ∧
        (parseBigInt swap.Amount0 = none ∨ parseBigInt swap.Amount1 = none) := by
  unfold swapAmounts at h
  by_cases hs : isSwap r
  · rw [if_pos hs] at h
    right
    cases hd : r.Decoded with
    | none => left; rfl
    | some swap =>
      right
      refine ⟨swap, rfl, ?_⟩
      simp only [hd] at h
      cases h0 : parseBigInt swap.Amount0 with
      | none => left; rfl
      | some a0 =>
        cases h1 : parseBigInt swap.Amount1 with
        | none => right; rfl
        | some a1 => simp [h0, h1] at h
  · left; exact hs

/-- Effect of `AddEvent` on an accumulator, by the shape of the record. -/
theorem addEvent_some (a : Accumulator) (r : TypedEventRecord) (p : Int × Int)
    (h : swapAmounts r = some p) :
    (a.AddEvent r).2 = none ∧
    (a.AddEvent r).1 =
      { a.touch r with
        SwapCount := a.SwapCount + 1
        Volume0 := a.Volume0 + (p.1.natAbs : Int)
        Volume1 := a.Volume1 + (p.2.natAbs : Int)
        Fee0 := a.Fee0 + (feeShare a.PoolMeta.Fee p.1 p.2).1
        Fee1 := a.Fee1 + (feeShare a.PoolMeta.Fee p.1 p.2).2 } := by
  obtain ⟨hs, swap, hd, h0, h1⟩ := swapAmounts_some h
  have ht := touch_totals a r
  simp only [Accumulator.totals, Prod.mk.injEq] at ht
  obtain ⟨⟨e1, e2, e3, e4, e5⟩, e6, -⟩ := ht
  have e7 : (a.touch r).PoolMeta.Fee = a.PoolMeta.Fee := by rw [e6]
  have := applySwap_ok (a.touch r) swap p.1 p.2 h0 h1
  rw [addEvent_eq, if_pos hs, hd]
  simp only
  rw [e1, e2, e3, e4, e5, e7] at this
  exact this

theorem addEvent_none (a : Accumulator) (r : TypedEventRecord) (h : swapAmounts r = none) :
    (a.AddEvent r).1 = a.touch r ∧ ((a.AddEvent r).2 = none ↔ ¬ isSwap r) := by
  rw [addEvent_eq]
  by_cases hs : isSwap r
  · rw [if_pos hs]
    rcases swapAmounts_none h with h' | h' | ⟨swap, hd, h'⟩
    · exact absurd hs h'
    · simp [h', hs]
    · have := applySwap_err (a.touch r) swap h'
      simp only [hd]
      exact ⟨this.1, by simp [hs, this.2]⟩
  · rw [if_neg hs]; simp [hs]

theorem addEvent_totals (a : Accumulator) (r : TypedEventRecord) :
    (a.AddEvent r).1.totals = a.totals + swapDelta a.PoolMeta.Fee r ∧
    (a.AddEvent r).1.PoolMeta = a.PoolMeta := by
  cases h : swapAmounts r with
  | none =>
    rw [(addEvent_none a r h).1]
    have := touch_totals a r
    refine ⟨?_, this.2.1⟩
    rw [this.1]; simp [swapDelta, h, Accumulator.totals]
  | some p =>
    rw [(addEvent_some a r p h).2]
    have := touch_totals a r
    refine ⟨?_, by simpa using this.2.1⟩
    simp [swapDelta, h, Accumulator.totals, Prod.ext_iff]

theorem addAll_totals (rs : List TypedEventRecord) (a : Accumulator) :
    (addAll a rs).totals = a.totals + (rs.map (swapDelta a.PoolMeta.Fee)).sum ∧
    (addAll a rs).PoolMeta = a.PoolMeta := by
  induction rs generalizing a with
  | nil => simp [addAll]
  | cons r rs ih =>
    have h := addEvent_totals a r
    have := ih (a.AddEvent r).1
    simp only [addAll, List.foldl_cons] at this ⊢
    rw [this.1, this.2, h.1, h.2]
    simp [add_assoc]

theorem feeFromAmount_floor (x : Int) (f : Nat) :
    feeFromAmount x f = ((x.natAbs * f / 1000000 : Nat) : Int) := by
  unfold feeFromAmount
  norm_cast

/-- C2: for an accumulator of fee tier `f` and a swap whose amounts parse to
`a0`, `a1`, `AddEvent` succeeds and raises `SwapCount` by one; with `f ≠ 0`,
`a0 < 0 < a1` adds `floor(|a1| * f / 10^6)` to `Fee1` and leaves `Fee0`,
`a1 < 0 < a0` adds `floor(|a0| * f / 10^6)` to `Fee0` and leaves `Fee1`; with
`f = 0` or any other sign combination both fees stay. -/
theorem approximate_fee_rule (a : Accumulator) (r : TypedEventRecord) (swap : SwapEventData)
    (a0 a1 : Int) (hname : isSwap r) (hd : r.Decoded = some swap)
    (h0 : parseBigInt swap.Amount0 = some a0) (h1 : parseBigInt swap.Amount1 = some a1) :
    (a.AddEvent r).2 = none ∧ (a.AddEvent r).1.SwapCount = a.SwapCount + 1 ∧
    (a.PoolMeta.Fee ≠ 0 → a0 < 0 → 0 < a1 →
      (a.AddEvent r).1.Fee1 = a.Fee1 + ((a1.natAbs * a.PoolMeta.Fee / 1000000 : Nat) : Int) ∧
      (a.AddEvent r).1.Fee0 = a.Fee0) ∧
    (a.PoolMeta.Fee ≠ 0 → a1 < 0 → 0 < a0 →
      (a.AddEvent r).1.Fee0 = a.Fee0 + ((a0.natAbs * a.PoolMeta.Fee / 1000000 : Nat) : Int) ∧
      (a.AddEvent r).1.Fee1 = a.Fee1) ∧
    (a.PoolMeta.Fee = 0 ∨ (¬ (a0 < 0 ∧ 0 < a1) ∧ ¬ (a1 < 0 ∧ 0 < a0)) →
      (a.AddEvent r).1.Fee0 = a.Fee0 ∧ (a.AddEvent r).1.Fee1 = a.Fee1) := by
  have hs : swapAmounts r = some (a0, a1) := by
    unfold swapAmounts
    rw [if_pos hname, hd]
    simp [h0, h1]
  obtain ⟨he, hv⟩ := addEvent_some a r (a0, a1) hs
  rw [hv]
  refine ⟨he, rfl, ?_, ?_, ?_⟩
  · intro hf hA hB
    simp [feeShare, hf, hA, hB, feeFromAmount_floor]
  · intro hf hA hB
    have hn : ¬ (a0 < 0 ∧ a1 > 0) := by omega
    simp [feeShare, hf, hA, hB, hn, feeFromAmount_floor]
  · intro h
    rcases h with hf | ⟨hA, hB⟩
    · simp [feeShare, hf]
    · have hA' : ¬ (a0 < 0 ∧ a1 > 0) := hA
      have hB' : ¬ (a1 < 0 ∧ a0 > 0) := hB
      by_cases hf : a.PoolMeta.Fee = 0
      · simp [feeShare, hf]
      · simp only [feeShare, if_neg hf, if_neg hA', if_neg hB']; simp

theorem approximate_fee_rule_witness :
    (isSwap (sampleSwap "0xA" 100 "-1000000000000000000" "2000000") ∧
      parseBigInt "-1000000000000000000" = some (-1000000000000000000) ∧
      parseBigInt "2000000" = some 2000000) ∧
    ((NewAccumulator (sampleSwap "0xA" 100 "" "") 100 110).AddEvent
        (sampleSwap "0xA" 100 "-1000000000000000000" "2000000")).1.Fee1 = 0 + 1000 := by
  refine ⟨⟨by decide, by decide, by decide⟩, ?_⟩
  exact ((approximate_fee_rule (NewAccumulator (sampleSwap "0xA" 100 "" "") 100 110)
    (sampleSwap "0xA" 100 "-1000000000000000000" "2000000")
    { Amount0 := "-1000000000000000000", Amount1 := "2000000" }
    (-1000000000000000000) 2000000 (by decide) rfl (by decide) (by decide)).2.2.1
      (by decide) (by decide) (by decide)).1

/-- C3: for a list of events with well-formed payloads added to a fresh
accumulator, `SwapCount` is the number of events named "swap" up to letter
case, `Volume0` and `Volume1` are the sums of `|amount0|` and `|amount1|` over
those events, an empty amount string parses to 0, and an event of any other
name is added without error and leaves the five totals unchanged. -/
theorem volume_and_swap_count (first : TypedEventRecord) (ws we : Nat)
    (events : List TypedEventRecord) (hwf : ∀ e ∈ events, wellFormedPayload e) :
    (addAll (NewAccumulator first ws we) events).SwapCount =
        (events.filter (fun e => decide (isSwap e))).length ∧
    (addAll (NewAccumulator first ws we) events).Volume0 =
        ((events.filter (fun e => decide (isSwap e))).map absAmount0).sum ∧
    (addAll (NewAccumulator first ws we) events).Volume1 =
        ((events.filter (fun e => decide (isSwap e))).map absAmount1).sum ∧
    parseBigInt "" = some 0 ∧
    ∀ (a : Accumulator) (e : TypedEventRecord), ¬ isSwap e →
      (a.AddEvent e).2 = none ∧ (a.AddEvent e).1.totals = a.totals := by
  have key : ∀ (rs : List TypedEventRecord) (f : Nat), (∀ e ∈ rs, wellFormedPayload e) →
      (rs.map (swapDelta f)).sum.1 = (rs.filter (fun e => decide (isSwap e))).length ∧
      (rs.map (swapDelta f)).sum.2.1 = ((rs.filter (fun e => decide (isSwap e))).map absAmount0).sum ∧
      (rs.map (swapDelta f)).sum.2.2.1 =
        ((rs.filter (fun e => decide (isSwap e))).map absAmount1).sum := by
    intro rs f
    induction rs with
    | nil => intro _; simp
    | cons e rs ih =>
      intro hw
      have ih' := ih (fun x hx => hw x (List.mem_cons_of_mem _ hx))
      have he := hw e (List.mem_cons_self _ _)
      by_cases hs : isSwap e
      · have hsome := he hs
        obtain ⟨p, hp⟩ := Option.isSome_iff_exists.mp hsome
        simp only [List.map_cons, List.sum_cons, Prod.fst_add, Prod.snd_add, ih'.1, ih'.2.1, ih'.2.2,
          List.filter_cons, hs, decide_True, if_true, List.length_cons]
        simp [swapDelta, hp, absAmount0, absAmount1]
        omega
      · have hnone : swapAmounts e = none := by unfold swapAmounts; rw [if_neg hs]
        simp only [List.map_cons, List.sum_cons, Prod.fst_add, Prod.snd_add, ih'.1, ih'.2.1, ih'.2.2,
          List.filter_cons, hs, decide_False]
        simp [swapDelta, hnone]
  have ht := (addAll_totals events (NewAccumulator first ws we)).1
  have hk := key events (NewAccumulator first ws we).PoolMeta.Fee hwf
  simp only [Accumulator.totals, Prod.ext_iff, Prod.fst_add, Prod.snd_add] at ht
  refine ⟨?_, ?_, ?_, by decide, ?_⟩
  · rw [ht.1, hk.1]; simp [NewAccumulator]
  · rw [ht.2.1, hk.2.1]; simp [NewAccumulator]
  · rw [ht.2.2.1, hk.2.2]; simp [NewAccumulator]
  · intro a e hs
    have hnone : swapAmounts e = none := by unfold swapAmounts; rw [if_neg hs]
    have h1 := addEvent_none a e hnone
    refine ⟨h1.2.mpr hs, ?_⟩
    rw [h1.1]; exact (touch_totals a e).1

theorem volume_and_swap_count_witness :
    (∀ e ∈ [sampleSwap "0xA" 100 "-7" "3", sampleMint "0xA" 101, sampleSwap "0xA" 102 "" "-4"],
      wellFormedPayload e) ∧
    (addAll (NewAccumulator (sampleSwap "0xA" 100 "-7" "3") 100 110)
      [sampleSwap "0xA" 100 "-7" "3", sampleMint "0xA" 101, sampleSwap "0xA" 102 "" "-4"]).SwapCount =
      ([sampleSwap "0xA" 100 "-7" "3", sampleMint "0xA" 101, sampleSwap "0xA" 102 "" "-4"].filter
        (fun e => decide (isSwap e))).length :=
  ⟨by decide,
    (volume_and_swap_count (sampleSwap "0xA" 100 "-7" "3") 100 110
      [sampleSwap "0xA" 100 "-7" "3", sampleMint "0xA" 101, sampleSwap "0xA" 102 "" "-4"]
      (by decide)).1⟩

/-- C4: folding `AddEvent` over a list of events and over any permutation of it,
from the same accumulator, gives the same swap count, volumes and fees. -/
theorem accumulator_linearity (a : Accumulator) (l1 l2 : List TypedEventRecord)
    (h : l1.Perm l2) : (addAll a l1).totals = (addAll a l2).totals := by
  rw [(addAll_totals l1 a).1, (addAll_totals l2 a).1]
  rw [(h.map (swapDelta a.PoolMeta.Fee)).sum_eq]

theorem accumulator_linearity_witness :
    [sampleSwap "0xA" 100 "-7" "3", sampleSwap "0xA" 102 "5" "-4"].Perm
      [sampleSwap "0xA" 102 "5" "-4", sampleSwap "0xA" 100 "-7" "3"] ∧
    (addAll (NewAccumulator (sampleSwap "0xA" 100 "-7" "3") 100 110)
      [sampleSwap "0xA" 100 "-7" "3", sampleSwap "0xA" 102 "5" "-4"]).totals =
    (addAll (NewAccumulator (sampleSwap "0xA" 100 "-7" "3") 100 110)
      [sampleSwap "0xA" 102 "5" "-4", sampleSwap "0xA" 100 "-7" "3"]).totals :=
  ⟨List.Perm.swap _ _ _,
    accumulator_linearity _ _ _ (List.Perm.swap _ _ _)⟩

/-! ## Decimal text -/

theorem digitsValue_foldl (cs : List Char) (n : Nat) :
    cs.foldl (fun n c => 10 * n + (c.toNat - 48)) n = n * 10 ^ cs.length + digitsValue cs := by
  induction cs generalizing n with
  | nil => simp [digitsValue]
  | cons c cs ih =>
    simp only [List.foldl_cons, List.length_cons, digitsValue]
    rw [ih, ih (10 * 0 + (c.toNat - 48))]
    ring

theorem digitsValue_append (l m : List Char) :
    digitsValue (l ++ m) = digitsValue l * 10 ^ m.length + digitsValue m := by
  unfold digitsValue
  rw [List.foldl_append, digitsValue_foldl]
  rfl

theorem digitsValue_replicate_zero (k : Nat) : digitsValue (List.replicate k '0') = 0 := by
  induction k with
  | zero => rfl
  | succ k ih =>
    rw [List.replicate_succ, show '0' :: List.replicate k '0' = ['0'] ++ List.replicate k '0' from rfl,
      digitsValue_append, ih]
    simp [digitsValue]

theorem digitChar_spec (k : Nat) (hk : k < 10) :
    (Nat.digitChar k).isDigit = true ∧ (Nat.digitChar k).toNat - 48 = k := by
  interval_cases k <;> decide

theorem toDigitsCore_spec (fuel : Nat) : ∀ (n : Nat) (ds : List Char), n < fuel →
    ∃ l : List Char, Nat.toDigitsCore 10 fuel n ds = l ++ ds ∧ l ≠ [] ∧
      (∀ c ∈ l, c.isDigit = true) ∧ digitsValue l = n ∧
      (∀ e, 0 < e → n < 10 ^ e → l.length ≤ e) := by
  induction fuel with
  | zero => intro n ds h; omega
  | succ fuel ih =>
    intro n ds hn
    have hd := digitChar_spec (n % 10) (Nat.mod_lt _ (by decide))
    unfold Nat.toDigitsCore
    by_cases h0 : n / 10 = 0
    · simp only [h0, if_true]
      refine ⟨[Nat.digitChar (n % 10)], rfl, by simp, ?_, ?_, ?_⟩
      · intro c hc; simp at hc; rw [hc]; exact hd.1
      · have hlt10 : n < 10 := by omega
        have h2 := hd.2
        simp only [digitsValue, List.foldl_cons, List.foldl_nil, Nat.mul_zero, Nat.zero_add]
        rw [h2]; exact Nat.mod_eq_of_lt hlt10
      · intro e he _; simpa using he
    · simp only [h0, if_false]
      have hlt : n / 10 < fuel := by omega
      obtain ⟨l, hl, hne, hdig, hval, hlen⟩ := ih (n / 10) (Nat.digitChar (n % 10) :: ds) hlt
      refine ⟨l ++ [Nat.digitChar (n % 10)], by rw [hl]; simp, by simp, ?_, ?_, ?_⟩
      · intro c hc
        rcases List.mem_append.mp hc with hc | hc
        · exact hdig c hc
        · simp at hc; rw [hc]; exact hd.1
      · rw [digitsValue_append, hval]
        simp [digitsValue, hd.2]
        omega
      · intro e he hne'
        rw [List.length_append, List.length_singleton]
        have he1 : 0 < e - 1 := by
          by_contra hcon
          have : e = 1 := by omega
          subst this
          simp at hne'
          omega
        have : n / 10 < 10 ^ (e - 1) := by
          rw [Nat.div_lt_iff_lt_mul (by decide)]
          calc n < 10 ^ e := hne'
            _ = 10 ^ (e - 1 + 1) := by congr 1; omega
            _ = 10 ^ (e - 1) * 10 := by rw [pow_succ]
        have := hlen (e - 1) he1 this
        omega

theorem utoa_spec (n : Nat) :
    utoa n ≠ [] ∧ (∀ c ∈ utoa n, c.isDigit = true) ∧ digitsValue (utoa n) = n ∧
      (∀ e, 0 < e → n < 10 ^ e → (utoa n).length ≤ e) := by
  obtain ⟨l, hl, h⟩ := toDigitsCore_spec (n + 1) n [] (Nat.lt_succ_self n)
  have : utoa n = l := by
    unfold utoa Nat.toDigits
    rw [hl]; simp
  rw [this]; exact h

theorem bigIntString_natCast (n : Nat) : bigIntString (n : Int) = utoa n := by
  unfold bigIntString
  have : ¬ ((n : Int) < 0) := by omega
  rw [if_neg this]; simp

/-- `FloatString` of a non-negative fraction `A / B` whose denominator divides
`10 ^ d` prints the exact value with `d` fractional digits. -/
theorem floatString_exact (A B g d : Nat) (hd : 0 < d) (hB : 0 < B) (hBg : B * g = 10 ^ d) :
    ∃ ip fp : List Char,
      ((BigRat.mk (A : Int) B).FloatString d).data = ip ++ '.' :: fp ∧ ip ≠ [] ∧
      (∀ c ∈ ip, c.isDigit = true) ∧ (∀ c ∈ fp, c.isDigit = true) ∧ fp.length = d ∧
      digitsValue (ip ++ fp) = A * g := by
  have hdne : ¬ d = 0 := by omega
  unfold BigRat.FloatString
  by_cases h1 : B = 1
  · subst h1
    have hg : g = 10 ^ d := by simpa using hBg
    obtain ⟨hne, hdig, hval, -⟩ := utoa_spec A
    refine ⟨utoa A, List.replicate d '0', ?_, hne, hdig, ?_, by simp, ?_⟩
    · simp [bigIntString_natCast, hd]
    · intro c hc
      rw [List.eq_of_mem_replicate hc]; decide
    · rw [digitsValue_append, hval, digitsValue_replicate_zero, hg]; simp
  · simp only [h1, if_false, Int.natAbs_ofNat]
    have hmul : A % B * 10 ^ d = (A % B * g) * B := by rw [← hBg]; ring
    have hr2 : (A % B * 10 ^ d) % B = 0 := by rw [hmul]; exact Nat.mul_mod_left _ _
    have hr1 : (A % B * 10 ^ d) / B = A % B * g := by rw [hmul]; exact Nat.mul_div_cancel _ hB
    have hup : decide (B ≤ (A % B * 10 ^ d) % B + (A % B * 10 ^ d) % B) = false := by
      rw [hr2]; simp; omega
    simp only [hup, hr1, Bool.false_and, if_false, Bool.false_eq_true]
    have hneg : ¬ ((A : Int) < 0) := by omega
    simp only [hneg, if_false, hd, if_true, List.nil_append]
    obtain ⟨hne, hdig, hval, -⟩ := utoa_spec (A / B)
    obtain ⟨-, hdig', hval', hlen'⟩ := utoa_spec (A % B * g)
    have hlt : A % B * g < 10 ^ d := by
      rw [← hBg]
      have hgpos : 0 < g := by
        rcases Nat.eq_zero_or_pos g with h | h
        · subst h; simp at hBg
          have : 0 < 10 ^ d := pow_pos (by norm_num) d
          omega
        · exact h
      exact Nat.mul_lt_mul_of_pos_right (Nat.mod_lt _ hB) hgpos
    have hl := hlen' d hd hlt
    refine ⟨utoa (A / B), List.replicate (d - (utoa (A % B * g)).length) '0' ++ utoa (A % B * g),
      rfl, hne, hdig, ?_, ?_, ?_⟩
    · intro c hc
      rcases List.mem_append.mp hc with hc | hc
      · rw [List.eq_of_mem_replicate hc]; decide
      · exact hdig' c hc
    · simp; omega
    · rw [digitsValue_append, hval, digitsValue_append, digitsValue_replicate_zero, hval']
      have hlen2 : (List.replicate (d - (utoa (A % B * g)).length) '0' ++ utoa (A % B * g)).length = d := by
        simp; omega
      rw [hlen2, ← hBg]
      have := Nat.div_add_mod A B
      calc A / B * (B * g) + (0 * 10 ^ (utoa (A % B * g)).length + A % B * g)
          = (B * (A / B) + A % B) * g := by ring
        _ = A * g := by rw [this]

/-- C10: for every integer `v` and every `d`, `formatTokenAmount v d` is an
optional `-`, a non-empty run of digits `ip` and, when `d > 0`, a point
followed by exactly `d` digits `fp` (no point when `d = 0`); the `-` is there
exactly when `v < 0`; and the digits `ip ++ fp`, read as an integer with that
sign, give `v`, so the text denotes `v / 10 ^ d`. -/
theorem formatTokenAmount_plain_decimal (v : Int) (d : Nat) :
    ∃ ip fp : List Char,
      (formatTokenAmount (some v) d).data =
        (if v < 0 then ['-'] else []) ++ ip ++ (if d = 0 then [] else '.' :: fp) ∧
      ip ≠ [] ∧ (∀ c ∈ ip, c.isDigit = true) ∧ (∀ c ∈ fp, c.isDigit = true) ∧
      fp.length = d ∧
      ((formatTokenAmount (some v) d).data.head? = some '-' ↔ v < 0) ∧
      (if v < 0 then -(digitsValue (ip ++ fp) : Int) else (digitsValue (ip ++ fp) : Int)) = v := by
  have hhead : ∀ (s : String) (ip rest : List Char),
      s.data = (if v < 0 then ['-'] else []) ++ ip ++ rest → ip ≠ [] →
      (∀ c ∈ ip, c.isDigit = true) → (s.data.head? = some '-' ↔ v < 0) := by
    intro s ip rest hs hne hdig
    rw [hs]
    by_cases hv : v < 0
    · simp [hv]
    · cases ip with
      | nil => exact absurd rfl hne
      | cons c cs =>
        have hc := hdig c (List.mem_cons_self _ _)
        simp only [hv, if_false, List.nil_append, List.cons_append, List.head?_cons,
          Option.some.injEq, iff_false]
        intro hcm
        rw [hcm] at hc
        revert hc; decide
  have hsign : (if v < 0 then -((v.natAbs : Nat) : Int) else ((v.natAbs : Nat) : Int)) = v := by
    split_ifs with h <;> omega
  unfold formatTokenAmount
  by_cases hd : d = 0
  · subst hd
    obtain ⟨hne, hdig, hval, -⟩ := utoa_spec v.natAbs
    have hdata : (String.mk (bigIntString v)).data =
        (if v < 0 then ['-'] else []) ++ utoa v.natAbs ++ (if 0 = 0 then [] else '.' :: []) := by
      simp only [if_true, bigIntString]
      split_ifs <;> simp
    refine ⟨utoa v.natAbs, [], ?_, hne, hdig, by simp, rfl, ?_, ?_⟩
    · simpa using hdata
    · exact hhead _ (utoa v.natAbs) [] (by simpa using hdata) hne hdig
    · rw [List.append_nil, hval]; exact hsign
  · simp only [hd, if_false]
    have hdpos : 0 < d := Nat.pos_of_ne_zero hd
    have hPpos : 0 < 10 ^ d := pow_pos (by norm_num) d
    have hgpos : 0 < Nat.gcd v.natAbs (10 ^ d) := Nat.gcd_pos_of_pos_right _ hPpos
    have hBg : 10 ^ d / Nat.gcd v.natAbs (10 ^ d) * Nat.gcd v.natAbs (10 ^ d) = 10 ^ d :=
      Nat.div_mul_cancel (Nat.gcd_dvd_right _ _)
    have hAg : v.natAbs / Nat.gcd v.natAbs (10 ^ d) * Nat.gcd v.natAbs (10 ^ d) = v.natAbs :=
      Nat.div_mul_cancel (Nat.gcd_dvd_left _ _)
    have hBpos : 0 < 10 ^ d / Nat.gcd v.natAbs (10 ^ d) :=
      Nat.div_pos (Nat.le_of_dvd hPpos (Nat.gcd_dvd_right _ _)) hgpos
    have hrat : BigRat.SetFrac ((v.natAbs : Nat) : Int) ((10 : Int) ^ d) =
        BigRat.mk ((v.natAbs / Nat.gcd v.natAbs (10 ^ d) : Nat) : Int)
          (10 ^ d / Nat.gcd v.natAbs (10 ^ d)) := by
      unfold BigRat.SetFrac
      have h1 : decide (((v.natAbs : Nat) : Int) < 0) = false := decide_eq_false (by omega)
      have h2 : decide ((10 : Int) ^ d < 0) = false :=
        decide_eq_false (not_lt.mpr (pow_nonneg (by norm_num) d))
      have h3 : ((10 : Int) ^ d).natAbs = 10 ^ d := by
        rw [Int.natAbs_pow]; rfl
      have h4 : ((v.natAbs : Nat) : Int).natAbs = v.natAbs := Int.natAbs_ofNat _
      simp only [h1, h2, h3, h4, bne_self_eq_false, Bool.false_eq_true, if_false]
    rw [hrat]
    obtain ⟨ip, fp, hdata, hne, hdig, hdig', hlen, hval⟩ :=
      floatString_exact (v.natAbs / Nat.gcd v.natAbs (10 ^ d))
        (10 ^ d / Nat.gcd v.natAbs (10 ^ d)) (Nat.gcd v.natAbs (10 ^ d)) d hdpos hBpos hBg
    rw [hAg] at hval
    have hfull : (if v < 0 then "-" ++
        (BigRat.mk ((v.natAbs / Nat.gcd v.natAbs (10 ^ d) : Nat) : Int)
          (10 ^ d / Nat.gcd v.natAbs (10 ^ d))).FloatString d
        else (BigRat.mk ((v.natAbs / Nat.gcd v.natAbs (10 ^ d) : Nat) : Int)
          (10 ^ d / Nat.gcd v.natAbs (10 ^ d))).FloatString d).data =
        (if v < 0 then ['-'] else []) ++ ip ++ '.' :: fp := by
      split_ifs with hv
      · rw [String.data_append, hdata]; rfl
      · rw [hdata]; rfl
    refine ⟨ip, fp, hfull, hne, hdig, hdig', hlen, ?_, ?_⟩
    · exact hhead _ _ _ hfull hne hdig
    · rw [hval]; exact hsign

/-! ## The run -/

/-! ## Maps -/

theorem mapGet_mapSet_same {α : Type} (m : List (String × α)) (k : String) (v : α) :
    mapGet (mapSet m k v) k = some v := by
  induction m with
  | nil => simp [mapSet, mapGet]
  | cons e rest ih =>
    unfold mapSet
    by_cases h : e.1 = k
    · simp [h, mapGet]
    · simp [h, mapGet, ih]

theorem mapGet_mapSet_other {α : Type} (m : List (String × α)) (k k' : String) (v : α)
    (h : k' ≠ k) : mapGet (mapSet m k v) k' = mapGet m k' := by
  induction m with
  | nil => simp [mapSet, mapGet, Ne.symm h]
  | cons e rest ih =>
    rw [mapSet]
    by_cases he : e.1 = k
    · rw [if_pos he]
      have hne : ¬ e.1 = k' := by rw [he]; exact Ne.symm h
      rw [mapGet, mapGet]
      simp only
      rw [if_neg (Ne.symm h), if_neg hne]
    · rw [if_neg he, mapGet, mapGet]
      by_cases he' : e.1 = k'
      · rw [if_pos he', if_pos he']
      · rw [if_neg he', if_neg he', ih]

/-! ## Store calls -/

theorem metricRows_append (c1 c2 : List StoreCall) :
    metricRows (c1 ++ c2) = metricRows c1 ++ metricRows c2 := by
  induction c1 with
  | nil => rfl
  | cons c rest ih =>
    cases c <;> simp [metricRows, ih]

theorem savedValues_append (c1 c2 : List StoreCall) :
    savedValues (c1 ++ c2) = savedValues c1 ++ savedValues c2 := by
  simp [savedValues, List.filterMap_append]

/-! ## Flushing an accumulator -/

theorem registerPool_fields (a : Aggregator) (acc : Accumulator) :
    (a.registerPool acc).1.cfg = a.cfg ∧ (a.registerPool acc).1.accumulators = a.accumulators ∧
    (a.registerPool acc).1.decimals = a.decimals := by
  cases hm : mapGet a.poolSeen (poolKey acc.PoolAddress) with
  | none => simp [Aggregator.registerPool, hm]
  | some existing =>
    by_cases hle : existing.FirstSeenBlock ≤ acc.FirstBlock
    · simp [Aggregator.registerPool, hm, hle]
    · simp [Aggregator.registerPool, hm, hle]

theorem getTokenDecimals_fields (env : Env) (a : Aggregator) (token : String) :
    (a.getTokenDecimals env token).1.cfg = a.cfg ∧
    (a.getTokenDecimals env token).1.accumulators = a.accumulators := by
  cases hh : env.isHexAddress token with
  | false => simp [Aggregator.getTokenDecimals, hh]
  | true =>
    cases hg : mapGet a.decimals (env.hexToAddress token) with
    | some d => simp [Aggregator.getTokenDecimals, hh, hg]
    | none =>
      cases hf : env.fetchTokenDecimals (env.hexToAddress token) <;>
        simp [Aggregator.getTokenDecimals, hh, hg, hf]

theorem getTokenDecimals_pure (env : Env) (a : Aggregator) (token : String) (hc : CacheOk env a) :
    (a.getTokenDecimals env token).2.1 = tokenDecimals env token ∧
    CacheOk env (a.getTokenDecimals env token).1 := by
  cases hh : env.isHexAddress token with
  | false => simp [Aggregator.getTokenDecimals, tokenDecimals, hh]; exact hc
  | true =>
    cases hg : mapGet a.decimals (env.hexToAddress token) with
    | some d =>
      simp [Aggregator.getTokenDecimals, tokenDecimals, hh, hg, hc _ _ hg]; exact hc
    | none =>
      cases hf : env.fetchTokenDecimals (env.hexToAddress token) with
      | none => simp [Aggregator.getTokenDecimals, tokenDecimals, hh, hg, hf]; exact hc
      | some d =>
        refine ⟨by simp [Aggregator.getTokenDecimals, tokenDecimals, hh, hg, hf], ?_⟩
        intro addr d' hget
        simp only [Aggregator.getTokenDecimals, hh, hg, hf] at hget
        by_cases hk : addr = env.hexToAddress token
        · rw [hk] at hget
          simp only [Bool.true_eq_false, if_false, mapGet_mapSet_same] at hget
          rw [hk, hf]; exact hget
        · simp only [Bool.true_eq_false, if_false, mapGet_mapSet_other _ _ _ _ hk] at hget
          exact hc _ _ hget

theorem flushAccumulator_fields (env : Env) (a : Aggregator) (acc : Accumulator) :
    (a.flushAccumulator env acc).1.cfg = a.cfg ∧
    (a.flushAccumulator env acc).1.accumulators = a.accumulators := by
  unfold Aggregator.flushAccumulator
  by_cases h : acc.PoolMeta.Token0 = "" ∨ acc.PoolMeta.Token1 = ""
  · simp [h]
  · simp only [h, if_false]
    have h1 := registerPool_fields a acc
    have h2 := getTokenDecimals_fields env (a.registerPool acc).1 acc.PoolMeta.Token0
    have h3 := getTokenDecimals_fields env
      ((a.registerPool acc).1.getTokenDecimals env acc.PoolMeta.Token0).1 acc.PoolMeta.Token1
    exact ⟨by rw [h3.1, h2.1, h1.1], by rw [h3.2, h2.2, h1.2.1]⟩

theorem flushAccumulator_pure (env : Env) (a : Aggregator) (acc : Accumulator)
    (hc : CacheOk env a) :
    (a.flushAccumulator env acc).2.1 = rowOf env a.cfg.WindowSeconds acc ∧
    CacheOk env (a.flushAccumulator env acc).1 := by
  unfold Aggregator.flushAccumulator rowOf
  by_cases h : acc.PoolMeta.Token0 = "" ∨ acc.PoolMeta.Token1 = ""
  · simp [h]; exact hc
  · simp only [h, if_false]
    have hc1 : CacheOk env (a.registerPool acc).1 := by
      intro addr d hg
      rw [(registerPool_fields a acc).2.2] at hg
      exact hc _ _ hg
    have h2 := getTokenDecimals_pure env (a.registerPool acc).1 acc.PoolMeta.Token0 hc1
    have h3 := getTokenDecimals_pure env
      ((a.registerPool acc).1.getTokenDecimals env acc.PoolMeta.Token0).1 acc.PoolMeta.Token1 h2.2
    exact ⟨by rw [h2.1, h3.1], h3.2⟩

theorem flush_fields (env : Env) (st : RunState) (acc : Accumulator) :
    (st.flush env acc).a.cfg = st.a.cfg ∧
    (st.flush env acc).a.accumulators = st.a.accumulators ∧
    (st.flush env acc).maxTs = st.maxTs ∧ (st.flush env acc).calls = st.calls ∧
    (st.flush env acc).skipped = st.skipped := by
  have h := flushAccumulator_fields env st.a acc
  exact ⟨h.1, h.2, rfl, rfl, rfl⟩

theorem flush_batch (env : Env) (st : RunState) (acc : Accumulator) (hc : CacheOk env st.a) :
    (st.flush env acc).batch = st.batch ++ (rowOf env st.a.cfg.WindowSeconds acc).toList ∧
    CacheOk env (st.flush env acc).a := by
  have h := flushAccumulator_pure env st.a acc hc
  exact ⟨by unfold RunState.flush; simp only; rw [h.1], h.2⟩

/-! ## One step of the loop -/

theorem addEvent_err_iff (a : Accumulator) (r : TypedEventRecord) :
    (a.AddEvent r).2 = none ↔ (¬ isSwap r ∨ (swapAmounts r).isSome = true) := by
  cases h : swapAmounts r with
  | none =>
    rw [(addEvent_none a r h).2]; simp
  | some p =>
    rw [(addEvent_some a r p h).1]; simp

theorem addSucceeds_iff (a : Accumulator) (r : TypedEventRecord) :
    (a.AddEvent r).2 = none ↔ addSucceeds r = true := by
  unfold addSucceeds
  rw [Option.isNone_iff_eq_none, addEvent_err_iff, addEvent_err_iff]

theorem aggregate_eq (env : Env) (st : RunState) (r : TypedEventRecord) :
    st.aggregate env r =
      (match ((st.target r).AddEvent r).2 with
        | some e =>
          ({ st.rolled env r with
              a := { (st.rolled env r).a with
                accumulators := mapSet (st.rolled env r).a.accumulators (poolKey r.Address)
                  ((st.target r).AddEvent r).1 } }, some e)
        | none =>
          ({ st.rolled env r with
              a := { (st.rolled env r).a with
                accumulators := mapSet (st.rolled env r).a.accumulators (poolKey r.Address)
                  ((st.target r).AddEvent r).1 }
              maxTs := if r.Timestamp > (st.rolled env r).maxTs then r.Timestamp
                else (st.rolled env r).maxTs }, none)) := by
  unfold RunState.aggregate RunState.target RunState.rolled
  dsimp only
  cases hm : mapGet st.a.accumulators (poolKey r.Address) with
  | none => rfl
  | some acc =>
    by_cases hw : acc.WindowStart ≠ windowStart r.Timestamp st.a.cfg.WindowSeconds
    · simp only [if_pos hw]
    · simp only [if_neg hw]

theorem rolled_fields (env : Env) (st : RunState) (r : TypedEventRecord) :
    (st.rolled env r).a.cfg = st.a.cfg ∧
    (st.rolled env r).a.accumulators = st.a.accumulators ∧
    (st.rolled env r).maxTs = st.maxTs ∧ (st.rolled env r).calls = st.calls ∧
    (st.rolled env r).skipped = st.skipped := by
  unfold RunState.rolled
  cases hm : mapGet st.a.accumulators (poolKey r.Address) with
  | none => exact ⟨rfl, rfl, rfl, rfl, rfl⟩
  | some acc =>
    by_cases hw : acc.WindowStart ≠ windowStart r.Timestamp st.a.cfg.WindowSeconds
    · simp only [if_pos hw]; exact flush_fields env st acc
    · simp only [if_neg hw, and_self]

theorem target_windowStart (st : RunState) (r : TypedEventRecord) :
    (st.target r).WindowStart = windowStart r.Timestamp st.a.cfg.WindowSeconds := by
  unfold RunState.target
  cases hm : mapGet st.a.accumulators (poolKey r.Address) with
  | none => rfl
  | some acc =>
    by_cases hw : acc.WindowStart ≠ windowStart r.Timestamp st.a.cfg.WindowSeconds
    · simp only [if_pos hw]; rfl
    · simp only [if_neg hw]; exact not_not.mp hw

/-- What `aggregate` does to the fields of the state. -/
theorem aggregate_fields (env : Env) (st : RunState) (r : TypedEventRecord) :
    (st.aggregate env r).1.a.cfg = st.a.cfg ∧
    (st.aggregate env r).1.calls = st.calls ∧
    (st.aggregate env r).1.skipped = st.skipped ∧
    (st.aggregate env r).1.maxTs =
      (if addSucceeds r = true ∧ st.maxTs < r.Timestamp then r.Timestamp else st.maxTs) ∧
    ((st.aggregate env r).2 = none ↔ addSucceeds r = true) ∧
    (st.aggregate env r).1.a.accumulators =
      mapSet st.a.accumulators (poolKey r.Address) ((st.target r).AddEvent r).1 := by
  have hr := rolled_fields env st r
  rw [aggregate_eq]
  cases he : ((st.target r).AddEvent r).2 with
  | none =>
    have hs := (addSucceeds_iff _ r).mp he
    refine ⟨hr.1, hr.2.2.2.1, hr.2.2.2.2, ?_, by simp [hs], by simp only; rw [hr.2.1]⟩
    simp only [hs, true_and, gt_iff_lt, hr.2.2.1]
  | some e =>
    have hs : ¬ addSucceeds r = true := by
      rw [← addSucceeds_iff (st.target r) r, he]; simp
    refine ⟨hr.1, hr.2.2.2.1, hr.2.2.2.2, ?_, by simp [hs], by simp only; rw [hr.2.1]⟩
    simp [hs, hr.2.2.1]

theorem flushBatches_ok (env : Env) (cfg : Config) (hacc : StoresAccept env cfg)
    (batch : List PoolWindowMetrics) (pools : List Pool) (calls : List StoreCall) :
    ∃ calls1, flushBatches env batch pools calls = Except.ok calls1 ∧
      metricRows calls1 = metricRows calls ++ batch ∧ savedValues calls1 = savedValues calls := by
  unfold flushBatches
  simp only [hacc.1, hacc.2.1, Bool.false_eq_true, and_false, if_false]
  refine ⟨_, rfl, ?_, ?_⟩
  · by_cases hb : batch.length > 0 <;> by_cases hp : pools.length > 0 <;>
      simp [hb, hp, metricRows_append, metricRows]
    all_goals (simp at hb; simp [hb])
  · by_cases hb : batch.length > 0 <;> by_cases hp : pools.length > 0 <;>
      simp [hb, hp, savedValues_append, savedValues]

theorem flushBatches_calls (env : Env) (batch : List PoolWindowMetrics) (pools : List Pool)
    (calls calls1 : List StoreCall) (h : flushBatches env batch pools calls = Except.ok calls1) :
    metricRows calls1 = metricRows calls ++ batch ∧ savedValues calls1 = savedValues calls := by
  unfold flushBatches at h
  split_ifs at h <;> simp only [Except.ok.injEq] at h <;> subst h <;>
    simp_all [metricRows_append, metricRows, savedValues_append, savedValues]

theorem saveState_calls (env : Env) (a : Aggregator) (calls calls1 : List StoreCall)
    (h : a.saveState env calls = Except.ok calls1) :
    metricRows calls1 = metricRows calls ∧
    (a.cfg.StateStore.isSome = true → calls1 = calls ++ [StoreCall.Save (a.saveValue env)]) := by
  unfold Aggregator.saveState at h
  cases hs : a.cfg.StateStore with
  | none => simp only [hs] at h; injection h with h; subst h; simp
  | some store =>
    simp only [hs] at h
    split_ifs at h
    injection h with h; subst h
    simp [metricRows_append, metricRows]

theorem persistIfFull_fields (env : Env) (st st1 : RunState)
    (h : st.persistIfFull env = Except.ok st1) :
    st1.a = st.a ∧ st1.maxTs = st.maxTs ∧ st1.skipped = st.skipped ∧
    st1.emitted = st.emitted := by
  unfold RunState.persistIfFull at h
  by_cases hb : (st.batch.length : Int) ≥ st.a.cfg.BatchSize
  · rw [if_pos hb] at h
    cases hf : flushBatches env st.batch st.pools st.calls with
    | error e => simp [hf] at h
    | ok calls1 =>
      simp only [hf] at h
      cases hs : st.a.saveState env calls1 with
      | error e => simp [hs] at h
      | ok calls2 =>
        simp only [hs, Except.ok.injEq] at h
        subst h
        refine ⟨rfl, rfl, rfl, ?_⟩
        simp only [RunState.emitted, List.append_nil]
        rw [(saveState_calls env st.a calls1 calls2 hs).1, (flushBatches_calls env _ _ _ _ hf).1]
  · rw [if_neg hb] at h
    injection h with h; subst h
    exact ⟨rfl, rfl, rfl, rfl⟩

/-! ## Starting cut-off -/

/-- The three answers of `loadStartTimestamp`, and the loop body on a record
for a cut-off `startTs`: a record whose timestamp is at most the cut-off is
counted as skipped and nothing else changes, and a record whose timestamp is
above it is added to the accumulator of its pool and window (and the step
returns whenever the stores accept their calls). -/
theorem cutoff_step (env : Env) (a : Aggregator) (startTs : Nat) (st : RunState)
    (r : TypedEventRecord) :
    (0 < a.cfg.RecomputeFrom → a.loadStartTimestamp = Except.ok (a.cfg.RecomputeFrom - 1)) ∧
    (a.cfg.RecomputeFrom = 0 → ∀ store, a.cfg.StateStore = some store →
      store.load.failed = false → store.load.ok = true →
      a.loadStartTimestamp = Except.ok store.load.last) ∧
    (a.cfg.RecomputeFrom = 0 →
      (a.cfg.StateStore = none ∨ ∃ store, a.cfg.StateStore = some store ∧
        store.load.failed = false ∧ store.load.ok = false) →
      a.loadStartTimestamp = Except.ok 0) ∧
    (r.Timestamp ≤ startTs →
      processLine env startTs st (Line.record r) =
        Except.ok { st with total := st.total + 1, skipped := st.skipped + 1 }) ∧
    (startTs < r.Timestamp →
      (StoresAccept env st.a.cfg → ∃ st1, processLine env startTs st (Line.record r) = Except.ok st1) ∧
      ∀ st1, processLine env startTs st (Line.record r) = Except.ok st1 →
        st1.skipped = st.skipped ∧
        ∃ acc0 : Accumulator,
          acc0.WindowStart = windowStart r.Timestamp st.a.cfg.WindowSeconds ∧
          mapGet st1.a.accumulators (poolKey r.Address) = some (acc0.AddEvent r).1) := by
  refine ⟨?_, ?_, ?_, ?_, ?_⟩
  · intro h
    unfold Aggregator.loadStartTimestamp
    rw [if_pos h]
  · intro h store hs hf hok
    unfold Aggregator.loadStartTimestamp
    have : ¬ a.cfg.RecomputeFrom > 0 := by omega
    rw [if_neg this]
    simp [hs, hf, hok]
  · intro h hcase
    unfold Aggregator.loadStartTimestamp
    have : ¬ a.cfg.RecomputeFrom > 0 := by omega
    rw [if_neg this]
    rcases hcase with hn | ⟨store, hs, hf, hok⟩
    · simp [hn]
    · simp [hs, hf, hok]
  · intro h
    unfold processLine
    simp only [h, if_true]
  · intro h
    have hn : ¬ r.Timestamp ≤ startTs := by omega
    have hagg := aggregate_fields env { st with total := st.total + 1 } r
    have htw := target_windowStart { st with total := st.total + 1 } r
    have hstep : processLine env startTs st (Line.record r) =
        (match (RunState.aggregate env { st with total := st.total + 1 } r).2 with
          | some _ => Except.ok
              { (RunState.aggregate env { st with total := st.total + 1 } r).1 with
                failed := (RunState.aggregate env { st with total := st.total + 1 } r).1.failed + 1 }
          | none => (RunState.aggregate env { st with total := st.total + 1 } r).1.persistIfFull env) := by
      unfold processLine
      simp only [hn, if_false]
    constructor
    · intro hacc
      rw [hstep]
      cases he : (RunState.aggregate env { st with total := st.total + 1 } r).2 with
      | some e => exact ⟨_, rfl⟩
      | none =>
        simp only
        unfold RunState.persistIfFull
        split_ifs
        · have hcfg : (RunState.aggregate env { st with total := st.total + 1 } r).1.a.cfg = st.a.cfg :=
            hagg.1
          obtain ⟨calls1, hc1, -⟩ := flushBatches_ok env st.a.cfg hacc
            (RunState.aggregate env { st with total := st.total + 1 } r).1.batch
            (RunState.aggregate env { st with total := st.total + 1 } r).1.pools
            (RunState.aggregate env { st with total := st.total + 1 } r).1.calls
          rw [hc1]
          simp only
          unfold Aggregator.saveState
          cases hs : (RunState.aggregate env { st with total := st.total + 1 } r).1.a.cfg.StateStore with
          | none => exact ⟨_, rfl⟩
          | some store =>
            have := hacc.2.2 store (by rw [← hcfg]; exact hs)
            simp only [this, Bool.false_eq_true, if_false]
            exact ⟨_, rfl⟩
        · exact ⟨_, rfl⟩
    · intro st1 hst1
      rw [hstep] at hst1
      have hkey : st1.skipped = st.skipped ∧ st1.a.accumulators =
          (RunState.aggregate env { st with total := st.total + 1 } r).1.a.accumulators := by
        cases he : (RunState.aggregate env { st with total := st.total + 1 } r).2 with
        | some e =>
          simp only [he, Except.ok.injEq] at hst1
          subst hst1
          exact ⟨hagg.2.2.1, rfl⟩
        | none =>
          simp only [he] at hst1
          have := persistIfFull_fields env _ _ hst1
          exact ⟨by rw [this.2.2.1]; exact hagg.2.2.1, by rw [this.1]⟩
      refine ⟨hkey.1, RunState.target { st with total := st.total + 1 } r, htw, ?_⟩
      rw [hkey.2, hagg.2.2.2.2.2, mapGet_mapSet_same]

/-! ## Safe watermark -/

theorem minOpen_foldl (l : List (String × Accumulator)) (hpos : ∀ e ∈ l, 0 < e.2.WindowStart) :
    ∀ m0 : Nat, 0 < m0 →
      let r := l.foldl (fun min entry =>
        if min = 0 ∨ entry.2.WindowStart < min then entry.2.WindowStart else min) m0
      0 < r ∧ r ≤ m0 ∧ (∀ e ∈ l, r ≤ e.2.WindowStart) ∧
        (r = m0 ∨ ∃ e ∈ l, e.2.WindowStart = r) := by
  induction l with
  | nil => intro m0 h; simp [h]
  | cons e rest ih =>
    intro m0 h0
    have hrest : ∀ x ∈ rest, 0 < x.2.WindowStart := fun x hx => hpos x (List.mem_cons_of_mem _ hx)
    have he := hpos e (List.mem_cons_self _ _)
    simp only [List.foldl_cons]
    by_cases hc : m0 = 0 ∨ e.2.WindowStart < m0
    · rw [if_pos hc]
      have hlt : e.2.WindowStart < m0 := by rcases hc with h | h; omega; exact h
      obtain ⟨h1, h2, h3, h4⟩ := ih hrest e.2.WindowStart he
      refine ⟨h1, by omega, ?_, ?_⟩
      · intro x hx
        rcases List.mem_cons.mp hx with hx | hx
        · rw [hx]; exact h2
        · exact h3 x hx
      · right
        rcases h4 with h4 | ⟨x, hx, hxe⟩
        · exact ⟨e, List.mem_cons_self _ _, h4.symm⟩
        · exact ⟨x, List.mem_cons_of_mem _ hx, hxe⟩
    · rw [if_neg hc]
      have hge : m0 ≤ e.2.WindowStart := by
        by_contra hcon; exact hc (Or.inr (by omega))
      obtain ⟨h1, h2, h3, h4⟩ := ih hrest m0 h0
      refine ⟨h1, h2, ?_, ?_⟩
      · intro x hx
        rcases List.mem_cons.mp hx with hx | hx
        · rw [hx]; omega
        · exact h3 x hx
      · rcases h4 with h4 | ⟨x, hx, hxe⟩
        · left; exact h4
        · right; exact ⟨x, List.mem_cons_of_mem _ hx, hxe⟩

/-- On a map whose accumulators all start after 0, `minOpenWindowStart` is the
least `WindowStart`, whatever the order of the entries. -/
theorem minOpenWindowStart_least (l : List (String × Accumulator)) (m : Nat)
    (hmem : ∃ e ∈ l, e.2.WindowStart = m) (hle : ∀ e ∈ l, m ≤ e.2.WindowStart) (hm : 0 < m) :
    minOpenWindowStart l = m := by
  have hpos : ∀ e ∈ l, 0 < e.2.WindowStart := fun e he => lt_of_lt_of_le hm (hle e he)
  cases l with
  | nil => obtain ⟨e, he, -⟩ := hmem; cases he
  | cons e rest =>
    have hrest : ∀ x ∈ rest, 0 < x.2.WindowStart := fun x hx => hpos x (List.mem_cons_of_mem _ hx)
    have he := hpos e (List.mem_cons_self _ _)
    unfold minOpenWindowStart
    simp only [List.foldl_cons, true_or, if_true]
    obtain ⟨h1, h2, h3, h4⟩ := minOpen_foldl rest hrest e.2.WindowStart he
    apply le_antisymm
    · obtain ⟨x, hx, hxm⟩ := hmem
      rw [← hxm]
      rcases List.mem_cons.mp hx with hx | hx
      · rw [hx]; exact h2
      · exact h3 x hx
    · rcases h4 with h4 | ⟨x, hx, hxe⟩
      · rw [h4]; exact hle e (List.mem_cons_self _ _)
      · rw [← hxe]; exact hle x (List.mem_cons_of_mem _ hx)

/-- C9 as stated fails: with `RecomputeFrom = 1` and a window of one second,
the save made at the batch boundary of this run happens while the open
accumulators start at 1 and 2, and it saves 1, not `1 - 1`. -/
theorem safe_watermark_keeps_recomputeFrom :
    ∃ st, runLoop sampleEnv 0
        { a := NewAggregator (sampleConfig 1 1 1) true true, batch := [], pools := [], maxTs := 0,
          total := 0, decoded := 0, skipped := 0, failed := 0, calls := [] }
        [Line.record (sampleSwap "0xA" 1 "1" "-1"), Line.record (sampleSwap "0xB" 1 "1" "-1"),
          Line.record (sampleSwap "0xB" 2 "1" "-1")] = Except.ok st ∧
      st.a.accumulators.map (fun e => e.2.WindowStart) = [1, 2] ∧
      savedValues st.calls = [1] ∧ st.a.saveValue sampleEnv = 1 ∧
      ¬ (st.a.saveValue sampleEnv = 1 - 1) := by
  refine ⟨_, rfl, ?_, ?_, ?_, ?_⟩ <;> decide

/-- C9, amended: when `saveState` runs while the open accumulators all start
after 0 and the least `WindowStart` among them is `m`, it saves `m - 1`, unless
`m = 1`, in which case it saves `RecomputeFrom`; this holds for every order in
which the map is ranged. -/
theorem safe_watermark (env : Env) (a : Aggregator) (m : Nat)
    (horder : ∀ l, (env.rangeOrder l).Perm l)
    (hmem : ∃ e ∈ a.accumulators, e.2.WindowStart = m)
    (hle : ∀ e ∈ a.accumulators, m ≤ e.2.WindowStart) (hm : 0 < m) :
    a.saveValue env = (if m = 1 then a.cfg.RecomputeFrom else m - 1) ∧
    ∀ store calls, a.cfg.StateStore = some store →
      store.saveFails (if m = 1 then a.cfg.RecomputeFrom else m - 1) = false →
      a.saveState env calls =
        Except.ok (calls ++ [StoreCall.Save (if m = 1 then a.cfg.RecomputeFrom else m - 1)]) := by
  have hp := horder a.accumulators
  have hmin : minOpenWindowStart (env.rangeOrder a.accumulators) = m := by
    apply minOpenWindowStart_least _ m _ _ hm
    · obtain ⟨e, he, hem⟩ := hmem
      exact ⟨e, hp.mem_iff.mpr he, hem⟩
    · intro e he; exact hle e (hp.mem_iff.mp he)
  have hval : a.saveValue env = (if m = 1 then a.cfg.RecomputeFrom else m - 1) := by
    unfold Aggregator.saveValue
    have hne : ¬ a.accumulators.length = 0 := by
      obtain ⟨e, he, -⟩ := hmem
      intro h0
      rw [List.length_eq_zero] at h0
      rw [h0] at he; cases he
    rw [if_neg hne, hmin]
    simp only [hm, if_true]
    by_cases h1 : m = 1
    · simp [h1]
    · have : ¬ m - 1 = 0 := by omega
      simp [h1, this]
  refine ⟨hval, ?_⟩
  intro store calls hs hf
  unfold Aggregator.saveState
  rw [hs]
  simp only [hval, hf, Bool.false_eq_true, if_false]

/-! ## Final checkpoint -/

theorem drain_fields (env : Env) (l : List (String × Accumulator)) (st : RunState) :
    (l.foldl (fun s e => RunState.flush env s e.2) st).a.cfg = st.a.cfg ∧
    (l.foldl (fun s e => RunState.flush env s e.2) st).maxTs = st.maxTs ∧
    (l.foldl (fun s e => RunState.flush env s e.2) st).calls = st.calls := by
  induction l generalizing st with
  | nil => exact ⟨rfl, rfl, rfl⟩
  | cons e rest ih =>
    simp only [List.foldl_cons]
    have h := flush_fields env st e.2
    have := ih (st.flush env e.2)
    exact ⟨by rw [this.1, h.1], by rw [this.2.1, h.2.2.1], by rw [this.2.2, h.2.2.2.1]⟩

theorem processLine_maxTs (env : Env) (startTs : Nat) (st st1 : RunState) (line : Line)
    (h : processLine env startTs st line = Except.ok st1) :
    st1.a.cfg = st.a.cfg ∧
    st1.maxTs = ((((recordsOf [line]).filter
      (fun r => decide (startTs < r.Timestamp) && addSucceeds r)).map
      (fun r => r.Timestamp)).foldl max st.maxTs) := by
  cases line with
  | blank =>
    simp only [processLine, Except.ok.injEq] at h
    subst h; simp [recordsOf]
  | malformed =>
    simp only [processLine, Except.ok.injEq] at h
    subst h; simp [recordsOf]
  | record r =>
    by_cases hskip : r.Timestamp ≤ startTs
    · simp only [processLine, hskip, if_true, Except.ok.injEq] at h
      subst h
      have : ¬ startTs < r.Timestamp := by omega
      simp [recordsOf, this]
    · have hlt : startTs < r.Timestamp := by omega
      have hagg := aggregate_fields env { st with total := st.total + 1 } r
      simp only [processLine, hskip, if_false] at h
      have hmax : (RunState.aggregate env { st with total := st.total + 1 } r).1.maxTs =
          ((((recordsOf [Line.record r]).filter
            (fun r => decide (startTs < r.Timestamp) && addSucceeds r)).map
            (fun r => r.Timestamp)).foldl max st.maxTs) := by
        rw [hagg.2.2.2.1]
        by_cases hs : addSucceeds r = true
        · simp only [recordsOf, List.filterMap_cons, List.filterMap_nil, List.filter_cons, hlt,
            decide_True, hs, Bool.and_self, if_true, List.filter_nil, List.map_cons, List.map_nil,
            List.foldl_cons, List.foldl_nil, true_and]
          split_ifs with hc
          · exact (max_eq_right (le_of_lt hc)).symm
          · exact (max_eq_left (by omega)).symm
        · simp [recordsOf, hs]
      cases he : (RunState.aggregate env { st with total := st.total + 1 } r).2 with
      | some e =>
        simp only [he, Except.ok.injEq] at h
        subst h
        exact ⟨hagg.1, hmax⟩
      | none =>
        simp only [he] at h
        have hp := persistIfFull_fields env _ _ h
        exact ⟨by rw [hp.1]; exact hagg.1, by rw [hp.2.1]; exact hmax⟩

theorem runLoop_maxTs (env : Env) (startTs : Nat) (input : List Line) :
    ∀ (st st1 : RunState), runLoop env startTs st input = Except.ok st1 →
      st1.a.cfg = st.a.cfg ∧
      st1.maxTs = ((((recordsOf input).filter
        (fun r => decide (startTs < r.Timestamp) && addSucceeds r)).map
        (fun r => r.Timestamp)).foldl max st.maxTs) := by
  induction input with
  | nil =>
    intro st st1 h
    simp only [runLoop, Except.ok.injEq] at h
    subst h; simp [recordsOf]
  | cons line rest ih =>
    intro st st1 h
    rw [runLoop] at h
    cases hp : processLine env startTs st line with
    | error e => simp [hp] at h
    | ok st2 =>
      simp only [hp] at h
      have h1 := processLine_maxTs env startTs st st2 line hp
      have h2 := ih st2 st1 h
      refine ⟨by rw [h2.1, h1.1], ?_⟩
      rw [h2.2, h1.2]
      have hrec : recordsOf (line :: rest) = recordsOf [line] ++ recordsOf rest := by
        cases line <;> simp [recordsOf]
      rw [hrec, List.filter_append, List.map_append, List.foldl_append]

theorem finishRun_saved (env : Env) (st st1 : RunState) (h : finishRun env st = Except.ok st1)
    (hstore : st.a.cfg.StateStore.isSome = true) :
    (savedValues st1.calls).getLast? = some st.maxTs ∧ st1.maxTs = st.maxTs := by
  unfold finishRun at h
  have hd := drain_fields env (env.rangeOrder st.a.accumulators) st
  simp only at h
  split at h
  · cases h
  · rename_i calls1 hfl
    split at h
    · cases h
    · rename_i calls2 hsv
      simp only [Except.ok.injEq] at h
      subst h
      have hs := (saveState_calls env _ _ _ hsv).2 (by simp only; rw [hd.1]; exact hstore)
      simp only
      rw [hs, savedValues_append]
      refine ⟨?_, hd.2.1⟩
      simp [savedValues, Aggregator.saveValue, hd.2.1]

/-- C8: when a run with a state store ends without error, the last value
handed to the state store is `maxTs`, the largest of the starting cut-off and
the timestamps of the records that passed the cut-off and were added without
error. -/
theorem final_checkpoint (env : Env) (a : Aggregator) (input : List Line) (startTs : Nat)
    (st : RunState) (hstart : a.loadStartTimestamp = Except.ok startTs)
    (hstore : a.cfg.StateStore.isSome = true) (hrun : a.Run env input = Except.ok st) :
    (savedValues st.calls).getLast? = some (expectedMaxTs startTs input) ∧
      st.maxTs = expectedMaxTs startTs input := by
  unfold Aggregator.Run at hrun
  split_ifs at hrun with h1 h2 h3 h4
  · have hl : ({ a with cfg := { a.cfg with BatchSize := 1000 } } : Aggregator).loadStartTimestamp =
        a.loadStartTimestamp := rfl
    simp only [hl, hstart] at hrun
    split at hrun
    · cases hrun
    · rename_i st2 hloop
      have hm := runLoop_maxTs env startTs input _ st2 hloop
      have hf := finishRun_saved env st2 st hrun (by rw [hm.1]; exact hstore)
      unfold expectedMaxTs
      rw [hf.1, hf.2, hm.2]
      exact ⟨rfl, rfl⟩
  · simp only [hstart] at hrun
    split at hrun
    · cases hrun
    · rename_i st2 hloop
      have hm := runLoop_maxTs env startTs input _ st2 hloop
      have hf := finishRun_saved env st2 st hrun (by rw [hm.1]; exact hstore)
      unfold expectedMaxTs
      rw [hf.1, hf.2, hm.2]
      exact ⟨rfl, rfl⟩

theorem final_checkpoint_witness :
    ∃ st,
      (NewAggregator (sampleConfigAt 300 1000 1700000200) true true).Run sampleEnv
        [Line.record (sampleSwap "0xA" 1700000180 "-5" "7"),
          Line.record (sampleSwap "0xA" 1700000210 "-5" "7"),
          Line.record (sampleSwap "0xA" 1700000250 "x" "7")] = Except.ok st ∧
      (savedValues st.calls).getLast? = some 1700000210 :=
  ⟨_, rfl,
    (final_checkpoint sampleEnv (NewAggregator (sampleConfigAt 300 1000 1700000200) true true)
      [Line.record (sampleSwap "0xA" 1700000180 "-5" "7"),
        Line.record (sampleSwap "0xA" 1700000210 "-5" "7"),
        Line.record (sampleSwap "0xA" 1700000250 "x" "7")] 1700000200 _ rfl rfl rfl).1.trans
      (congrArg some (by decide))⟩

theorem safe_watermark_witness :
    (∀ l, (sampleEnv.rangeOrder l).Perm l) ∧ 0 < 1700000100 ∧
    sampleOpen.saveValue sampleEnv = (if 1700000100 = 1 then 0 else 1700000100 - 1) :=
  ⟨fun l => List.Perm.refl l, by decide,
    (safe_watermark sampleEnv sampleOpen 1700000100 (fun l => List.Perm.refl l)
      ⟨("0xb", NewAccumulator (sampleSwap "0xB" 1700000110 "1" "-1") 1700000100 1700000400),
        by simp [sampleOpen], rfl⟩
      (by
        intro e he
        simp only [sampleOpen, List.mem_cons, List.mem_singleton, List.not_mem_nil, or_false] at he
        rcases he with he | he <;> rw [he] <;> decide)
      (by decide)).1⟩

/-! ## The loop seen through its accumulators and emitted rows -/

theorem rolled_emitted (env : Env) (st : RunState) (r : TypedEventRecord) (hc : CacheOk env st.a) :
    (st.rolled env r).batch = st.batch ++ st.closing env r ∧ CacheOk env (st.rolled env r).a := by
  unfold RunState.rolled RunState.closing
  cases hm : mapGet st.a.accumulators (poolKey r.Address) with
  | none => simp; exact hc
  | some acc =>
    by_cases hw : acc.WindowStart ≠ windowStart r.Timestamp st.a.cfg.WindowSeconds
    · simp only [if_pos hw]; exact flush_batch env st acc hc
    · simp only [if_neg hw, List.append_nil]; exact ⟨trivial, hc⟩

theorem aggregate_emitted (env : Env) (st : RunState) (r : TypedEventRecord)
    (hc : CacheOk env st.a) :
    (st.aggregate env r).1.emitted = st.emitted ++ st.closing env r ∧
    CacheOk env (st.aggregate env r).1.a := by
  have hr := rolled_fields env st r
  have he := rolled_emitted env st r hc
  have hcache : ∀ acc, CacheOk env { (st.rolled env r).a with accumulators := acc } :=
    fun acc => he.2
  rw [aggregate_eq]
  cases hadd : ((st.target r).AddEvent r).2 with
  | none =>
    simp only [RunState.emitted]
    rw [hr.2.2.2.1, he.1, List.append_assoc]
    exact ⟨rfl, hcache _⟩
  | some e =>
    simp only [RunState.emitted]
    rw [hr.2.2.2.1, he.1, List.append_assoc]
    exact ⟨rfl, hcache _⟩

theorem persistIfFull_ok (env : Env) (st : RunState) (hacc : StoresAccept env st.a.cfg) :
    ∃ st1, st.persistIfFull env = Except.ok st1 := by
  unfold RunState.persistIfFull
  split_ifs
  · obtain ⟨calls1, hc1, -⟩ := flushBatches_ok env st.a.cfg hacc st.batch st.pools st.calls
    rw [hc1]
    simp only
    unfold Aggregator.saveState
    cases hs : st.a.cfg.StateStore with
    | none => exact ⟨_, rfl⟩
    | some store =>
      have := hacc.2.2 store hs
      simp only [this, Bool.false_eq_true, if_false]
      exact ⟨_, rfl⟩
  · exact ⟨_, rfl⟩

/-- One line of input, seen through the accumulators and the emitted rows. -/
theorem processLine_core (env : Env) (startTs : Nat) (st : RunState) (line : Line)
    (hacc : StoresAccept env st.a.cfg) (hc : CacheOk env st.a) :
    ∃ st1, processLine env startTs st line = Except.ok st1 ∧ CacheOk env st1.a ∧
      st1.a.cfg = st.a.cfg ∧
      st1.a.accumulators =
        (match line with
          | Line.record r =>
            if startTs < r.Timestamp then
              mapSet st.a.accumulators (poolKey r.Address) ((st.target r).AddEvent r).1
            else st.a.accumulators
          | _ => st.a.accumulators) ∧
      st1.emitted = st.emitted ++
        (match line with
          | Line.record r => if startTs < r.Timestamp then st.closing env r else []
          | _ => []) := by
  cases line with
  | blank => exact ⟨st, rfl, hc, rfl, rfl, by simp⟩
  | malformed => exact ⟨_, rfl, hc, rfl, rfl, by simp [RunState.emitted]⟩
  | record r =>
    by_cases hskip : r.Timestamp ≤ startTs
    · have hn : ¬ startTs < r.Timestamp := by omega
      refine ⟨{ st with total := st.total + 1, skipped := st.skipped + 1 },
        by simp only [processLine, hskip, if_true], hc, rfl, by simp [hn], ?_⟩
      simp [hn, RunState.emitted]
    · have hlt : startTs < r.Timestamp := by omega
      have hagg := aggregate_fields env { st with total := st.total + 1 } r
      have hem := aggregate_emitted env { st with total := st.total + 1 } r hc
      simp only [processLine, hskip, if_false, hlt, if_true]
      cases he : (RunState.aggregate env { st with total := st.total + 1 } r).2 with
      | some e =>
        exact ⟨_, rfl, hem.2, hagg.1, hagg.2.2.2.2.2, hem.1⟩
      | none =>
        simp only
        obtain ⟨st1, hst1⟩ := persistIfFull_ok env
          (RunState.aggregate env { st with total := st.total + 1 } r).1
          (by rw [hagg.1]; exact hacc)
        have hp := persistIfFull_fields env _ _ hst1
        refine ⟨st1, hst1, by rw [hp.1]; exact hem.2, by rw [hp.1]; exact hagg.1,
          by rw [hp.1]; exact hagg.2.2.2.2.2, by rw [hp.2.2.2]; exact hem.1⟩

/-! ## Lists of records -/

theorem addEvent_static (a : Accumulator) (r : TypedEventRecord) :
    (a.AddEvent r).1.WindowStart = a.WindowStart ∧ (a.AddEvent r).1.WindowEnd = a.WindowEnd ∧
    (a.AddEvent r).1.PoolAddress = a.PoolAddress ∧ (a.AddEvent r).1.ChainID = a.ChainID ∧
    (a.AddEvent r).1.PoolMeta = a.PoolMeta := by
  have ht := touch_totals a r
  cases h : swapAmounts r with
  | none =>
    rw [(addEvent_none a r h).1]
    exact ⟨ht.2.2.1, ht.2.2.2.1, ht.2.2.2.2.1, ht.2.2.2.2.2, ht.2.1⟩
  | some p =>
    rw [(addEvent_some a r p h).2]
    exact ⟨ht.2.2.1, ht.2.2.2.1, ht.2.2.2.2.1, ht.2.2.2.2.2, ht.2.1⟩

theorem addAll_static (rs : List TypedEventRecord) (a : Accumulator) :
    (addAll a rs).WindowStart = a.WindowStart ∧ (addAll a rs).WindowEnd = a.WindowEnd ∧
    (addAll a rs).PoolAddress = a.PoolAddress ∧ (addAll a rs).ChainID = a.ChainID ∧
    (addAll a rs).PoolMeta = a.PoolMeta := by
  induction rs generalizing a with
  | nil => exact ⟨rfl, rfl, rfl, rfl, rfl⟩
  | cons r rs ih =>
    have h := addEvent_static a r
    have h2 := ih (a.AddEvent r).1
    simp only [addAll, List.foldl_cons] at h2 ⊢
    exact ⟨h2.1.trans h.1, h2.2.1.trans h.2.1, h2.2.2.1.trans h.2.2.1,
      h2.2.2.2.1.trans h.2.2.2.1, h2.2.2.2.2.trans h.2.2.2.2⟩

theorem addAll_snoc (a : Accumulator) (rs : List TypedEventRecord) (r : TypedEventRecord) :
    addAll a (rs ++ [r]) = ((addAll a rs).AddEvent r).1 := by
  simp [addAll, List.foldl_append]

theorem groupOf_snoc (W : Nat) (rs : List TypedEventRecord) (r : TypedEventRecord)
    (key : String × Nat) :
    groupOf W (rs ++ [r]) key = groupOf W rs key ++ (if groupKey W r = key then [r] else []) := by
  unfold groupOf
  rw [List.filter_append]
  by_cases h : groupKey W r = key <;> simp [h]

theorem foldGroup_single (W : Nat) (r : TypedEventRecord) :
    foldGroup W [r] =
      some ((NewAccumulator r (windowStart r.Timestamp W) (windowEnd r.Timestamp W)).AddEvent r).1 :=
  rfl

theorem foldGroup_snoc (W : Nat) (g : List TypedEventRecord) (r : TypedEventRecord)
    (acc : Accumulator) (h : foldGroup W g = some acc) :
    foldGroup W (g ++ [r]) = some (acc.AddEvent r).1 := by
  cases g with
  | nil => cases h
  | cons x rest =>
    simp only [foldGroup, Option.some.injEq] at h
    simp only [List.cons_append, foldGroup, Option.some.injEq]
    rw [← h, ← addAll_snoc]
    rfl

theorem foldGroup_isSome (W : Nat) (g : List TypedEventRecord) (h : g ≠ []) :
    ∃ acc, foldGroup W g = some acc := by
  cases g with
  | nil => exact absurd rfl h
  | cons x rest => exact ⟨_, rfl⟩

theorem foldGroup_key (W : Nat) (g : List TypedEventRecord) (key : String × Nat)
    (acc : Accumulator) (h : foldGroup W g = some acc) (hk : ∀ x ∈ g, groupKey W x = key) :
    acc.WindowStart = key.2 ∧ poolKey acc.PoolAddress = key.1 := by
  cases g with
  | nil => cases h
  | cons x rest =>
    simp only [foldGroup, Option.some.injEq] at h
    have hs := addAll_static (x :: rest)
      (NewAccumulator x (windowStart x.Timestamp W) (windowEnd x.Timestamp W))
    rw [h] at hs
    have hx := hk x (List.mem_cons_self _ _)
    rw [hs.1, hs.2.2.1, ← hx]
    exact ⟨rfl, rfl⟩

theorem groupOf_key (W : Nat) (rs : List TypedEventRecord) (key : String × Nat) :
    ∀ x ∈ groupOf W rs key, groupKey W x = key := by
  intro x hx
  unfold groupOf at hx
  simpa using (List.mem_filter.mp hx).2

theorem lastWindow_snoc (W : Nat) (rs : List TypedEventRecord) (r : TypedEventRecord)
    (k : String) :
    lastWindow W (rs ++ [r]) k =
      if poolKey r.Address = k then some (windowStart r.Timestamp W) else lastWindow W rs k := by
  unfold lastWindow
  rw [List.filter_append]
  by_cases h : poolKey r.Address = k
  · simp [h]
  · simp [h]

theorem lastWindow_none (W : Nat) (rs : List TypedEventRecord) (k : String)
    (h : lastWindow W rs k = none) : ∀ r ∈ rs, poolKey r.Address ≠ k := by
  unfold lastWindow at h
  simp only [Option.map_eq_none', List.getLast?_eq_none_iff, List.filter_eq_nil_iff,
    decide_eq_true_eq] at h
  exact h

theorem lastWindow_some (W : Nat) (rs : List TypedEventRecord) (k : String) (ws0 : Nat)
    (h : lastWindow W rs k = some ws0) (hmono : PoolMonotone W rs) :
    (∃ r0 ∈ rs, groupKey W r0 = (k, ws0)) ∧
    ∀ r ∈ rs, poolKey r.Address = k → windowStart r.Timestamp W ≤ ws0 := by
  unfold lastWindow at h
  simp only [Option.map_eq_some'] at h
  obtain ⟨l, hl, hws⟩ := h
  have hmem := List.mem_of_getLast?_eq_some hl
  have hl2 := List.mem_filter.mp hmem
  have hpk : poolKey l.Address = k := by simpa using hl2.2
  refine ⟨⟨l, hl2.1, by unfold groupKey; rw [hpk, hws]⟩, ?_⟩
  intro r hr hrk
  have hfil : r ∈ rs.filter (fun r => decide (poolKey r.Address = k)) :=
    List.mem_filter.mpr ⟨hr, by simpa using hrk⟩
  obtain ⟨init, hinit⟩ : ∃ init, rs.filter (fun r => decide (poolKey r.Address = k)) = init ++ [l] := by
    rw [List.getLast?_eq_some_iff] at hl
    exact hl
  have hpw : (rs.filter (fun r => decide (poolKey r.Address = k))).Pairwise
      (fun r1 r2 => poolKey r1.Address = poolKey r2.Address →
        windowStart r1.Timestamp W ≤ windowStart r2.Timestamp W) :=
    List.Pairwise.filter _ hmono
  rw [hinit] at hfil hpw
  rcases List.mem_append.mp hfil with hin | hin
  · have := (List.pairwise_append.mp hpw).2.2 r hin l (List.mem_singleton_self l)
    rw [← hws]
    exact this (by rw [hrk, hpk])
  · simp only [List.mem_singleton] at hin
    rw [hin, hws]

theorem poolMonotone_snoc (W : Nat) (rs : List TypedEventRecord) (r : TypedEventRecord)
    (h : PoolMonotone W (rs ++ [r])) :
    PoolMonotone W rs ∧ ∀ x ∈ rs, poolKey x.Address = poolKey r.Address →
      windowStart x.Timestamp W ≤ windowStart r.Timestamp W := by
  unfold PoolMonotone at h
  rw [List.pairwise_append] at h
  exact ⟨h.1, fun x hx => h.2.2 x hx r (List.mem_singleton_self r)⟩

theorem mem_groupKeys (W : Nat) (rs : List TypedEventRecord) (key : String × Nat) :
    key ∈ groupKeys W rs ↔ ∃ r ∈ rs, groupKey W r = key := by
  unfold groupKeys
  simp [List.mem_dedup]

theorem groupOf_nil_of_not_mem (W : Nat) (rs : List TypedEventRecord) (key : String × Nat)
    (h : ∀ r ∈ rs, groupKey W r ≠ key) : groupOf W rs key = [] := by
  unfold groupOf
  rw [List.filter_eq_nil_iff]
  intro r hr
  simpa using h r hr

theorem groupOf_ne_nil (W : Nat) (rs : List TypedEventRecord) (key : String × Nat)
    (h : ∃ r ∈ rs, groupKey W r = key) : groupOf W rs key ≠ [] := by
  obtain ⟨r, hr, hk⟩ := h
  intro hnil
  have : r ∈ groupOf W rs key := by
    unfold groupOf
    exact List.mem_filter.mpr ⟨hr, by simpa using hk⟩
  rw [hnil] at this
  cases this

theorem mapSet_keys {α : Type} (m : List (String × α)) (k : String) (v : α) :
    (mapSet m k v).map Prod.fst =
      if k ∈ m.map Prod.fst then m.map Prod.fst else m.map Prod.fst ++ [k] := by
  induction m with
  | nil => simp [mapSet]
  | cons e rest ih =>
    rw [mapSet]
    by_cases he : e.1 = k
    · rw [if_pos he]
      simp [he]
    · rw [if_neg he]
      simp only [List.map_cons, ih, List.mem_cons]
      have hne : ¬ k = e.1 := fun h => he h.symm
      by_cases hk : k ∈ rest.map Prod.fst
      · simp [hk]
      · simp [hk, hne]

theorem mapSet_nodup {α : Type} (m : List (String × α)) (k : String) (v : α)
    (h : (m.map Prod.fst).Nodup) : ((mapSet m k v).map Prod.fst).Nodup := by
  rw [mapSet_keys]
  split_ifs with hk
  · exact h
  · rw [List.nodup_append]
    refine ⟨h, List.nodup_singleton k, ?_⟩
    intro x hx hx'
    simp only [List.mem_singleton] at hx'
    exact hk (hx' ▸ hx)

theorem mapGet_eq_some_iff {α : Type} (m : List (String × α)) (h : (m.map Prod.fst).Nodup)
    (k : String) (v : α) : mapGet m k = some v ↔ (k, v) ∈ m := by
  induction m with
  | nil => simp [mapGet]
  | cons e rest ih =>
    rw [List.map_cons, List.nodup_cons] at h
    rw [mapGet]
    by_cases he : e.1 = k
    · rw [if_pos he]
      constructor
      · intro hv
        simp only [Option.some.injEq] at hv
        rw [← hv, ← he]
        exact List.mem_cons_self _ _
      · intro hmem
        rcases List.mem_cons.mp hmem with hmem | hmem
        · rw [← hmem]
        · exfalso
          apply h.1
          rw [he]
          exact List.mem_map.mpr ⟨(k, v), hmem, rfl⟩
    · rw [if_neg he, ih h.2]
      constructor
      · intro hmem; exact List.mem_cons_of_mem _ hmem
      · intro hmem
        rcases List.mem_cons.mp hmem with hmem | hmem
        · exfalso; apply he; rw [← hmem]
        · exact hmem

/-! ## The loop follows the groups -/

theorem mem_closedKeys (W : Nat) (rs : List TypedEventRecord) (key : String × Nat) :
    key ∈ closedKeys W rs ↔
      (∃ r ∈ rs, groupKey W r = key) ∧ lastWindow W rs key.1 ≠ some key.2 := by
  unfold closedKeys
  rw [List.mem_filter, mem_groupKeys]
  simp

theorem nodup_closedKeys (W : Nat) (rs : List TypedEventRecord) : (closedKeys W rs).Nodup := by
  unfold closedKeys groupKeys
  exact (List.nodup_dedup _).filter _

theorem groupRow_snoc_other (env : Env) (W : Nat) (rs : List TypedEventRecord)
    (r : TypedEventRecord) (key : String × Nat) (h : groupKey W r ≠ key) :
    groupRow env W (rs ++ [r]) key = groupRow env W rs key := by
  unfold groupRow
  rw [groupOf_snoc, if_neg h, List.append_nil]

theorem openAcc_snoc_other (W : Nat) (rs : List TypedEventRecord) (r : TypedEventRecord)
    (k : String) (h : poolKey r.Address ≠ k) : openAcc W (rs ++ [r]) k = openAcc W rs k := by
  unfold openAcc
  rw [lastWindow_snoc, if_neg h]
  cases lastWindow W rs k with
  | none => rfl
  | some ws =>
    simp only [Option.some_bind]
    rw [groupOf_snoc, if_neg, List.append_nil]
    intro hk
    apply h
    have := congrArg Prod.fst hk
    exact this

theorem target_closing_none (env : Env) (st : RunState) (r : TypedEventRecord)
    (h : mapGet st.a.accumulators (poolKey r.Address) = none) :
    st.target r = NewAccumulator r (windowStart r.Timestamp st.a.cfg.WindowSeconds)
      (windowEnd r.Timestamp st.a.cfg.WindowSeconds) ∧ st.closing env r = [] := by
  unfold RunState.target RunState.closing
  rw [h]
  exact ⟨rfl, rfl⟩

theorem target_closing_same (env : Env) (st : RunState) (r : TypedEventRecord) (acc : Accumulator)
    (h : mapGet st.a.accumulators (poolKey r.Address) = some acc)
    (hw : acc.WindowStart = windowStart r.Timestamp st.a.cfg.WindowSeconds) :
    st.target r = acc ∧ st.closing env r = [] := by
  unfold RunState.target RunState.closing
  rw [h]
  simp only [hw, ne_eq, not_true_eq_false, if_false, and_self]

theorem target_closing_other (env : Env) (st : RunState) (r : TypedEventRecord) (acc : Accumulator)
    (h : mapGet st.a.accumulators (poolKey r.Address) = some acc)
    (hw : acc.WindowStart ≠ windowStart r.Timestamp st.a.cfg.WindowSeconds) :
    st.target r = NewAccumulator r (windowStart r.Timestamp st.a.cfg.WindowSeconds)
      (windowEnd r.Timestamp st.a.cfg.WindowSeconds) ∧
    st.closing env r = (rowOf env st.a.cfg.WindowSeconds acc).toList := by
  unfold RunState.target RunState.closing
  rw [h]
  simp only [if_pos hw, and_self]

/-- What the arrival of record `r` does, by the state of its pool. -/
theorem arrival_cases (env : Env) (W : Nat) (rs : List TypedEventRecord) (st : RunState)
    (r : TypedEventRecord) (hW : st.a.cfg.WindowSeconds = W) (ht : Tracks env W rs st)
    (hmono : PoolMonotone W (rs ++ [r])) :
    ∃ extra : List (String × Nat),
      foldGroup W (groupOf W (rs ++ [r]) (groupKey W r)) = some ((st.target r).AddEvent r).1 ∧
      st.closing env r = extra.filterMap (groupRow env W (rs ++ [r])) ∧
      (closedKeys W (rs ++ [r])).Perm (closedKeys W rs ++ extra) ∧
      groupKey W r ∉ closedKeys W rs := by
  obtain ⟨hm, hold⟩ := poolMonotone_snoc W rs r hmono
  have hopen := ht.1 (poolKey r.Address)
  have hself : groupOf W (rs ++ [r]) (groupKey W r) = groupOf W rs (groupKey W r) ++ [r] := by
    rw [groupOf_snoc, if_pos rfl]
  -- membership in the closed keys after the arrival
  have hmem' : ∀ key : String × Nat, key ∈ closedKeys W (rs ++ [r]) ↔
      ((∃ x ∈ rs, groupKey W x = key) ∨ groupKey W r = key) ∧
        (if poolKey r.Address = key.1 then some (windowStart r.Timestamp W)
          else lastWindow W rs key.1) ≠ some key.2 := by
    intro key
    rw [mem_closedKeys, lastWindow_snoc]
    constructor
    · rintro ⟨⟨x, hx, hk⟩, h2⟩
      refine ⟨?_, h2⟩
      rcases List.mem_append.mp hx with hx | hx
      · exact Or.inl ⟨x, hx, hk⟩
      · simp only [List.mem_singleton] at hx
        exact Or.inr (hx ▸ hk)
    · rintro ⟨h1, h2⟩
      refine ⟨?_, h2⟩
      rcases h1 with ⟨x, hx, hk⟩ | hk
      · exact ⟨x, List.mem_append_left _ hx, hk⟩
      · exact ⟨r, List.mem_append_right _ (List.mem_singleton_self r), hk⟩
  cases hlw : lastWindow W rs (poolKey r.Address) with
  | none =>
    have hnone := lastWindow_none W rs _ hlw
    have hget : mapGet st.a.accumulators (poolKey r.Address) = none := by
      rw [hopen]; unfold openAcc; rw [hlw]; rfl
    have hnil : groupOf W rs (groupKey W r) = [] :=
      groupOf_nil_of_not_mem W rs _ (fun x hx hk => hnone x hx (congrArg Prod.fst hk))
    have htc := target_closing_none env st r hget
    rw [hW] at htc
    refine ⟨[], ?_, ?_, ?_, ?_⟩
    · rw [hself, hnil, htc.1]
      rfl
    · rw [htc.2]; rfl
    · rw [List.append_nil]
      rw [List.perm_ext_iff_of_nodup (nodup_closedKeys _ _) (nodup_closedKeys _ _)]
      intro key
      rw [hmem' key, mem_closedKeys]
      by_cases hk : poolKey r.Address = key.1
      · rw [if_pos hk]
        constructor
        · rintro ⟨h1, h2⟩
          rcases h1 with ⟨x, hx, hxk⟩ | hrk
          · exact absurd ((congrArg Prod.fst hxk).trans hk.symm) (hnone x hx)
          · exfalso; apply h2; rw [← hrk]; rfl
        · rintro ⟨⟨x, hx, hxk⟩, -⟩
          exact absurd ((congrArg Prod.fst hxk).trans hk.symm) (hnone x hx)
      · rw [if_neg hk]
        constructor
        · rintro ⟨h1, h2⟩
          rcases h1 with h1 | hrk
          · exact ⟨h1, h2⟩
          · exact absurd (congrArg Prod.fst hrk) hk
        · rintro ⟨h1, h2⟩
          exact ⟨Or.inl h1, h2⟩
    · rw [mem_closedKeys]
      rintro ⟨⟨x, hx, hxk⟩, -⟩
      exact hnone x hx (congrArg Prod.fst hxk)
  | some ws0 =>
    obtain ⟨⟨r0, hr0, hr0k⟩, hle⟩ := lastWindow_some W rs _ ws0 hlw hm
    obtain ⟨acc, hacc⟩ := foldGroup_isSome W (groupOf W rs (poolKey r.Address, ws0))
      (groupOf_ne_nil W rs _ ⟨r0, hr0, hr0k⟩)
    have hget : mapGet st.a.accumulators (poolKey r.Address) = some acc := by
      rw [hopen]; unfold openAcc; rw [hlw]; exact hacc
    have haccws : acc.WindowStart = ws0 :=
      (foldGroup_key W _ (poolKey r.Address, ws0) acc hacc (groupOf_key W rs _)).1
    have hws0le : ws0 ≤ windowStart r.Timestamp W := by
      have := hold r0 hr0 (congrArg Prod.fst hr0k)
      have h2 : windowStart r0.Timestamp W = ws0 := congrArg Prod.snd hr0k
      omega
    by_cases hsame : ws0 = windowStart r.Timestamp W
    · -- the record joins the open window
      have hkey : groupKey W r = (poolKey r.Address, ws0) := by unfold groupKey; rw [hsame]
      have htc := target_closing_same env st r acc hget (by rw [hW, haccws, hsame])
      refine ⟨[], ?_, ?_, ?_, ?_⟩
      · rw [hself, hkey, foldGroup_snoc W _ r acc hacc, htc.1]
      · rw [htc.2]; rfl
      · rw [List.append_nil]
        rw [List.perm_ext_iff_of_nodup (nodup_closedKeys _ _) (nodup_closedKeys _ _)]
        intro key
        rw [hmem' key, mem_closedKeys]
        by_cases hk : poolKey r.Address = key.1
        · rw [if_pos hk, ← hk, hlw, ← hsame]
          constructor
          · rintro ⟨h1, h2⟩
            rcases h1 with h1 | hrk
            · exact ⟨h1, h2⟩
            · exfalso; apply h2; rw [← hrk, hkey]
          · rintro ⟨h1, h2⟩
            exact ⟨Or.inl h1, h2⟩
        · rw [if_neg hk]
          constructor
          · rintro ⟨h1, h2⟩
            rcases h1 with h1 | hrk
            · exact ⟨h1, h2⟩
            · exact absurd (congrArg Prod.fst hrk) hk
          · rintro ⟨h1, h2⟩
            exact ⟨Or.inl h1, h2⟩
      · rw [mem_closedKeys, hkey]
        rintro ⟨-, h2⟩
        exact h2 hlw
    · -- the record opens a later window and closes the open one
      have hlt : ws0 < windowStart r.Timestamp W := lt_of_le_of_ne hws0le hsame
      have hnil : groupOf W rs (groupKey W r) = [] := by
        apply groupOf_nil_of_not_mem
        intro x hx hxk
        have h1 := hle x hx (congrArg Prod.fst hxk)
        have h2 : windowStart x.Timestamp W = windowStart r.Timestamp W := congrArg Prod.snd hxk
        omega
      have hne : groupKey W r ≠ (poolKey r.Address, ws0) := by
        intro h
        exact hsame (congrArg Prod.snd h).symm
      have htc := target_closing_other env st r acc hget (by rw [hW, haccws]; exact hsame)
      rw [hW] at htc
      refine ⟨[(poolKey r.Address, ws0)], ?_, ?_, ?_, ?_⟩
      · rw [hself, hnil, htc.1]
        rfl
      · rw [htc.2]
        simp only [List.filterMap_cons, List.filterMap_nil]
        rw [groupRow_snoc_other env W rs r _ hne]
        unfold groupRow
        rw [hacc, Option.some_bind]
        cases hrow : rowOf env W acc <;> rfl
      · have hnd : (closedKeys W rs ++ [(poolKey r.Address, ws0)]).Nodup := by
          rw [List.nodup_append]
          refine ⟨nodup_closedKeys _ _, List.nodup_singleton _, ?_⟩
          intro key hk hk'
          simp only [List.mem_singleton] at hk'
          rw [hk', mem_closedKeys] at hk
          exact hk.2 hlw
        rw [List.perm_ext_iff_of_nodup (nodup_closedKeys _ _) hnd]
        intro key
        rw [hmem' key, List.mem_append, mem_closedKeys, List.mem_singleton]
        by_cases hk : poolKey r.Address = key.1
        · rw [if_pos hk, ← hk, hlw]
          constructor
          · rintro ⟨h1, h2⟩
            rcases h1 with ⟨x, hx, hxk⟩ | hrk
            · by_cases hw : key.2 = ws0
              · right
                exact Prod.ext hk.symm hw
              · left
                exact ⟨⟨x, hx, hxk⟩, fun h => hw (Option.some.inj h).symm⟩
            · exfalso; apply h2; rw [← hrk]; rfl
          · rintro (⟨⟨x, hx, hxk⟩, h2⟩ | hkey)
            · refine ⟨Or.inl ⟨x, hx, hxk⟩, ?_⟩
              intro h
              have h1 := hle x hx ((congrArg Prod.fst hxk).trans hk.symm)
              have h3 : windowStart x.Timestamp W = key.2 := congrArg Prod.snd hxk
              have h4 : windowStart r.Timestamp W = key.2 := Option.some.inj h
              omega
            · refine ⟨Or.inl ⟨r0, hr0, hr0k.trans hkey.symm⟩, ?_⟩
              intro h
              have h4 : windowStart r.Timestamp W = key.2 := Option.some.inj h
              rw [hkey] at h4
              exact hsame h4.symm
        · rw [if_neg hk]
          constructor
          · rintro ⟨h1, h2⟩
            rcases h1 with h1 | hrk
            · exact Or.inl ⟨h1, h2⟩
            · exact absurd (congrArg Prod.fst hrk) hk
          · rintro (⟨h1, h2⟩ | hkey)
            · exact ⟨Or.inl h1, h2⟩
            · exact absurd (congrArg Prod.fst hkey).symm hk
      · rw [mem_closedKeys]
        rintro ⟨⟨x, hx, hxk⟩, -⟩
        have h1 := hle x hx (congrArg Prod.fst hxk)
        have h2 : windowStart x.Timestamp W = windowStart r.Timestamp W := congrArg Prod.snd hxk
        omega

theorem tracks_step (env : Env) (W : Nat) (rs : List TypedEventRecord) (st st1 : RunState)
    (r : TypedEventRecord) (hW : st.a.cfg.WindowSeconds = W) (ht : Tracks env W rs st)
    (hmono : PoolMonotone W (rs ++ [r]))
    (hacc : st1.a.accumulators =
      mapSet st.a.accumulators (poolKey r.Address) ((st.target r).AddEvent r).1)
    (hem : st1.emitted = st.emitted ++ st.closing env r) :
    Tracks env W (rs ++ [r]) st1 := by
  obtain ⟨extra, hfold, hclosing, hperm, hnot⟩ := arrival_cases env W rs st r hW ht hmono
  refine ⟨?_, ?_, ?_⟩
  · intro k
    rw [hacc]
    by_cases hk : k = poolKey r.Address
    · rw [hk, mapGet_mapSet_same]
      unfold openAcc
      rw [lastWindow_snoc, if_pos rfl, Option.some_bind]
      exact hfold.symm
    · rw [mapGet_mapSet_other _ _ _ _ hk, openAcc_snoc_other W rs r k (fun h => hk h.symm)]
      exact ht.1 k
  · rw [hacc]
    exact mapSet_nodup _ _ _ ht.2.1
  · rw [hem, hclosing]
    have hcongr : (closedKeys W rs).filterMap (groupRow env W rs) =
        (closedKeys W rs).filterMap (groupRow env W (rs ++ [r])) := by
      apply List.filterMap_congr
      intro key hkey
      rw [groupRow_snoc_other]
      intro h
      exact hnot (h ▸ hkey)
    have h1 : (st.emitted ++ extra.filterMap (groupRow env W (rs ++ [r]))).Perm
        ((closedKeys W rs ++ extra).filterMap (groupRow env W (rs ++ [r]))) := by
      rw [List.filterMap_append, ← hcongr]
      exact List.Perm.append_right _ ht.2.2
    exact h1.trans (hperm.filterMap _).symm

theorem passing_cons (startTs : Nat) (line : Line) (rest : List Line) :
    passing startTs (line :: rest) = passingLine startTs line ++ passing startTs rest := by
  unfold passing recordsOf passingLine
  cases line with
  | blank => rfl
  | malformed => rfl
  | record r =>
    by_cases h : startTs < r.Timestamp
    · simp [h]
    · simp [h]

/-- The scanning loop returns and follows the groups of the records that pass
the cut-off, as long as the stores accept every call. -/
theorem runLoop_tracks (env : Env) (W startTs : Nat) (input : List Line) :
    ∀ (st : RunState) (rs0 : List TypedEventRecord), st.a.cfg.WindowSeconds = W →
      StoresAccept env st.a.cfg → CacheOk env st.a → Tracks env W rs0 st →
      PoolMonotone W (rs0 ++ passing startTs input) →
      ∃ st1, runLoop env startTs st input = Except.ok st1 ∧ st1.a.cfg = st.a.cfg ∧
        CacheOk env st1.a ∧ Tracks env W (rs0 ++ passing startTs input) st1 := by
  induction input with
  | nil =>
    intro st rs0 _ _ hc ht _
    refine ⟨st, rfl, rfl, hc, ?_⟩
    simpa [passing, recordsOf] using ht
  | cons line rest ih =>
    intro st rs0 hW hacc hc ht hmono
    obtain ⟨st1, hstep, hc1, hcfg1, haccs, hem⟩ := processLine_core env startTs st line hacc hc
    rw [passing_cons] at hmono ⊢
    have hnext : Tracks env W (rs0 ++ passingLine startTs line) st1 := by
      cases line with
      | blank =>
        simp only [passingLine, List.append_nil] at haccs hem ⊢
        exact ⟨by rw [haccs]; exact ht.1, by rw [haccs]; exact ht.2.1, by rw [hem]; exact ht.2.2⟩
      | malformed =>
        simp only [passingLine, List.append_nil] at haccs hem ⊢
        exact ⟨by rw [haccs]; exact ht.1, by rw [haccs]; exact ht.2.1, by rw [hem]; exact ht.2.2⟩
      | record r =>
        by_cases hlt : startTs < r.Timestamp
        · simp only [passingLine, hlt, if_true] at haccs hem hmono ⊢
          have hm1 : PoolMonotone W (rs0 ++ [r]) := by
            unfold PoolMonotone at hmono ⊢
            rw [← List.append_assoc] at hmono
            exact (List.pairwise_append.mp hmono).1
          exact tracks_step env W rs0 st st1 r hW ht hm1 haccs hem
        · simp only [passingLine, hlt, if_false, List.append_nil] at haccs hem ⊢
          exact ⟨by rw [haccs]; exact ht.1, by rw [haccs]; exact ht.2.1, by rw [hem]; exact ht.2.2⟩
    obtain ⟨st2, hloop, hcfg2, hc2, ht2⟩ := ih st1 _ (by rw [hcfg1]; exact hW)
      (by rw [hcfg1]; exact hacc) hc1 hnext (by rw [List.append_assoc]; exact hmono)
    refine ⟨st2, ?_, by rw [hcfg2, hcfg1], hc2, ?_⟩
    · rw [runLoop, hstep]
      exact hloop
    · rw [← List.append_assoc]
      exact ht2

/-! ## Drain and final flush -/

theorem flushBatches_mid (env : Env) (cfg : Config) (hacc : StoresAccept env cfg)
    (batch : List PoolWindowMetrics) (pools : List Pool) (calls : List StoreCall) :
    ∃ mid, flushBatches env batch pools calls = Except.ok (calls ++ mid) ∧
      metricRows mid = batch ∧ savedValues mid = [] := by
  unfold flushBatches
  simp only [hacc.1, hacc.2.1, Bool.false_eq_true, and_false, if_false]
  by_cases hb : batch.length > 0 <;> by_cases hp : pools.length > 0
  · refine ⟨[StoreCall.UpsertPools pools, StoreCall.UpsertWindowMetrics batch], ?_, ?_, ?_⟩
    · simp [hb, hp]
    · simp [metricRows]
    · simp [savedValues]
  · refine ⟨[StoreCall.UpsertWindowMetrics batch], ?_, ?_, ?_⟩
    · simp [hb, hp]
    · simp [metricRows]
    · simp [savedValues]
  · refine ⟨[StoreCall.UpsertPools pools], ?_, ?_, ?_⟩
    · simp [hb, hp]
    · simp at hb; simp [metricRows, hb]
    · simp [savedValues]
  · refine ⟨[], ?_, ?_, ?_⟩
    · simp [hb, hp]
    · simp at hb; simp [metricRows, hb]
    · simp [savedValues]

theorem drain_batch (env : Env) (l : List (String × Accumulator)) (st : RunState)
    (hc : CacheOk env st.a) :
    (l.foldl (fun s e => RunState.flush env s e.2) st).batch =
      st.batch ++ l.filterMap (fun e => rowOf env st.a.cfg.WindowSeconds e.2) ∧
    CacheOk env (l.foldl (fun s e => RunState.flush env s e.2) st).a := by
  induction l generalizing st with
  | nil => simp; exact hc
  | cons e rest ih =>
    simp only [List.foldl_cons]
    have h := flush_batch env st e.2 hc
    have hf := flush_fields env st e.2
    have h2 := ih (st.flush env e.2) h.2
    refine ⟨?_, h2.2⟩
    rw [h2.1, h.1, hf.1, List.filterMap_cons, List.append_assoc]
    cases rowOf env st.a.cfg.WindowSeconds e.2 <;> rfl

/-- After the loop the run returns, and the rows it has persisted are those
emitted by the loop followed by the rows of the accumulators still open. -/
theorem finishRun_rows (env : Env) (st : RunState) (hacc : StoresAccept env st.a.cfg)
    (hc : CacheOk env st.a) :
    ∃ st1 mid, finishRun env st = Except.ok st1 ∧
      st1.calls = st.calls ++ mid ++
        (match st.a.cfg.StateStore with
          | none => []
          | some _ => [StoreCall.Save st.maxTs]) ∧
      savedValues mid = [] ∧
      metricRows mid = st.batch ++
        (env.rangeOrder st.a.accumulators).filterMap
          (fun e => rowOf env st.a.cfg.WindowSeconds e.2) := by
  have hd := drain_fields env (env.rangeOrder st.a.accumulators) st
  have hb := drain_batch env (env.rangeOrder st.a.accumulators) st hc
  unfold finishRun
  simp only
  obtain ⟨mid, hmid, hrows, hsaved⟩ := flushBatches_mid env st.a.cfg hacc
    ((env.rangeOrder st.a.accumulators).foldl (fun s e => RunState.flush env s e.2) st).batch
    ((env.rangeOrder st.a.accumulators).foldl (fun s e => RunState.flush env s e.2) st).pools
    ((env.rangeOrder st.a.accumulators).foldl (fun s e => RunState.flush env s e.2) st).calls
  by_cases hne : ((env.rangeOrder st.a.accumulators).foldl
      (fun s e => RunState.flush env s e.2) st).batch.length > 0 ∨
      ((env.rangeOrder st.a.accumulators).foldl
      (fun s e => RunState.flush env s e.2) st).pools.length > 0
  · rw [if_pos hne, hmid]
    simp only
    unfold Aggregator.saveState
    simp only [hd.1, hd.2.1, hd.2.2]
    cases hs : st.a.cfg.StateStore with
    | none =>
      refine ⟨_, mid, rfl, by simp, hsaved, ?_⟩
      rw [hrows, hb.1]
    | some store =>
      have hsf := hacc.2.2 store hs
      simp only [Aggregator.saveValue, List.length_nil, if_true, hsf, Bool.false_eq_true, if_false]
      refine ⟨_, mid, rfl, rfl, hsaved, ?_⟩
      rw [hrows, hb.1]
  · rw [if_neg hne]
    simp only
    have hbnil : ((env.rangeOrder st.a.accumulators).foldl
        (fun s e => RunState.flush env s e.2) st).batch = [] := by
      rw [← List.length_eq_zero]
      omega
    unfold Aggregator.saveState
    simp only [hd.1, hd.2.1, hd.2.2]
    cases hs : st.a.cfg.StateStore with
    | none =>
      refine ⟨_, [], rfl, by simp, rfl, ?_⟩
      rw [← hb.1, hbnil]; rfl
    | some store =>
      have hsf := hacc.2.2 store hs
      simp only [Aggregator.saveValue, List.length_nil, if_true, hsf, Bool.false_eq_true, if_false]
      refine ⟨_, [], rfl, by simp, rfl, ?_⟩
      rw [← hb.1, hbnil]; rfl

/-- When the state follows `rs`, the emitted rows together with the rows of the
open accumulators are the rows of the group-by reference. -/
theorem tracks_rows (env : Env) (W : Nat) (rs : List TypedEventRecord) (st : RunState)
    (ht : Tracks env W rs st) (hmono : PoolMonotone W rs) (l : List (String × Accumulator))
    (hl : l.Perm st.a.accumulators) :
    (st.emitted ++ l.filterMap (fun e => rowOf env W e.2)).Perm (groupByRows env W rs) := by
  obtain ⟨hget, hnd, hem⟩ := ht
  -- the open accumulators, through their keys
  have h2 : st.a.accumulators.filterMap (fun e => rowOf env W e.2) =
      (st.a.accumulators.map Prod.fst).filterMap
        (fun k => (mapGet st.a.accumulators k).bind (rowOf env W)) := by
    rw [List.filterMap_map]
    apply List.filterMap_congr
    intro e he
    have : mapGet st.a.accumulators e.1 = some e.2 :=
      (mapGet_eq_some_iff _ hnd e.1 e.2).mpr he
    simp [this]
  -- the open keys
  have hopenmem : ∀ key : String × Nat,
      key ∈ (groupKeys W rs).filter (fun key => !decide (lastWindow W rs key.1 ≠ some key.2)) ↔
        lastWindow W rs key.1 = some key.2 := by
    intro key
    rw [List.mem_filter, mem_groupKeys]
    constructor
    · rintro ⟨-, h⟩
      simpa using h
    · intro h
      obtain ⟨⟨r0, hr0, hr0k⟩, -⟩ := lastWindow_some W rs key.1 key.2 h hmono
      exact ⟨⟨r0, hr0, hr0k⟩, by simpa using h⟩
  have hopennd : (((groupKeys W rs).filter
      (fun key => !decide (lastWindow W rs key.1 ≠ some key.2))).map Prod.fst).Nodup := by
    apply List.Nodup.map_on
    · intro x hx y hy hxy
      have h1 := (hopenmem x).mp hx
      have h2 := (hopenmem y).mp hy
      rw [hxy, h2] at h1
      exact Prod.ext hxy (Option.some.inj h1).symm
    · unfold groupKeys
      exact (List.nodup_dedup _).filter _
  have hkeys : (((groupKeys W rs).filter
      (fun key => !decide (lastWindow W rs key.1 ≠ some key.2))).map Prod.fst).Perm
      (st.a.accumulators.map Prod.fst) := by
    rw [List.perm_ext_iff_of_nodup hopennd hnd]
    intro k
    constructor
    · intro hk
      obtain ⟨key, hkey, hk1⟩ := List.mem_map.mp hk
      have hlw := (hopenmem key).mp hkey
      obtain ⟨⟨r0, hr0, hr0k⟩, -⟩ := lastWindow_some W rs key.1 key.2 hlw hmono
      obtain ⟨acc, hacc⟩ := foldGroup_isSome W (groupOf W rs (key.1, key.2))
        (groupOf_ne_nil W rs _ ⟨r0, hr0, hr0k⟩)
      have : mapGet st.a.accumulators k = some acc := by
        rw [hget, ← hk1]; unfold openAcc; rw [hlw]; exact hacc
      exact List.mem_map.mpr ⟨(k, acc), (mapGet_eq_some_iff _ hnd k acc).mp this, rfl⟩
    · intro hk
      obtain ⟨e, he, hek⟩ := List.mem_map.mp hk
      have : mapGet st.a.accumulators e.1 = some e.2 :=
        (mapGet_eq_some_iff _ hnd e.1 e.2).mpr he
      rw [hget] at this
      unfold openAcc at this
      cases hlw : lastWindow W rs e.1 with
      | none => rw [hlw] at this; cases this
      | some ws =>
        exact List.mem_map.mpr ⟨(e.1, ws), (hopenmem (e.1, ws)).mpr hlw, hek⟩
  have h4 : ((groupKeys W rs).filter
      (fun key => !decide (lastWindow W rs key.1 ≠ some key.2))).filterMap (groupRow env W rs) =
      (((groupKeys W rs).filter
        (fun key => !decide (lastWindow W rs key.1 ≠ some key.2))).map Prod.fst).filterMap
        (fun k => (mapGet st.a.accumulators k).bind (rowOf env W)) := by
    rw [List.filterMap_map]
    apply List.filterMap_congr
    intro key hkey
    have hlw := (hopenmem key).mp hkey
    simp only [Function.comp]
    rw [hget]
    unfold openAcc groupRow
    rw [hlw]
    rfl
  have hsplit := List.filter_append_perm (fun key => decide (lastWindow W rs key.1 ≠ some key.2))
    (groupKeys W rs)
  unfold groupByRows
  refine List.Perm.trans ?_ (hsplit.filterMap _)
  rw [List.filterMap_append]
  refine List.Perm.append hem ?_
  rw [h4]
  refine List.Perm.trans (hl.filterMap _) ?_
  rw [h2]
  exact (hkeys.filterMap _).symm

/-! ## Streaming equals group-by -/

theorem tracks_init (env : Env) (W : Nat) (st : RunState) (h1 : st.a.accumulators = [])
    (h2 : st.batch = []) (h3 : st.calls = []) : Tracks env W [] st := by
  refine ⟨?_, ?_, ?_⟩
  · intro k; rw [h1]; rfl
  · rw [h1]; exact List.nodup_nil
  · unfold RunState.emitted
    rw [h2, h3]
    exact List.Perm.refl _

/-- A run of a fresh aggregator over any input returns when the stores accept
every call, and the rows it persists are the rows of the group-by reference
over the records that pass the cut-off, provided each pool's passing records
arrive with non-decreasing window starts. -/
theorem run_groupBy (env : Env) (cfg : Config) (input : List Line) (startTs : Nat)
    (hW : cfg.WindowSeconds ≠ 0)
    (hstart : (NewAggregator cfg true true).loadStartTimestamp = Except.ok startTs)
    (hacc : StoresAccept env cfg) (horder : ∀ l, (env.rangeOrder l).Perm l)
    (hmono : PoolMonotone cfg.WindowSeconds (passing startTs input)) :
    ∃ st, (NewAggregator cfg true true).Run env input = Except.ok st ∧
      (metricRows st.calls).Perm (groupByRows env cfg.WindowSeconds (passing startTs input)) := by
  have key : ∀ a1 : Aggregator, a1.cfg.WindowSeconds = cfg.WindowSeconds →
      StoresAccept env a1.cfg → a1.accumulators = [] → CacheOk env a1 →
      ∃ st, (match runLoop env startTs
          { a := a1, batch := [], pools := [], maxTs := startTs,
            total := 0, decoded := 0, skipped := 0, failed := 0, calls := [] } input with
        | Except.error e => Except.error e
        | Except.ok st => finishRun env st) = Except.ok st ∧
        (metricRows st.calls).Perm (groupByRows env cfg.WindowSeconds (passing startTs input)) := by
    intro a1 hW1 hacc1 hempty hc1
    obtain ⟨st1, hloop, hcfg, hc, ht⟩ := runLoop_tracks env cfg.WindowSeconds startTs input
      { a := a1, batch := [], pools := [], maxTs := startTs,
        total := 0, decoded := 0, skipped := 0, failed := 0, calls := [] } [] hW1 hacc1 hc1
      (tracks_init env _ _ hempty rfl rfl) (by simpa using hmono)
    rw [List.nil_append] at ht
    have hW2 : st1.a.cfg.WindowSeconds = cfg.WindowSeconds := by rw [hcfg]; exact hW1
    obtain ⟨st2, mid, hfin, hcalls, -, hrows⟩ := finishRun_rows env st1 (by rw [hcfg]; exact hacc1) hc
    refine ⟨st2, by rw [hloop]; exact hfin, ?_⟩
    have hmr : metricRows st2.calls = st1.emitted ++
        (env.rangeOrder st1.a.accumulators).filterMap (fun e => rowOf env cfg.WindowSeconds e.2) := by
      rw [hcalls, metricRows_append, metricRows_append, hrows, hW2]
      unfold RunState.emitted
      cases st1.a.cfg.StateStore <;> simp [metricRows]
    rw [hmr]
    exact tracks_rows env cfg.WindowSeconds _ st1 ht hmono _ (horder _)
  have hcache : ∀ c : Config, CacheOk env (NewAggregator c true true) := by
    intro c addr d h
    simp [NewAggregator, mapGet] at h
  unfold Aggregator.Run
  simp only [NewAggregator, Bool.true_eq_false, if_false, hW]
  by_cases hb : cfg.BatchSize ≤ 0
  · simp only [hb, if_true]
    have hl : Aggregator.loadStartTimestamp
        { cfg := { cfg with BatchSize := 1000 }, hasStore := true, hasChainClient := true,
          decimals := [], accumulators := [], poolSeen := [] } = Except.ok startTs := hstart
    rw [hl]
    exact key _ rfl hacc rfl (hcache { cfg with BatchSize := 1000 })
  · simp only [hb, if_false]
    have hl : Aggregator.loadStartTimestamp
        { cfg := cfg, hasStore := true, hasChainClient := true,
          decimals := [], accumulators := [], poolSeen := [] } = Except.ok startTs := hstart
    rw [hl]
    exact key _ rfl hacc rfl (hcache cfg)

theorem filterMap_length_of_isSome {α β : Type} (f : α → Option β) (l : List α)
    (h : ∀ x ∈ l, (f x).isSome = true) : (l.filterMap f).length = l.length := by
  induction l with
  | nil => rfl
  | cons x rest ih =>
    obtain ⟨y, hy⟩ := Option.isSome_iff_exists.mp (h x (List.mem_cons_self _ _))
    rw [List.filterMap_cons, hy]
    simp only [List.length_cons]
    rw [ih (fun z hz => h z (List.mem_cons_of_mem _ hz))]

/-- C6: when the stores accept every call, every record passes the cut-off and
carries pool meta with both tokens set, and each pool's records arrive with
non-decreasing window starts, the run (main loop plus drain) returns and the
rows it persists are, up to order, one row per distinct (lower-cased pool
address, window start): the row of that group folded separately, with the
group's swap count and its raw volumes and fees formatted with the token
decimals.  The payloads need not be well formed. -/
theorem streaming_equals_group_by (env : Env) (cfg : Config) (input : List Line) (startTs : Nat)
    (hW : cfg.WindowSeconds ≠ 0)
    (hstart : (NewAggregator cfg true true).loadStartTimestamp = Except.ok startTs)
    (hacc : StoresAccept env cfg) (horder : ∀ l, (env.rangeOrder l).Perm l)
    (hpass : ∀ r ∈ recordsOf input, startTs < r.Timestamp)
    (htok : ∀ r ∈ recordsOf input, r.PoolMeta.Token0 ≠ "" ∧ r.PoolMeta.Token1 ≠ "")
    (hmono : PoolMonotone cfg.WindowSeconds (recordsOf input)) :
    ∃ st, (NewAggregator cfg true true).Run env input = Except.ok st ∧
      (metricRows st.calls).Perm
        ((groupKeys cfg.WindowSeconds (recordsOf input)).filterMap
          (groupRow env cfg.WindowSeconds (recordsOf input))) ∧
      (metricRows st.calls).length = (groupKeys cfg.WindowSeconds (recordsOf input)).length ∧
      (groupKeys cfg.WindowSeconds (recordsOf input)).Nodup ∧
      ∀ key ∈ groupKeys cfg.WindowSeconds (recordsOf input), ∃ acc row,
        foldGroup cfg.WindowSeconds (groupOf cfg.WindowSeconds (recordsOf input) key) = some acc ∧
        groupRow env cfg.WindowSeconds (recordsOf input) key = some row ∧
        poolKey row.PoolAddress = key.1 ∧ row.WindowStart = toInt64 key.2 ∧
        row.SwapCount = acc.SwapCount ∧
        row.Volume0 = formatTokenAmount (some acc.Volume0) (tokenDecimals env acc.PoolMeta.Token0) ∧
        row.Volume1 = formatTokenAmount (some acc.Volume1) (tokenDecimals env acc.PoolMeta.Token1) ∧
        row.Fee0 = formatTokenAmount (some acc.Fee0) (tokenDecimals env acc.PoolMeta.Token0) ∧
        row.Fee1 = formatTokenAmount (some acc.Fee1) (tokenDecimals env acc.PoolMeta.Token1) := by
  have hall : passing startTs input = recordsOf input := by
    unfold passing
    rw [List.filter_eq_self]
    intro r hr
    simpa using hpass r hr
  have hrows : ∀ key ∈ groupKeys cfg.WindowSeconds (recordsOf input), ∃ acc row,
      foldGroup cfg.WindowSeconds (groupOf cfg.WindowSeconds (recordsOf input) key) = some acc ∧
      groupRow env cfg.WindowSeconds (recordsOf input) key = some row ∧
      poolKey row.PoolAddress = key.1 ∧ row.WindowStart = toInt64 key.2 ∧
      row.SwapCount = acc.SwapCount ∧
      row.Volume0 = formatTokenAmount (some acc.Volume0) (tokenDecimals env acc.PoolMeta.Token0) ∧
      row.Volume1 = formatTokenAmount (some acc.Volume1) (tokenDecimals env acc.PoolMeta.Token1) ∧
      row.Fee0 = formatTokenAmount (some acc.Fee0) (tokenDecimals env acc.PoolMeta.Token0) ∧
      row.Fee1 = formatTokenAmount (some acc.Fee1) (tokenDecimals env acc.PoolMeta.Token1) := by
    intro key hkey
    have hne := groupOf_ne_nil cfg.WindowSeconds (recordsOf input) key
      ((mem_groupKeys _ _ _).mp hkey)
    cases hg : groupOf cfg.WindowSeconds (recordsOf input) key with
    | nil => exact absurd hg hne
    | cons x rest =>
      have hx : x ∈ groupOf cfg.WindowSeconds (recordsOf input) key := by
        rw [hg]; exact List.mem_cons_self _ _
      have hxin : x ∈ recordsOf input := (List.mem_filter.mp hx).1
      obtain ⟨acc, hfold⟩ := foldGroup_isSome cfg.WindowSeconds (x :: rest) (List.cons_ne_nil _ _)
      have hmeta : acc.PoolMeta = x.PoolMeta := by
        have hst := addAll_static (x :: rest)
          (NewAccumulator x (windowStart x.Timestamp cfg.WindowSeconds)
            (windowEnd x.Timestamp cfg.WindowSeconds))
        have : acc = addAll (NewAccumulator x (windowStart x.Timestamp cfg.WindowSeconds)
            (windowEnd x.Timestamp cfg.WindowSeconds)) (x :: rest) := by
          simp only [foldGroup, Option.some.injEq] at hfold
          exact hfold.symm
        rw [this]
        exact hst.2.2.2.2
      have hk := foldGroup_key cfg.WindowSeconds (x :: rest) key acc hfold
        (by rw [← hg]; exact groupOf_key _ _ _)
      have ht := htok x hxin
      have hrow : rowOf env cfg.WindowSeconds acc =
          some (buildMetrics env cfg.WindowSeconds acc
            (tokenDecimals env acc.PoolMeta.Token0) (tokenDecimals env acc.PoolMeta.Token1)) := by
        unfold rowOf
        rw [if_neg (by rw [hmeta]; simp [ht.1, ht.2])]
      refine ⟨acc, buildMetrics env cfg.WindowSeconds acc
        (tokenDecimals env acc.PoolMeta.Token0) (tokenDecimals env acc.PoolMeta.Token1),
        hfold, ?_, hk.2, ?_, rfl, rfl, rfl, rfl, rfl⟩
      · unfold groupRow
        rw [hg, hfold, Option.some_bind, hrow]
      · show toInt64 _ = toInt64 key.2
        rw [hk.1]
  obtain ⟨st, hrun, hperm⟩ := run_groupBy env cfg input startTs hW hstart hacc horder
    (by rw [hall]; exact hmono)
  rw [hall] at hperm
  refine ⟨st, hrun, hperm, ?_, ?_, hrows⟩
  · rw [hperm.length_eq]
    unfold groupByRows
    apply filterMap_length_of_isSome
    intro key hkey
    obtain ⟨acc, row, -, hrow, -⟩ := hrows key hkey
    rw [hrow]; rfl
  · unfold groupKeys
    exact List.nodup_dedup _

theorem sampleStores_accept (w : Nat) (b : Int) (r : Nat) :
    StoresAccept sampleEnv (sampleConfig w b r) :=
  ⟨fun _ => rfl, fun _ => rfl, fun _ h _ => Option.some.inj h ▸ rfl⟩

theorem streaming_equals_group_by_witness :
    (300 ≠ 0 ∧ (∀ r ∈ recordsOf sampleInput, 0 < r.Timestamp) ∧
      (∀ r ∈ recordsOf sampleInput, r.PoolMeta.Token0 ≠ "" ∧ r.PoolMeta.Token1 ≠ "") ∧
      PoolMonotone 300 (recordsOf sampleInput)) ∧
    ∃ st, (NewAggregator (sampleConfig 300 1000 0) true true).Run sampleEnv sampleInput =
        Except.ok st ∧
      (metricRows st.calls).length = (groupKeys 300 (recordsOf sampleInput)).length :=
  ⟨⟨by decide, by decide, by decide, by unfold PoolMonotone; decide⟩,
    (streaming_equals_group_by sampleEnv (sampleConfig 300 1000 0) sampleInput 0 (by decide) rfl
      (sampleStores_accept 300 1000 0) (fun l => List.Perm.refl l) (by decide) (by decide)
      (by unfold PoolMonotone; decide)).imp (fun _ h => ⟨h.1, h.2.2.1⟩)⟩

/-! ## Checkpoints in the trace of store calls -/

theorem append_eq_split {α : Type} (l m : List α) :
    ∀ (pre : List α) (x : α) (post : List α), l ++ m = pre ++ x :: post →
      (∃ post0, l = pre ++ x :: post0 ∧ post = post0 ++ m) ∨
      (∃ pre1, pre = l ++ pre1 ∧ m = pre1 ++ x :: post) := by
  induction l with
  | nil =>
    intro pre x post h
    exact Or.inr ⟨pre, rfl, h⟩
  | cons a rest ih =>
    intro pre x post h
    cases pre with
    | nil =>
      simp only [List.cons_append, List.nil_append, List.cons.injEq] at h
      exact Or.inl ⟨rest, by rw [h.1]; rfl, h.2.symm⟩
    | cons b pre1 =>
      simp only [List.cons_append, List.cons.injEq] at h
      rcases ih pre1 x post h.2 with ⟨post0, h1, h2⟩ | ⟨pre2, h1, h2⟩
      · exact Or.inl ⟨post0, by rw [h.1, h1]; rfl, h2⟩
      · exact Or.inr ⟨pre2, by rw [h.1, h1]; rfl, h2⟩

theorem savedValues_nil_no_save (mid pre post : List StoreCall) (s : Nat)
    (h : savedValues mid = []) : mid ≠ pre ++ StoreCall.Save s :: post := by
  intro hm
  rw [hm, savedValues_append] at h
  simp [savedValues] at h

/-- Where a save can sit in a trace that ends with one batch of upserts and at
most one save. -/
theorem trace_split (calls mid tail pre post : List StoreCall) (s : Nat)
    (hmid : savedValues mid = [])
    (h : calls ++ mid ++ tail = pre ++ StoreCall.Save s :: post) :
    (∃ post0, calls = pre ++ StoreCall.Save s :: post0 ∧ post = post0 ++ mid ++ tail) ∨
    (∃ pre1, pre = calls ++ mid ++ pre1 ∧ tail = pre1 ++ StoreCall.Save s :: post) := by
  rw [List.append_assoc] at h
  rcases append_eq_split calls (mid ++ tail) pre _ post h with ⟨post0, h1, h2⟩ | ⟨pre1, h1, h2⟩
  · exact Or.inl ⟨post0, h1, by rw [h2, List.append_assoc]⟩
  · rcases append_eq_split mid tail pre1 _ post h2 with ⟨post0, h3, -⟩ | ⟨pre2, h3, h4⟩
    · exact absurd h3 (savedValues_nil_no_save mid pre1 post0 s hmid)
    · exact Or.inr ⟨pre2, by rw [h1, h3, List.append_assoc], h4⟩

theorem mem_mapSet {α : Type} (m : List (String × α)) (k : String) (v : α) (e : String × α)
    (h : e ∈ mapSet m k v) : e = (k, v) ∨ e ∈ m := by
  induction m with
  | nil =>
    simp only [mapSet, List.mem_singleton] at h
    exact Or.inl h
  | cons x rest ih =>
    rw [mapSet] at h
    by_cases hx : x.1 = k
    · rw [if_pos hx] at h
      rcases List.mem_cons.mp h with h | h
      · exact Or.inl h
      · exact Or.inr (List.mem_cons_of_mem _ h)
    · rw [if_neg hx] at h
      rcases List.mem_cons.mp h with h | h
      · exact Or.inr (h ▸ List.mem_cons_self _ _)
      · rcases ih h with h | h
        · exact Or.inl h
        · exact Or.inr (List.mem_cons_of_mem _ h)

theorem mapSet_mem_self {α : Type} (m : List (String × α)) (k : String) (v : α) :
    (k, v) ∈ mapSet m k v := by
  induction m with
  | nil => simp [mapSet]
  | cons x rest ih =>
    rw [mapSet]
    by_cases hx : x.1 = k
    · rw [if_pos hx]; exact List.mem_cons_self _ _
    · rw [if_neg hx]; exact List.mem_cons_of_mem _ ih

theorem mapGet_some_mem {α : Type} (m : List (String × α)) (k : String) (v : α)
    (h : mapGet m k = some v) : (k, v) ∈ m := by
  induction m with
  | nil => simp [mapGet] at h
  | cons x rest ih =>
    rw [mapGet] at h
    by_cases hx : x.1 = k
    · rw [if_pos hx] at h
      simp only [Option.some.injEq] at h
      rw [← h, ← hx]
      exact List.mem_cons_self _ _
    · rw [if_neg hx] at h
      exact List.mem_cons_of_mem _ (ih h)

/-- On a non-empty map whose accumulators all start after 0, the result of
`minOpenWindowStart` is the window start of one of them and is below all. -/
theorem minOpenWindowStart_spec (l : List (String × Accumulator)) (hne : l ≠ [])
    (hpos : ∀ e ∈ l, 0 < e.2.WindowStart) :
    (∃ e ∈ l, e.2.WindowStart = minOpenWindowStart l) ∧
    ∀ e ∈ l, minOpenWindowStart l ≤ e.2.WindowStart := by
  cases l with
  | nil => exact absurd rfl hne
  | cons e rest =>
    have hrest : ∀ x ∈ rest, 0 < x.2.WindowStart := fun x hx => hpos x (List.mem_cons_of_mem _ hx)
    have he := hpos e (List.mem_cons_self _ _)
    obtain ⟨-, h2, h3, h4⟩ := minOpen_foldl rest hrest e.2.WindowStart he
    have hdef : minOpenWindowStart (e :: rest) = rest.foldl (fun min entry =>
        if min = 0 ∨ entry.2.WindowStart < min then entry.2.WindowStart else min)
        e.2.WindowStart := by
      unfold minOpenWindowStart
      simp only [List.foldl_cons, true_or, if_true]
    rw [hdef]
    constructor
    · rcases h4 with h4 | ⟨x, hx, hxe⟩
      · exact ⟨e, List.mem_cons_self _ _, h4.symm⟩
      · exact ⟨x, List.mem_cons_of_mem _ hx, hxe⟩
    · intro x hx
      rcases List.mem_cons.mp hx with hx | hx
      · rw [hx]; exact h2
      · exact h3 x hx

/-- The value saved at a batch boundary of a run started with
`RecomputeFrom = 0`: one less than the least open window start. -/
theorem saveValue_fresh (env : Env) (a : Aggregator) (horder : ∀ l, (env.rangeOrder l).Perm l)
    (hne : a.accumulators ≠ []) (hpos : ∀ e ∈ a.accumulators, 0 < e.2.WindowStart)
    (hrf : a.cfg.RecomputeFrom = 0) :
    (∃ e ∈ a.accumulators, e.2.WindowStart = a.saveValue env + 1) ∧
    ∀ e ∈ a.accumulators, a.saveValue env + 1 ≤ e.2.WindowStart := by
  have hp := horder a.accumulators
  have hne' : env.rangeOrder a.accumulators ≠ [] := by
    intro h
    rw [h] at hp
    exact hne hp.symm.eq_nil
  have hpos' : ∀ e ∈ env.rangeOrder a.accumulators, 0 < e.2.WindowStart :=
    fun e he => hpos e (hp.mem_iff.mp he)
  obtain ⟨⟨e, he, hem⟩, hle⟩ := minOpenWindowStart_spec _ hne' hpos'
  have hmpos : 0 < minOpenWindowStart (env.rangeOrder a.accumulators) := by
    rw [← hem]; exact hpos' e he
  have hval : a.saveValue env + 1 = minOpenWindowStart (env.rangeOrder a.accumulators) := by
    unfold Aggregator.saveValue
    have hlen : ¬ a.accumulators.length = 0 := by
      rw [List.length_eq_zero]; exact hne
    rw [if_neg hlen]
    simp only [hmpos, if_true, hrf]
    split_ifs with h0
    · omega
    · omega
  rw [hval]
  exact ⟨⟨e, hp.mem_iff.mp he, hem⟩, fun x hx => hle x (hp.mem_iff.mpr hx)⟩

theorem persistIfFull_trace (env : Env) (st : RunState) (store : StateStore)
    (hacc : StoresAccept env st.a.cfg) (hs : st.a.cfg.StateStore = some store) :
    ∃ st1, st.persistIfFull env = Except.ok st1 ∧ st1.a = st.a ∧
      ((st1.calls = st.calls ∧ st1.batch = st.batch) ∨
        ∃ mid, st1.calls = st.calls ++ mid ++ [StoreCall.Save (st.a.saveValue env)] ∧
          savedValues mid = [] ∧ metricRows mid = st.batch ∧ st1.batch = []) := by
  unfold RunState.persistIfFull
  split_ifs
  · obtain ⟨mid, hmid, hrows, hsaved⟩ := flushBatches_mid env st.a.cfg hacc st.batch st.pools st.calls
    rw [hmid]
    simp only
    unfold Aggregator.saveState
    have hsf := hacc.2.2 store hs
    simp only [hs, hsf, Bool.false_eq_true, if_false]
    exact ⟨_, rfl, rfl, Or.inr ⟨mid, rfl, hsaved, hrows, rfl⟩⟩
  · exact ⟨st, rfl, rfl, Or.inl ⟨rfl, rfl⟩⟩

theorem aggregate_batch (env : Env) (st : RunState) (r : TypedEventRecord)
    (hc : CacheOk env st.a) :
    (st.aggregate env r).1.batch = st.batch ++ st.closing env r := by
  have he := rolled_emitted env st r hc
  rw [aggregate_eq]
  cases hadd : ((st.target r).AddEvent r).2 with
  | none => exact he.1
  | some e => exact he.1

/-- One record that passes the cut-off, seen through the trace of store calls. -/
theorem processLine_trace (env : Env) (startTs : Nat) (st : RunState) (r : TypedEventRecord)
    (store : StateStore) (hacc : StoresAccept env st.a.cfg) (hc : CacheOk env st.a)
    (hs : st.a.cfg.StateStore = some store) (hlt : startTs < r.Timestamp) :
    ∃ st1, processLine env startTs st (Line.record r) = Except.ok st1 ∧ CacheOk env st1.a ∧
      st1.a.cfg = st.a.cfg ∧
      st1.a.accumulators =
        mapSet st.a.accumulators (poolKey r.Address) ((st.target r).AddEvent r).1 ∧
      ((st1.calls = st.calls ∧ st1.batch = st.batch ++ st.closing env r) ∨
        ∃ mid, st1.calls = st.calls ++ mid ++ [StoreCall.Save (st1.a.saveValue env)] ∧
          savedValues mid = [] ∧ metricRows mid = st.batch ++ st.closing env r ∧
          st1.batch = []) := by
  have hskip : ¬ r.Timestamp ≤ startTs := by omega
  have hagg := aggregate_fields env { st with total := st.total + 1 } r
  have hem := aggregate_emitted env { st with total := st.total + 1 } r hc
  have hb := aggregate_batch env { st with total := st.total + 1 } r hc
  simp only [processLine, hskip, if_false]
  cases he : (RunState.aggregate env { st with total := st.total + 1 } r).2 with
  | some e =>
    exact ⟨_, rfl, hem.2, hagg.1, hagg.2.2.2.2.2, Or.inl ⟨hagg.2.1, hb⟩⟩
  | none =>
    simp only
    obtain ⟨st1, hst1, ha, hcases⟩ := persistIfFull_trace env
      (RunState.aggregate env { st with total := st.total + 1 } r).1 store
      (by rw [hagg.1]; exact hacc) (by rw [hagg.1]; exact hs)
    refine ⟨st1, hst1, by rw [ha]; exact hem.2, by rw [ha]; exact hagg.1,
      by rw [ha]; exact hagg.2.2.2.2.2, ?_⟩
    rcases hcases with ⟨h1, h2⟩ | ⟨mid, h1, h2, h3, h4⟩
    · exact Or.inl ⟨by rw [h1]; exact hagg.2.1, by rw [h2]; exact hb⟩
    · refine Or.inr ⟨mid, ?_, h2, by rw [h3]; exact hb, h4⟩
      rw [h1, hagg.2.1, ha]

theorem windowStart_mono (a b W : Nat) (h : a ≤ b) : windowStart a W ≤ windowStart b W := by
  unfold windowStart
  have ha : a - a % W = W * (a / W) := by
    have := Nat.div_add_mod a W
    omega
  have hb : b - b % W = W * (b / W) := by
    have := Nat.div_add_mod b W
    omega
  rw [ha, hb]
  exact Nat.mul_le_mul_left W (Nat.div_le_div_right h)

theorem windowStart_ge (t W : Nat) (h : W ≤ t) : W ≤ windowStart t W := by
  have h1 := windowStart_mono W t W h
  have h2 : windowStart W W = W := by
    unfold windowStart
    rw [Nat.mod_self]; rfl
  omega

theorem closing_mem (env : Env) (st : RunState) (r : TypedEventRecord) (row : PoolWindowMetrics)
    (h : row ∈ st.closing env r) :
    ∃ e ∈ st.a.accumulators, rowOf env st.a.cfg.WindowSeconds e.2 = some row := by
  unfold RunState.closing at h
  cases hm : mapGet st.a.accumulators (poolKey r.Address) with
  | none => rw [hm] at h; cases h
  | some acc =>
    rw [hm] at h
    simp only at h
    split_ifs at h with hw
    · refine ⟨(poolKey r.Address, acc), mapGet_some_mem _ _ _ hm, ?_⟩
      cases hrow : rowOf env st.a.cfg.WindowSeconds acc with
      | none => rw [hrow] at h; cases h
      | some row' =>
        rw [hrow] at h
        simp only [Option.toList, List.mem_singleton] at h
        rw [h]
    · cases h

/-- A record that passes the cut-off keeps every save of the trace a safe
watermark, in a run started with `RecomputeFrom = 0` over records in
timestamp order. -/
theorem safe_step (env : Env) (W hi : Nat) (st st1 : RunState) (r : TypedEventRecord)
    (hW : st.a.cfg.WindowSeconds = W) (hrf : st.a.cfg.RecomputeFrom = 0)
    (horder : ∀ l, (env.rangeOrder l).Perm l)
    (hok : AccsOk W hi st) (hsafe : SafeTrace env W hi st)
    (hhi : hi ≤ r.Timestamp) (hts : W ≤ r.Timestamp) (hWpos : 0 < W)
    (hbound : r.Timestamp < uint64Size)
    (hcfg : st1.a.cfg = st.a.cfg)
    (haccs : st1.a.accumulators =
      mapSet st.a.accumulators (poolKey r.Address) ((st.target r).AddEvent r).1)
    (htrace : (st1.calls = st.calls ∧ st1.batch = st.batch ++ st.closing env r) ∨
      ∃ mid, st1.calls = st.calls ++ mid ++ [StoreCall.Save (st1.a.saveValue env)] ∧
        savedValues mid = [] ∧ metricRows mid = st.batch ++ st.closing env r ∧
        st1.batch = []) :
    AccsOk W r.Timestamp st1 ∧ SafeTrace env W r.Timestamp st1 := by
  have hnewws : ((st.target r).AddEvent r).1.WindowStart = windowStart r.Timestamp W := by
    rw [(addEvent_static _ r).1, target_windowStart, hW]
  have hmono := windowStart_mono hi r.Timestamp W hhi
  have hwsle := windowStart_le r.Timestamp W
  have hwsge := windowStart_ge r.Timestamp W hts
  have hok1 : AccsOk W r.Timestamp st1 := by
    intro e he
    rw [haccs] at he
    rcases mem_mapSet _ _ _ _ he with he | he
    · rw [he]
      simp only
      rw [hnewws]
      exact ⟨windowStart_mod _ _, by omega, le_refl _, by omega⟩
    · obtain ⟨h1, h2, h3, h4⟩ := hok e he
      exact ⟨h1, h2, by omega, h4⟩
  have hnewmem : (poolKey r.Address, ((st.target r).AddEvent r).1) ∈ st1.a.accumulators := by
    rw [haccs]; exact mapSet_mem_self _ _ _
  -- rows closed by this record come from accumulators that were open
  have hclosing : ∀ s, (∀ e ∈ st.a.accumulators, s < e.2.WindowStart) →
      ∀ row ∈ st.closing env r, ∃ acc, rowOf env W acc = some row ∧ s < acc.WindowStart ∧
        acc.WindowStart < uint64Size := by
    intro s hs row hrow
    obtain ⟨e, he, hrowof⟩ := closing_mem env st r row hrow
    rw [hW] at hrowof
    exact ⟨e.2, hrowof, hs e he, (hok e he).2.2.2⟩
  -- a save that was already in the trace
  have hold : ∀ pre s post, st.calls = pre ++ StoreCall.Save s :: post →
      (s + 1) % W = 0 ∧ s < windowStart r.Timestamp W ∧
      (∀ e ∈ st1.a.accumulators, s < e.2.WindowStart) ∧
      ∀ row ∈ metricRows post ++ (st.batch ++ st.closing env r), ∃ acc,
        rowOf env W acc = some row ∧ s < acc.WindowStart ∧ acc.WindowStart < uint64Size := by
    intro pre s post hsplit
    obtain ⟨h1, h2, h3, h4⟩ := hsafe pre s post hsplit
    refine ⟨h1, by omega, ?_, ?_⟩
    · intro e he
      rw [haccs] at he
      rcases mem_mapSet _ _ _ _ he with he | he
      · rw [he]; simp only; rw [hnewws]; omega
      · exact h3 e he
    · intro row hrow
      rw [← List.append_assoc] at hrow
      rcases List.mem_append.mp hrow with hrow | hrow
      · exact h4 row hrow
      · exact hclosing s h3 row hrow
  refine ⟨hok1, ?_⟩
  intro pre s post hsplit
  rcases htrace with ⟨hcalls, hbatch⟩ | ⟨mid, hcalls, hmid, hrows, hbatch⟩
  · rw [hcalls] at hsplit
    rw [hbatch]
    exact hold pre s post hsplit
  · rw [hcalls] at hsplit
    rcases trace_split _ _ _ _ _ _ hmid hsplit with ⟨post0, h1, h2⟩ | ⟨pre1, -, h2⟩
    · obtain ⟨g1, g2, g3, g4⟩ := hold pre s post0 h1
      refine ⟨g1, g2, g3, ?_⟩
      rw [h2, hbatch, metricRows_append, metricRows_append, hrows, List.append_nil]
      have : metricRows [StoreCall.Save (st1.a.saveValue env)] = [] := rfl
      rw [this, List.append_nil]
      exact g4
    · -- the save just made
      have hs : s = st1.a.saveValue env ∧ post = [] := by
        cases pre1 with
        | nil =>
          simp only [List.nil_append, List.cons.injEq, StoreCall.Save.injEq] at h2
          exact ⟨h2.1.symm, h2.2.symm⟩
        | cons c rest =>
          simp only [List.cons_append, List.cons.injEq] at h2
          have := congrArg List.length h2.2
          simp at this
          omega
      obtain ⟨⟨e, he, hem⟩, hle⟩ := saveValue_fresh env st1.a horder
        (List.ne_nil_of_mem hnewmem) (fun e he => (hok1 e he).2.1) (by rw [hcfg]; exact hrf)
      rw [hs.1, hs.2, hbatch]
      refine ⟨?_, ?_, ?_, ?_⟩
      · rw [← hem]; exact (hok1 e he).1
      · have := hle _ hnewmem
        simp only at this
        rw [hnewws] at this
        omega
      · intro x hx
        have := hle x hx
        omega
      · intro row hrow
        simp [metricRows] at hrow

theorem recordsOf_cons (line : Line) (rest : List Line) :
    recordsOf (line :: rest) =
      (match line with
        | Line.record r => [r]
        | _ => []) ++ recordsOf rest := by
  cases line <;> rfl

/-- Over records in timestamp order, all at or after the first full window, a
run started with `RecomputeFrom = 0` keeps every save a safe watermark. -/
theorem runLoop_safe (env : Env) (W : Nat) (store : StateStore) (hWpos : 0 < W)
    (horder : ∀ l, (env.rangeOrder l).Perm l) (input : List Line) :
    ∀ (st : RunState) (hi : Nat), st.a.cfg.WindowSeconds = W → st.a.cfg.RecomputeFrom = 0 →
      st.a.cfg.StateStore = some store → StoresAccept env st.a.cfg → CacheOk env st.a →
      (recordsOf input).Pairwise (fun r1 r2 => r1.Timestamp ≤ r2.Timestamp) →
      (∀ r ∈ recordsOf input, hi ≤ r.Timestamp ∧ W ≤ r.Timestamp ∧ r.Timestamp < uint64Size) →
      hi < uint64Size → AccsOk W hi st → SafeTrace env W hi st →
      ∀ st1, runLoop env 0 st input = Except.ok st1 →
        ∃ hi1, hi1 < uint64Size ∧ AccsOk W hi1 st1 ∧ SafeTrace env W hi1 st1 ∧
          CacheOk env st1.a ∧ st1.a.cfg = st.a.cfg := by
  induction input with
  | nil =>
    intro st hi _ _ _ _ hc _ _ hhi hok hsafe st1 hrun
    simp only [runLoop, Except.ok.injEq] at hrun
    subst hrun
    exact ⟨hi, hhi, hok, hsafe, hc, rfl⟩
  | cons line rest ih =>
    intro st hi hW hrf hs hacc hc hsorted hts hhi hok hsafe st1 hrun
    rw [recordsOf_cons] at hsorted hts
    rw [runLoop] at hrun
    cases line with
    | blank =>
      simp only [processLine] at hrun
      exact ih st hi hW hrf hs hacc hc (by simpa using hsorted) (by simpa using hts) hhi hok hsafe
        st1 hrun
    | malformed =>
      simp only [processLine] at hrun
      exact ih { st with total := st.total + 1, failed := st.failed + 1 } hi hW hrf hs hacc hc
        (by simpa using hsorted) (by simpa using hts) hhi hok hsafe st1 hrun
    | record r =>
      simp only [List.singleton_append, List.pairwise_cons] at hsorted
      have hr := hts r (by simp)
      have hlt : 0 < r.Timestamp := by omega
      obtain ⟨st2, hstep, hc2, hcfg2, haccs2, htrace2⟩ :=
        processLine_trace env 0 st r store hacc hc hs hlt
      rw [hstep] at hrun
      simp only at hrun
      have hstep2 := safe_step env W hi st st2 r hW hrf horder hok hsafe hr.1 hr.2.1 hWpos
        hr.2.2 hcfg2 haccs2 htrace2
      obtain ⟨hi1, h1, h2, h3, h4, h5⟩ := ih st2 r.Timestamp (by rw [hcfg2]; exact hW)
        (by rw [hcfg2]; exact hrf) (by rw [hcfg2]; exact hs) (by rw [hcfg2]; exact hacc) hc2
        hsorted.2
        (fun x hx => ⟨hsorted.1 x hx, (hts x (by simp [hx])).2⟩)
        hr.2.2 hstep2.1 hstep2.2 st1 hrun
      exact ⟨hi1, h1, h2, h3, h4, by rw [h5, hcfg2]⟩

/-- After the drain and the final save, every save of the trace but the last
is a safe watermark, and the last one is `maxTs`. -/
theorem finishRun_safe (env : Env) (W hi : Nat) (store : StateStore) (st st1 : RunState)
    (horder : ∀ l, (env.rangeOrder l).Perm l) (hW : st.a.cfg.WindowSeconds = W)
    (hs : st.a.cfg.StateStore = some store) (hacc : StoresAccept env st.a.cfg)
    (hc : CacheOk env st.a) (hhi : hi < uint64Size) (hok : AccsOk W hi st)
    (hsafe : SafeTrace env W hi st) (hfin : finishRun env st = Except.ok st1) :
    ∀ pre s post, st1.calls = pre ++ StoreCall.Save s :: post →
      ((s + 1) % W = 0 ∧ s + 1 < uint64Size ∧
        ∀ row ∈ metricRows post, ∃ acc, rowOf env W acc = some row ∧
          s < acc.WindowStart ∧ acc.WindowStart < uint64Size) ∨
      (post = [] ∧ s = st.maxTs) := by
  obtain ⟨st2, mid, hfin2, hcalls, hmid, hrows⟩ := finishRun_rows env st hacc hc
  rw [hfin] at hfin2
  simp only [Except.ok.injEq] at hfin2
  subst hfin2
  rw [hs] at hcalls
  simp only at hcalls
  intro pre s post hsplit
  rw [hcalls] at hsplit
  rcases trace_split _ _ _ _ _ _ hmid hsplit with ⟨post0, h1, h2⟩ | ⟨pre1, -, h2⟩
  · left
    obtain ⟨g1, g2, g3, g4⟩ := hsafe pre s post0 h1
    have hle := windowStart_le hi W
    refine ⟨g1, by omega, ?_⟩
    intro row hrow
    rw [h2, metricRows_append, metricRows_append, hrows] at hrow
    have : metricRows [StoreCall.Save st.maxTs] = [] := rfl
    rw [this, List.append_nil, ← List.append_assoc] at hrow
    rcases List.mem_append.mp hrow with hrow | hrow
    · exact g4 row hrow
    · obtain ⟨e, he, hrowof⟩ := List.mem_filterMap.mp hrow
      have he' := (horder _).mem_iff.mp he
      rw [hW] at hrowof
      exact ⟨e.2, hrowof, g3 e he', (hok e he').2.2.2⟩
  · right
    cases pre1 with
    | nil =>
      simp only [List.nil_append, List.cons.injEq, StoreCall.Save.injEq] at h2
      exact ⟨h2.2.symm, h2.1.symm⟩
    | cons c rest =>
      simp only [List.cons_append, List.cons.injEq] at h2
      have := congrArg List.length h2.2
      simp at this
      omega

/-! ## Groups above a watermark -/

theorem windowStart_self_of_mod (t W : Nat) (h : t % W = 0) : windowStart t W = t := by
  unfold windowStart
  rw [h]; rfl

theorem windowStart_gt_iff (s t W : Nat) (hs : (s + 1) % W = 0) :
    s < windowStart t W ↔ s < t := by
  constructor
  · intro h
    have := windowStart_le t W
    omega
  · intro h
    have h1 := windowStart_mono (s + 1) t W h
    rw [windowStart_self_of_mod _ _ hs] at h1
    omega

theorem groupByRows_filter (env : Env) (W s : Nat) (rs : List TypedEventRecord)
    (hs : (s + 1) % W = 0) :
    (groupByRows env W (rs.filter (fun r => decide (s < r.Timestamp)))).Perm
      (((groupKeys W rs).filter (fun key => decide (s < key.2))).filterMap
        (groupRow env W rs)) := by
  have hmemk : ∀ key, key ∈ groupKeys W (rs.filter (fun r => decide (s < r.Timestamp))) ↔
      key ∈ (groupKeys W rs).filter (fun key => decide (s < key.2)) := by
    intro key
    rw [mem_groupKeys, List.mem_filter, mem_groupKeys]
    constructor
    · rintro ⟨r, hr, hk⟩
      obtain ⟨hr1, hr2⟩ := List.mem_filter.mp hr
      refine ⟨⟨r, hr1, hk⟩, ?_⟩
      have hlt : s < r.Timestamp := by simpa using hr2
      have := (windowStart_gt_iff s r.Timestamp W hs).mpr hlt
      rw [← hk]
      simpa [groupKey] using this
    · rintro ⟨⟨r, hr, hk⟩, hlt⟩
      refine ⟨r, List.mem_filter.mpr ⟨hr, ?_⟩, hk⟩
      have hlt' : s < key.2 := by simpa using hlt
      rw [← hk] at hlt'
      have := (windowStart_gt_iff s r.Timestamp W hs).mp hlt'
      simpa using this
  have hkeys : (groupKeys W (rs.filter (fun r => decide (s < r.Timestamp)))).Perm
      ((groupKeys W rs).filter (fun key => decide (s < key.2))) := by
    rw [List.perm_ext_iff_of_nodup]
    · exact hmemk
    · unfold groupKeys; exact List.nodup_dedup _
    · unfold groupKeys; exact (List.nodup_dedup _).filter _
  have hrow : ∀ key ∈ groupKeys W (rs.filter (fun r => decide (s < r.Timestamp))),
      groupRow env W (rs.filter (fun r => decide (s < r.Timestamp))) key =
        groupRow env W rs key := by
    intro key hkey
    have hlt : s < key.2 := by
      have := (List.mem_filter.mp ((hmemk key).mp hkey)).2
      simpa using this
    unfold groupRow groupOf
    rw [List.filter_filter]
    congr 2
    apply List.filter_congr
    intro r _
    by_cases hk : groupKey W r = key
    · have h2 : s < windowStart r.Timestamp W := by
        have := congrArg Prod.snd hk
        simp only [groupKey] at this
        omega
      have := (windowStart_gt_iff s r.Timestamp W hs).mp h2
      simp [hk, this]
    · simp [hk]
  unfold groupByRows
  rw [List.filterMap_congr hrow]
  exact hkeys.filterMap _

/-! ## The metrics table -/

theorem mem_upsertRow (row x : PoolWindowMetrics) (table : List PoolWindowMetrics)
    (hinj : ∀ t ∈ table, rowKey t = rowKey row → t = row) :
    x ∈ upsertRow table row ↔ x ∈ table ∨ x = row := by
  induction table with
  | nil => simp [upsertRow]
  | cons old rest ih =>
    rw [upsertRow]
    by_cases hk : rowKey old = rowKey row
    · rw [if_pos hk]
      have hold := hinj old (List.mem_cons_self _ _) hk
      rw [hold]
      simp only [List.mem_cons]
      tauto
    · rw [if_neg hk]
      simp only [List.mem_cons]
      rw [ih (fun t ht => hinj t (List.mem_cons_of_mem _ ht))]
      tauto

/-- Upserting rows among which a key determines the row leaves exactly the
rows upserted, next to those of the table. -/
theorem mem_upsertAll (x : PoolWindowMetrics) (rows : List PoolWindowMetrics) :
    ∀ table : List PoolWindowMetrics,
      (∀ a b, (a ∈ table ∨ a ∈ rows) → (b ∈ table ∨ b ∈ rows) → rowKey a = rowKey b → a = b) →
      (x ∈ upsertAll table rows ↔ x ∈ table ∨ x ∈ rows) := by
  induction rows with
  | nil => intro table _; simp [upsertAll]
  | cons row rest ih =>
    intro table hinj
    have h1 := mem_upsertRow row
    unfold upsertAll at ih ⊢
    rw [List.foldl_cons, ih]
    · rw [mem_upsertRow row x table
        (fun t ht hk => hinj t row (Or.inl ht) (Or.inr (List.mem_cons_self _ _)) hk)]
      simp only [List.mem_cons]
      tauto
    · intro a b ha hb hk
      have ha' : a ∈ table ∨ a ∈ row :: rest := by
        rcases ha with ha | ha
        · rcases (mem_upsertRow row a table
            (fun t ht hk => hinj t row (Or.inl ht) (Or.inr (List.mem_cons_self _ _)) hk)).mp ha
            with h | h
          · exact Or.inl h
          · exact Or.inr (h ▸ List.mem_cons_self _ _)
        · exact Or.inr (List.mem_cons_of_mem _ ha)
      have hb' : b ∈ table ∨ b ∈ row :: rest := by
        rcases hb with hb | hb
        · rcases (mem_upsertRow row b table
            (fun t ht hk => hinj t row (Or.inl ht) (Or.inr (List.mem_cons_self _ _)) hk)).mp hb
            with h | h
          · exact Or.inl h
          · exact Or.inr (h ▸ List.mem_cons_self _ _)
        · exact Or.inr (List.mem_cons_of_mem _ hb)
      exact hinj a b ha' hb' hk

theorem toInt64_inj (a b : Nat) (ha : a < uint64Size) (hb : b < uint64Size)
    (h : toInt64 a = toInt64 b) : a = b := by
  unfold toInt64 at h
  rw [Nat.mod_eq_of_lt ha, Nat.mod_eq_of_lt hb] at h
  unfold uint64Size at ha hb
  split_ifs at h <;> omega

theorem rowOf_fields (env : Env) (W : Nat) (acc : Accumulator) (row : PoolWindowMetrics)
    (h : rowOf env W acc = some row) :
    row.PoolAddress = acc.PoolAddress ∧ row.WindowStart = toInt64 acc.WindowStart := by
  unfold rowOf at h
  split_ifs at h
  simp only [Option.some.injEq] at h
  rw [← h]
  exact ⟨rfl, rfl⟩

theorem groupRow_fields (env : Env) (W : Nat) (rs : List TypedEventRecord) (key : String × Nat)
    (row : PoolWindowMetrics) (h : groupRow env W rs key = some row) :
    poolKey row.PoolAddress = key.1 ∧ row.WindowStart = toInt64 key.2 ∧
    ∃ acc, rowOf env W acc = some row ∧ acc.WindowStart = key.2 := by
  unfold groupRow at h
  cases hf : foldGroup W (groupOf W rs key) with
  | none => rw [hf] at h; cases h
  | some acc =>
    rw [hf, Option.some_bind] at h
    have hk := foldGroup_key W _ key acc hf (groupOf_key W rs key)
    have hr := rowOf_fields env W acc row h
    exact ⟨by rw [hr.1]; exact hk.2, by rw [hr.2, hk.1], acc, h, hk.1⟩

/-- Among the rows of the group-by reference the primary key determines the row. -/
theorem groupByRows_key_inj (env : Env) (W : Nat) (rs : List TypedEventRecord)
    (hb : ∀ r ∈ rs, r.Timestamp < uint64Size) (a b : PoolWindowMetrics)
    (ha : a ∈ groupByRows env W rs) (hb' : b ∈ groupByRows env W rs)
    (hk : rowKey a = rowKey b) : a = b := by
  unfold groupByRows at ha hb'
  obtain ⟨k1, hk1, hr1⟩ := List.mem_filterMap.mp ha
  obtain ⟨k2, hk2, hr2⟩ := List.mem_filterMap.mp hb'
  have f1 := groupRow_fields env W rs k1 a hr1
  have f2 := groupRow_fields env W rs k2 b hr2
  have hbound : ∀ k ∈ groupKeys W rs, k.2 < uint64Size := by
    intro k hkm
    obtain ⟨r, hr, hrk⟩ := (mem_groupKeys W rs k).mp hkm
    have := hb r hr
    have h2 := windowStart_le r.Timestamp W
    rw [← hrk]
    simp only [groupKey]
    omega
  unfold rowKey at hk
  simp only [Prod.mk.injEq] at hk
  have hkeys : k1 = k2 := by
    apply Prod.ext
    · rw [← f1.1, ← f2.1, hk.2.1]
    · apply toInt64_inj _ _ (hbound k1 hk1) (hbound k2 hk2)
      rw [← f1.2.1, ← f2.2.1, hk.2.2.2]
  rw [hkeys, hr2] at hr1
  exact (Option.some.inj hr1).symm

/-! ## Resumability -/

theorem foldl_max_bounds (l : List Nat) :
    ∀ init : Nat, init ≤ l.foldl max init ∧ (∀ x ∈ l, x ≤ l.foldl max init) ∧
      ∀ B, init + 1 < B → (∀ x ∈ l, x + 1 < B) → l.foldl max init + 1 < B := by
  induction l with
  | nil => intro init; simp
  | cons a rest ih =>
    intro init
    obtain ⟨h1, h2, h3⟩ := ih (max init a)
    simp only [List.foldl_cons]
    refine ⟨le_trans (le_max_left _ _) h1, ?_, ?_⟩
    · intro x hx
      rcases List.mem_cons.mp hx with hx | hx
      · rw [hx]; exact le_trans (le_max_right _ _) h1
      · exact h2 x hx
    · intro B hB hall
      apply h3 B
      · have := hall a (List.mem_cons_self _ _)
        rcases max_cases init a with ⟨h, -⟩ | ⟨h, -⟩ <;> rw [h] <;> omega
      · intro x hx; exact hall x (List.mem_cons_of_mem _ hx)

/-- The two phases of `Run` for an aggregator that has its store and client. -/
theorem run_phases (env : Env) (cfg : Config) (input : List Line) (startTs : Nat)
    (st : RunState) (hW : cfg.WindowSeconds ≠ 0)
    (hstart : (NewAggregator cfg true true).loadStartTimestamp = Except.ok startTs)
    (hrun : (NewAggregator cfg true true).Run env input = Except.ok st) :
    ∃ (a1 : Aggregator) (st1 : RunState), a1.cfg.WindowSeconds = cfg.WindowSeconds ∧
      a1.cfg.RecomputeFrom = cfg.RecomputeFrom ∧ a1.cfg.StateStore = cfg.StateStore ∧
      a1.accumulators = [] ∧ a1.decimals = [] ∧
      runLoop env startTs
        { a := a1, batch := [], pools := [], maxTs := startTs,
          total := 0, decoded := 0, skipped := 0, failed := 0, calls := [] } input =
        Except.ok st1 ∧
      finishRun env st1 = Except.ok st := by
  unfold Aggregator.Run at hrun
  simp only [NewAggregator, Bool.true_eq_false, if_false, hW] at hrun
  by_cases hb : cfg.BatchSize ≤ 0
  · simp only [hb, if_true] at hrun
    have hl : Aggregator.loadStartTimestamp
        { cfg := { cfg with BatchSize := 1000 }, hasStore := true, hasChainClient := true,
          decimals := [], accumulators := [], poolSeen := [] } = Except.ok startTs := hstart
    rw [hl] at hrun
    simp only at hrun
    split at hrun
    · cases hrun
    · rename_i st1 hloop
      exact ⟨_, st1, rfl, rfl, rfl, rfl, rfl, hloop, hrun⟩
  · simp only [hb, if_false] at hrun
    have hl : Aggregator.loadStartTimestamp
        { cfg := cfg, hasStore := true, hasChainClient := true,
          decimals := [], accumulators := [], poolSeen := [] } = Except.ok startTs := hstart
    rw [hl] at hrun
    simp only at hrun
    split at hrun
    · cases hrun
    · rename_i st1 hloop
      exact ⟨_, st1, rfl, rfl, rfl, rfl, rfl, hloop, hrun⟩

/-- Every save of a run started from state 0 over well-formed records in
timestamp order is a safe watermark or the final `maxTs`, which no record
exceeds. -/
theorem run_saves (env : Env) (cfg : Config) (input : List Line) (store : StateStore)
    (st : RunState) (hW : 0 < cfg.WindowSeconds) (hrf : cfg.RecomputeFrom = 0)
    (hs : cfg.StateStore = some store) (hload : store.load.ok = false ∧ store.load.failed = false)
    (hacc : StoresAccept env cfg) (horder : ∀ l, (env.rangeOrder l).Perm l)
    (hsorted : (recordsOf input).Pairwise (fun r1 r2 => r1.Timestamp ≤ r2.Timestamp))
    (hts : ∀ r ∈ recordsOf input, cfg.WindowSeconds ≤ r.Timestamp ∧ r.Timestamp + 1 < uint64Size)
    (hwf : ∀ r ∈ recordsOf input, addSucceeds r = true)
    (hrun : (NewAggregator cfg true true).Run env input = Except.ok st) :
    ∀ pre s post, st.calls = pre ++ StoreCall.Save s :: post →
      s + 1 < uint64Size ∧
      (((s + 1) % cfg.WindowSeconds = 0 ∧
        ∀ row ∈ metricRows post, ∃ acc, rowOf env cfg.WindowSeconds acc = some row ∧
          s < acc.WindowStart ∧ acc.WindowStart < uint64Size) ∨
      (post = [] ∧ ∀ r ∈ recordsOf input, r.Timestamp ≤ s)) := by
  have hstart : (NewAggregator cfg true true).loadStartTimestamp = Except.ok 0 := by
    unfold Aggregator.loadStartTimestamp
    simp [NewAggregator, hrf, hs, hload.1, hload.2]
  obtain ⟨a1, st1, hW1, hrf1, hs1, hacc1, hdec1, hloop, hfin⟩ :=
    run_phases env cfg input 0 st (by omega) hstart hrun
  have hc0 : CacheOk env a1 := by
    intro addr d h
    rw [hdec1] at h
    simp [mapGet] at h
  have hacc' : StoresAccept env a1.cfg := ⟨hacc.1, hacc.2.1, by rw [hs1]; exact hacc.2.2⟩
  obtain ⟨hi1, hhi1, hok1, hsafe1, hc1, hcfg1⟩ := runLoop_safe env cfg.WindowSeconds store hW horder
    input _ 0 hW1 (by rw [hrf1]; exact hrf) (by rw [hs1]; exact hs) hacc' hc0 hsorted
    (fun r hr => ⟨Nat.zero_le _, (hts r hr).1, by have := (hts r hr).2; omega⟩)
    (by unfold uint64Size; omega)
    (by intro e he; simp only [hacc1] at he; cases he)
    (by intro pre s post h; simp at h)
    st1 hloop
  have hmax := runLoop_maxTs env 0 input _ st1 hloop
  simp only at hcfg1
  have hfs := finishRun_safe env cfg.WindowSeconds hi1 store st1 st horder
    (by rw [hcfg1]; exact hW1) (by rw [hcfg1, hs1]; exact hs) (by rw [hcfg1]; exact hacc')
    hc1 hhi1 hok1 hsafe1 hfin
  intro pre s post hsplit
  rcases hfs pre s post hsplit with ⟨h1, h2, h3⟩ | ⟨h1, h2⟩
  · exact ⟨h2, Or.inl ⟨h1, h3⟩⟩
  · have hfilter : (recordsOf input).filter
        (fun r => decide (0 < r.Timestamp) && addSucceeds r) = recordsOf input := by
      rw [List.filter_eq_self]
      intro r hr
      have h1 := (hts r hr).1
      have h2 := hwf r hr
      simp only [Bool.and_eq_true, decide_eq_true_eq]
      exact ⟨by omega, h2⟩
    have hmaxeq : s = ((recordsOf input).map (fun r => r.Timestamp)).foldl max 0 := by
      rw [h2, hmax.2, hfilter]
    obtain ⟨-, hb2, hb3⟩ := foldl_max_bounds ((recordsOf input).map (fun r => r.Timestamp)) 0
    refine ⟨?_, Or.inr ⟨h1, ?_⟩⟩
    · rw [hmaxeq]
      apply hb3
      · unfold uint64Size; omega
      · intro x hx
        obtain ⟨r, hr, hrx⟩ := List.mem_map.mp hx
        rw [← hrx]; exact (hts r hr).2
    · intro r hr
      rw [hmaxeq]
      exact hb2 _ (List.mem_map.mpr ⟨r, hr, rfl⟩)

theorem sorted_poolMonotone (W : Nat) (rs : List TypedEventRecord)
    (h : rs.Pairwise (fun r1 r2 => r1.Timestamp ≤ r2.Timestamp)) : PoolMonotone W rs := by
  unfold PoolMonotone
  refine List.Pairwise.imp ?_ h
  intro a b hle _
  exact windowStart_mono _ _ W hle

/-- C1, amended: take stores that accept every call, and an input whose records
are in non-decreasing timestamp order, have timestamps at least one window
size and below `2 ^ 64 - 1`, and are all accepted by `AddEvent`.  A run from
state 0 (`RecomputeFrom = 0`, empty state store) returns; and for every value
`s` it saves, at a batch boundary or at termination, `s + 1` is a 64-bit value,
the run over the same input with `RecomputeFrom = s + 1` returns, and upserting
its rows on top of the rows persisted before that save gives the same set of
rows as the uninterrupted run. -/
theorem resumability (env : Env) (cfg : Config) (input : List Line) (store : StateStore)
    (hW : 0 < cfg.WindowSeconds) (hrf : cfg.RecomputeFrom = 0)
    (hs : cfg.StateStore = some store) (hload : store.load.ok = false ∧ store.load.failed = false)
    (hacc : StoresAccept env cfg) (horder : ∀ l, (env.rangeOrder l).Perm l)
    (hsorted : (recordsOf input).Pairwise (fun r1 r2 => r1.Timestamp ≤ r2.Timestamp))
    (hts : ∀ r ∈ recordsOf input, cfg.WindowSeconds ≤ r.Timestamp ∧ r.Timestamp + 1 < uint64Size)
    (hwf : ∀ r ∈ recordsOf input, addSucceeds r = true) :
    ∃ stU, (NewAggregator cfg true true).Run env input = Except.ok stU ∧
      ∀ pre s post, stU.calls = pre ++ StoreCall.Save s :: post →
        s + 1 < uint64Size ∧
        ∃ stR, (NewAggregator { cfg with RecomputeFrom := s + 1 } true true).Run env input =
            Except.ok stR ∧
          ∀ row, row ∈ upsertAll (upsertAll [] (metricRows pre)) (metricRows stR.calls) ↔
            row ∈ upsertAll [] (metricRows stU.calls) := by
  have hWne : cfg.WindowSeconds ≠ 0 := by omega
  have hstart : (NewAggregator cfg true true).loadStartTimestamp = Except.ok 0 := by
    unfold Aggregator.loadStartTimestamp
    simp [NewAggregator, hrf, hs, hload.1, hload.2]
  have hall : passing 0 input = recordsOf input := by
    unfold passing
    rw [List.filter_eq_self]
    intro r hr
    have := (hts r hr).1
    simp only [decide_eq_true_eq]
    omega
  have hbound : ∀ r ∈ recordsOf input, r.Timestamp < uint64Size :=
    fun r hr => by have := (hts r hr).2; omega
  -- the uninterrupted run
  obtain ⟨stU, hrunU, hpermU⟩ := run_groupBy env cfg input 0 hWne hstart hacc horder
    (by rw [hall]; exact sorted_poolMonotone _ _ hsorted)
  rw [hall] at hpermU
  have hsaves := run_saves env cfg input store stU hW hrf hs hload hacc horder hsorted hts hwf hrunU
  have hinjU : ∀ a b, a ∈ metricRows stU.calls → b ∈ metricRows stU.calls →
      rowKey a = rowKey b → a = b := by
    intro a b ha hb hk
    exact groupByRows_key_inj env cfg.WindowSeconds (recordsOf input) hbound a b
      (hpermU.mem_iff.mp ha) (hpermU.mem_iff.mp hb) hk
  have htableU : ∀ row, row ∈ upsertAll [] (metricRows stU.calls) ↔
      row ∈ metricRows stU.calls := by
    intro row
    rw [mem_upsertAll row (metricRows stU.calls) []]
    · simp
    · intro a b ha hb hk
      simp only [List.not_mem_nil, false_or] at ha hb
      exact hinjU a b ha hb hk
  refine ⟨stU, hrunU, ?_⟩
  intro pre s post hsplit
  obtain ⟨hs1, hcase⟩ := hsaves pre s post hsplit
  refine ⟨hs1, ?_⟩
  -- the restarted run
  have hstartR : (NewAggregator { cfg with RecomputeFrom := s + 1 } true true).loadStartTimestamp =
      Except.ok s := by
    unfold Aggregator.loadStartTimestamp
    simp [NewAggregator]
  have haccR : StoresAccept env { cfg with RecomputeFrom := s + 1 } := ⟨hacc.1, hacc.2.1, hacc.2.2⟩
  have hpassR : passing s input = (recordsOf input).filter (fun r => decide (s < r.Timestamp)) := rfl
  obtain ⟨stR, hrunR, hpermR⟩ := run_groupBy env { cfg with RecomputeFrom := s + 1 } input s
    hWne hstartR haccR horder
    (by rw [hpassR]; exact sorted_poolMonotone _ _ (hsorted.filter _))
  refine ⟨stR, hrunR, ?_⟩
  have hUrows : metricRows stU.calls = metricRows pre ++ metricRows post := by
    rw [hsplit, metricRows_append]
    rfl
  rcases hcase with ⟨hmod, hpost⟩ | ⟨hpostnil, hle⟩
  · -- a save at a batch boundary
    have hR : (metricRows stR.calls).Perm
        (((groupKeys cfg.WindowSeconds (recordsOf input)).filter
          (fun key => decide (s < key.2))).filterMap
          (groupRow env cfg.WindowSeconds (recordsOf input))) := by
      refine hpermR.trans ?_
      rw [hpassR]
      exact groupByRows_filter env cfg.WindowSeconds s (recordsOf input) hmod
    have hRsub : ∀ row ∈ metricRows stR.calls, row ∈ metricRows stU.calls := by
      intro row hrow
      rw [hpermU.mem_iff]
      obtain ⟨key, hkey, hrk⟩ := List.mem_filterMap.mp (hR.mem_iff.mp hrow)
      exact List.mem_filterMap.mpr ⟨key, (List.mem_filter.mp hkey).1, hrk⟩
    have hPsub : ∀ row ∈ metricRows pre, row ∈ metricRows stU.calls := by
      intro row hrow
      rw [hUrows]; exact List.mem_append_left _ hrow
    have hpostR : ∀ row ∈ metricRows post, row ∈ metricRows stR.calls := by
      intro row hrow
      obtain ⟨acc, hrowof, hlt, hlt64⟩ := hpost row hrow
      have hinU : row ∈ metricRows stU.calls := by
        rw [hUrows]; exact List.mem_append_right _ hrow
      obtain ⟨key, hkey, hrk⟩ := List.mem_filterMap.mp (hpermU.mem_iff.mp hinU)
      have f1 := groupRow_fields env cfg.WindowSeconds (recordsOf input) key row hrk
      have f2 := rowOf_fields env cfg.WindowSeconds acc row hrowof
      have hk64 : key.2 < uint64Size := by
        obtain ⟨r, hr, hrk'⟩ := (mem_groupKeys _ _ key).mp hkey
        have := hbound r hr
        have h2 := windowStart_le r.Timestamp cfg.WindowSeconds
        rw [← hrk']
        simp only [groupKey]
        omega
      have hkeq : key.2 = acc.WindowStart :=
        toInt64_inj _ _ hk64 hlt64 (by rw [← f1.2.1, ← f2.2])
      rw [hR.mem_iff]
      exact List.mem_filterMap.mpr
        ⟨key, List.mem_filter.mpr ⟨hkey, by simp only [decide_eq_true_eq]; omega⟩, hrk⟩
    intro row
    rw [htableU row]
    have h1 : row ∈ upsertAll (upsertAll [] (metricRows pre)) (metricRows stR.calls) ↔
        row ∈ upsertAll [] (metricRows pre ++ metricRows stR.calls) := by
      unfold upsertAll
      rw [List.foldl_append]
    rw [h1, mem_upsertAll row (metricRows pre ++ metricRows stR.calls) []]
    · simp only [List.not_mem_nil, false_or, List.mem_append]
      constructor
      · rintro (h | h)
        · exact hPsub row h
        · exact hRsub row h
      · intro h
        rw [hUrows] at h
        rcases List.mem_append.mp h with h | h
        · exact Or.inl h
        · exact Or.inr (hpostR row h)
    · intro a b ha hb hk
      simp only [List.not_mem_nil, false_or, List.mem_append] at ha hb
      have ha' : a ∈ metricRows stU.calls := by
        rcases ha with h | h
        · exact hPsub a h
        · exact hRsub a h
      have hb' : b ∈ metricRows stU.calls := by
        rcases hb with h | h
        · exact hPsub b h
        · exact hRsub b h
      exact hinjU a b ha' hb' hk
  · -- the final save: every record is at or below it, the restart emits nothing
    have hnone : passing s input = [] := by
      rw [hpassR, List.filter_eq_nil_iff]
      intro r hr
      have := hle r hr
      simp only [decide_eq_true_eq]
      omega
    rw [hnone] at hpermR
    have hRnil : metricRows stR.calls = [] := by
      have : groupByRows env cfg.WindowSeconds [] = [] := rfl
      rw [this] at hpermR
      exact hpermR.eq_nil
    intro row
    rw [hRnil, hUrows, hpostnil]
    have : metricRows ([] : List StoreCall) = [] := rfl
    rw [this, List.append_nil]
    rfl

/-- C1 as stated fails: over an input that is in order within each pool but not
across pools (pool B's only swap, at time 5, comes after pool A's swaps at 100
and 110) the run saves 109 at its batch boundary, and the restart from 110
skips pool B's swap, so its rows upserted on top of those persisted before the
save lack pool B's window. -/
theorem resumability_needs_order :
    ¬ (∀ (input : List Line) (stU : RunState),
        (NewAggregator (sampleConfig 10 1 0) true true).Run sampleEnv input = Except.ok stU →
        ∀ pre s post, stU.calls = pre ++ StoreCall.Save s :: post →
          ∃ stR, (NewAggregator (sampleConfig 10 1 (s + 1)) true true).Run sampleEnv input =
              Except.ok stR ∧
            ∀ row, row ∈ upsertAll (upsertAll [] (metricRows pre)) (metricRows stR.calls) ↔
              row ∈ upsertAll [] (metricRows stU.calls)) := by
  intro h
  cases hU : (NewAggregator (sampleConfig 10 1 0) true true).Run sampleEnv unorderedInput with
  | error e =>
    have hne : callsOf ((NewAggregator (sampleConfig 10 1 0) true true).Run sampleEnv
        unorderedInput) ≠ [] := by decide
    rw [hU] at hne
    exact hne rfl
  | ok stU =>
    have hcU : stU.calls = callsOf ((NewAggregator (sampleConfig 10 1 0) true true).Run sampleEnv
        unorderedInput) := by rw [hU]; rfl
    obtain ⟨stR, hR, hiff⟩ := h unorderedInput stU hU
      ((callsOf ((NewAggregator (sampleConfig 10 1 0) true true).Run sampleEnv
        unorderedInput)).take 2) 109
      ((callsOf ((NewAggregator (sampleConfig 10 1 0) true true).Run sampleEnv
        unorderedInput)).drop 3) (by rw [hcU]; decide)
    have hcR : stR.calls = callsOf ((NewAggregator (sampleConfig 10 1 (109 + 1)) true true).Run
        sampleEnv unorderedInput) := by rw [hR]; rfl
    have hall : ∀ row ∈ upsertAll [] (metricRows stU.calls),
        row ∈ upsertAll (upsertAll [] (metricRows
          ((callsOf ((NewAggregator (sampleConfig 10 1 0) true true).Run sampleEnv
            unorderedInput)).take 2))) (metricRows stR.calls) :=
      fun row hr => (hiff row).mpr hr
    rw [hcU, hcR] at hall
    revert hall
    decide

theorem resumability_witness :
    (0 < 300 ∧
      (recordsOf sampleInput).Pairwise (fun r1 r2 => r1.Timestamp ≤ r2.Timestamp) ∧
      (∀ r ∈ recordsOf sampleInput, 300 ≤ r.Timestamp ∧ r.Timestamp + 1 < uint64Size) ∧
      (∀ r ∈ recordsOf sampleInput, addSucceeds r = true) ∧
      savedValues (callsOf ((NewAggregator (sampleConfig 300 1 0) true true).Run sampleEnv
        sampleInput)) = [1699999799, 1700000350]) ∧
    ∃ stU, (NewAggregator (sampleConfig 300 1 0) true true).Run sampleEnv sampleInput =
        Except.ok stU ∧
      ∀ pre s post, stU.calls = pre ++ StoreCall.Save s :: post →
        s + 1 < uint64Size ∧
        ∃ stR, (NewAggregator (sampleConfig 300 1 (s + 1)) true true).Run sampleEnv sampleInput =
            Except.ok stR ∧
          ∀ row, row ∈ upsertAll (upsertAll [] (metricRows pre)) (metricRows stR.calls) ↔
            row ∈ upsertAll [] (metricRows stU.calls) :=
  ⟨⟨by decide, by decide, by decide, by decide, by decide⟩,
    resumability sampleEnv (sampleConfig 300 1 0) sampleInput sampleStore (by decide) rfl rfl
      ⟨rfl, rfl⟩ (sampleStores_accept 300 1 0) (fun l => List.Perm.refl l) (by decide)
      (by decide) (by decide)⟩

/-- With timestamps before the first full window, a save made while an
accumulator of window 0 is open can skip that window: here the run saves 9
with pool A's window 0 open, and the restart from 10 never emits that row. -/
theorem resumability_window_zero :
    savedValues (callsOf ((NewAggregator (sampleConfig 10 1 0) true true).Run sampleEnv
      earlyInput)) = [9, 13] ∧
    ¬ (∀ row ∈ upsertAll [] (metricRows (callsOf
          ((NewAggregator (sampleConfig 10 1 0) true true).Run sampleEnv earlyInput))),
        row ∈ upsertAll (upsertAll [] (metricRows ((callsOf
          ((NewAggregator (sampleConfig 10 1 0) true true).Run sampleEnv earlyInput)).take 2)))
          (metricRows (callsOf
            ((NewAggregator (sampleConfig 10 1 (9 + 1)) true true).Run sampleEnv earlyInput)))) := by
  constructor <;> decide

/-- When the last record of a window fails in `AddEvent`, the final save is the
timestamp of the record before it, and the restart from that save rebuilds the
window from the failed record alone: the row with one swap is replaced by a row
with none. -/
theorem resumability_failed_add :
    savedValues (callsOf ((NewAggregator (sampleConfig 10 1000 0) true true).Run sampleEnv
      failedAddInput)) = [101] ∧
    ¬ (∀ row ∈ upsertAll [] (metricRows (callsOf
          ((NewAggregator (sampleConfig 10 1000 0) true true).Run sampleEnv failedAddInput))),
        row ∈ upsertAll (upsertAll [] (metricRows ((callsOf
          ((NewAggregator (sampleConfig 10 1000 0) true true).Run sampleEnv
            failedAddInput)).take 2)))
          (metricRows (callsOf
            ((NewAggregator (sampleConfig 10 1000 (101 + 1)) true true).Run sampleEnv
              failedAddInput)))) := by
  constructor <;> decide

/-! ## Fee rates and APR -/

theorem roundDiv_split (A B p : Nat) (hB : 0 < B) :
    roundDiv (A * p) B =
      A / B * p + (A % B * p) / B + (if B ≤ (A % B * p) % B + (A % B * p) % B then 1 else 0) := by
  unfold roundDiv
  have h1 := Nat.div_add_mod A B
  have h2 := Nat.div_add_mod (A % B * p) B
  have h3 : (A % B * p) % B < B := Nat.mod_lt _ hB
  have hA : A * p = B * (A / B * p + (A % B * p) / B) + (A % B * p) % B := by
    calc A * p = (B * (A / B) + A % B) * p := by rw [h1]
      _ = B * (A / B * p) + A % B * p := by ring
      _ = B * (A / B * p) + (B * ((A % B * p) / B) + (A % B * p) % B) := by rw [h2]
      _ = _ := by ring
  generalize A / B * p + (A % B * p) / B = X at hA ⊢
  generalize (A % B * p) % B = r2 at hA h3 ⊢
  rw [hA]
  split_ifs with hup
  · apply Nat.div_eq_of_lt_le
    · have : (X + 1) * (2 * B) = 2 * (B * X) + 2 * B := by ring
      rw [this]; omega
    · have : (X + 1 + 1) * (2 * B) = 2 * (B * X) + 4 * B := by ring
      rw [this]; omega
  · apply Nat.div_eq_of_lt_le
    · have : (X + 0) * (2 * B) = 2 * (B * X) := by ring
      rw [this]; omega
    · have : (X + 0 + 1) * (2 * B) = 2 * (B * X) + 2 * B := by ring
      rw [this]; omega

theorem replicate_zero_snoc (d : Nat) (hd : 0 < d) :
    List.replicate (d - (utoa 0).length) '0' ++ utoa 0 = List.replicate d '0' := by
  have h0 : utoa 0 = ['0'] := by decide
  rw [h0]
  obtain ⟨k, rfl⟩ : ∃ k, d = k + 1 := ⟨d - 1, by omega⟩
  simp only [List.length_singleton, Nat.add_sub_cancel]
  rw [List.replicate_succ']

/-- `FloatString` prints the fraction rounded to the nearest multiple of
`10 ^ (-d)`, halves away from zero, with the sign of the numerator. -/
theorem floatString_round (x : BigRat) (d : Nat) (hb : 0 < x.b) (hd : 0 < d) :
    x.FloatString d = fixedText (decide (x.a < 0)) (roundDiv (x.a.natAbs * 10 ^ d) x.b) d := by
  have hp : 0 < 10 ^ d := pow_pos (by norm_num) d
  rw [roundDiv_split _ _ _ hb]
  unfold BigRat.FloatString fixedText
  by_cases h1 : x.b = 1
  · simp only [h1, if_true, Nat.div_one, Nat.mod_one, Nat.zero_mul, Nat.zero_div, Nat.zero_mod,
      Nat.add_zero]
    have hno : ¬ (1 ≤ 0) := by omega
    simp only [hno, if_false, Nat.add_zero, Nat.mul_div_cancel _ hp, Nat.mul_mod_left, hd, if_true,
      replicate_zero_snoc d hd]
    congr 1
    unfold bigIntString
    by_cases hneg : x.a < 0 <;> simp [hneg]
  · simp only [h1, if_false, hd, if_true]
    have hr : x.a.natAbs % x.b < x.b := Nat.mod_lt _ hb
    have hr1 : (x.a.natAbs % x.b * 10 ^ d) / x.b < 10 ^ d := by
      rw [Nat.div_lt_iff_lt_mul hb]
      exact Nat.mul_lt_mul_of_pos_right hr hp |>.trans_eq (Nat.mul_comm _ _)
    generalize (x.a.natAbs % x.b * 10 ^ d) / x.b = r1 at hr1 ⊢
    generalize (x.a.natAbs % x.b * 10 ^ d) % x.b = r2
    generalize x.a.natAbs / x.b = q
    by_cases hup : x.b ≤ r2 + r2
    · simp only [hup, decide_True, if_true, Bool.true_and]
      by_cases hc : r1 + 1 ≥ 10 ^ d
      · have he : r1 + 1 = 10 ^ d := by omega
        have hn : q * 10 ^ d + r1 + 1 = (q + 1) * 10 ^ d := by rw [Nat.add_assoc, he]; ring
        simp only [hc, decide_True, if_true, hn, Nat.mul_div_cancel _ hp, Nat.mul_mod_left, he,
          Nat.sub_self]
        by_cases hneg : x.a < 0 <;> simp [hneg]
      · have hlt : r1 + 1 < 10 ^ d := by omega
        have hdiv : (q * 10 ^ d + r1 + 1) / 10 ^ d = q := by
          apply Nat.div_eq_of_lt_le
          · omega
          · have : (q + 1) * 10 ^ d = q * 10 ^ d + 10 ^ d := by ring
            rw [this]; omega
        have hmod : (q * 10 ^ d + r1 + 1) % 10 ^ d = r1 + 1 := by
          rw [Nat.add_assoc, Nat.mul_comm, Nat.mul_add_mod, Nat.mod_eq_of_lt hlt]
        simp only [hc, decide_False, if_false, hdiv, hmod, Bool.false_eq_true]
        by_cases hneg : x.a < 0 <;> simp [hneg]
    · have hdiv : (q * 10 ^ d + r1 + 0) / 10 ^ d = q := by
        apply Nat.div_eq_of_lt_le
        · omega
        · have : (q + 1) * 10 ^ d = q * 10 ^ d + 10 ^ d := by ring
          rw [this]; omega
      have hmod : (q * 10 ^ d + r1 + 0) % 10 ^ d = r1 := by
        rw [Nat.add_zero, Nat.mul_comm, Nat.mul_add_mod, Nat.mod_eq_of_lt hr1]
      simp only [hup, decide_False, if_false, Bool.false_and, hdiv, hmod, Bool.false_eq_true]
      by_cases hneg : x.a < 0 <;> simp [hneg]

theorem roundDiv_scale (A B g : Nat) (hg : 0 < g) : roundDiv (A * g) (B * g) = roundDiv A B := by
  unfold roundDiv
  have : 2 * (A * g) + B * g = g * (2 * A + B) := by ring
  rw [this, show 2 * (B * g) = g * (2 * B) by ring, Nat.mul_div_mul_left _ _ hg]

theorem roundDiv_floor (A B : Nat) (hB : 0 < B) :
    A / B ≤ roundDiv A B ∧ roundDiv A B ≤ A / B + 1 := by
  unfold roundDiv
  have h1 := Nat.div_add_mod A B
  have h2 : A % B < B := Nat.mod_lt _ hB
  constructor
  · rw [Nat.le_div_iff_mul_le (by omega)]
    have : A / B * (2 * B) = 2 * (B * (A / B)) := by ring
    rw [this]; omega
  · have hlt : (2 * A + B) / (2 * B) < A / B + 2 := by
      rw [Nat.div_lt_iff_lt_mul (by omega)]
      have : (A / B + 2) * (2 * B) = 2 * (B * (A / B)) + 4 * B := by ring
      rw [this]; omega
    omega

/-- What `SetFrac` keeps of `a / b`: a positive denominator, the sign of the
quotient, and the ratio. -/
theorem setFrac_spec (a b : Int) (hb : b ≠ 0) :
    0 < (BigRat.SetFrac a b).b ∧
      ((BigRat.SetFrac a b).a < 0 ↔ a * b < 0) ∧
      ∃ g, 0 < g ∧ (BigRat.SetFrac a b).a.natAbs * g = a.natAbs ∧
        (BigRat.SetFrac a b).b * g = b.natAbs := by
  have hbpos : 0 < b.natAbs := Int.natAbs_pos.mpr hb
  have hg : 0 < Nat.gcd a.natAbs b.natAbs := Nat.gcd_pos_of_pos_right _ hbpos
  have hB : b.natAbs / Nat.gcd a.natAbs b.natAbs * Nat.gcd a.natAbs b.natAbs = b.natAbs :=
    Nat.div_mul_cancel (Nat.gcd_dvd_right _ _)
  have hA : a.natAbs / Nat.gcd a.natAbs b.natAbs * Nat.gcd a.natAbs b.natAbs = a.natAbs :=
    Nat.div_mul_cancel (Nat.gcd_dvd_left _ _)
  have hBpos : 0 < b.natAbs / Nat.gcd a.natAbs b.natAbs :=
    Nat.div_pos (Nat.le_of_dvd hbpos (Nat.gcd_dvd_right _ _)) hg
  have hnum : (0 : Int) ≤ ((a.natAbs / Nat.gcd a.natAbs b.natAbs : Nat) : Int) := Int.natCast_nonneg _
  have hnum0 : ((a.natAbs / Nat.gcd a.natAbs b.natAbs : Nat) : Int) = 0 ↔ a = 0 := by
    constructor
    · intro h
      have h' : a.natAbs / Nat.gcd a.natAbs b.natAbs = 0 := by exact_mod_cast h
      rw [h', Nat.zero_mul] at hA
      exact Int.natAbs_eq_zero.mp hA.symm
    · intro h; subst h; simp
  refine ⟨hBpos, ?_, Nat.gcd a.natAbs b.natAbs, hg, ?_, hB⟩
  · unfold BigRat.SetFrac
    dsimp only
    have hmul : a * b < 0 ↔ (a < 0 ∧ 0 < b) ∨ (0 < a ∧ b < 0) := by
      constructor
      · intro h
        rcases lt_trichotomy a 0 with ha | ha | ha
        · left; refine ⟨ha, ?_⟩
          by_contra hcon
          have : b < 0 := by omega
          have := mul_pos_of_neg_of_neg ha this
          omega
        · subst ha; simp at h
        · right; refine ⟨ha, ?_⟩
          by_contra hcon
          have : 0 < b := by omega
          have := mul_pos ha this
          omega
      · rintro (⟨ha, hb'⟩ | ⟨ha, hb'⟩)
        · exact mul_neg_of_neg_of_pos ha hb'
        · exact mul_neg_of_pos_of_neg ha hb'
    rw [hmul]
    have hpos0 : a ≠ 0 → (0 : Int) < ((a.natAbs / Nat.gcd a.natAbs b.natAbs : Nat) : Int) := by
      intro h
      have := hnum0.not.mpr h
      omega
    by_cases ha : a < 0
    · by_cases hb' : b < 0
      · have hc : (decide (a < 0) != decide (b < 0)) = false := by simp [ha, hb']
        rw [hc]
        simp only [Bool.false_eq_true, if_false]
        constructor
        · intro h; omega
        · intro h; omega
      · have hc : (decide (a < 0) != decide (b < 0)) = true := by simp [ha, hb']
        rw [hc]
        simp only [if_true]
        have := hpos0 (by omega)
        constructor
        · intro _; left; exact ⟨ha, by omega⟩
        · intro _; omega
    · by_cases hb' : b < 0
      · have hc : (decide (a < 0) != decide (b < 0)) = true := by simp [ha, hb']
        rw [hc]
        simp only [if_true]
        constructor
        · intro h
          right
          refine ⟨?_, hb'⟩
          by_contra hcon
          have ha0 : a = 0 := by omega
          have := hnum0.mpr ha0
          omega
        · rintro (⟨h1, _⟩ | ⟨h1, _⟩)
          · omega
          · have := hpos0 (by omega); omega
      · have hc : (decide (a < 0) != decide (b < 0)) = false := by simp [ha, hb']
        rw [hc]
        simp only [Bool.false_eq_true, if_false]
        constructor
        · intro h; omega
        · intro h; omega
  · unfold BigRat.SetFrac
    dsimp only
    split_ifs
    · rw [Int.natAbs_neg, Int.natAbs_ofNat]; exact hA
    · rw [Int.natAbs_ofNat]; exact hA

/-- `FloatString` after `SetFrac`. -/
theorem setFrac_floatString (a b : Int) (hb : b ≠ 0) (d : Nat) (hd : 0 < d) :
    (BigRat.SetFrac a b).FloatString d =
      fixedText (decide (a * b < 0)) (roundDiv (a.natAbs * 10 ^ d) b.natAbs) d := by
  obtain ⟨hpos, hsign, g, hg, hA, hB⟩ := setFrac_spec a b hb
  rw [floatString_round _ _ hpos hd, ← hA, ← hB]
  rw [show (BigRat.SetFrac a b).a.natAbs * g * 10 ^ d = (BigRat.SetFrac a b).a.natAbs * 10 ^ d * g by ring,
    roundDiv_scale _ _ _ hg]
  congr 1
  exact decide_eq_decide.mpr hsign

/-- Shape of a fixed-point text. -/
theorem fixedText_shape (neg : Bool) (n d : Nat) (hd : 0 < d) :
    ∃ ip fp : List Char,
      (fixedText neg n d).data = (if neg then ['-'] else []) ++ ip ++ '.' :: fp ∧ ip ≠ [] ∧
      (∀ c ∈ ip, c.isDigit = true) ∧ (∀ c ∈ fp, c.isDigit = true) ∧ fp.length = d ∧
      digitsValue (ip ++ fp) = n := by
  have hp : 0 < 10 ^ d := pow_pos (by norm_num) d
  obtain ⟨hne, hdig, hval, -⟩ := utoa_spec (n / 10 ^ d)
  obtain ⟨-, hdig', hval', hlen'⟩ := utoa_spec (n % 10 ^ d)
  have hl := hlen' d hd (Nat.mod_lt _ hp)
  refine ⟨utoa (n / 10 ^ d),
    List.replicate (d - (utoa (n % 10 ^ d)).length) '0' ++ utoa (n % 10 ^ d), rfl, hne, hdig,
    ?_, ?_, ?_⟩
  · intro c hc
    rcases List.mem_append.mp hc with hc | hc
    · rw [List.eq_of_mem_replicate hc]; decide
    · exact hdig' c hc
  · simp; omega
  · have hlen2 : (List.replicate (d - (utoa (n % 10 ^ d)).length) '0' ++
        utoa (n % 10 ^ d)).length = d := by simp; omega
    rw [digitsValue_append, hval, digitsValue_append, digitsValue_replicate_zero, hval', hlen2]
    have := Nat.div_add_mod n (10 ^ d)
    rw [Nat.zero_mul, Nat.zero_add, Nat.mul_comm]
    exact this

theorem fixedText_ne_empty (neg : Bool) (n d : Nat) : fixedText neg n d ≠ "" := by
  intro h
  have h2 := congrArg String.data h
  unfold fixedText at h2
  simp at h2

theorem computeRateFromInt_eq (f t : Int) (hf : f ≠ 0) (ht : t ≠ 0) :
    computeRateFromInt (some f) (some t) =
      fixedText (decide (f * t < 0)) (roundDiv (f.natAbs * 10 ^ 18) t.natAbs) 18 := by
  unfold computeRateFromInt
  have : ¬ (f = 0 ∨ t = 0) := by tauto
  simp only [this, if_false]
  exact setFrac_floatString f t ht 18 (by decide)

theorem computeRateFromInt_empty (fee tvl : Option Int) (h : ¬ bothNonZero fee tvl) :
    computeRateFromInt fee tvl = "" := by
  unfold computeRateFromInt
  cases fee with
  | none => rfl
  | some f =>
    cases tvl with
    | none => rfl
    | some t =>
      by_cases h0 : f = 0 ∨ t = 0
      · simp [h0]
      · exact absurd ⟨f, t, rfl, rfl, by tauto, by tauto⟩ h

theorem rate_side (fee tvl : Option Int) :
    (computeRateFromInt fee tvl ≠ "" ↔ bothNonZero fee tvl) ∧
    (computeRateFromInt fee tvl ≠ "" →
      ∃ ip fp : List Char, (computeRateFromInt fee tvl).data = ip ++ '.' :: fp ∧ '.' ∉ ip ∧
        (∀ c ∈ fp, c.isDigit = true) ∧ fp.length = 18) := by
  by_cases h : bothNonZero fee tvl
  · obtain ⟨f, t, rfl, rfl, hf, ht⟩ := h
    rw [computeRateFromInt_eq f t hf ht]
    refine ⟨⟨fun _ => ⟨f, t, rfl, rfl, hf, ht⟩, fun _ => fixedText_ne_empty _ _ _⟩, fun _ => ?_⟩
    obtain ⟨ip, fp, hdata, -, hdig, hdig', hlen, -⟩ :=
      fixedText_shape (decide (f * t < 0)) (roundDiv (f.natAbs * 10 ^ 18) t.natAbs) 18 (by decide)
    refine ⟨(if decide (f * t < 0) = true then ['-'] else []) ++ ip, fp, hdata, ?_, hdig', hlen⟩
    intro hmem
    rcases List.mem_append.mp hmem with hm | hm
    · split_ifs at hm
      · simp at hm
      · simp at hm
    · have := hdig _ hm
      revert this; decide
  · rw [computeRateFromInt_empty fee tvl h]
    exact ⟨⟨fun hne => absurd rfl hne, fun hb => absurd hb h⟩, fun hne => absurd rfl hne⟩

/-- C11: for each side, `computeFeeRates` returns a rate exactly when the fee
and the TVL of that side are both present and both non-zero; and a returned
rate is some text without a point, then a point, then exactly 18 digits. -/
theorem fee_rate_presence (fee0 fee1 tvl0 tvl1 : Option Int) :
    ((computeFeeRates fee0 fee1 tvl0 tvl1).1.isSome = true ↔ bothNonZero fee0 tvl0) ∧
    ((computeFeeRates fee0 fee1 tvl0 tvl1).2.isSome = true ↔ bothNonZero fee1 tvl1) ∧
    ∀ s : String, ((computeFeeRates fee0 fee1 tvl0 tvl1).1 = some s ∨
        (computeFeeRates fee0 fee1 tvl0 tvl1).2 = some s) →
      ∃ ip fp : List Char, s.data = ip ++ '.' :: fp ∧ '.' ∉ ip ∧
        (∀ c ∈ fp, c.isDigit = true) ∧ fp.length = 18 := by
  obtain ⟨h0, s0⟩ := rate_side fee0 tvl0
  obtain ⟨h1, s1⟩ := rate_side fee1 tvl1
  unfold computeFeeRates
  dsimp only
  refine ⟨?_, ?_, ?_⟩
  · rw [← h0]
    by_cases h : computeRateFromInt fee0 tvl0 ≠ "" <;> simp [h]
  · rw [← h1]
    by_cases h : computeRateFromInt fee1 tvl1 ≠ "" <;> simp [h]
  · intro s hs
    rcases hs with hs | hs
    · by_cases h : computeRateFromInt fee0 tvl0 ≠ ""
      · rw [if_pos h] at hs
        cases hs
        exact s0 h
      · rw [if_neg h] at hs
        cases hs
    · by_cases h : computeRateFromInt fee1 tvl1 ≠ ""
      · rw [if_pos h] at hs
        cases hs
        exact s1 h
      · rw [if_neg h] at hs
        cases hs

/-- C12 as stated fails: for fee 2 and TVL 3 the rate is `0.666666666666666667`,
the quotient rounded to nearest, while truncation toward zero gives
`0.666666666666666666`. -/
theorem fee_rate_not_truncated :
    computeRateFromInt (some 2) (some 3) = "0.666666666666666667" ∧
    fixedText false (2 * 10 ^ 18 / 3) 18 = "0.666666666666666666" ∧
    computeRateFromInt (some 2) (some 3) ≠ fixedText false (2 * 10 ^ 18 / 3) 18 := by
  decide

/-- C12, amended: for every positive fee and positive TVL, the rate string is
the quotient `fee / tvl` rounded to the nearest multiple of `10 ^ (-18)`,
halves up: it is `(2 * fee * 10 ^ 18 + tvl) / (2 * tvl)` rendered with 18
decimals, which is the truncated value `fee * 10 ^ 18 / tvl` or one more. -/
theorem fee_rate_value (f t : Nat) (hf : 0 < f) (ht : 0 < t) :
    computeRateFromInt (some (f : Int)) (some (t : Int)) =
      fixedText false ((2 * (f * 10 ^ 18) + t) / (2 * t)) 18 ∧
    f * 10 ^ 18 / t ≤ (2 * (f * 10 ^ 18) + t) / (2 * t) ∧
    (2 * (f * 10 ^ 18) + t) / (2 * t) ≤ f * 10 ^ 18 / t + 1 := by
  have h := computeRateFromInt_eq (f : Int) (t : Int) (by omega) (by omega)
  have hs : decide ((f : Int) * (t : Int) < 0) = false := by
    apply decide_eq_false
    have : (0 : Int) ≤ (f : Int) * (t : Int) := mul_nonneg (by omega) (by omega)
    omega
  rw [hs, Int.natAbs_ofNat, Int.natAbs_ofNat] at h
  exact ⟨h, roundDiv_floor _ _ ht⟩

theorem fee_rate_value_witness :
    (0 < 2 ∧ 0 < 3) ∧
    (computeRateFromInt (some ((2 : Nat) : Int)) (some ((3 : Nat) : Int)) =
      fixedText false ((2 * (2 * 10 ^ 18) + 3) / (2 * 3)) 18 ∧
    2 * 10 ^ 18 / 3 ≤ (2 * (2 * 10 ^ 18) + 3) / (2 * 3) ∧
    (2 * (2 * 10 ^ 18) + 3) / (2 * 3) ≤ 2 * 10 ^ 18 / 3 + 1) :=
  ⟨⟨by decide, by decide⟩, fee_rate_value 2 3 (by decide) (by decide)⟩

theorem setFrac_one (n : Int) : BigRat.SetFrac n 1 = ⟨n, 1⟩ := by
  unfold BigRat.SetFrac
  have h1 : Nat.gcd n.natAbs (1 : Int).natAbs = 1 := by simp
  have h2 : decide ((1 : Int) < 0) = false := by decide
  simp only [h1, h2, Nat.div_one]
  by_cases hn : n < 0
  · simp only [hn, decide_True]
    have : (true != false) = true := rfl
    simp only [this, if_true]
    congr 1
    · omega
  · simp only [hn, decide_False]
    have : (false != false) = false := rfl
    simp only [this, Bool.false_eq_true, if_false]
    congr 1
    · omega

theorem toInt64_small (W : Nat) (h : W < 2 ^ 63) : toInt64 W = (W : Int) := by
  unfold toInt64 uint64Size
  have : W % 2 ^ 64 = W := Nat.mod_eq_of_lt (by omega)
  rw [this, if_pos h]

/-- Parsing a fixed-point text gives back the fraction it denotes. -/
theorem setString_fixedText (neg : Bool) (N d : Nat) (hd : 0 < d) :
    BigRat.SetString (fixedText neg N d) =
      some (BigRat.SetFrac (if neg then -(N : Int) else (N : Int)) ((10 ^ d : Nat) : Int)) := by
  obtain ⟨ip, fp, hdata, hne, hdig, hdig', hlen, hval⟩ := fixedText_shape neg N d hd
  have hdot : ¬ (Char.isDigit '.' = true) := by decide
  have htake : (ip ++ '.' :: fp).takeWhile Char.isDigit = ip := by
    rw [List.takeWhile_append_of_pos hdig, List.takeWhile_cons_of_neg hdot, List.append_nil]
  have hdrop : (ip ++ '.' :: fp).dropWhile Char.isDigit = '.' :: fp := by
    rw [List.dropWhile_append_of_pos hdig, List.dropWhile_cons_of_neg hdot]
  have hall : fp.all Char.isDigit = true := List.all_eq_true.mpr hdig'
  unfold BigRat.SetString
  rw [hdata]
  cases neg with
  | true =>
    simp only [if_true, List.singleton_append, List.cons_append, List.nil_append, htake, hdrop,
      hall, true_and]
    simp [hne, hval, hlen]
  | false =>
    cases ip with
    | nil => exact absurd rfl hne
    | cons c cs =>
      have hc := hdig c (List.mem_cons_self _ _)
      have hm : c ≠ '-' := by intro h; rw [h] at hc; revert hc; decide
      have hp : c ≠ '+' := by intro h; rw [h] at hc; revert hc; decide
      simp only [Bool.false_eq_true, if_false, List.nil_append, List.cons_append]
      split
      · rename_i heq; simp at heq; exact absurd heq.1 hm
      · rename_i heq; simp at heq; exact absurd heq.1 hp
      · rw [show c :: (cs ++ '.' :: fp) = (c :: cs) ++ '.' :: fp from rfl]
        have hval' : digitsValue (c :: (cs ++ fp)) = N := hval
        simp only [htake, hdrop, hall, true_and]
        simp [hval', hlen]

/-- The APR text computed from a fraction with a positive denominator. -/
theorem apr_of_rat (rat : BigRat) (hb : 0 < rat.b) (W : Nat) (hW : 0 < W) (hW63 : W < 2 ^ 63) :
    ((rat.Mul (BigRat.NewRat 31536000 1)).Quo (BigRat.NewRat (toInt64 W) 1)).FloatString ratioScale =
      fixedText (decide (rat.a < 0))
        (roundDiv (rat.a.natAbs * 31536000 * 10 ^ 18) (rat.b * W)) 18 := by
  unfold BigRat.NewRat
  rw [toInt64_small W hW63, setFrac_one, setFrac_one]
  unfold BigRat.Mul BigRat.Quo ratioScale
  dsimp only
  have hb1 : ((rat.b * 1 : Nat) : Int) ≠ 0 := by
    have : 0 < rat.b * 1 := by omega
    exact_mod_cast this.ne'
  obtain ⟨hmpos, hmsign, g, hg, hmA, hmB⟩ := setFrac_spec (rat.a * 31536000) ((rat.b * 1 : Nat) : Int) hb1
  generalize BigRat.SetFrac (rat.a * 31536000) ((rat.b * 1 : Nat) : Int) = m at hmpos hmsign hmA hmB
  have hden : ((m.b : Int) * (W : Int)) ≠ 0 := by
    have h1 : (0 : Int) < (m.b : Int) := by exact_mod_cast hmpos
    have h2 : (0 : Int) < (W : Int) := by exact_mod_cast hW
    exact (mul_pos h1 h2).ne'
  rw [setFrac_floatString _ _ hden 18 (by decide)]
  have hrb : (0 : Int) < (rat.b : Int) := by exact_mod_cast hb
  have hsgn : (m.a * ((1 : Nat) : Int) * ((m.b : Int) * (W : Int)) < 0) ↔ rat.a < 0 := by
    have h1 : (0 : Int) < (m.b : Int) * (W : Int) :=
      mul_pos (by exact_mod_cast hmpos) (by exact_mod_cast hW)
    have h2 : m.a * ((1 : Nat) : Int) = m.a := by simp
    rw [h2]
    constructor
    · intro h
      have hma : m.a < 0 := by
        by_contra hcon
        have : 0 ≤ m.a * ((m.b : Int) * (W : Int)) := mul_nonneg (by omega) h1.le
        omega
      have h3 := hmsign.mp hma
      by_contra hcon
      have : 0 ≤ rat.a * 31536000 * ((rat.b * 1 : Nat) : Int) :=
        mul_nonneg (mul_nonneg (by omega) (by norm_num)) (by positivity)
      omega
    · intro h
      have h3 : rat.a * 31536000 * ((rat.b * 1 : Nat) : Int) < 0 := by
        have : rat.a * 31536000 < 0 := by omega
        exact mul_neg_of_neg_of_pos this (by simpa using hrb)
      exact mul_neg_of_neg_of_pos (hmsign.mpr h3) h1
  rw [decide_eq_decide.mpr hsgn]
  have e1 : (m.a * ((1 : Nat) : Int)).natAbs = m.a.natAbs := by simp
  have e2 : ((m.b : Int) * (W : Int)).natAbs = m.b * W := by
    rw [Int.natAbs_mul, Int.natAbs_ofNat, Int.natAbs_ofNat]
  have e3 : (rat.a * 31536000).natAbs = rat.a.natAbs * 31536000 := by
    rw [Int.natAbs_mul]; rfl
  have e4 : ((rat.b * 1 : Nat) : Int).natAbs = rat.b := by
    rw [Int.natAbs_ofNat, Nat.mul_one]
  rw [e3] at hmA
  rw [e4] at hmB
  have hn : roundDiv ((m.a * ((1 : Nat) : Int)).natAbs * 10 ^ 18) ((m.b : Int) * (W : Int)).natAbs =
      roundDiv (rat.a.natAbs * 31536000 * 10 ^ 18) (rat.b * W) := by
    rw [e1, e2, ← roundDiv_scale (m.a.natAbs * 10 ^ 18) (m.b * W) g hg,
      show m.a.natAbs * 10 ^ 18 * g = (m.a.natAbs * g) * 10 ^ 18 by ring,
      show m.b * W * g = (m.b * g) * W by ring, hmA, hmB]
  rw [hn]

theorem computeAPR_one (s : String) (W : Nat) (hW : W ≠ 0) :
    computeAPR (some s) none W =
        (BigRat.SetString s).map (fun rat =>
          ((rat.Mul (BigRat.NewRat 31536000 1)).Quo (BigRat.NewRat (toInt64 W) 1)).FloatString
            ratioScale) ∧
    computeAPR none (some s) W =
        (BigRat.SetString s).map (fun rat =>
          ((rat.Mul (BigRat.NewRat 31536000 1)).Quo (BigRat.NewRat (toInt64 W) 1)).FloatString
            ratioScale) := by
  unfold computeAPR
  simp only [hW, if_false]
  constructor <;> cases BigRat.SetString s <;> rfl

theorem computeAPR_fixed (neg : Bool) (N W : Nat) (hW : 0 < W) (hW63 : W < 2 ^ 63) :
    computeAPR (some (fixedText neg N 18)) none W =
        some (fixedText (neg && decide (N ≠ 0)) (roundDiv (N * 31536000) W) 18) ∧
    computeAPR none (some (fixedText neg N 18)) W =
        some (fixedText (neg && decide (N ≠ 0)) (roundDiv (N * 31536000) W) 18) := by
  have hp : (0 : Nat) < 10 ^ 18 := by norm_num
  have hden : (((10 ^ 18 : Nat) : Int)) ≠ 0 := by exact_mod_cast hp.ne'
  obtain ⟨hpos, hsign, g, hg, hA, hB⟩ :=
    setFrac_spec (if neg then -(N : Int) else (N : Int)) ((10 ^ 18 : Nat) : Int) hden
  have key : (((BigRat.SetFrac (if neg then -(N : Int) else (N : Int)) ((10 ^ 18 : Nat) : Int)).Mul
      (BigRat.NewRat 31536000 1)).Quo (BigRat.NewRat (toInt64 W) 1)).FloatString ratioScale =
      fixedText (neg && decide (N ≠ 0)) (roundDiv (N * 31536000) W) 18 := by
    rw [apr_of_rat _ hpos W hW hW63]
    have hs : decide ((BigRat.SetFrac (if neg then -(N : Int) else (N : Int))
        ((10 ^ 18 : Nat) : Int)).a < 0) = (neg && decide (N ≠ 0)) := by
      have hiff : (BigRat.SetFrac (if neg then -(N : Int) else (N : Int))
          ((10 ^ 18 : Nat) : Int)).a < 0 ↔ (neg = true ∧ N ≠ 0) := by
        rw [hsign]
        have hP : (0 : Int) < ((10 ^ 18 : Nat) : Int) := by exact_mod_cast hp
        cases neg with
        | true =>
          simp only [if_true, true_and]
          constructor
          · intro h hN
            subst hN
            simp at h
          · intro hN
            have : -(N : Int) < 0 := by omega
            exact mul_neg_of_neg_of_pos this hP
        | false =>
          simp only [Bool.false_eq_true, if_false, false_and, iff_false, not_lt]
          exact mul_nonneg (by omega) hP.le
      by_cases h : neg = true ∧ N ≠ 0
      · rw [decide_eq_true (hiff.mpr h)]
        simp [h.1, h.2]
      · rw [decide_eq_false (fun hc => h (hiff.mp hc))]
        cases neg with
        | true =>
          have : N = 0 := by
            by_contra hN
            exact h ⟨rfl, hN⟩
          simp [this]
        | false => rfl
    have hNabs : (if neg then -(N : Int) else (N : Int)).natAbs = N := by
      cases neg <;> simp
    have hPabs : (((10 ^ 18 : Nat) : Int)).natAbs = 10 ^ 18 := Int.natAbs_ofNat _
    rw [hNabs] at hA
    rw [hPabs] at hB
    have hn : roundDiv ((BigRat.SetFrac (if neg then -(N : Int) else (N : Int))
          ((10 ^ 18 : Nat) : Int)).a.natAbs * 31536000 * 10 ^ 18)
        ((BigRat.SetFrac (if neg then -(N : Int) else (N : Int)) ((10 ^ 18 : Nat) : Int)).b * W) =
        roundDiv (N * 31536000) W := by
      generalize BigRat.SetFrac (if neg then -(N : Int) else (N : Int)) ((10 ^ 18 : Nat) : Int) = x
        at hA hB
      rw [← roundDiv_scale _ _ g hg,
        show x.a.natAbs * 31536000 * 10 ^ 18 * g = (x.a.natAbs * g) * 31536000 * 10 ^ 18 by ring,
        show x.b * W * g = (x.b * g) * W by ring, hA, hB,
        show N * 31536000 * 10 ^ 18 = (N * 31536000) * 10 ^ 18 by ring,
        show 10 ^ 18 * W = W * 10 ^ 18 by ring, roundDiv_scale _ _ _ hp]
    rw [hs, hn]
  have hWne : W ≠ 0 := by omega
  obtain ⟨h1, h2⟩ := computeAPR_one (fixedText neg N 18) W hWne
  rw [h1, h2, setString_fixedText neg N 18 (by decide)]
  simp only [Option.map_some']
  exact ⟨congrArg some key, congrArg some key⟩

theorem computeAPR_isSome (neg : Bool) (N W : Nat) (hW : 0 < W) :
    (computeAPR (some (fixedText neg N 18)) none W).isSome = true ∧
    (computeAPR none (some (fixedText neg N 18)) W).isSome = true := by
  have hWne : W ≠ 0 := by omega
  obtain ⟨h1, h2⟩ := computeAPR_one (fixedText neg N 18) W hWne
  rw [h1, h2, setString_fixedText neg N 18 (by decide)]
  exact ⟨rfl, rfl⟩

theorem computeAPR_not_one (r0 r1 : Option String) (W : Nat) (h : r0.isSome = r1.isSome) :
    computeAPR r0 r1 W = none := by
  unfold computeAPR
  cases r0 <;> cases r1 <;> simp at h <;> simp

/-- A rate returned by `computeFeeRates` is a fixed-point text of 18 decimals. -/
theorem computeFeeRates_fixed (fee0 fee1 tvl0 tvl1 : Option Int) (s : String)
    (h : (computeFeeRates fee0 fee1 tvl0 tvl1).1 = some s ∨
      (computeFeeRates fee0 fee1 tvl0 tvl1).2 = some s) :
    ∃ (neg : Bool) (N : Nat), s = fixedText neg N 18 := by
  have side : ∀ fee tvl : Option Int, computeRateFromInt fee tvl ≠ "" →
      ∃ (neg : Bool) (N : Nat), computeRateFromInt fee tvl = fixedText neg N 18 := by
    intro fee tvl hne
    obtain ⟨f, t, rfl, rfl, hf, ht⟩ := (rate_side fee tvl).1.mp hne
    exact ⟨_, _, computeRateFromInt_eq f t hf ht⟩
  unfold computeFeeRates at h
  dsimp only at h
  rcases h with h | h
  · by_cases hne : computeRateFromInt fee0 tvl0 ≠ ""
    · rw [if_pos hne] at h
      cases h
      exact side _ _ hne
    · rw [if_neg hne] at h; cases h
  · by_cases hne : computeRateFromInt fee1 tvl1 ≠ ""
    · rw [if_pos hne] at h
      cases h
      exact side _ _ hne
    · rw [if_neg hne] at h; cases h

/-- C13 as stated fails: the window size goes through `int64`, so for
`W = 2 ^ 63` and the rate `1.000000000000000000` the APR comes out negative,
`-0.000000000003419140`, where rate times `31536000 / W` is
`0.000000000003419140`. -/
theorem apr_window_int64 :
    computeFeeRates (some 1) none (some 1) none = (some "1.000000000000000000", none) ∧
    computeAPR (some "1.000000000000000000") none (2 ^ 63) = some "-0.000000000003419140" ∧
    fixedText false (roundDiv (10 ^ 18 * 31536000) (2 ^ 63)) 18 = "0.000000000003419140" := by
  decide

/-- C13, amended: for every window size `W > 0` and rates `r0`, `r1` as
produced by `computeFeeRates`, `computeAPR` returns a value exactly when one of
the two rates is present and the other absent, and nothing when both or neither
are; each present rate is a fixed-point text of 18 decimals; and when
`W < 2 ^ 63` (the window size goes through `int64`) and the present rate reads
`N / 10 ^ 18`, with or without a minus sign, the APR is `N * 31536000 / W`
rounded to the nearest integer, rendered with exactly 18 decimals under the
same sign (no sign when `N = 0`).  For the rate `0.000001` and `W = 3600` it is
`0.008760000000000000`. -/
theorem apr_exclusive_value (fee0 fee1 tvl0 tvl1 : Option Int) (r0 r1 : Option String) (W : Nat)
    (hW : 0 < W) (hr : computeFeeRates fee0 fee1 tvl0 tvl1 = (r0, r1)) :
    ((computeAPR r0 r1 W).isSome = true ↔ r0.isSome ≠ r1.isSome) ∧
    (r0.isSome = r1.isSome → computeAPR r0 r1 W = none) ∧
    (∀ s : String, (r0 = some s ∨ r1 = some s) → ∃ (neg : Bool) (N : Nat), s = fixedText neg N 18) ∧
    (W < 2 ^ 63 → ∀ (neg : Bool) (N : Nat),
      ((r0 = some (fixedText neg N 18) ∧ r1 = none) ∨
        (r0 = none ∧ r1 = some (fixedText neg N 18))) →
      computeAPR r0 r1 W =
        some (fixedText (neg && decide (N ≠ 0)) (roundDiv (N * 31536000) W) 18)) ∧
    computeAPR (some "0.000001") none 3600 = some "0.008760000000000000" := by
  have hfix : ∀ s : String, (r0 = some s ∨ r1 = some s) →
      ∃ (neg : Bool) (N : Nat), s = fixedText neg N 18 := by
    intro s hs
    apply computeFeeRates_fixed fee0 fee1 tvl0 tvl1 s
    rw [hr]
    exact hs
  refine ⟨?_, computeAPR_not_one r0 r1 W, hfix, ?_, by decide⟩
  · cases h0 : r0 with
    | none =>
      cases h1 : r1 with
      | none => simp [computeAPR_not_one none none W rfl]
      | some s =>
        obtain ⟨neg, N, rfl⟩ := hfix s (Or.inr h1)
        simp [(computeAPR_isSome neg N W hW).2]
    | some s =>
      cases h1 : r1 with
      | none =>
        obtain ⟨neg, N, rfl⟩ := hfix s (Or.inl h0)
        simp [(computeAPR_isSome neg N W hW).1]
      | some s1 => simp [computeAPR_not_one (some s) (some s1) W rfl]
  · intro hW63 neg N h
    rcases h with ⟨h0, h1⟩ | ⟨h0, h1⟩
    · rw [h0, h1]; exact (computeAPR_fixed neg N W hW hW63).1
    · rw [h0, h1]; exact (computeAPR_fixed neg N W hW hW63).2

theorem apr_exclusive_value_witness :
    (0 < 3600 ∧
      computeFeeRates (some 1) none (some 1000000) none = (some "0.000001000000000000", none) ∧
      fixedText false 1000000000000 18 = "0.000001000000000000" ∧
      fixedText (false && decide (1000000000000 ≠ 0)) (roundDiv (1000000000000 * 31536000) 3600) 18 =
        "0.008760000000000000") ∧
    (((computeAPR (some "0.000001000000000000") none 3600).isSome = true ↔
        (some "0.000001000000000000").isSome ≠ (none : Option String).isSome) ∧
    ((some "0.000001000000000000").isSome = (none : Option String).isSome →
      computeAPR (some "0.000001000000000000") none 3600 = none) ∧
    (∀ s : String, (some "0.000001000000000000" = some s ∨ none = some s) →
      ∃ (neg : Bool) (N : Nat), s = fixedText neg N 18) ∧
    (3600 < 2 ^ 63 → ∀ (neg : Bool) (N : Nat),
      ((some "0.000001000000000000" = some (fixedText neg N 18) ∧ (none : Option String) = none) ∨
        (some "0.000001000000000000" = none ∧ none = some (fixedText neg N 18))) →
      computeAPR (some "0.000001000000000000") none 3600 =
        some (fixedText (neg && decide (N ≠ 0)) (roundDiv (N * 31536000) 3600) 18)) ∧
    computeAPR (some "0.000001") none 3600 = some "0.008760000000000000") :=
  ⟨⟨by decide, by decide, by decide, by decide⟩,
    apr_exclusive_value (some 1) none (some 1000000) none (some "0.000001000000000000") none 3600
      (by decide) (by decide)⟩

/-! ## TVL method -/

theorem fetchTVL_block (env : Env) (acc : Accumulator) (hv : validAddresses env acc) (n : Nat)
    (b : Int × Int) (hb : balancesAt env acc (some n) = some b) :
    fetchTVL env acc.PoolMeta.Token0 acc.PoolMeta.Token1 acc.PoolAddress n =
      (some b.1, some b.2, tvlMethodBlock, none) := by
  unfold fetchTVL
  unfold balancesAt at hb
  have : ¬ (env.isHexAddress acc.PoolMeta.Token0 = false ∨ env.isHexAddress acc.PoolMeta.Token1 = false ∨
      env.isHexAddress acc.PoolAddress = false) := by
    rw [hv.1, hv.2.1, hv.2.2]; simp
  rw [if_neg this]
  dsimp only
  cases h0 : env.balanceOf (env.hexToAddress acc.PoolMeta.Token0) (env.hexToAddress acc.PoolAddress) (some n) with
  | none => rw [h0] at hb; simp at hb
  | some b0 =>
    cases h1 : env.balanceOf (env.hexToAddress acc.PoolMeta.Token1) (env.hexToAddress acc.PoolAddress) (some n) with
    | none => rw [h0, h1] at hb; simp at hb
    | some b1 =>
      rw [h0, h1] at hb
      simp only [Option.some.injEq] at hb
      rw [← hb]

theorem fetchTVL_latest (env : Env) (acc : Accumulator) (hv : validAddresses env acc) (n : Nat)
    (hn : balancesAt env acc (some n) = none) :
    fetchTVL env acc.PoolMeta.Token0 acc.PoolMeta.Token1 acc.PoolAddress n =
      match balancesAt env acc none with
      | some b => (some b.1, some b.2, tvlMethodLatest, none)
      | none => (none, none, tvlMethodNone, some Err.balanceOfFailed) := by
  unfold fetchTVL
  unfold balancesAt at hn ⊢
  have : ¬ (env.isHexAddress acc.PoolMeta.Token0 = false ∨ env.isHexAddress acc.PoolMeta.Token1 = false ∨
      env.isHexAddress acc.PoolAddress = false) := by
    rw [hv.1, hv.2.1, hv.2.2]; simp
  rw [if_neg this]
  dsimp only
  cases h0 : env.balanceOf (env.hexToAddress acc.PoolMeta.Token0) (env.hexToAddress acc.PoolAddress) (some n) <;>
  cases h1 : env.balanceOf (env.hexToAddress acc.PoolMeta.Token1) (env.hexToAddress acc.PoolAddress) (some n) <;>
  rw [h0, h1] at hn <;> simp at hn <;>
  cases g0 : env.balanceOf (env.hexToAddress acc.PoolMeta.Token0) (env.hexToAddress acc.PoolAddress) none <;>
  cases g1 : env.balanceOf (env.hexToAddress acc.PoolMeta.Token1) (env.hexToAddress acc.PoolAddress) none <;>
  rfl

theorem computeFeeRates_no_tvl (fee0 fee1 : Option Int) :
    computeFeeRates fee0 fee1 none none = (none, none) := by
  unfold computeFeeRates computeRateFromInt
  cases fee0 <;> cases fee1 <;> simp

theorem flushAccumulator_row (env : Env) (a : Aggregator) (acc : Accumulator)
    (h0 : acc.PoolMeta.Token0 ≠ "") (h1 : acc.PoolMeta.Token1 ≠ "") :
    (a.flushAccumulator env acc).2.1 =
      some (buildMetrics env a.cfg.WindowSeconds acc
        ((a.registerPool acc).1.getTokenDecimals env acc.PoolMeta.Token0).2.1
        (((a.registerPool acc).1.getTokenDecimals env acc.PoolMeta.Token0).1.getTokenDecimals env
          acc.PoolMeta.Token1).2.1) := by
  unfold Aggregator.flushAccumulator
  have : ¬ (acc.PoolMeta.Token0 = "" ∨ acc.PoolMeta.Token1 = "") := by tauto
  rw [if_neg this]

theorem getTokenDecimals_balanceOf (env : Env) (b : String → String → Option Nat → Option Int)
    (a : Aggregator) (token : String) :
    a.getTokenDecimals { env with balanceOf := b } token = a.getTokenDecimals env token := rfl

theorem buildMetrics_no_block (env : Env) (W : Nat) (acc : Accumulator) (d0 d1 : Nat)
    (h : acc.LastBlock = 0) (b : String → String → Option Nat → Option Int) :
    buildMetrics { env with balanceOf := b } W acc d0 d1 = buildMetrics env W acc d0 d1 ∧
    (buildMetrics env W acc d0 d1).TVLMethod = tvlMethodNone ∧
    (buildMetrics env W acc d0 d1).TVL0 = none ∧ (buildMetrics env W acc d0 d1).TVL1 = none := by
  have hn : ¬ (acc.LastBlock > 0) := by omega
  unfold buildMetrics
  simp only [hn, if_false]
  refine ⟨?_, ?_, ?_, ?_⟩ <;> trivial

/-- C14: a flush of an accumulator whose tokens are set returns a row, built
with the decimals `d0`, `d1` that format its volumes.  With `LastBlock = 0` the
method is `unavailable`, both TVL fields are absent and the row does not depend
on what `balanceOf` would answer.  With `LastBlock > 0` and valid addresses: if
both calls at `LastBlock` succeed the method is `balance_of_block` and the TVL
fields are the formatted at-block balances; otherwise, if both calls at the
latest block succeed the method is `balance_of_latest` and both TVL fields are
the formatted latest balances; otherwise the method is `unavailable` and the
TVL fields, the fee rates and the APR are all absent. -/
theorem tvl_method_selection (env : Env) (a : Aggregator) (acc : Accumulator)
    (h0 : acc.PoolMeta.Token0 ≠ "") (h1 : acc.PoolMeta.Token1 ≠ "") :
    ∃ (d0 d1 : Nat) (row : PoolWindowMetrics),
      (a.flushAccumulator env acc).2.1 = some row ∧
      row.Volume0 = formatTokenAmount (some acc.Volume0) d0 ∧
      row.Volume1 = formatTokenAmount (some acc.Volume1) d1 ∧
      (acc.LastBlock = 0 →
        row.TVLMethod = tvlMethodNone ∧ row.TVL0 = none ∧ row.TVL1 = none ∧
        ∀ b, (a.flushAccumulator { env with balanceOf := b } acc).2.1 = some row) ∧
      (0 < acc.LastBlock → validAddresses env acc →
        (∀ b, balancesAt env acc (some acc.LastBlock) = some b →
          row.TVLMethod = tvlMethodBlock ∧
          row.TVL0 = some (formatTokenAmount (some b.1) d0) ∧
          row.TVL1 = some (formatTokenAmount (some b.2) d1)) ∧
        (balancesAt env acc (some acc.LastBlock) = none →
          ∀ b, balancesAt env acc none = some b →
            row.TVLMethod = tvlMethodLatest ∧
            row.TVL0 = some (formatTokenAmount (some b.1) d0) ∧
            row.TVL1 = some (formatTokenAmount (some b.2) d1)) ∧
        (balancesAt env acc (some acc.LastBlock) = none → balancesAt env acc none = none →
          row.TVLMethod = tvlMethodNone ∧ row.TVL0 = none ∧ row.TVL1 = none ∧
          row.FeeRate0 = none ∧ row.FeeRate1 = none ∧ row.APR = none)) := by
  refine ⟨_, _, _, flushAccumulator_row env a acc h0 h1, rfl, rfl, ?_, ?_⟩
  · intro hz
    obtain ⟨-, e2, e3, e4⟩ := buildMetrics_no_block env a.cfg.WindowSeconds acc
      ((a.registerPool acc).1.getTokenDecimals env acc.PoolMeta.Token0).2.1
      (((a.registerPool acc).1.getTokenDecimals env acc.PoolMeta.Token0).1.getTokenDecimals env
        acc.PoolMeta.Token1).2.1 hz env.balanceOf
    refine ⟨e2, e3, e4, ?_⟩
    intro b
    rw [flushAccumulator_row _ a acc h0 h1]
    congr 1
    exact (buildMetrics_no_block env a.cfg.WindowSeconds acc _ _ hz b).1
  · intro hpos hv
    have hgt : acc.LastBlock > 0 := hpos
    refine ⟨?_, ?_, ?_⟩
    · intro b hb
      unfold buildMetrics
      simp only [hgt, if_true, fetchTVL_block env acc hv acc.LastBlock b hb]
      refine ⟨?_, ?_, ?_⟩ <;> trivial
    · intro hn b hb
      unfold buildMetrics
      simp only [hgt, if_true, fetchTVL_latest env acc hv acc.LastBlock hn, hb]
      refine ⟨?_, ?_, ?_⟩ <;> trivial
    · intro hn hl
      unfold buildMetrics
      simp only [hgt, if_true, fetchTVL_latest env acc hv acc.LastBlock hn, hl,
        computeFeeRates_no_tvl]
      refine ⟨?_, ?_, ?_, ?_, ?_, ?_⟩ <;>
        first
          | exact computeAPR_not_one none none _ rfl
          | trivial

theorem tvl_method_selection_witness :
    (sampleAcc.PoolMeta.Token0 ≠ "" ∧ sampleAcc.PoolMeta.Token1 ≠ "" ∧ 0 < sampleAcc.LastBlock ∧
      validAddresses sampleEnv sampleAcc ∧
      balancesAt sampleEnv sampleAcc (some sampleAcc.LastBlock) = some (1000, 1000)) ∧
    ∃ (d0 d1 : Nat) (row : PoolWindowMetrics),
      ((NewAggregator (sampleConfig 10 1 0) true true).flushAccumulator sampleEnv sampleAcc).2.1 =
        some row ∧
      row.Volume0 = formatTokenAmount (some sampleAcc.Volume0) d0 ∧
      row.Volume1 = formatTokenAmount (some sampleAcc.Volume1) d1 ∧
      (sampleAcc.LastBlock = 0 →
        row.TVLMethod = tvlMethodNone ∧ row.TVL0 = none ∧ row.TVL1 = none ∧
        ∀ b, ((NewAggregator (sampleConfig 10 1 0) true true).flushAccumulator
          { sampleEnv with balanceOf := b } sampleAcc).2.1 = some row) ∧
      (0 < sampleAcc.LastBlock → validAddresses sampleEnv sampleAcc →
        (∀ b, balancesAt sampleEnv sampleAcc (some sampleAcc.LastBlock) = some b →
          row.TVLMethod = tvlMethodBlock ∧
          row.TVL0 = some (formatTokenAmount (some b.1) d0) ∧
          row.TVL1 = some (formatTokenAmount (some b.2) d1)) ∧
        (balancesAt sampleEnv sampleAcc (some sampleAcc.LastBlock) = none →
          ∀ b, balancesAt sampleEnv sampleAcc none = some b →
            row.TVLMethod = tvlMethodLatest ∧
            row.TVL0 = some (formatTokenAmount (some b.1) d0) ∧
            row.TVL1 = some (formatTokenAmount (some b.2) d1)) ∧
        (balancesAt sampleEnv sampleAcc (some sampleAcc.LastBlock) = none →
          balancesAt sampleEnv sampleAcc none = none →
          row.TVLMethod = tvlMethodNone ∧ row.TVL0 = none ∧ row.TVL1 = none ∧
          row.FeeRate0 = none ∧ row.FeeRate1 = none ∧ row.APR = none)) :=
  ⟨⟨by decide, by decide, by decide, ⟨rfl, rfl, rfl⟩, by decide⟩,
    tvl_method_selection sampleEnv (NewAggregator (sampleConfig 10 1 0) true true) sampleAcc
      (by decide) (by decide)⟩

/-! ## Pool registration -/

/-- What one `registerPool` does to the entry of a key, seen through
`FirstSeenBlock`. -/
theorem registerPool_get (a : Aggregator) (acc : Accumulator) (key : String) :
    (key ≠ poolKey acc.PoolAddress →
      mapGet (a.registerPool acc).1.poolSeen key = mapGet a.poolSeen key) ∧
    (key = poolKey acc.PoolAddress →
      (mapGet a.poolSeen key = none →
        ∃ e, mapGet (a.registerPool acc).1.poolSeen key = some e ∧
          e.FirstSeenBlock = acc.FirstBlock) ∧
      (∀ e0, mapGet a.poolSeen key = some e0 →
        ∃ e, mapGet (a.registerPool acc).1.poolSeen key = some e ∧
          e.FirstSeenBlock = min e0.FirstSeenBlock acc.FirstBlock)) := by
  constructor
  · intro hne
    unfold Aggregator.registerPool
    dsimp only
    cases hg : mapGet a.poolSeen (poolKey acc.PoolAddress) with
    | none => simp only; exact mapGet_mapSet_other _ _ _ _ hne
    | some existing =>
      simp only
      split_ifs
      · rfl
      · exact mapGet_mapSet_other _ _ _ _ hne
  · intro hk
    subst hk
    constructor
    · intro hnone
      unfold Aggregator.registerPool
      dsimp only
      rw [hnone]
      simp only
      exact ⟨_, mapGet_mapSet_same _ _ _, rfl⟩
    · intro e0 hsome
      unfold Aggregator.registerPool
      dsimp only
      rw [hsome]
      simp only
      by_cases hle : e0.FirstSeenBlock ≤ acc.FirstBlock
      · rw [if_pos hle]
        exact ⟨e0, hsome, (Nat.min_eq_left hle).symm⟩
      · rw [if_neg hle]
        refine ⟨_, mapGet_mapSet_same _ _ _, ?_⟩
        simp only
        rw [Nat.min_eq_right (by omega)]

theorem registerAll_cons (a : Aggregator) (x : Accumulator) (xs : List Accumulator) :
    registerAll a (x :: xs) = registerAll (a.registerPool x).1 xs := rfl

/-- The entry of a key after a sequence of registrations. -/
theorem registerAll_get (accs : List Accumulator) : ∀ (a : Aggregator) (key : String),
    (mapGet (registerAll a accs).poolSeen key = none ↔
      (mapGet a.poolSeen key = none ∧ ∀ x ∈ accs, poolKey x.PoolAddress ≠ key)) ∧
    ∀ e, mapGet (registerAll a accs).poolSeen key = some e →
      (∀ e0, mapGet a.poolSeen key = some e0 → e.FirstSeenBlock ≤ e0.FirstSeenBlock) ∧
      (∀ x ∈ accs, poolKey x.PoolAddress = key → e.FirstSeenBlock ≤ x.FirstBlock) ∧
      ((∃ e0, mapGet a.poolSeen key = some e0 ∧ e0.FirstSeenBlock = e.FirstSeenBlock) ∨
        ∃ x ∈ accs, poolKey x.PoolAddress = key ∧ x.FirstBlock = e.FirstSeenBlock) := by
  induction accs with
  | nil =>
    intro a key
    refine ⟨by simp [registerAll], ?_⟩
    intro e he
    have he' : mapGet a.poolSeen key = some e := he
    refine ⟨?_, by simp, Or.inl ⟨e, he', rfl⟩⟩
    intro e0 h0
    rw [he'] at h0
    cases h0
    exact le_refl _
  | cons x xs ih =>
    intro a key
    rw [registerAll_cons]
    obtain ⟨ihn, ihs⟩ := ih (a.registerPool x).1 key
    obtain ⟨hother, hsame⟩ := registerPool_get a x key
    by_cases hk : key = poolKey x.PoolAddress
    · obtain ⟨hnone, hsome⟩ := hsame hk
      constructor
      · rw [ihn]
        constructor
        · rintro ⟨h1, -⟩
          cases h0 : mapGet a.poolSeen key with
          | none =>
            obtain ⟨e, he, -⟩ := hnone h0
            rw [he] at h1; cases h1
          | some e0 =>
            obtain ⟨e, he, -⟩ := hsome e0 h0
            rw [he] at h1; cases h1
        · rintro ⟨-, h2⟩
          exact absurd hk.symm (h2 x (List.mem_cons_self _ _))
      · intro e he
        obtain ⟨b1, b2, b3⟩ := ihs e he
        cases h0 : mapGet a.poolSeen key with
        | none =>
          obtain ⟨e1, he1, hv1⟩ := hnone h0
          have hb1 := b1 e1 he1
          refine ⟨fun e0 h => (by cases h), ?_, ?_⟩
          · intro y hy hyk
            rcases List.mem_cons.mp hy with rfl | hy
            · omega
            · exact b2 y hy hyk
          · right
            rcases b3 with ⟨e0, h0', hv0⟩ | ⟨y, hy, hyk, hyv⟩
            · rw [he1] at h0'
              cases h0'
              exact ⟨x, List.mem_cons_self _ _, hk.symm, by omega⟩
            · exact ⟨y, List.mem_cons_of_mem _ hy, hyk, hyv⟩
        | some e0 =>
          obtain ⟨e1, he1, hv1⟩ := hsome e0 h0
          have hb1 := b1 e1 he1
          have hmin1 : e1.FirstSeenBlock ≤ e0.FirstSeenBlock := by rw [hv1]; exact Nat.min_le_left _ _
          have hmin2 : e1.FirstSeenBlock ≤ x.FirstBlock := by rw [hv1]; exact Nat.min_le_right _ _
          refine ⟨?_, ?_, ?_⟩
          · intro e0' h
            cases h
            omega
          · intro y hy hyk
            rcases List.mem_cons.mp hy with rfl | hy
            · omega
            · exact b2 y hy hyk
          · rcases b3 with ⟨e0', h0', hv0⟩ | ⟨y, hy, hyk, hyv⟩
            · rw [he1] at h0'
              cases h0'
              rcases Nat.le_total e0.FirstSeenBlock x.FirstBlock with hle | hle
              · left
                exact ⟨e0, rfl, by rw [← hv0, hv1, Nat.min_eq_left hle]⟩
              · right
                exact ⟨x, List.mem_cons_self _ _, hk.symm, by rw [← hv0, hv1, Nat.min_eq_right hle]⟩
            · right
              exact ⟨y, List.mem_cons_of_mem _ hy, hyk, hyv⟩
    · have hg := hother hk
      rw [hg] at ihn ihs
      constructor
      · rw [ihn]
        constructor
        · rintro ⟨h1, h2⟩
          refine ⟨h1, ?_⟩
          intro y hy
          rcases List.mem_cons.mp hy with rfl | hy
          · exact fun h => hk h.symm
          · exact h2 y hy
        · rintro ⟨h1, h2⟩
          exact ⟨h1, fun y hy => h2 y (List.mem_cons_of_mem _ hy)⟩
      · intro e he
        obtain ⟨b1, b2, b3⟩ := ihs e he
        refine ⟨b1, ?_, ?_⟩
        · intro y hy hyk
          rcases List.mem_cons.mp hy with rfl | hy
          · exact absurd hyk.symm hk
          · exact b2 y hy hyk
        · rcases b3 with h | ⟨y, hy, hyk, hyv⟩
          · exact Or.inl h
          · exact Or.inr ⟨y, List.mem_cons_of_mem _ hy, hyk, hyv⟩

/-- C15: `registerPool` returns a pool record exactly when the lower-cased
address is not yet in `poolSeen` or the accumulator's `FirstBlock` is strictly
below the `FirstSeenBlock` recorded there, and the record it returns is the one
it stores; a call never raises the `FirstSeenBlock` stored for any key; and
after any sequence of calls on a new aggregator, a key has an entry exactly
when some accumulator of that key was registered, and the entry's
`FirstSeenBlock` is the least `FirstBlock` among them. -/
theorem pool_upserts (a : Aggregator) (acc : Accumulator) (accs : List Accumulator)
    (cfg : Config) (hasStore hasChainClient : Bool) (key : String) :
    ((a.registerPool acc).2.isSome = true ↔
      (mapGet a.poolSeen (poolKey acc.PoolAddress) = none ∨
        ∃ e, mapGet a.poolSeen (poolKey acc.PoolAddress) = some e ∧
          acc.FirstBlock < e.FirstSeenBlock)) ∧
    (∀ p, (a.registerPool acc).2 = some p →
      p.Address = acc.PoolAddress ∧ p.FirstSeenBlock = acc.FirstBlock ∧
      mapGet (a.registerPool acc).1.poolSeen (poolKey acc.PoolAddress) = some p) ∧
    (∀ e0, mapGet a.poolSeen key = some e0 →
      ∃ e, mapGet (a.registerPool acc).1.poolSeen key = some e ∧
        e.FirstSeenBlock ≤ e0.FirstSeenBlock) ∧
    (mapGet (registerAll (NewAggregator cfg hasStore hasChainClient) accs).poolSeen key = none ↔
      ∀ x ∈ accs, poolKey x.PoolAddress ≠ key) ∧
    (∀ e, mapGet (registerAll (NewAggregator cfg hasStore hasChainClient) accs).poolSeen key =
        some e →
      (∃ x ∈ accs, poolKey x.PoolAddress = key ∧ x.FirstBlock = e.FirstSeenBlock) ∧
      ∀ x ∈ accs, poolKey x.PoolAddress = key → e.FirstSeenBlock ≤ x.FirstBlock) := by
  refine ⟨?_, ?_, ?_, ?_, ?_⟩
  · unfold Aggregator.registerPool
    dsimp only
    cases hg : mapGet a.poolSeen (poolKey acc.PoolAddress) with
    | none => simp
    | some existing =>
      simp only
      by_cases hle : existing.FirstSeenBlock ≤ acc.FirstBlock
      · rw [if_pos hle]
        simp
        omega
      · rw [if_neg hle]
        simp
        omega
  · intro p hp
    unfold Aggregator.registerPool at hp ⊢
    dsimp only at hp ⊢
    cases hg : mapGet a.poolSeen (poolKey acc.PoolAddress) with
    | none =>
      rw [hg] at hp
      simp only [Option.some.injEq] at hp
      subst hp
      exact ⟨rfl, rfl, mapGet_mapSet_same _ _ _⟩
    | some existing =>
      rw [hg] at hp
      simp only at hp ⊢
      by_cases hle : existing.FirstSeenBlock ≤ acc.FirstBlock
      · rw [if_pos hle] at hp
        cases hp
      · rw [if_neg hle] at hp ⊢
        simp only [Option.some.injEq] at hp
        subst hp
        exact ⟨rfl, rfl, mapGet_mapSet_same _ _ _⟩
  · intro e0 h0
    obtain ⟨hother, hsame⟩ := registerPool_get a acc key
    by_cases hk : key = poolKey acc.PoolAddress
    · obtain ⟨e, he, hv⟩ := (hsame hk).2 e0 h0
      exact ⟨e, he, by rw [hv]; exact Nat.min_le_left _ _⟩
    · exact ⟨e0, by rw [hother hk]; exact h0, le_refl _⟩
  · rw [(registerAll_get accs (NewAggregator cfg hasStore hasChainClient) key).1]
    have : mapGet (NewAggregator cfg hasStore hasChainClient).poolSeen key = none := rfl
    simp [this]
  · intro e he
    obtain ⟨-, b2, b3⟩ := (registerAll_get accs (NewAggregator cfg hasStore hasChainClient) key).2 e he
    refine ⟨?_, b2⟩
    rcases b3 with ⟨e0, h0, -⟩ | h
    · cases h0
    · exact h

/-! ## Last timestamp, last block, first block -/

theorem touch_marks (a : Accumulator) (r : TypedEventRecord) :
    (a.touch r).LastTS = (if r.Timestamp ≥ a.LastTS then r.Timestamp else a.LastTS) ∧
    (a.touch r).LastBlock = (if r.Timestamp ≥ a.LastTS then r.BlockNumber else a.LastBlock) ∧
    (a.touch r).FirstBlock =
      (if a.FirstBlock = 0 ∨ r.BlockNumber < a.FirstBlock then r.BlockNumber else a.FirstBlock) := by
  unfold Accumulator.touch
  by_cases h1 : r.Timestamp ≥ a.LastTS <;>
    by_cases h2 : a.FirstBlock = 0 ∨ r.BlockNumber < a.FirstBlock <;> simp [h1, h2]

theorem addEvent_marks (a : Accumulator) (r : TypedEventRecord) :
    (a.AddEvent r).1.LastTS = (a.touch r).LastTS ∧
    (a.AddEvent r).1.LastBlock = (a.touch r).LastBlock ∧
    (a.AddEvent r).1.FirstBlock = (a.touch r).FirstBlock := by
  cases h : swapAmounts r with
  | none => rw [(addEvent_none a r h).1]; exact ⟨rfl, rfl, rfl⟩
  | some p => rw [(addEvent_some a r p h).2]; exact ⟨rfl, rfl, rfl⟩

/-- `LastTS` and `LastBlock` after adding a list of records to an accumulator:
either no record reached the accumulator's `LastTS` and both are unchanged, or
they are the timestamp and the block of the last record with the largest
timestamp. -/
theorem addAll_last (a : Accumulator) (l : List TypedEventRecord) :
    a.LastTS ≤ (addAll a l).LastTS ∧ (∀ x ∈ l, x.Timestamp ≤ (addAll a l).LastTS) ∧
    (((addAll a l).LastTS = a.LastTS ∧ (addAll a l).LastBlock = a.LastBlock ∧
        ∀ x ∈ l, x.Timestamp < a.LastTS) ∨
      ∃ pre x post, l = pre ++ x :: post ∧ x.Timestamp = (addAll a l).LastTS ∧
        x.BlockNumber = (addAll a l).LastBlock ∧ ∀ y ∈ post, y.Timestamp < (addAll a l).LastTS) := by
  induction l using List.reverseRecOn with
  | nil => exact ⟨le_refl _, by simp, Or.inl ⟨rfl, rfl, by simp⟩⟩
  | append_singleton l r ih =>
    obtain ⟨h1, h2, h3⟩ := ih
    rw [addAll_snoc]
    obtain ⟨m1, m2, -⟩ := addEvent_marks (addAll a l) r
    obtain ⟨t1, t2, -⟩ := touch_marks (addAll a l) r
    rw [m1, m2, t1, t2]
    by_cases hge : r.Timestamp ≥ (addAll a l).LastTS
    · simp only [hge, if_true]
      refine ⟨by omega, ?_, Or.inr ⟨l, r, [], rfl, rfl, rfl, by simp⟩⟩
      intro x hx
      rcases List.mem_append.mp hx with hx | hx
      · have := h2 x hx; omega
      · simp at hx; rw [hx]
    · simp only [hge, if_false]
      refine ⟨h1, ?_, ?_⟩
      · intro x hx
        rcases List.mem_append.mp hx with hx | hx
        · exact h2 x hx
        · simp at hx; rw [hx]; omega
      · rcases h3 with ⟨e1, e2, e3⟩ | ⟨pre, x, post, hl, hx1, hx2, hpost⟩
        · left
          refine ⟨e1, e2, ?_⟩
          intro x hx
          rcases List.mem_append.mp hx with hx | hx
          · exact e3 x hx
          · simp at hx; rw [hx]; omega
        · right
          refine ⟨pre, x, post ++ [r], by rw [hl]; simp, hx1, hx2, ?_⟩
          intro y hy
          rcases List.mem_append.mp hy with hy | hy
          · exact hpost y hy
          · simp at hy; rw [hy]; omega

/-- C16: for a non-empty list of records `r :: rs`, after the accumulator is
created from `r` and `AddEvent` is applied to every record in order (the
accumulator is kept whether or not an add returns an error), `LastTS` is the
largest timestamp of the list, and `LastBlock` is the block number of the last
record in input order that has that timestamp. -/
theorem last_ts_tie_break (r : TypedEventRecord) (rs : List TypedEventRecord) (ws we : Nat) :
    (∀ x ∈ r :: rs, x.Timestamp ≤ (addAll (NewAccumulator r ws we) (r :: rs)).LastTS) ∧
    ∃ pre x post, r :: rs = pre ++ x :: post ∧
      x.Timestamp = (addAll (NewAccumulator r ws we) (r :: rs)).LastTS ∧
      x.BlockNumber = (addAll (NewAccumulator r ws we) (r :: rs)).LastBlock ∧
      ∀ y ∈ post, y.Timestamp < (addAll (NewAccumulator r ws we) (r :: rs)).LastTS := by
  obtain ⟨-, h2, h3⟩ := addAll_last (NewAccumulator r ws we) (r :: rs)
  refine ⟨h2, ?_⟩
  rcases h3 with ⟨-, -, e3⟩ | h
  · have := e3 r (List.mem_cons_self _ _)
    have hn : (NewAccumulator r ws we).LastTS = r.Timestamp := rfl
    omega
  · exact h

/-- `FirstBlock` after adding a list of records with positive block numbers to
an accumulator whose `FirstBlock` is positive: the least of them all. -/
theorem addAll_first (a : Accumulator) (l : List TypedEventRecord) (ha : 0 < a.FirstBlock)
    (hl : ∀ x ∈ l, 0 < x.BlockNumber) :
    0 < (addAll a l).FirstBlock ∧ (addAll a l).FirstBlock ≤ a.FirstBlock ∧
    (∀ x ∈ l, (addAll a l).FirstBlock ≤ x.BlockNumber) ∧
    ((addAll a l).FirstBlock = a.FirstBlock ∨ ∃ x ∈ l, x.BlockNumber = (addAll a l).FirstBlock) := by
  induction l using List.reverseRecOn with
  | nil => exact ⟨ha, le_refl _, by simp, Or.inl rfl⟩
  | append_singleton l r ih =>
    obtain ⟨h0, h1, h2, h3⟩ := ih (fun x hx => hl x (List.mem_append_left _ hx))
    have hr : 0 < r.BlockNumber := hl r (by simp)
    rw [addAll_snoc, (addEvent_marks (addAll a l) r).2.2, (touch_marks (addAll a l) r).2.2]
    by_cases hc : (addAll a l).FirstBlock = 0 ∨ r.BlockNumber < (addAll a l).FirstBlock
    · have hlt : r.BlockNumber < (addAll a l).FirstBlock := by omega
      simp only [hc, if_true]
      refine ⟨hr, by omega, ?_, Or.inr ⟨r, by simp, rfl⟩⟩
      intro x hx
      rcases List.mem_append.mp hx with hx | hx
      · have := h2 x hx; omega
      · simp at hx; rw [hx]
    · simp only [hc, if_false]
      refine ⟨h0, h1, ?_, ?_⟩
      · intro x hx
        rcases List.mem_append.mp hx with hx | hx
        · exact h2 x hx
        · simp at hx; rw [hx]; omega
      · rcases h3 with h | ⟨x, hx, hxv⟩
        · exact Or.inl h
        · exact Or.inr ⟨x, List.mem_append_left _ hx, hxv⟩

/-- C17 as stated fails: `FirstBlock = 0` is read as unset, so after records in
blocks 0 and 5 the accumulator has `FirstBlock = 5`, which is not the least
block number and is above the value 0 it had after the first add. -/
theorem first_block_zero_unset :
    (addAll (NewAccumulator (sampleAt 0) 100 110) [sampleAt 0]).FirstBlock = 0 ∧
    (addAll (NewAccumulator (sampleAt 0) 100 110) [sampleAt 0, sampleAt 5]).FirstBlock = 5 ∧
    (sampleAt 0).BlockNumber = 0 := by
  decide

/-- C17, amended: for a non-empty list of records `r :: rs` whose block
numbers are all positive, after the accumulator is created from `r` and
`AddEvent` is applied to every record in order, `FirstBlock` is the least block
number of the list; and it does not increase from one `AddEvent` to the next. -/
theorem first_block_minimum (r : TypedEventRecord) (rs : List TypedEventRecord) (ws we : Nat)
    (hpos : ∀ x ∈ r :: rs, 0 < x.BlockNumber) :
    (∀ x ∈ r :: rs, (addAll (NewAccumulator r ws we) (r :: rs)).FirstBlock ≤ x.BlockNumber) ∧
    (∃ x ∈ r :: rs, x.BlockNumber = (addAll (NewAccumulator r ws we) (r :: rs)).FirstBlock) ∧
    ∀ pre x post, r :: rs = pre ++ x :: post →
      (addAll (NewAccumulator r ws we) (pre ++ [x])).FirstBlock ≤
        (addAll (NewAccumulator r ws we) pre).FirstBlock := by
  have hr : 0 < r.BlockNumber := hpos r (List.mem_cons_self _ _)
  have hnew : (NewAccumulator r ws we).FirstBlock = r.BlockNumber := rfl
  obtain ⟨-, h1, h2, h3⟩ := addAll_first (NewAccumulator r ws we) (r :: rs) (by rw [hnew]; exact hr) hpos
  refine ⟨h2, ?_, ?_⟩
  · rcases h3 with h | h
    · exact ⟨r, List.mem_cons_self _ _, by rw [h, hnew]⟩
    · exact h
  · intro pre x post hsplit
    have hpre : ∀ y ∈ pre, 0 < y.BlockNumber := by
      intro y hy
      apply hpos
      rw [hsplit]
      exact List.mem_append_left _ hy
    have hx : 0 < x.BlockNumber := by
      apply hpos
      rw [hsplit]
      simp
    obtain ⟨g0, -, -, -⟩ := addAll_first (NewAccumulator r ws we) pre (by rw [hnew]; exact hr) hpre
    rw [addAll_snoc, (addEvent_marks _ x).2.2, (touch_marks _ x).2.2]
    split_ifs with hc
    · omega
    · exact le_refl _

theorem first_block_minimum_witness :
    (∀ x ∈ [sampleAt 7, sampleAt 5, sampleAt 9], 0 < x.BlockNumber) ∧
    (addAll (NewAccumulator (sampleAt 7) 100 110) [sampleAt 7, sampleAt 5, sampleAt 9]).FirstBlock = 5 ∧
    ((∀ x ∈ [sampleAt 7, sampleAt 5, sampleAt 9],
      (addAll (NewAccumulator (sampleAt 7) 100 110) [sampleAt 7, sampleAt 5, sampleAt 9]).FirstBlock ≤
        x.BlockNumber) ∧
    (∃ x ∈ [sampleAt 7, sampleAt 5, sampleAt 9], x.BlockNumber =
      (addAll (NewAccumulator (sampleAt 7) 100 110) [sampleAt 7, sampleAt 5, sampleAt 9]).FirstBlock) ∧
    ∀ pre x post, [sampleAt 7, sampleAt 5, sampleAt 9] = pre ++ x :: post →
      (addAll (NewAccumulator (sampleAt 7) 100 110) (pre ++ [x])).FirstBlock ≤
        (addAll (NewAccumulator (sampleAt 7) 100 110) pre).FirstBlock) :=
  ⟨by decide, by decide,
    first_block_minimum (sampleAt 7) [sampleAt 5, sampleAt 9] 100 110 (by decide)⟩

/-! ## Accumulator invariants -/

/-- `Run` is its checks, then the loop from `initState`, then `finishRun`. -/
theorem run_eq_loop (env : Env) (a : Aggregator) (input : List Line) (startTs : Nat)
    (hs : a.hasStore = true) (hc : a.hasChainClient = true) (hW : a.cfg.WindowSeconds ≠ 0)
    (hstart : a.loadStartTimestamp = Except.ok startTs) :
    a.Run env input =
      match runLoop env startTs (a.initState startTs) input with
      | Except.error e => Except.error e
      | Except.ok st => finishRun env st := by
  unfold Aggregator.Run Aggregator.initState
  rw [if_neg (by rw [hs]; decide), if_neg (by rw [hc]; decide), if_neg hW]
  dsimp only
  by_cases hb : a.cfg.BatchSize ≤ 0
  · rw [if_pos hb]
    have hl : Aggregator.loadStartTimestamp { a with cfg := { a.cfg with BatchSize := 1000 } } =
        Except.ok startTs := hstart
    rw [hl]
  · rw [if_neg hb, hstart]

theorem runLoop_append (env : Env) (startTs : Nat) (pre post : List Line) : ∀ st : RunState,
    runLoop env startTs st (pre ++ post) =
      match runLoop env startTs st pre with
      | Except.error e => Except.error e
      | Except.ok st1 => runLoop env startTs st1 post := by
  induction pre with
  | nil => intro st; rfl
  | cons line rest ih =>
    intro st
    simp only [List.cons_append, runLoop]
    cases processLine env startTs st line with
    | error e => rfl
    | ok st1 => exact ih st1

theorem feeShare_nonneg (f : Nat) (a0 a1 : Int) : 0 ≤ (feeShare f a0 a1).1 ∧ 0 ≤ (feeShare f a0 a1).2 := by
  have h : ∀ x : Int, 0 ≤ feeFromAmount x f := by
    intro x
    rw [feeFromAmount_floor]
    exact Int.natCast_nonneg _
  unfold feeShare
  split_ifs
  · exact ⟨le_refl _, le_refl _⟩
  · exact ⟨le_refl _, h _⟩
  · exact ⟨h _, le_refl _⟩
  · exact ⟨le_refl _, le_refl _⟩

theorem newAccumulator_inv (W : Nat) (r : TypedEventRecord) (hW : 0 < W)
    (hfit : windowStart r.Timestamp W + W < uint64Size) :
    AccInv W (NewAccumulator r (windowStart r.Timestamp W) (windowEnd r.Timestamp W)) := by
  have he : windowEnd r.Timestamp W = windowStart r.Timestamp W + W := by
    unfold windowEnd
    exact Nat.mod_eq_of_lt hfit
  refine ⟨windowStart_mod _ _, he, le_refl _, le_refl _, le_refl _, le_refl _,
    windowStart_le _ _, ?_⟩
  show r.Timestamp < windowEnd r.Timestamp W
  rw [he]
  exact lt_windowStart_add _ _ hW

theorem addEvent_inv (W : Nat) (acc : Accumulator) (r : TypedEventRecord) (hW : 0 < W)
    (hinv : AccInv W acc) (hw : acc.WindowStart = windowStart r.Timestamp W) :
    AccInv W (acc.AddEvent r).1 := by
  obtain ⟨i1, i2, i3, i4, i5, i6, i7, i8⟩ := hinv
  obtain ⟨s1, s2, -, -, -⟩ := addEvent_static acc r
  obtain ⟨m1, -, -⟩ := addEvent_marks acc r
  obtain ⟨t1, -, -⟩ := touch_marks acc r
  have hlo : acc.WindowStart ≤ r.Timestamp := by rw [hw]; exact windowStart_le _ _
  have hhi : r.Timestamp < acc.WindowEnd := by rw [i2, hw]; exact lt_windowStart_add _ _ hW
  have hts : acc.WindowStart ≤ (acc.AddEvent r).1.LastTS ∧ (acc.AddEvent r).1.LastTS < acc.WindowEnd := by
    rw [m1, t1]
    split_ifs
    · exact ⟨hlo, hhi⟩
    · exact ⟨i7, i8⟩
  have hvol : 0 ≤ (acc.AddEvent r).1.Volume0 ∧ 0 ≤ (acc.AddEvent r).1.Volume1 ∧
      0 ≤ (acc.AddEvent r).1.Fee0 ∧ 0 ≤ (acc.AddEvent r).1.Fee1 := by
    have ht := touch_totals acc r
    simp only [Accumulator.totals, Prod.mk.injEq] at ht
    cases h : swapAmounts r with
    | none =>
      rw [(addEvent_none acc r h).1, ht.1.2.1, ht.1.2.2.1, ht.1.2.2.2.1, ht.1.2.2.2.2]
      exact ⟨i3, i4, i5, i6⟩
    | some p =>
      rw [(addEvent_some acc r p h).2]
      have hf := feeShare_nonneg acc.PoolMeta.Fee p.1 p.2
      refine ⟨?_, ?_, ?_, ?_⟩
      · show 0 ≤ acc.Volume0 + (p.1.natAbs : Int)
        omega
      · show 0 ≤ acc.Volume1 + (p.2.natAbs : Int)
        omega
      · show 0 ≤ acc.Fee0 + (feeShare acc.PoolMeta.Fee p.1 p.2).1
        omega
      · show 0 ≤ acc.Fee1 + (feeShare acc.PoolMeta.Fee p.1 p.2).2
        omega
  refine ⟨by rw [s1]; exact i1, by rw [s1, s2]; exact i2, hvol.1, hvol.2.1, hvol.2.2.1,
    hvol.2.2.2, by rw [s1]; exact hts.1, by rw [s2]; exact hts.2⟩

theorem processLine_accs (env : Env) (startTs : Nat) (st st1 : RunState) (line : Line)
    (h : processLine env startTs st line = Except.ok st1) :
    st1.a.cfg = st.a.cfg ∧
    (st1.a.accumulators = st.a.accumulators ∨
      ∃ r, line = Line.record r ∧
        st1.a.accumulators =
          mapSet st.a.accumulators (poolKey r.Address) ((st.target r).AddEvent r).1) := by
  cases line with
  | blank =>
    simp only [processLine, Except.ok.injEq] at h
    subst h
    exact ⟨rfl, Or.inl rfl⟩
  | malformed =>
    simp only [processLine, Except.ok.injEq] at h
    subst h
    exact ⟨rfl, Or.inl rfl⟩
  | record r =>
    unfold processLine at h
    dsimp only at h
    by_cases hskip : r.Timestamp ≤ startTs
    · rw [if_pos hskip] at h
      simp only [Except.ok.injEq] at h
      subst h
      exact ⟨rfl, Or.inl rfl⟩
    · rw [if_neg hskip] at h
      have hf := aggregate_fields env { st with total := st.total + 1 } r
      have htarget : RunState.target { st with total := st.total + 1 } r = st.target r := rfl
      rw [htarget] at hf
      cases he : (RunState.aggregate env { st with total := st.total + 1 } r).2 with
      | some e =>
        rw [he] at h
        simp only [Except.ok.injEq] at h
        subst h
        exact ⟨hf.1, Or.inr ⟨r, rfl, hf.2.2.2.2.2⟩⟩
      | none =>
        rw [he] at h
        simp only at h
        have hp := persistIfFull_fields env _ st1 h
        rw [hp.1]
        exact ⟨hf.1, Or.inr ⟨r, rfl, hf.2.2.2.2.2⟩⟩

theorem target_inv (st : RunState) (r : TypedEventRecord) (hW : 0 < st.a.cfg.WindowSeconds)
    (hinv : ∀ e ∈ st.a.accumulators, AccInv st.a.cfg.WindowSeconds e.2)
    (hfit : windowStart r.Timestamp st.a.cfg.WindowSeconds + st.a.cfg.WindowSeconds < uint64Size) :
    AccInv st.a.cfg.WindowSeconds (st.target r) := by
  unfold RunState.target
  cases hm : mapGet st.a.accumulators (poolKey r.Address) with
  | none => exact newAccumulator_inv _ r hW hfit
  | some acc =>
    simp only
    split_ifs
    · exact newAccumulator_inv _ r hW hfit
    · exact hinv _ (mapGet_some_mem _ _ _ hm)

theorem runLoop_inv (env : Env) (startTs W : Nat) (hW : 0 < W) (input : List Line) :
    ∀ st st1 : RunState, st.a.cfg.WindowSeconds = W →
      (∀ e ∈ st.a.accumulators, AccInv W e.2) →
      (∀ r ∈ recordsOf input, windowStart r.Timestamp W + W < uint64Size) →
      runLoop env startTs st input = Except.ok st1 →
      ∀ e ∈ st1.a.accumulators, AccInv W e.2 := by
  induction input with
  | nil =>
    intro st st1 _ hinv _ h
    simp only [runLoop, Except.ok.injEq] at h
    subst h
    exact hinv
  | cons line rest ih =>
    intro st st1 hcfg hinv hfit h
    rw [runLoop] at h
    cases hp : processLine env startTs st line with
    | error e => rw [hp] at h; cases h
    | ok st2 =>
      rw [hp] at h
      simp only at h
      obtain ⟨hc, hacc⟩ := processLine_accs env startTs st st2 line hp
      have hrest : ∀ r ∈ recordsOf rest, windowStart r.Timestamp W + W < uint64Size := by
        intro r hr
        apply hfit
        rw [recordsOf_cons]
        cases line <;> simp [hr]
      refine ih st2 st1 (by rw [hc, hcfg]) ?_ hrest h
      rcases hacc with hsame | ⟨r, hline, hset⟩
      · rw [hsame]; exact hinv
      · intro e he
        rw [hset] at he
        rcases mem_mapSet _ _ _ _ he with heq | hmem
        · rw [heq]
          have hfr : windowStart r.Timestamp W + W < uint64Size := by
            apply hfit
            rw [hline, recordsOf_cons]
            simp
          subst hcfg
          exact addEvent_inv _ _ r hW (target_inv st r hW hinv hfr) (target_windowStart st r)
        · exact hinv e hmem

theorem finishRun_empty (env : Env) (st stF : RunState) (h : finishRun env st = Except.ok stF) :
    stF.a.accumulators = [] := by
  unfold finishRun at h
  dsimp only at h
  split at h
  · cases h
  · split at h
    · cases h
    · simp only [Except.ok.injEq] at h
      subst h
      rfl

/-- C18 as stated fails: for a swap at the last 64-bit timestamp and a window of
2 seconds the accumulator put in the map has `WindowEnd = 0`, so `WindowEnd` is
not `WindowStart + W` and `LastTS` is not below it. -/
theorem accumulator_invariants_overflow :
    openAccumulators (runLoop sampleEnv 0
      ((NewAggregator (sampleConfig 2 1000 0) true true).initState 0) lateInput) ≠ [] ∧
    ∀ acc ∈ openAccumulators (runLoop sampleEnv 0
        ((NewAggregator (sampleConfig 2 1000 0) true true).initState 0) lateInput),
      acc.WindowStart = 2 ^ 64 - 2 ∧ acc.LastTS = 2 ^ 64 - 1 ∧ acc.WindowEnd = 0 ∧
        ¬ AccInv 2 acc := by
  decide

/-- C18, amended: take a window size `W > 0`, an aggregator whose map holds
only accumulators that satisfy the invariants (a new aggregator holds none),
and an input every record of which has `windowStart + W` within 64 bits.  Then
in the state `st` that the loop of `Run` reaches after any prefix `pre` of the
input, from which `Run` goes on over the rest, every accumulator held in the
map has `WindowStart mod W = 0`, `WindowEnd = WindowStart + W`, non-negative
volumes and fees, and `WindowStart ≤ LastTS < WindowEnd`; and when `Run`
returns, the map is empty. -/
theorem accumulator_invariants (env : Env) (a : Aggregator) (input pre post : List Line)
    (startTs : Nat) (st : RunState)
    (hs : a.hasStore = true) (hc : a.hasChainClient = true) (hW : 0 < a.cfg.WindowSeconds)
    (hstart : a.loadStartTimestamp = Except.ok startTs)
    (hinit : ∀ e ∈ a.accumulators, AccInv a.cfg.WindowSeconds e.2)
    (hfit : ∀ r ∈ recordsOf input,
      windowStart r.Timestamp a.cfg.WindowSeconds + a.cfg.WindowSeconds < uint64Size)
    (hsplit : input = pre ++ post)
    (hloop : runLoop env startTs (a.initState startTs) pre = Except.ok st) :
    (a.Run env input =
      match runLoop env startTs st post with
      | Except.error e => Except.error e
      | Except.ok st1 => finishRun env st1) ∧
    (∀ e ∈ st.a.accumulators, AccInv a.cfg.WindowSeconds e.2) ∧
    (∀ stF, a.Run env input = Except.ok stF → stF.a.accumulators = []) := by
  have hWne : a.cfg.WindowSeconds ≠ 0 := by omega
  have hrun := run_eq_loop env a input startTs hs hc hWne hstart
  have hcfg : (a.initState startTs).a.cfg.WindowSeconds = a.cfg.WindowSeconds := by
    unfold Aggregator.initState
    dsimp only
    split_ifs <;> rfl
  have hacc : (a.initState startTs).a.accumulators = a.accumulators := by
    unfold Aggregator.initState
    dsimp only
    split_ifs <;> rfl
  refine ⟨?_, ?_, ?_⟩
  · rw [hrun, hsplit, runLoop_append, hloop]
  · refine runLoop_inv env startTs a.cfg.WindowSeconds hW pre (a.initState startTs) st hcfg
      (by rw [hacc]; exact hinit) ?_ hloop
    intro r hr
    apply hfit
    rw [hsplit]
    unfold recordsOf at hr ⊢
    rw [List.filterMap_append]
    exact List.mem_append_left _ hr
  · intro stF hF
    rw [hrun] at hF
    cases hl : runLoop env startTs (a.initState startTs) input with
    | error e => rw [hl] at hF; cases hF
    | ok st1 =>
      rw [hl] at hF
      exact finishRun_empty env st1 stF hF

theorem accumulator_invariants_witness :
    ((NewAggregator (sampleConfig 300 1 0) true true).hasStore = true ∧
      (NewAggregator (sampleConfig 300 1 0) true true).hasChainClient = true ∧
      0 < (NewAggregator (sampleConfig 300 1 0) true true).cfg.WindowSeconds ∧
      (∀ e ∈ (NewAggregator (sampleConfig 300 1 0) true true).accumulators,
        AccInv (NewAggregator (sampleConfig 300 1 0) true true).cfg.WindowSeconds e.2) ∧
      (∀ r ∈ recordsOf sampleInput,
        windowStart r.Timestamp (NewAggregator (sampleConfig 300 1 0) true true).cfg.WindowSeconds +
          (NewAggregator (sampleConfig 300 1 0) true true).cfg.WindowSeconds < uint64Size) ∧
      sampleInput = sampleInput.take 3 ++ sampleInput.drop 3 ∧
      sampleMid.a.accumulators.length = 2) ∧
    ((NewAggregator (sampleConfig 300 1 0) true true).Run sampleEnv sampleInput =
      match runLoop sampleEnv 0 sampleMid (sampleInput.drop 3) with
      | Except.error e => Except.error e
      | Except.ok st1 => finishRun sampleEnv st1) ∧
    (∀ e ∈ sampleMid.a.accumulators,
      AccInv (NewAggregator (sampleConfig 300 1 0) true true).cfg.WindowSeconds e.2) ∧
    (∀ stF, (NewAggregator (sampleConfig 300 1 0) true true).Run sampleEnv sampleInput =
      Except.ok stF → stF.a.accumulators = []) :=
  ⟨⟨rfl, rfl, by decide, by decide, by decide, by decide, by decide⟩,
    accumulator_invariants sampleEnv (NewAggregator (sampleConfig 300 1 0) true true) sampleInput
      (sampleInput.take 3) (sampleInput.drop 3) 0 sampleMid rfl rfl (by decide) rfl (by decide)
      (by decide) (by decide) rfl⟩

/-! ## Decoder -/

/-! ## Hex text and words -/

theorem hexDigitValue_digitChar (n : Nat) (h : n < 16) :
    hexDigitValue (Nat.digitChar n) = some n := by
  interval_cases n <;> decide

theorem hexDecode_hexChars (bs : List Nat) (h : ∀ b ∈ bs, b < 256) :
    hexDecode (hexChars bs) = some bs := by
  induction bs with
  | nil => rfl
  | cons b bs ih =>
    have hb : b < 256 := h b (List.mem_cons_self _ _)
    have h1 : b / 16 < 16 := by omega
    have h2 : b % 16 < 16 := by omega
    have hbs := ih (fun x hx => h x (List.mem_cons_of_mem _ hx))
    simp only [hexChars, hexDecode, hexDigitValue_digitChar _ h1, hexDigitValue_digitChar _ h2, hbs]
    congr 2
    omega

theorem hexutilDecode_hexEncode (bs : List Nat) (h : ∀ b ∈ bs, b < 256) :
    hexutilDecode (hexEncode bs) = some bs := by
  unfold hexutilDecode hexEncode
  simp only [true_or, if_true]
  exact hexDecode_hexChars bs h

theorem toBytes_length (n w : Nat) : (toBytes n w).length = n := by
  induction n generalizing w with
  | zero => rfl
  | succ n ih => simp [toBytes, ih]

theorem toBytes_lt (n w : Nat) : ∀ b ∈ toBytes n w, b < 256 := by
  induction n generalizing w with
  | zero => intro b hb; simp [toBytes] at hb
  | succ n ih =>
    intro b hb
    simp only [toBytes, List.mem_append, List.mem_singleton] at hb
    rcases hb with hb | hb
    · exact ih _ b hb
    · rw [hb]; omega

theorem bytesToNat_snoc (l : List Nat) (b : Nat) :
    bytesToNat (l ++ [b]) = 256 * bytesToNat l + b := by
  simp [bytesToNat, List.foldl_append]

theorem bytesToNat_toBytes (n w : Nat) : bytesToNat (toBytes n w) = w % 256 ^ n := by
  induction n generalizing w with
  | zero => simp [toBytes, bytesToNat, Nat.mod_one]
  | succ n ih =>
    rw [toBytes, bytesToNat_snoc, ih, pow_succ, Nat.mul_comm (256 ^ n) 256, Nat.mod_mul]
    omega

theorem hexutilDecode_topicOf (w : Nat) (hw : w < 2 ^ 256) :
    hexutilDecode (topicOf w) = some (toBytes 32 w) ∧ (toBytes 32 w).length = 32 ∧
      bytesToHash (toBytes 32 w) = w := by
  refine ⟨hexutilDecode_hexEncode _ (toBytes_lt 32 w), toBytes_length 32 w, ?_⟩
  unfold bytesToHash
  rw [bytesToNat_toBytes]
  have e : (256 : Nat) ^ 32 = 2 ^ 256 := by norm_num
  rw [e, Nat.mod_mod, Nat.mod_eq_of_lt hw]

theorem parseTopicHashes_topics (ws : List Nat) (h : ∀ w ∈ ws, w < 2 ^ 256) :
    parseTopicHashes (ws.map topicOf) = Except.ok ws := by
  induction ws with
  | nil => rfl
  | cons w ws ih =>
    obtain ⟨h1, h2, h3⟩ := hexutilDecode_topicOf w (h w (List.mem_cons_self _ _))
    have hrest := ih (fun x hx => h x (List.mem_cons_of_mem _ hx))
    simp only [List.map_cons, parseTopicHashes, h1, h2, hrest, h3]
    simp

theorem wordsBytes_lt (ws : List Nat) : ∀ b ∈ wordsBytes ws, b < 256 := by
  induction ws with
  | nil => intro b hb; simp [wordsBytes] at hb
  | cons w ws ih =>
    intro b hb
    simp only [wordsBytes, List.mem_append] at hb
    rcases hb with hb | hb
    · exact toBytes_lt 32 w b hb
    · exact ih b hb

theorem wordsBytes_length (ws : List Nat) : (wordsBytes ws).length = 32 * ws.length := by
  induction ws with
  | nil => rfl
  | cons w ws ih =>
    simp only [wordsBytes, List.length_append, toBytes_length, ih, List.length_cons]
    omega

/-- Unpacking the bytes of as many words as there are arguments reads each word
at the type of its argument. -/
theorem unpackFrom_words (args : List Argument) : ∀ ws : List Nat, args.length = ws.length →
    (∀ w ∈ ws, w < 2 ^ 256) →
    unpackFrom args (wordsBytes ws) = some (List.zipWith (fun a w => toGoType a.Ty w) args ws) := by
  induction args with
  | nil => intro ws _ _; cases ws <;> rfl
  | cons a args ih =>
    intro ws hlen hw
    cases ws with
    | nil => simp at hlen
    | cons w ws =>
      have hlen' : args.length = ws.length := by simpa using hlen
      have hrest := ih ws hlen' (fun x hx => hw x (List.mem_cons_of_mem _ hx))
      have hw0 : w < 2 ^ 256 := hw w (List.mem_cons_self _ _)
      have hl : (toBytes 32 w).length = 32 := toBytes_length 32 w
      have htake : (toBytes 32 w ++ wordsBytes ws).take 32 = toBytes 32 w := by
        rw [List.take_append_of_le_length (by omega), List.take_of_length_le (by omega)]
      have hdrop : (toBytes 32 w ++ wordsBytes ws).drop 32 = wordsBytes ws := by
        rw [List.drop_append_of_le_length (by omega), List.drop_of_length_le (by omega),
          List.nil_append]
      have hval : bytesToNat (toBytes 32 w) = w := by
        rw [bytesToNat_toBytes]
        have e : (256 : Nat) ^ 32 = 2 ^ 256 := by norm_num
        rw [e, Nat.mod_eq_of_lt hw0]
      have hnl : ¬ ((toBytes 32 w ++ wordsBytes ws).length < 32) := by
        rw [List.length_append, hl]; omega
      simp only [unpackFrom, wordsBytes, hnl, if_false, hdrop, hrest, htake, hval,
        List.zipWith_cons_cons]

theorem unpackNonIndexed_words (event : Event) (ws : List Nat)
    (hlen : (nonIndexed event.Inputs).length = ws.length) (hne : ws ≠ [])
    (hw : ∀ w ∈ ws, w < 2 ^ 256) :
    unpackNonIndexed event (packWords ws) =
      Except.ok (List.zipWith (fun a w => toGoType a.Ty w) (nonIndexed event.Inputs) ws) := by
  unfold unpackNonIndexed packWords
  rw [hexutilDecode_hexEncode _ (wordsBytes_lt ws)]
  have hl : ¬ ((wordsBytes ws).length = 0) := by
    rw [wordsBytes_length]
    cases ws with
    | nil => exact absurd rfl hne
    | cons w ws => simp
  simp only [unpackValues, hl, if_false, unpackFrom_words _ ws hlen hw]

theorem readInteger_signed (v : Int) (hlo : -(2 ^ 255) ≤ v) (hhi : v < 2 ^ 255) :
    encodeWord v < 2 ^ 256 ∧ readInteger true (encodeWord v) = v := by
  unfold readInteger encodeWord
  have hpos : (0 : Int) < 2 ^ 256 := by norm_num
  have hm0 : 0 ≤ v % 2 ^ 256 := Int.emod_nonneg _ hpos.ne'
  have hm1 : v % 2 ^ 256 < 2 ^ 256 := Int.emod_lt_of_pos _ hpos
  have hcast : (((v % 2 ^ 256).toNat : Nat) : Int) = v % 2 ^ 256 := Int.toNat_of_nonneg hm0
  have hlt : (v % 2 ^ 256).toNat < 2 ^ 256 := by
    have : (((v % 2 ^ 256).toNat : Nat) : Int) < ((2 ^ 256 : Nat) : Int) := by
      rw [hcast]; exact_mod_cast hm1
    exact_mod_cast this
  refine ⟨hlt, ?_⟩
  by_cases hneg : v < 0
  · have hmod : v % 2 ^ 256 = v + 2 ^ 256 := by
      rw [← Int.add_emod_self]
      exact Int.emod_eq_of_lt (by omega) (by omega)
    have hge : (2 : Nat) ^ 255 ≤ (v % 2 ^ 256).toNat := by
      have : ((2 ^ 255 : Nat) : Int) ≤ (((v % 2 ^ 256).toNat : Nat) : Int) := by
        rw [hcast, hmod]; push_cast; omega
      exact_mod_cast this
    rw [if_pos ⟨rfl, hge⟩, hcast, hmod]
    ring
  · have hmod : v % 2 ^ 256 = v := Int.emod_eq_of_lt (by omega) (by omega)
    have hnge : ¬ ((2 : Nat) ^ 255 ≤ (v % 2 ^ 256).toNat) := by
      intro hge
      have : ((2 ^ 255 : Nat) : Int) ≤ (((v % 2 ^ 256).toNat : Nat) : Int) := by exact_mod_cast hge
      rw [hcast, hmod] at this
      push_cast at this
      omega
    rw [if_neg (fun h => hnge h.2), hcast, hmod]

theorem int24FromBig_ok (t : Int) (hlo : -(2 ^ 23) ≤ t) (hhi : t < 2 ^ 23) :
    int24FromBig t = Except.ok t := by
  unfold int24FromBig
  have : ¬ (t < -(2 ^ 23) ∨ t > 2 ^ 23 - 1) := by omega
  rw [if_neg this]
  congr 1
  unfold toInt32 bigToInt64
  have h1 : (t + 2 ^ 63) % 2 ^ 64 = t + 2 ^ 63 := Int.emod_eq_of_lt (by omega) (by omega)
  rw [h1]
  have h2 : (t + 2 ^ 63 - 2 ^ 63 + 2 ^ 31) % 2 ^ 32 = t + 2 ^ 31 := by
    have : t + 2 ^ 63 - 2 ^ 63 + 2 ^ 31 = t + 2 ^ 31 := by ring
    rw [this]
    exact Int.emod_eq_of_lt (by omega) (by omega)
  rw [h2]
  ring

/-! ## Decoding an encoded log -/

theorem swapIndexed_ok (s r : Nat) (hs : s < 2 ^ 160) (hr : r < 2 ^ 160) :
    swapIndexed [s, r] = Except.ok (s, r) := by
  have hargs : indexedArguments swapEvent.Inputs =
      [{ Name := "sender", Ty := AbiType.address, Indexed := true },
        { Name := "recipient", Ty := AbiType.address, Indexed := true }] := by decide
  unfold swapIndexed parseTopics
  rw [hargs]
  simp [toGoType, wordToAddress, Nat.mod_eq_of_lt hs, Nat.mod_eq_of_lt hr]
  constructor <;> omega

theorem rangeIndexed_ok (event : Event) (name : String) (o : Nat) (tl tu : Int)
    (hargs : indexedArguments event.Inputs =
      [{ Name := name, Ty := AbiType.address, Indexed := true },
        { Name := "tickLower", Ty := AbiType.int 24, Indexed := true },
        { Name := "tickUpper", Ty := AbiType.int 24, Indexed := true }])
    (ho : o < 2 ^ 160)
    (hl : -(2 ^ 255) ≤ tl ∧ tl < 2 ^ 255) (hu : -(2 ^ 255) ≤ tu ∧ tu < 2 ^ 255) :
    rangeIndexed event [o, encodeWord tl, encodeWord tu] = Except.ok (o, tl, tu) := by
  unfold rangeIndexed parseTopics
  rw [hargs]
  simp [toGoType, wordToAddress, Nat.mod_eq_of_lt ho, (readInteger_signed tl hl.1 hl.2).2,
    (readInteger_signed tu hu.1 hu.2).2]
  omega

theorem readInteger_unsigned (w : Nat) : readInteger false w = (w : Int) := by
  unfold readInteger
  simp

theorem decodeSwap_ok (k : EthLib) (base : LogRecord) (s r : Nat) (a0 a1 : Int) (sp liq : Nat)
    (tick : Int) (hs : s < 2 ^ 160) (hr : r < 2 ^ 160)
    (h0 : -(2 ^ 255) ≤ a0 ∧ a0 < 2 ^ 255) (h1 : -(2 ^ 255) ≤ a1 ∧ a1 < 2 ^ 255)
    (hsp : sp < 2 ^ 160) (hliq : liq < 2 ^ 128) (ht : -(2 ^ 23) ≤ tick ∧ tick < 2 ^ 23) :
    decodeSwap k (swapLog k base s r a0 a1 sp liq tick) =
      Except.ok
        { Sender := k.addressHex s
          Recipient := k.addressHex r
          Amount0 := String.mk (bigIntString a0)
          Amount1 := String.mk (bigIntString a1)
          SqrtPriceX96 := String.mk (bigIntString (sp : Int))
          Liquidity := String.mk (bigIntString (liq : Int))
          Tick := tick } := by
  have ht255 : -(2 ^ 255) ≤ tick ∧ tick < 2 ^ 255 := by constructor <;> omega
  have e1 : parseIndexedTopics swapEvent (swapLog k base s r a0 a1 sp liq tick).Topics =
      Except.ok [s, r] := by
    have hlen : (indexedArguments swapEvent.Inputs).length = 2 := by decide
    unfold parseIndexedTopics swapLog
    simp only [List.length_cons, List.length_nil, hlen, ne_eq, not_true_eq_false, if_false,
      List.drop_succ_cons, List.drop_zero]
    exact parseTopicHashes_topics [s, r] (by
      intro w hw
      simp only [List.mem_cons, List.mem_singleton, List.not_mem_nil, or_false] at hw
      rcases hw with rfl | rfl <;> omega)
  have e3 : unpackNonIndexed swapEvent (swapLog k base s r a0 a1 sp liq tick).Data =
      Except.ok [AbiValue.bigInt a0, AbiValue.bigInt a1, AbiValue.bigInt (sp : Int),
        AbiValue.bigInt (liq : Int), AbiValue.bigInt tick] := by
    have hni : nonIndexed swapEvent.Inputs =
        [{ Name := "amount0", Ty := AbiType.int 256, Indexed := false },
          { Name := "amount1", Ty := AbiType.int 256, Indexed := false },
          { Name := "sqrtPriceX96", Ty := AbiType.uint 160, Indexed := false },
          { Name := "liquidity", Ty := AbiType.uint 128, Indexed := false },
          { Name := "tick", Ty := AbiType.int 24, Indexed := false }] := by decide
    have r0 := readInteger_signed a0 h0.1 h0.2
    have r1 := readInteger_signed a1 h1.1 h1.2
    have r4 := readInteger_signed tick ht255.1 ht255.2
    have hw : ∀ w ∈ [encodeWord a0, encodeWord a1, sp, liq, encodeWord tick], w < 2 ^ 256 := by
      intro w hw
      simp only [List.mem_cons, List.mem_singleton, List.not_mem_nil, or_false] at hw
      rcases hw with rfl | rfl | rfl | rfl | rfl
      · exact r0.1
      · exact r1.1
      · omega
      · omega
      · exact r4.1
    have := unpackNonIndexed_words swapEvent
      [encodeWord a0, encodeWord a1, sp, liq, encodeWord tick] (by rw [hni]; rfl) (by simp) hw
    rw [hni] at this
    simp only [List.zipWith_cons_cons, List.zipWith_nil_right, toGoType, r0.2, r1.2, r4.2,
      readInteger_unsigned] at this
    exact this
  unfold decodeSwap
  rw [e1]
  simp only [bind, Except.bind, swapIndexed_ok s r hs hr, e3, asBigInt,
    int24FromBig_ok tick ht.1 ht.2, pure, Except.pure]

theorem rangeTopics_ok (event : Event) (id : String) (o : Nat) (tl tu : Int)
    (hlen : (indexedArguments event.Inputs).length = 3) (ho : o < 2 ^ 160)
    (hl : -(2 ^ 255) ≤ tl ∧ tl < 2 ^ 255) (hu : -(2 ^ 255) ≤ tu ∧ tu < 2 ^ 255) :
    parseIndexedTopics event [id, topicOf o, topicOf (encodeWord tl), topicOf (encodeWord tu)] =
      Except.ok [o, encodeWord tl, encodeWord tu] := by
  unfold parseIndexedTopics
  simp only [List.length_cons, List.length_nil, hlen, ne_eq, not_true_eq_false, if_false,
    List.drop_succ_cons, List.drop_zero]
  exact parseTopicHashes_topics [o, encodeWord tl, encodeWord tu] (by
    intro w hw
    simp only [List.mem_cons, List.mem_singleton, List.not_mem_nil, or_false] at hw
    rcases hw with rfl | rfl | rfl
    · omega
    · exact (readInteger_signed tl hl.1 hl.2).1
    · exact (readInteger_signed tu hu.1 hu.2).1)

theorem decodeMint_ok (k : EthLib) (base : LogRecord) (s o : Nat) (tl tu : Int) (am a0 a1 : Nat)
    (hs : s < 2 ^ 160) (ho : o < 2 ^ 160)
    (hl : -(2 ^ 23) ≤ tl ∧ tl < 2 ^ 23) (hu : -(2 ^ 23) ≤ tu ∧ tu < 2 ^ 23)
    (ham : am < 2 ^ 128) (h0 : a0 < 2 ^ 256) (h1 : a1 < 2 ^ 256) :
    decodeMint k (mintLog k base s o tl tu am a0 a1) =
      Except.ok
        { Sender := k.addressHex s
          Owner := k.addressHex o
          TickLower := tl
          TickUpper := tu
          Amount := String.mk (bigIntString (am : Int))
          Amount0 := String.mk (bigIntString (a0 : Int))
          Amount1 := String.mk (bigIntString (a1 : Int)) } := by
  have hl255 : -(2 ^ 255) ≤ tl ∧ tl < 2 ^ 255 := by constructor <;> omega
  have hu255 : -(2 ^ 255) ≤ tu ∧ tu < 2 ^ 255 := by constructor <;> omega
  have e1 : parseIndexedTopics mintEvent (mintLog k base s o tl tu am a0 a1).Topics =
      Except.ok [o, encodeWord tl, encodeWord tu] :=
    rangeTopics_ok mintEvent _ o tl tu (by decide) ho hl255 hu255
  have e2 := rangeIndexed_ok mintEvent "owner" o tl tu (by decide) ho hl255 hu255
  have e3 : unpackNonIndexed mintEvent (mintLog k base s o tl tu am a0 a1).Data =
      Except.ok [AbiValue.address s, AbiValue.bigInt (am : Int), AbiValue.bigInt (a0 : Int),
        AbiValue.bigInt (a1 : Int)] := by
    have hni : nonIndexed mintEvent.Inputs =
        [{ Name := "sender", Ty := AbiType.address, Indexed := false },
          { Name := "amount", Ty := AbiType.uint 128, Indexed := false },
          { Name := "amount0", Ty := AbiType.uint 256, Indexed := false },
          { Name := "amount1", Ty := AbiType.uint 256, Indexed := false }] := by decide
    have hw : ∀ w ∈ [s, am, a0, a1], w < 2 ^ 256 := by
      intro w hw
      simp only [List.mem_cons, List.mem_singleton, List.not_mem_nil, or_false] at hw
      rcases hw with rfl | rfl | rfl | rfl <;> omega
    have := unpackNonIndexed_words mintEvent [s, am, a0, a1] (by rw [hni]; rfl) (by simp) hw
    rw [hni] at this
    simp only [List.zipWith_cons_cons, List.zipWith_nil_right, toGoType, readInteger_unsigned,
      wordToAddress, Nat.mod_eq_of_lt hs] at this
    exact this
  unfold decodeMint
  rw [e1]
  simp only [bind, Except.bind, e2, e3, asBigInt, asAddress, int24FromBig_ok tl hl.1 hl.2,
    int24FromBig_ok tu hu.1 hu.2, pure, Except.pure]

theorem decodeBurn_ok (k : EthLib) (base : LogRecord) (o : Nat) (tl tu : Int) (am a0 a1 : Nat)
    (ho : o < 2 ^ 160)
    (hl : -(2 ^ 23) ≤ tl ∧ tl < 2 ^ 23) (hu : -(2 ^ 23) ≤ tu ∧ tu < 2 ^ 23)
    (ham : am < 2 ^ 128) (h0 : a0 < 2 ^ 256) (h1 : a1 < 2 ^ 256) :
    decodeBurn k (burnLog k base o tl tu am a0 a1) =
      Except.ok
        { Owner := k.addressHex o
          TickLower := tl
          TickUpper := tu
          Amount := String.mk (bigIntString (am : Int))
          Amount0 := String.mk (bigIntString (a0 : Int))
          Amount1 := String.mk (bigIntString (a1 : Int)) } := by
  have hl255 : -(2 ^ 255) ≤ tl ∧ tl < 2 ^ 255 := by constructor <;> omega
  have hu255 : -(2 ^ 255) ≤ tu ∧ tu < 2 ^ 255 := by constructor <;> omega
  have e1 : parseIndexedTopics burnEvent (burnLog k base o tl tu am a0 a1).Topics =
      Except.ok [o, encodeWord tl, encodeWord tu] :=
    rangeTopics_ok burnEvent _ o tl tu (by decide) ho hl255 hu255
  have e2 := rangeIndexed_ok burnEvent "owner" o tl tu (by decide) ho hl255 hu255
  have e3 : unpackNonIndexed burnEvent (burnLog k base o tl tu am a0 a1).Data =
      Except.ok [AbiValue.bigInt (am : Int), AbiValue.bigInt (a0 : Int),
        AbiValue.bigInt (a1 : Int)] := by
    have hni : nonIndexed burnEvent.Inputs =
        [{ Name := "amount", Ty := AbiType.uint 128, Indexed := false },
          { Name := "amount0", Ty := AbiType.uint 256, Indexed := false },
          { Name := "amount1", Ty := AbiType.uint 256, Indexed := false }] := by decide
    have hw : ∀ w ∈ [am, a0, a1], w < 2 ^ 256 := by
      intro w hw
      simp only [List.mem_cons, List.mem_singleton, List.not_mem_nil, or_false] at hw
      rcases hw with rfl | rfl | rfl <;> omega
    have := unpackNonIndexed_words burnEvent [am, a0, a1] (by rw [hni]; rfl) (by simp) hw
    rw [hni] at this
    simp only [List.zipWith_cons_cons, List.zipWith_nil_right, toGoType,
      readInteger_unsigned] at this
    exact this
  unfold decodeBurn
  rw [e1]
  simp only [bind, Except.bind, e2, e3, asBigInt, int24FromBig_ok tl hl.1 hl.2,
    int24FromBig_ok tu hu.1 hu.2, pure, Except.pure]

theorem decodeCollect_ok (k : EthLib) (base : LogRecord) (o r : Nat) (tl tu : Int) (a0 a1 : Nat)
    (ho : o < 2 ^ 160) (hr : r < 2 ^ 160)
    (hl : -(2 ^ 23) ≤ tl ∧ tl < 2 ^ 23) (hu : -(2 ^ 23) ≤ tu ∧ tu < 2 ^ 23)
    (h0 : a0 < 2 ^ 128) (h1 : a1 < 2 ^ 128) :
    decodeCollect k (collectLog k base o r tl tu a0 a1) =
      Except.ok
        { Owner := k.addressHex o
          Recipient := k.addressHex r
          TickLower := tl
          TickUpper := tu
          Amount0 := String.mk (bigIntString (a0 : Int))
          Amount1 := String.mk (bigIntString (a1 : Int)) } := by
  have hl255 : -(2 ^ 255) ≤ tl ∧ tl < 2 ^ 255 := by constructor <;> omega
  have hu255 : -(2 ^ 255) ≤ tu ∧ tu < 2 ^ 255 := by constructor <;> omega
  have e1 : parseIndexedTopics collectEvent (collectLog k base o r tl tu a0 a1).Topics =
      Except.ok [o, encodeWord tl, encodeWord tu] :=
    rangeTopics_ok collectEvent _ o tl tu (by decide) ho hl255 hu255
  have e2 := rangeIndexed_ok collectEvent "owner" o tl tu (by decide) ho hl255 hu255
  have e3 : unpackNonIndexed collectEvent (collectLog k base o r tl tu a0 a1).Data =
      Except.ok [AbiValue.address r, AbiValue.bigInt (a0 : Int), AbiValue.bigInt (a1 : Int)] := by
    have hni : nonIndexed collectEvent.Inputs =
        [{ Name := "recipient", Ty := AbiType.address, Indexed := false },
          { Name := "amount0", Ty := AbiType.uint 128, Indexed := false },
          { Name := "amount1", Ty := AbiType.uint 128, Indexed := false }] := by decide
    have hw : ∀ w ∈ [r, a0, a1], w < 2 ^ 256 := by
      intro w hw
      simp only [List.mem_cons, List.mem_singleton, List.not_mem_nil, or_false] at hw
      rcases hw with rfl | rfl | rfl <;> omega
    have := unpackNonIndexed_words collectEvent [r, a0, a1] (by rw [hni]; rfl) (by simp) hw
    rw [hni] at this
    simp only [List.zipWith_cons_cons, List.zipWith_nil_right, toGoType, readInteger_unsigned,
      wordToAddress, Nat.mod_eq_of_lt hr] at this
    exact this
  unfold decodeCollect
  rw [e1]
  simp only [bind, Except.bind, e2, e3, asBigInt, asAddress, int24FromBig_ok tl hl.1 hl.2,
    int24FromBig_ok tu hu.1 hu.2, pure, Except.pure]

theorem newDecoder_default (k : EthLib) :
    NewV3PoolDecoder k { Topic0Map := [] } =
      Except.ok
        { topicToName :=
            mapSet (mapSet (mapSet (mapSet [] (toLower (k.eventID "Swap")) "Swap")
              (toLower (k.eventID "Mint")) "Mint") (toLower (k.eventID "Burn")) "Burn")
              (toLower (k.eventID "Collect")) "Collect" } := rfl

theorem default_lookup (k : EthLib) (hk : distinctSelectors k) (d : V3PoolDecoder)
    (hd : NewV3PoolDecoder k { Topic0Map := [] } = Except.ok d) :
    mapGet d.topicToName (toLower (k.eventID "Swap")) = some "Swap" ∧
    mapGet d.topicToName (toLower (k.eventID "Mint")) = some "Mint" ∧
    mapGet d.topicToName (toLower (k.eventID "Burn")) = some "Burn" ∧
    mapGet d.topicToName (toLower (k.eventID "Collect")) = some "Collect" := by
  rw [newDecoder_default] at hd
  cases hd
  unfold distinctSelectors at hk
  simp only [List.nodup_cons, List.mem_cons, List.mem_singleton, List.not_mem_nil, or_false,
    not_or, List.nodup_nil, and_true] at hk
  obtain ⟨⟨sm, sb, sc⟩, ⟨mb, mc⟩, bc, -⟩ := hk
  refine ⟨?_, ?_, ?_, ?_⟩
  · rw [mapGet_mapSet_other _ _ _ _ sc, mapGet_mapSet_other _ _ _ _ sb,
      mapGet_mapSet_other _ _ _ _ sm, mapGet_mapSet_same]
  · rw [mapGet_mapSet_other _ _ _ _ mc, mapGet_mapSet_other _ _ _ _ mb, mapGet_mapSet_same]
  · rw [mapGet_mapSet_other _ _ _ _ bc, mapGet_mapSet_same]
  · rw [mapGet_mapSet_same]

/-- `Decode` on a log whose topic0 maps to `name`, from a valid address, when
the metadata resolves: the payload decoder of `name` decides. -/
theorem decode_dispatch (k : EthLib) (d : V3PoolDecoder) (log : LogRecord) (ctx : DecodeContext)
    (topic0 name : String) (rest : List String) (poolMeta : Dex.PoolMeta)
    (ht : log.Topics = topic0 :: rest)
    (hname : mapGet d.topicToName (toLower topic0) = some name)
    (haddr : isHexAddress log.Address = true)
    (hmeta : (getPoolMeta ctx (hexToAddress log.Address) log.BlockNumber).2 = Except.ok poolMeta) :
    (d.Decode k log ctx).2 =
      match (if name = "Swap" then (decodeSwap k log).map Decoded.swap
          else if name = "Mint" then (decodeMint k log).map Decoded.mint
          else if name = "Burn" then (decodeBurn k log).map Decoded.burn
          else if name = "Collect" then (decodeCollect k log).map Decoded.collect
          else Except.error DecodeErr.unsupportedEventName) with
      | Except.error e => Except.error e
      | Except.ok payload => Except.ok (buildTypedEvent log name payload poolMeta) := by
  unfold V3PoolDecoder.Decode
  rw [ht]
  simp only [hname, haddr, Bool.true_eq_false, if_false, hmeta]
  split <;> rfl

/-- C19: take a decoder built from an empty configuration, distinct event
selectors, a log from a valid pool address and a context in which the pool
metadata resolves.  For each of Swap, Mint, Burn and Collect and all field
values within their ABI ranges, `Decode` of the log that has the selector and
the indexed values as topics (32-byte words, integers in two's complement) and
the packed non-indexed values as data returns the typed event of that name
whose payload has the text of every encoded address, the base-10 string of
every encoded integer, with its sign, and every encoded tick. -/
theorem decode_undoes_encoding (k : EthLib) (base : LogRecord) (ctx : DecodeContext)
    (poolMeta : Dex.PoolMeta) (hk : distinctSelectors k) (haddr : isHexAddress base.Address = true)
    (hmeta : (getPoolMeta ctx (hexToAddress base.Address) base.BlockNumber).2 =
      Except.ok poolMeta) :
    ∃ d, NewV3PoolDecoder k { Topic0Map := [] } = Except.ok d ∧
      (∀ (sender recipient : Nat) (amount0 amount1 : Int) (sqrtPriceX96 liquidity : Nat)
          (tick : Int),
        sender < 2 ^ 160 → recipient < 2 ^ 160 →
        -(2 ^ 255) ≤ amount0 ∧ amount0 < 2 ^ 255 → -(2 ^ 255) ≤ amount1 ∧ amount1 < 2 ^ 255 →
        sqrtPriceX96 < 2 ^ 160 → liquidity < 2 ^ 128 → -(2 ^ 23) ≤ tick ∧ tick < 2 ^ 23 →
        (d.Decode k (swapLog k base sender recipient amount0 amount1 sqrtPriceX96 liquidity tick)
            ctx).2 =
          Except.ok (buildTypedEvent
            (swapLog k base sender recipient amount0 amount1 sqrtPriceX96 liquidity tick) "Swap"
            (Decoded.swap
              { Sender := k.addressHex sender
                Recipient := k.addressHex recipient
                Amount0 := String.mk (bigIntString amount0)
                Amount1 := String.mk (bigIntString amount1)
                SqrtPriceX96 := String.mk (bigIntString (sqrtPriceX96 : Int))
                Liquidity := String.mk (bigIntString (liquidity : Int))
                Tick := tick }) poolMeta)) ∧
      (∀ (sender owner : Nat) (tickLower tickUpper : Int) (amount amount0 amount1 : Nat),
        sender < 2 ^ 160 → owner < 2 ^ 160 →
        -(2 ^ 23) ≤ tickLower ∧ tickLower < 2 ^ 23 → -(2 ^ 23) ≤ tickUpper ∧ tickUpper < 2 ^ 23 →
        amount < 2 ^ 128 → amount0 < 2 ^ 256 → amount1 < 2 ^ 256 →
        (d.Decode k (mintLog k base sender owner tickLower tickUpper amount amount0 amount1)
            ctx).2 =
          Except.ok (buildTypedEvent
            (mintLog k base sender owner tickLower tickUpper amount amount0 amount1) "Mint"
            (Decoded.mint
              { Sender := k.addressHex sender
                Owner := k.addressHex owner
                TickLower := tickLower
                TickUpper := tickUpper
                Amount := String.mk (bigIntString (amount : Int))
                Amount0 := String.mk (bigIntString (amount0 : Int))
                Amount1 := String.mk (bigIntString (amount1 : Int)) }) poolMeta)) ∧
      (∀ (owner : Nat) (tickLower tickUpper : Int) (amount amount0 amount1 : Nat),
        owner < 2 ^ 160 →
        -(2 ^ 23) ≤ tickLower ∧ tickLower < 2 ^ 23 → -(2 ^ 23) ≤ tickUpper ∧ tickUpper < 2 ^ 23 →
        amount < 2 ^ 128 → amount0 < 2 ^ 256 → amount1 < 2 ^ 256 →
        (d.Decode k (burnLog k base owner tickLower tickUpper amount amount0 amount1) ctx).2 =
          Except.ok (buildTypedEvent
            (burnLog k base owner tickLower tickUpper amount amount0 amount1) "Burn"
            (Decoded.burn
              { Owner := k.addressHex owner
                TickLower := tickLower
                TickUpper := tickUpper
                Amount := String.mk (bigIntString (amount : Int))
                Amount0 := String.mk (bigIntString (amount0 : Int))
                Amount1 := String.mk (bigIntString (amount1 : Int)) }) poolMeta)) ∧
      (∀ (owner recipient : Nat) (tickLower tickUpper : Int) (amount0 amount1 : Nat),
        owner < 2 ^ 160 → recipient < 2 ^ 160 →
        -(2 ^ 23) ≤ tickLower ∧ tickLower < 2 ^ 23 → -(2 ^ 23) ≤ tickUpper ∧ tickUpper < 2 ^ 23 →
        amount0 < 2 ^ 128 → amount1 < 2 ^ 128 →
        (d.Decode k (collectLog k base owner recipient tickLower tickUpper amount0 amount1)
            ctx).2 =
          Except.ok (buildTypedEvent
            (collectLog k base owner recipient tickLower tickUpper amount0 amount1) "Collect"
            (Decoded.collect
              { Owner := k.addressHex owner
                Recipient := k.addressHex recipient
                TickLower := tickLower
                TickUpper := tickUpper
                Amount0 := String.mk (bigIntString (amount0 : Int))
                Amount1 := String.mk (bigIntString (amount1 : Int)) }) poolMeta)) := by
  refine ⟨_, newDecoder_default k, ?_, ?_, ?_, ?_⟩
  · intro s r a0 a1 sp liq tick hs hr h0 h1 hsp hliq ht
    obtain ⟨hl, -, -, -⟩ := default_lookup k hk _ (newDecoder_default k)
    rw [decode_dispatch k _ (swapLog k base s r a0 a1 sp liq tick) ctx (k.eventID "Swap") "Swap"
      [topicOf s, topicOf r] poolMeta rfl hl haddr hmeta,
      decodeSwap_ok k base s r a0 a1 sp liq tick hs hr h0 h1 hsp hliq ht]
    rfl
  · intro s o tl tu am a0 a1 hs ho hl' hu ham h0 h1
    obtain ⟨-, hl, -, -⟩ := default_lookup k hk _ (newDecoder_default k)
    rw [decode_dispatch k _ (mintLog k base s o tl tu am a0 a1) ctx (k.eventID "Mint") "Mint"
      [topicOf o, topicOf (encodeWord tl), topicOf (encodeWord tu)] poolMeta rfl hl haddr hmeta,
      decodeMint_ok k base s o tl tu am a0 a1 hs ho hl' hu ham h0 h1]
    rfl
  · intro o tl tu am a0 a1 ho hl' hu ham h0 h1
    obtain ⟨-, -, hl, -⟩ := default_lookup k hk _ (newDecoder_default k)
    rw [decode_dispatch k _ (burnLog k base o tl tu am a0 a1) ctx (k.eventID "Burn") "Burn"
      [topicOf o, topicOf (encodeWord tl), topicOf (encodeWord tu)] poolMeta rfl hl haddr hmeta,
      decodeBurn_ok k base o tl tu am a0 a1 ho hl' hu ham h0 h1]
    rfl
  · intro o r tl tu a0 a1 ho hr hl' hu h0 h1
    obtain ⟨-, -, -, hl⟩ := default_lookup k hk _ (newDecoder_default k)
    rw [decode_dispatch k _ (collectLog k base o r tl tu a0 a1) ctx (k.eventID "Collect")
      "Collect" [topicOf o, topicOf (encodeWord tl), topicOf (encodeWord tu)] poolMeta rfl hl
      haddr hmeta,
      decodeCollect_ok k base o r tl tu a0 a1 ho hr hl' hu h0 h1]
    rfl

set_option maxRecDepth 20000 in
theorem decode_undoes_encoding_witness :
    (distinctSelectors sampleLib ∧ isHexAddress sampleLog.Address = true ∧
      (getPoolMeta chainContext (hexToAddress sampleLog.Address) sampleLog.BlockNumber).2 =
        Except.ok sampleDexMeta ∧
      (sampleDecoder.Decode sampleLib testSwapLog chainContext).2.map (fun e => e.Decoded) =
        Except.ok (Decoded.swap
          { Sender := "0x2222222222222222222222222222222222222222"
            Recipient := "0x3333333333333333333333333333333333333333"
            Amount0 := "-1000", Amount1 := "2000", SqrtPriceX96 := "123456789"
            Liquidity := "987654321", Tick := -15 }) ∧
      (sampleDecoder.Decode sampleLib testMintLog chainContext).2.map (fun e => e.Decoded) =
        Except.ok (Decoded.mint
          { Sender := "0xaaaaaaaaaaaaaaaaaaaaaaaaaaaaaaaaaaaaaaaa"
            Owner := "0xbbbbbbbbbbbbbbbbbbbbbbbbbbbbbbbbbbbbbbbb"
            TickLower := -120, TickUpper := 120, Amount := "5000", Amount0 := "100"
            Amount1 := "200" })) ∧
    (∃ d, NewV3PoolDecoder sampleLib { Topic0Map := [] } = Except.ok d ∧
      (∀ (sender recipient : Nat) (amount0 amount1 : Int) (sqrtPriceX96 liquidity : Nat)
          (tick : Int),
        sender < 2 ^ 160 → recipient < 2 ^ 160 →
        -(2 ^ 255) ≤ amount0 ∧ amount0 < 2 ^ 255 → -(2 ^ 255) ≤ amount1 ∧ amount1 < 2 ^ 255 →
        sqrtPriceX96 < 2 ^ 160 → liquidity < 2 ^ 128 → -(2 ^ 23) ≤ tick ∧ tick < 2 ^ 23 →
        (d.Decode sampleLib (swapLog sampleLib sampleLog sender recipient amount0 amount1 sqrtPriceX96 liquidity tick)
            chainContext).2 =
          Except.ok (buildTypedEvent
            (swapLog sampleLib sampleLog sender recipient amount0 amount1 sqrtPriceX96 liquidity tick) "Swap"
            (Decoded.swap
              { Sender := sampleLib.addressHex sender
                Recipient := sampleLib.addressHex recipient
                Amount0 := String.mk (bigIntString amount0)
                Amount1 := String.mk (bigIntString amount1)
                SqrtPriceX96 := String.mk (bigIntString (sqrtPriceX96 : Int))
                Liquidity := String.mk (bigIntString (liquidity : Int))
                Tick := tick }) sampleDexMeta)) ∧
      (∀ (sender owner : Nat) (tickLower tickUpper : Int) (amount amount0 amount1 : Nat),
        sender < 2 ^ 160 → owner < 2 ^ 160 →
        -(2 ^ 23) ≤ tickLower ∧ tickLower < 2 ^ 23 → -(2 ^ 23) ≤ tickUpper ∧ tickUpper < 2 ^ 23 →
        amount < 2 ^ 128 → amount0 < 2 ^ 256 → amount1 < 2 ^ 256 →
        (d.Decode sampleLib (mintLog sampleLib sampleLog sender owner tickLower tickUpper amount amount0 amount1)
            chainContext).2 =
          Except.ok (buildTypedEvent
            (mintLog sampleLib sampleLog sender owner tickLower tickUpper amount amount0 amount1) "Mint"
            (Decoded.mint
              { Sender := sampleLib.addressHex sender
                Owner := sampleLib.addressHex owner
                TickLower := tickLower
                TickUpper := tickUpper
                Amount := String.mk (bigIntString (amount : Int))
                Amount0 := String.mk (bigIntString (amount0 : Int))
                Amount1 := String.mk (bigIntString (amount1 : Int)) }) sampleDexMeta)) ∧
      (∀ (owner : Nat) (tickLower tickUpper : Int) (amount amount0 amount1 : Nat),
        owner < 2 ^ 160 →
        -(2 ^ 23) ≤ tickLower ∧ tickLower < 2 ^ 23 → -(2 ^ 23) ≤ tickUpper ∧ tickUpper < 2 ^ 23 →
        amount < 2 ^ 128 → amount0 < 2 ^ 256 → amount1 < 2 ^ 256 →
        (d.Decode sampleLib (burnLog sampleLib sampleLog owner tickLower tickUpper amount amount0 amount1) chainContext).2 =
          Except.ok (buildTypedEvent
            (burnLog sampleLib sampleLog owner tickLower tickUpper amount amount0 amount1) "Burn"
            (Decoded.burn
              { Owner := sampleLib.addressHex owner
                TickLower := tickLower
                TickUpper := tickUpper
                Amount := String.mk (bigIntString (amount : Int))
                Amount0 := String.mk (bigIntString (amount0 : Int))
                Amount1 := String.mk (bigIntString (amount1 : Int)) }) sampleDexMeta)) ∧
      (∀ (owner recipient : Nat) (tickLower tickUpper : Int) (amount0 amount1 : Nat),
        owner < 2 ^ 160 → recipient < 2 ^ 160 →
        -(2 ^ 23) ≤ tickLower ∧ tickLower < 2 ^ 23 → -(2 ^ 23) ≤ tickUpper ∧ tickUpper < 2 ^ 23 →
        amount0 < 2 ^ 128 → amount1 < 2 ^ 128 →
        (d.Decode sampleLib (collectLog sampleLib sampleLog owner recipient tickLower tickUpper amount0 amount1)
            chainContext).2 =
          Except.ok (buildTypedEvent
            (collectLog sampleLib sampleLog owner recipient tickLower tickUpper amount0 amount1) "Collect"
            (Decoded.collect
              { Owner := sampleLib.addressHex owner
                Recipient := sampleLib.addressHex recipient
                TickLower := tickLower
                TickUpper := tickUpper
                Amount0 := String.mk (bigIntString (amount0 : Int))
                Amount1 := String.mk (bigIntString (amount1 : Int)) }) sampleDexMeta))) :=
  ⟨⟨by decide, by decide, by decide, by decide, by decide⟩,
    decode_undoes_encoding sampleLib sampleLog chainContext sampleDexMeta (by decide) (by decide)
      (by decide)⟩

set_option maxRecDepth 20000 in
/-- C20 fails on the code: in the set-up of the decoder tests (the pool in the
cache, no chain client, no live metadata) `Decode` of the test's Swap log
returns the error `chain client is nil`; with a chain client added, one whose
every fetch fails, the same call succeeds from the cache with the cached
metadata. -/
theorem cache_hit_decode_fails :
    (testContext.PoolMetaCache.bind (fun cache => cacheGet cache (hexToAddress testSwapLog.Address))) =
      some sampleDexMeta ∧
    testContext.Chain.isNone = true ∧ testContext.IncludeLiveMeta = false ∧
    sampleDecoder.CanDecode (testSwapLog.Topics.headD "") = true ∧
    (sampleDecoder.Decode sampleLib testSwapLog testContext).2 =
      Except.error DecodeErr.chainClientNil ∧
    (sampleDecoder.Decode sampleLib testSwapLog chainContext).2.map (fun e => e.PoolMeta) =
      Except.ok sampleDexMeta := by
  decide

/-- Without a chain client `Decode` never returns an event, whatever the cache holds. -/
theorem decode_without_chain (k : EthLib) (d : V3PoolDecoder) (log : LogRecord)
    (ctx : DecodeContext) (h : ctx.Chain = none) :
    ∃ e, (d.Decode k log ctx).2 = Except.error e := by
  unfold V3PoolDecoder.Decode
  cases log.Topics with
  | nil => exact ⟨_, rfl⟩
  | cons topic0 rest =>
    simp only
    cases mapGet d.topicToName (toLower topic0) with
    | none => exact ⟨_, rfl⟩
    | some name =>
      simp only
      by_cases ha : isHexAddress log.Address = false
      · rw [if_pos ha]; exact ⟨_, rfl⟩
      · rw [if_neg ha]
        have hg : (getPoolMeta ctx (hexToAddress log.Address) log.BlockNumber).2 =
            Except.error DecodeErr.chainClientNil := by
          unfold getPoolMeta
          rw [h]
        simp only [hg]
        exact ⟨_, rfl⟩

/-! ## Failed adds, the least open window, fees against volumes -/

/-- C28: when `AddEvent` returns an error, the record is a swap whose payload
did not unmarshal or one of whose amounts, the first or the second, is not a
base-10 integer; `SwapCount`, `Volume0`, `Volume1`, `Fee0` and `Fee1` are as
before the call, and the accumulator differs from the one before at most in
`LastTS`, `LastBlock` and `FirstBlock`. -/
theorem failed_add_keeps_counters (a : Accumulator) (r : TypedEventRecord) (e : Err)
    (h : (a.AddEvent r).2 = some e) :
    (isSwap r ∧ (r.Decoded = none ∨ ∃ swap, r.Decoded = some swap ∧
      (parseBigInt swap.Amount0 = none ∨ parseBigInt swap.Amount1 = none))) ∧
    (a.AddEvent r).1.SwapCount = a.SwapCount ∧
    (a.AddEvent r).1.Volume0 = a.Volume0 ∧ (a.AddEvent r).1.Volume1 = a.Volume1 ∧
    (a.AddEvent r).1.Fee0 = a.Fee0 ∧ (a.AddEvent r).1.Fee1 = a.Fee1 ∧
    (a.AddEvent r).1 =
      { a with
        LastTS := (a.AddEvent r).1.LastTS
        LastBlock := (a.AddEvent r).1.LastBlock
        FirstBlock := (a.AddEvent r).1.FirstBlock } := by
  cases hs : swapAmounts r with
  | some p =>
    have := (addEvent_some a r p hs).1
    rw [this] at h
    cases h
  | none =>
    obtain ⟨h1, h2⟩ := addEvent_none a r hs
    have hswap : isSwap r := by
      by_contra hn
      rw [h2.mpr hn] at h
      cases h
    have ht := touch_totals a r
    simp only [Accumulator.totals, Prod.mk.injEq] at ht
    obtain ⟨⟨t1, t2, t3, t4, t5⟩, t6, t7, t8, t9, t10⟩ := ht
    refine ⟨⟨hswap, ?_⟩, ?_, ?_, ?_, ?_, ?_, ?_⟩
    · rcases swapAmounts_none hs with h' | h' | ⟨swap, hd, h'⟩
      · exact absurd hswap h'
      · exact Or.inl h'
      · exact Or.inr ⟨swap, hd, h'⟩
    · rw [h1]; exact t1
    · rw [h1]; exact t2
    · rw [h1]; exact t3
    · rw [h1]; exact t4
    · rw [h1]; exact t5
    · rw [h1]
      cases hx : a.touch r with
      | mk c1 c2 c3 c4 c5 c6 c7 c8 c9 c10 c11 c12 c13 =>
        rw [hx] at t1 t2 t3 t4 t5 t6 t7 t8 t9 t10
        simp only at t1 t2 t3 t4 t5 t6 t7 t8 t9 t10
        subst t1 t2 t3 t4 t5 t6 t7 t8 t9 t10
        rfl

theorem failed_add_keeps_counters_witness :
    (((sampleAcc.AddEvent (sampleSwap "0xA" 105 "7" "x")).2 = some (Err.invalidInt "x")) ∧
      ((sampleAcc.AddEvent (sampleSwap "0xA" 105 "x" "7")).2 = some (Err.invalidInt "x")) ∧
      (sampleAcc.AddEvent (sampleSwap "0xA" 105 "7" "x")).1.LastTS = 105 ∧
      (sampleAcc.AddEvent (sampleSwap "0xA" 105 "7" "x")).1.Volume0 = 0) ∧
    ((isSwap (sampleSwap "0xA" 105 "7" "x") ∧
      ((sampleSwap "0xA" 105 "7" "x").Decoded = none ∨
        ∃ swap, (sampleSwap "0xA" 105 "7" "x").Decoded = some swap ∧
          (parseBigInt swap.Amount0 = none ∨ parseBigInt swap.Amount1 = none))) ∧
    (sampleAcc.AddEvent (sampleSwap "0xA" 105 "7" "x")).1.SwapCount = sampleAcc.SwapCount ∧
    (sampleAcc.AddEvent (sampleSwap "0xA" 105 "7" "x")).1.Volume0 = sampleAcc.Volume0 ∧
    (sampleAcc.AddEvent (sampleSwap "0xA" 105 "7" "x")).1.Volume1 = sampleAcc.Volume1 ∧
    (sampleAcc.AddEvent (sampleSwap "0xA" 105 "7" "x")).1.Fee0 = sampleAcc.Fee0 ∧
    (sampleAcc.AddEvent (sampleSwap "0xA" 105 "7" "x")).1.Fee1 = sampleAcc.Fee1 ∧
    (sampleAcc.AddEvent (sampleSwap "0xA" 105 "7" "x")).1 =
      { sampleAcc with
        LastTS := (sampleAcc.AddEvent (sampleSwap "0xA" 105 "7" "x")).1.LastTS
        LastBlock := (sampleAcc.AddEvent (sampleSwap "0xA" 105 "7" "x")).1.LastBlock
        FirstBlock := (sampleAcc.AddEvent (sampleSwap "0xA" 105 "7" "x")).1.FirstBlock }) :=
  ⟨⟨by decide, by decide, by decide, by decide⟩,
    failed_add_keeps_counters sampleAcc (sampleSwap "0xA" 105 "7" "x") (Err.invalidInt "x")
      (by decide)⟩

/-- C29: the result is to be the least `WindowStart`, and `minOpenWindowStart`
misses it when a window starts at 0: `0` is read as "no value yet", so over the
entries with `WindowStart` 0 and 5 in this order it returns 5, not the least
value 0, and over the same entries in the other order it returns 0. -/
theorem minOpenWindowStart_zero_order :
    zeroFirst.map (fun e => e.2.WindowStart) = [0, 5] ∧
    minOpenWindowStart zeroFirst = 5 ∧ minOpenWindowStart zeroFirst.reverse = 0 := by
  decide

/-- Away from that case the minimum is found: for every non-empty map of
accumulators whose `WindowStart` values are all positive, `minOpenWindowStart`
returns the least `WindowStart` among its entries, whatever the order in which
the map is ranged. -/
theorem minOpenWindowStart_minimum (l : List (String × Accumulator)) (hne : l ≠ [])
    (hpos : ∀ e ∈ l, 0 < e.2.WindowStart) :
    (∃ e ∈ l, e.2.WindowStart = minOpenWindowStart l) ∧
    (∀ e ∈ l, minOpenWindowStart l ≤ e.2.WindowStart) ∧
    ∀ l' : List (String × Accumulator), l'.Perm l →
      minOpenWindowStart l' = minOpenWindowStart l := by
  obtain ⟨h1, h2⟩ := minOpenWindowStart_spec l hne hpos
  refine ⟨h1, h2, ?_⟩
  intro l' hp
  obtain ⟨e, he, hev⟩ := h1
  have hm : 0 < minOpenWindowStart l := by rw [← hev]; exact hpos e he
  exact minOpenWindowStart_least l' (minOpenWindowStart l)
    ⟨e, hp.mem_iff.mpr he, hev⟩ (fun x hx => h2 x (hp.mem_iff.mp hx)) hm

theorem minOpenWindowStart_minimum_witness :
    (positiveOpen ≠ [] ∧ (∀ e ∈ positiveOpen, 0 < e.2.WindowStart) ∧
      minOpenWindowStart positiveOpen = 3 ∧ minOpenWindowStart positiveOpen.reverse = 3) ∧
    ((∃ e ∈ positiveOpen, e.2.WindowStart = minOpenWindowStart positiveOpen) ∧
    (∀ e ∈ positiveOpen, minOpenWindowStart positiveOpen ≤ e.2.WindowStart) ∧
    ∀ l' : List (String × Accumulator), l'.Perm positiveOpen →
      minOpenWindowStart l' = minOpenWindowStart positiveOpen) :=
  ⟨⟨by decide, by decide, by decide, by decide⟩,
    minOpenWindowStart_minimum positiveOpen (by decide) (by decide)⟩

theorem feeShare_le (f : Nat) (a0 a1 : Int) :
    (feeShare f a0 a1).1 * 1000000 ≤ (f : Int) * (a0.natAbs : Int) ∧
    (feeShare f a0 a1).2 * 1000000 ≤ (f : Int) * (a1.natAbs : Int) := by
  have h : ∀ x : Int, feeFromAmount x f * 1000000 ≤ (f : Int) * (x.natAbs : Int) := by
    intro x
    rw [feeFromAmount_floor]
    have := Nat.div_mul_le_self (x.natAbs * f) 1000000
    have hc : (((x.natAbs * f / 1000000 : Nat) : Int)) * 1000000 ≤ ((x.natAbs * f : Nat) : Int) := by
      exact_mod_cast this
    calc (((x.natAbs * f / 1000000 : Nat) : Int)) * 1000000 ≤ ((x.natAbs * f : Nat) : Int) := hc
      _ = (f : Int) * (x.natAbs : Int) := by push_cast; ring
  have hz : ∀ x : Int, (0 : Int) * 1000000 ≤ (f : Int) * (x.natAbs : Int) := by
    intro x
    rw [zero_mul]
    exact mul_nonneg (Int.natCast_nonneg _) (Int.natCast_nonneg _)
  unfold feeShare
  split_ifs
  · exact ⟨hz _, hz _⟩
  · exact ⟨hz _, h _⟩
  · exact ⟨h _, hz _⟩
  · exact ⟨hz _, hz _⟩

/-- One `AddEvent` keeps each fee within the fee tier's share of the volume of its side. -/
theorem addEvent_fee_le (a : Accumulator) (r : TypedEventRecord)
    (h0 : a.Fee0 * 1000000 ≤ (a.PoolMeta.Fee : Int) * a.Volume0)
    (h1 : a.Fee1 * 1000000 ≤ (a.PoolMeta.Fee : Int) * a.Volume1) :
    (a.AddEvent r).1.Fee0 * 1000000 ≤ ((a.AddEvent r).1.PoolMeta.Fee : Int) * (a.AddEvent r).1.Volume0 ∧
    (a.AddEvent r).1.Fee1 * 1000000 ≤ ((a.AddEvent r).1.PoolMeta.Fee : Int) * (a.AddEvent r).1.Volume1 := by
  have ht := touch_totals a r
  simp only [Accumulator.totals, Prod.mk.injEq] at ht
  obtain ⟨⟨-, t2, t3, t4, t5⟩, t6, -⟩ := ht
  cases hs : swapAmounts r with
  | none =>
    rw [(addEvent_none a r hs).1, t2, t3, t4, t5, t6]
    exact ⟨h0, h1⟩
  | some p =>
    rw [(addEvent_some a r p hs).2]
    obtain ⟨f0, f1⟩ := feeShare_le a.PoolMeta.Fee p.1 p.2
    have e : ({ a.touch r with
        SwapCount := a.SwapCount + 1
        Volume0 := a.Volume0 + (p.1.natAbs : Int)
        Volume1 := a.Volume1 + (p.2.natAbs : Int)
        Fee0 := a.Fee0 + (feeShare a.PoolMeta.Fee p.1 p.2).1
        Fee1 := a.Fee1 + (feeShare a.PoolMeta.Fee p.1 p.2).2 } : Accumulator).PoolMeta.Fee =
        a.PoolMeta.Fee := by
      show (a.touch r).PoolMeta.Fee = a.PoolMeta.Fee
      rw [t6]
    rw [e]
    constructor
    · show (a.Fee0 + (feeShare a.PoolMeta.Fee p.1 p.2).1) * 1000000 ≤
        (a.PoolMeta.Fee : Int) * (a.Volume0 + (p.1.natAbs : Int))
      rw [add_mul, mul_add]
      exact add_le_add h0 f0
    · show (a.Fee1 + (feeShare a.PoolMeta.Fee p.1 p.2).2) * 1000000 ≤
        (a.PoolMeta.Fee : Int) * (a.Volume1 + (p.2.natAbs : Int))
      rw [add_mul, mul_add]
      exact add_le_add h1 f1

theorem addAll_fee_le (rs : List TypedEventRecord) : ∀ a : Accumulator,
    a.Fee0 * 1000000 ≤ (a.PoolMeta.Fee : Int) * a.Volume0 →
    a.Fee1 * 1000000 ≤ (a.PoolMeta.Fee : Int) * a.Volume1 →
    (addAll a rs).Fee0 * 1000000 ≤ ((addAll a rs).PoolMeta.Fee : Int) * (addAll a rs).Volume0 ∧
    (addAll a rs).Fee1 * 1000000 ≤ ((addAll a rs).PoolMeta.Fee : Int) * (addAll a rs).Volume1 := by
  induction rs with
  | nil => intro a h0 h1; exact ⟨h0, h1⟩
  | cons r rs ih =>
    intro a h0 h1
    obtain ⟨g0, g1⟩ := addEvent_fee_le a r h0 h1
    exact ih (a.AddEvent r).1 g0 g1

theorem addAll_volume_nonneg (rs : List TypedEventRecord) : ∀ a : Accumulator,
    0 ≤ a.Volume0 → 0 ≤ a.Volume1 → 0 ≤ (addAll a rs).Volume0 ∧ 0 ≤ (addAll a rs).Volume1 := by
  induction rs with
  | nil => intro a h0 h1; exact ⟨h0, h1⟩
  | cons r rs ih =>
    intro a h0 h1
    apply ih (a.AddEvent r).1
    · have ht := touch_totals a r
      simp only [Accumulator.totals, Prod.mk.injEq] at ht
      cases hs : swapAmounts r with
      | none => rw [(addEvent_none a r hs).1, ht.1.2.1]; exact h0
      | some p =>
        rw [(addEvent_some a r p hs).2]
        show 0 ≤ a.Volume0 + (p.1.natAbs : Int)
        omega
    · have ht := touch_totals a r
      simp only [Accumulator.totals, Prod.mk.injEq] at ht
      cases hs : swapAmounts r with
      | none => rw [(addEvent_none a r hs).1, ht.1.2.2.1]; exact h1
      | some p =>
        rw [(addEvent_some a r p hs).2]
        show 0 ≤ a.Volume1 + (p.2.natAbs : Int)
        omega

/-- C30: for every accumulator reached from a new one by any sequence of
`AddEvent` calls, with fee tier `f`, `Fee0 * 10 ^ 6 ≤ f * Volume0` and
`Fee1 * 10 ^ 6 ≤ f * Volume1`; the fee tier is the one the accumulator was
created with; and whenever `f ≤ 10 ^ 6` the fee accumulated on each side is at
most the volume accumulated on that side. -/
theorem fee_within_volume_share (record : TypedEventRecord) (ws we : Nat)
    (rs : List TypedEventRecord) :
    (addAll (NewAccumulator record ws we) rs).PoolMeta.Fee = record.PoolMeta.Fee ∧
    (addAll (NewAccumulator record ws we) rs).Fee0 * 10 ^ 6 ≤
      ((addAll (NewAccumulator record ws we) rs).PoolMeta.Fee : Int) *
        (addAll (NewAccumulator record ws we) rs).Volume0 ∧
    (addAll (NewAccumulator record ws we) rs).Fee1 * 10 ^ 6 ≤
      ((addAll (NewAccumulator record ws we) rs).PoolMeta.Fee : Int) *
        (addAll (NewAccumulator record ws we) rs).Volume1 ∧
    ((addAll (NewAccumulator record ws we) rs).PoolMeta.Fee ≤ 10 ^ 6 →
      (addAll (NewAccumulator record ws we) rs).Fee0 ≤
        (addAll (NewAccumulator record ws we) rs).Volume0 ∧
      (addAll (NewAccumulator record ws we) rs).Fee1 ≤
        (addAll (NewAccumulator record ws we) rs).Volume1) := by
  have hstat := (addAll_static rs (NewAccumulator record ws we)).2.2.2.2
  obtain ⟨g0, g1⟩ := addAll_fee_le rs (NewAccumulator record ws we)
    (by show (0 : Int) * 1000000 ≤ _ * 0; simp) (by show (0 : Int) * 1000000 ≤ _ * 0; simp)
  obtain ⟨v0, v1⟩ := addAll_volume_nonneg rs (NewAccumulator record ws we) (le_refl _) (le_refl _)
  have e6 : (10 : Int) ^ 6 = 1000000 := by norm_num
  refine ⟨by rw [hstat]; rfl, by rw [e6]; exact g0, by rw [e6]; exact g1, ?_⟩
  intro hf
  have hf' : ((addAll (NewAccumulator record ws we) rs).PoolMeta.Fee : Int) ≤ 1000000 := by
    have : (10 : Nat) ^ 6 = 1000000 := by norm_num
    rw [this] at hf
    exact_mod_cast hf
  have hfn : (0 : Int) ≤ ((addAll (NewAccumulator record ws we) rs).PoolMeta.Fee : Int) :=
    Int.natCast_nonneg _
  generalize ((addAll (NewAccumulator record ws we) rs).PoolMeta.Fee : Int) = f at g0 g1 hf' hfn
  generalize (addAll (NewAccumulator record ws we) rs).Fee0 = F0 at g0
  generalize (addAll (NewAccumulator record ws we) rs).Fee1 = F1 at g1
  generalize (addAll (NewAccumulator record ws we) rs).Volume0 = V0 at g0 v0
  generalize (addAll (NewAccumulator record ws we) rs).Volume1 = V1 at g1 v1
  constructor
  · have h1 : f * V0 ≤ 1000000 * V0 := mul_le_mul_of_nonneg_right hf' v0
    omega
  · have h1 : f * V1 ≤ 1000000 * V1 := mul_le_mul_of_nonneg_right hf' v1
    omega

/-! ## Decoder: downcast, topic count, topic0 map -/

/-- C22: for every integer `x`, `int24FromBig x` returns an error exactly when
`x < -2 ^ 23` or `x > 2 ^ 23 - 1`; a value it returns equals `x` and is within
32 bits. -/
theorem int24_downcast (x : Int) :
    ((∃ e, int24FromBig x = Except.error e) ↔ (x < -(2 ^ 23) ∨ x > 2 ^ 23 - 1)) ∧
    ∀ v, int24FromBig x = Except.ok v → v = x ∧ -(2 ^ 31) ≤ v ∧ v < 2 ^ 31 := by
  by_cases h : x < -(2 ^ 23) ∨ x > 2 ^ 23 - 1
  · have he : int24FromBig x = Except.error DecodeErr.int24Overflow := by
      unfold int24FromBig
      rw [if_pos h]
    rw [he]
    exact ⟨⟨fun _ => h, fun _ => ⟨_, rfl⟩⟩, fun v hv => by cases hv⟩
  · have ho := int24FromBig_ok x (by omega) (by omega)
    rw [ho]
    refine ⟨⟨fun ⟨e, he⟩ => (by cases he), fun hc => absurd hc h⟩, ?_⟩
    intro v hv
    cases hv
    exact ⟨rfl, by omega, by omega⟩

theorem bind_error {α β : Type} (e : DecodeErr) (f : α → Except DecodeErr β) :
    (Except.error e : Except DecodeErr α) >>= f = Except.error e := rfl

theorem decode_count_error (k : EthLib) (log : LogRecord) :
    (log.Topics.length ≠ 3 → decodeSwap k log = Except.error DecodeErr.topicCount) ∧
    (log.Topics.length ≠ 4 → decodeMint k log = Except.error DecodeErr.topicCount) ∧
    (log.Topics.length ≠ 4 → decodeBurn k log = Except.error DecodeErr.topicCount) ∧
    (log.Topics.length ≠ 4 → decodeCollect k log = Except.error DecodeErr.topicCount) := by
  have hs : (indexedArguments swapEvent.Inputs).length + 1 = 3 := by decide
  have hm : (indexedArguments mintEvent.Inputs).length + 1 = 4 := by decide
  have hb : (indexedArguments burnEvent.Inputs).length + 1 = 4 := by decide
  have hc : (indexedArguments collectEvent.Inputs).length + 1 = 4 := by decide
  refine ⟨?_, ?_, ?_, ?_⟩
  · intro h
    have : parseIndexedTopics swapEvent log.Topics = Except.error DecodeErr.topicCount := by
      unfold parseIndexedTopics
      rw [hs, if_pos h]
    unfold decodeSwap
    rw [this]
    rfl
  · intro h
    have : parseIndexedTopics mintEvent log.Topics = Except.error DecodeErr.topicCount := by
      unfold parseIndexedTopics
      rw [hm, if_pos h]
    unfold decodeMint
    rw [this]
    rfl
  · intro h
    have : parseIndexedTopics burnEvent log.Topics = Except.error DecodeErr.topicCount := by
      unfold parseIndexedTopics
      rw [hb, if_pos h]
    unfold decodeBurn
    rw [this]
    rfl
  · intro h
    have : parseIndexedTopics collectEvent log.Topics = Except.error DecodeErr.topicCount := by
      unfold parseIndexedTopics
      rw [hc, if_pos h]
    unfold decodeCollect
    rw [this]
    rfl

/-- `Decode` returns an error as soon as the metadata does not resolve or the
payload decoder fails. -/
theorem decode_error_cases (k : EthLib) (d : V3PoolDecoder) (log : LogRecord) (ctx : DecodeContext)
    (topic0 name : String) (rest : List String)
    (ht : log.Topics = topic0 :: rest)
    (hname : mapGet d.topicToName (toLower topic0) = some name) (e : DecodeErr)
    (hpay : (if name = "Swap" then (decodeSwap k log).map Decoded.swap
          else if name = "Mint" then (decodeMint k log).map Decoded.mint
          else if name = "Burn" then (decodeBurn k log).map Decoded.burn
          else if name = "Collect" then (decodeCollect k log).map Decoded.collect
          else Except.error DecodeErr.unsupportedEventName) = Except.error e) :
    (∃ e', (d.Decode k log ctx).2 = Except.error e') ∧
    ∀ pm, isHexAddress log.Address = true →
      (getPoolMeta ctx (hexToAddress log.Address) log.BlockNumber).2 = Except.ok pm →
      (d.Decode k log ctx).2 = Except.error e := by
  have hgen : ∀ pm, isHexAddress log.Address = true →
      (getPoolMeta ctx (hexToAddress log.Address) log.BlockNumber).2 = Except.ok pm →
      (d.Decode k log ctx).2 = Except.error e := by
    intro pm ha hm
    rw [decode_dispatch k d log ctx topic0 name rest pm ht hname ha hm, hpay]
  refine ⟨?_, hgen⟩
  by_cases ha : isHexAddress log.Address = true
  · cases hm : (getPoolMeta ctx (hexToAddress log.Address) log.BlockNumber).2 with
    | ok pm => exact ⟨e, hgen pm ha hm⟩
    | error e' =>
      refine ⟨e', ?_⟩
      unfold V3PoolDecoder.Decode
      rw [ht]
      simp only [hname, ha, Bool.true_eq_false, if_false, hm]
  · refine ⟨DecodeErr.invalidPoolAddress, ?_⟩
    have ha' : isHexAddress log.Address = false := by
      cases h : isHexAddress log.Address
      · rfl
      · exact absurd h ha
    unfold V3PoolDecoder.Decode
    rw [ht]
    simp only [hname, ha', if_true]

/-- C21: the events have `1 + 2` topics (Swap) and `1 + 3` topics (Mint, Burn,
Collect); for every log whose topic0 maps to one of them and whose number of
topics differs, `Decode` returns an error and no typed event, the topic-count
error whenever the address is valid and the pool metadata resolves. -/
theorem topic_count_check (k : EthLib) (d : V3PoolDecoder) (log : LogRecord) (ctx : DecodeContext)
    (topic0 name : String) (rest : List String)
    (ht : log.Topics = topic0 :: rest)
    (hname : mapGet d.topicToName (toLower topic0) = some name)
    (hcount : (name = "Swap" ∧ log.Topics.length ≠ 3) ∨
      ((name = "Mint" ∨ name = "Burn" ∨ name = "Collect") ∧ log.Topics.length ≠ 4)) :
    ((indexedArguments swapEvent.Inputs).length + 1 = 3 ∧
      (indexedArguments mintEvent.Inputs).length + 1 = 4 ∧
      (indexedArguments burnEvent.Inputs).length + 1 = 4 ∧
      (indexedArguments collectEvent.Inputs).length + 1 = 4) ∧
    (∃ e, (d.Decode k log ctx).2 = Except.error e) ∧
    ∀ pm, isHexAddress log.Address = true →
      (getPoolMeta ctx (hexToAddress log.Address) log.BlockNumber).2 = Except.ok pm →
      (d.Decode k log ctx).2 = Except.error DecodeErr.topicCount := by
  obtain ⟨cs, cm, cb, cc⟩ := decode_count_error k log
  refine ⟨⟨by decide, by decide, by decide, by decide⟩, ?_⟩
  apply decode_error_cases k d log ctx topic0 name rest ht hname DecodeErr.topicCount
  rcases hcount with ⟨hn, hl⟩ | ⟨hn | hn | hn, hl⟩
  · subst hn
    rw [if_pos rfl, cs hl]
    rfl
  · subst hn
    rw [if_neg (by decide), if_pos rfl, cm hl]
    rfl
  · subst hn
    rw [if_neg (by decide), if_neg (by decide), if_pos rfl, cb hl]
    rfl
  · subst hn
    rw [if_neg (by decide), if_neg (by decide), if_neg (by decide), if_pos rfl, cc hl]
    rfl

set_option maxRecDepth 20000 in
theorem topic_count_check_witness :
    (shortSwapLog.Topics = sampleLib.eventID "Swap" :: [] ∧
      mapGet sampleDecoder.topicToName (toLower (sampleLib.eventID "Swap")) = some "Swap" ∧
      (("Swap" = "Swap" ∧ shortSwapLog.Topics.length ≠ 3) ∨
        (("Swap" = "Mint" ∨ "Swap" = "Burn" ∨ "Swap" = "Collect") ∧
          shortSwapLog.Topics.length ≠ 4)) ∧
      (sampleDecoder.Decode sampleLib shortSwapLog chainContext).2 =
        Except.error DecodeErr.topicCount) ∧
    (((indexedArguments swapEvent.Inputs).length + 1 = 3 ∧
      (indexedArguments mintEvent.Inputs).length + 1 = 4 ∧
      (indexedArguments burnEvent.Inputs).length + 1 = 4 ∧
      (indexedArguments collectEvent.Inputs).length + 1 = 4) ∧
    (∃ e, (sampleDecoder.Decode sampleLib shortSwapLog chainContext).2 = Except.error e) ∧
    ∀ pm, isHexAddress shortSwapLog.Address = true →
      (getPoolMeta chainContext (hexToAddress shortSwapLog.Address) shortSwapLog.BlockNumber).2 =
        Except.ok pm →
      (sampleDecoder.Decode sampleLib shortSwapLog chainContext).2 =
        Except.error DecodeErr.topicCount) :=
  ⟨⟨by decide, by decide, by decide, by decide⟩,
    topic_count_check sampleLib sampleDecoder shortSwapLog chainContext (sampleLib.eventID "Swap")
      "Swap" [] (by decide) (by decide) (by decide)⟩

/-! ## The topic0 map -/

theorem toLower_eq_empty (s : String) : toLower s = "" ↔ s = "" := by
  constructor
  · intro h
    have h2 := congrArg String.data h
    unfold toLower at h2
    simp only [List.map_eq_nil_iff] at h2
    have : s.data = [] := h2
    cases s with
    | mk data =>
      simp only at this
      subst this
      rfl
  · intro h; subst h; rfl

theorem mapGet_mapSet_isSome {α : Type} (m : List (String × α)) (k key : String) (v : α) :
    (mapGet (mapSet m k v) key).isSome = true ↔ (key = k ∨ (mapGet m key).isSome = true) := by
  by_cases h : key = k
  · subst h
    rw [mapGet_mapSet_same]
    simp
  · rw [mapGet_mapSet_other _ _ _ _ h]
    simp [h]

theorem newDecoder_fold (k : EthLib) (cfg : DecoderConfig) :
    NewV3PoolDecoder k cfg =
      match cfg.Topic0Map.foldl mergeTopic0 (Except.ok (builtinTopics k)) with
      | Except.error e => Except.error e
      | Except.ok m => Except.ok { topicToName := m } := rfl

theorem mergeFold_error (l : List (String × String)) (e : DecodeErr) :
    l.foldl mergeTopic0 (Except.error e) = Except.error e := by
  induction l with
  | nil => rfl
  | cons x xs ih => exact ih

theorem mergeFold_fails (l : List (String × String)) (m : List (String × String)) :
    (∃ e, l.foldl mergeTopic0 (Except.ok m) = Except.error e) ↔
      ∃ entry ∈ l, normalizeEventName entry.2 = "" := by
  induction l generalizing m with
  | nil =>
    constructor
    · rintro ⟨e, he⟩
      cases he
    · rintro ⟨entry, hmem, -⟩
      cases hmem
  | cons x xs ih =>
    rw [List.foldl_cons]
    by_cases hn : normalizeEventName x.2 = ""
    · have h1 : mergeTopic0 (Except.ok m) x = Except.error DecodeErr.unsupportedNameInMap := by
        simp only [mergeTopic0, hn, if_true]
      rw [h1, mergeFold_error]
      exact ⟨fun _ => ⟨x, List.mem_cons_self _ _, hn⟩, fun _ => ⟨_, rfl⟩⟩
    · have h1 : ∃ m1, mergeTopic0 (Except.ok m) x = Except.ok m1 := by
        by_cases hk : x.1 = ""
        · exact ⟨m, by simp only [mergeTopic0, if_neg hn, if_pos hk]⟩
        · exact ⟨mapSet m (toLower x.1) (normalizeEventName x.2),
            by simp only [mergeTopic0, if_neg hn, if_neg hk]⟩
      obtain ⟨m1, hm1⟩ := h1
      rw [hm1, ih m1]
      constructor
      · rintro ⟨entry, hmem, he⟩
        exact ⟨entry, List.mem_cons_of_mem _ hmem, he⟩
      · rintro ⟨entry, hmem, he⟩
        rcases List.mem_cons.mp hmem with h | h
        · subst h
          exact absurd he hn
        · exact ⟨entry, h, he⟩

theorem mergeFold_keys (l : List (String × String)) (m m1 : List (String × String))
    (h : l.foldl mergeTopic0 (Except.ok m) = Except.ok m1) (key : String) :
    (mapGet m1 key).isSome = true ↔
      ((mapGet m key).isSome = true ∨ ∃ entry ∈ l, entry.1 ≠ "" ∧ key = toLower entry.1) := by
  induction l generalizing m with
  | nil =>
    cases h
    constructor
    · exact fun h => Or.inl h
    · rintro (h | ⟨entry, hmem, -⟩)
      · exact h
      · cases hmem
  | cons x xs ih =>
    rw [List.foldl_cons] at h
    by_cases hn : normalizeEventName x.2 = ""
    · have h1 : mergeTopic0 (Except.ok m) x = Except.error DecodeErr.unsupportedNameInMap := by
        simp only [mergeTopic0, hn, if_true]
      rw [h1, mergeFold_error] at h
      cases h
    · by_cases hk : x.1 = ""
      · have h1 : mergeTopic0 (Except.ok m) x = Except.ok m := by
          simp only [mergeTopic0, if_neg hn, if_pos hk]
        rw [h1] at h
        rw [ih m h]
        constructor
        · rintro (h | ⟨entry, hmem, he⟩)
          · exact Or.inl h
          · exact Or.inr ⟨entry, List.mem_cons_of_mem _ hmem, he⟩
        · rintro (h | ⟨entry, hmem, he⟩)
          · exact Or.inl h
          · rcases List.mem_cons.mp hmem with h | h
            · subst h
              exact absurd hk he.1
            · exact Or.inr ⟨entry, h, he⟩
      · have h1 : mergeTopic0 (Except.ok m) x =
            Except.ok (mapSet m (toLower x.1) (normalizeEventName x.2)) := by
          simp only [mergeTopic0, if_neg hn, if_neg hk]
        rw [h1] at h
        rw [ih _ h, mapGet_mapSet_isSome]
        constructor
        · rintro ((h | h) | ⟨entry, hmem, he⟩)
          · exact Or.inr ⟨x, List.mem_cons_self _ _, hk, h⟩
          · exact Or.inl h
          · exact Or.inr ⟨entry, List.mem_cons_of_mem _ hmem, he⟩
        · rintro (h | ⟨entry, hmem, he⟩)
          · exact Or.inl (Or.inr h)
          · rcases List.mem_cons.mp hmem with h | h
            · subst h
              exact Or.inl (Or.inl he.2)
            · exact Or.inr ⟨entry, h, he⟩

theorem builtin_keys (k : EthLib) (key : String) :
    (mapGet (builtinTopics k) key).isSome = true ↔ key ∈ builtinKeys k := by
  unfold builtinTopics builtinKeys
  rw [mapGet_mapSet_isSome, mapGet_mapSet_isSome, mapGet_mapSet_isSome, mapGet_mapSet_isSome]
  simp only [mapGet, Option.isSome_none, Bool.false_eq_true, or_false, List.mem_cons,
    List.mem_singleton, List.not_mem_nil]
  tauto

/-- C23: `NewV3PoolDecoder` returns an error exactly when some entry of the
operator's map carries a name that `normalizeEventName` sends to the empty
string, that is a name whose trimmed, lower-cased form is none of `swap`,
`mint`, `burn`, `collect`; a decoder it returns accepts a topic0 in `CanDecode`
exactly when the topic0 is not empty and its lower-cased form is one of the four
lower-cased event selectors or the lower-cased form of a non-empty operator key;
and, event selectors being non-empty text, `Decode` returns an error and leaves
the context alone for every log without topics and for every log whose first
topic `CanDecode` refuses. -/
theorem topic0_map_contract (k : EthLib) (cfg : DecoderConfig)
    (hid : ∀ n ∈ eventNames, k.eventID n ≠ "") :
    (∀ name, normalizeEventName name = "" ↔
      toLower (trimSpace name) ∉ ["swap", "mint", "burn", "collect"]) ∧
    ((∃ e, NewV3PoolDecoder k cfg = Except.error e) ↔
      ∃ entry ∈ cfg.Topic0Map, normalizeEventName entry.2 = "") ∧
    ∀ d, NewV3PoolDecoder k cfg = Except.ok d →
      (∀ t, d.CanDecode t = true ↔
        (t ≠ "" ∧ (toLower t ∈ builtinKeys k ∨
          ∃ entry ∈ cfg.Topic0Map, entry.1 ≠ "" ∧ toLower t = toLower entry.1))) ∧
      (∀ log ctx, log.Topics = [] →
        ∃ e, d.Decode k log ctx = (ctx, Except.error e)) ∧
      (∀ log ctx topic0 rest, log.Topics = topic0 :: rest → d.CanDecode topic0 = false →
        ∃ e, d.Decode k log ctx = (ctx, Except.error e)) := by
  refine ⟨?_, ?_, ?_⟩
  · intro name
    unfold normalizeEventName
    simp only [List.mem_cons, List.mem_singleton, List.not_mem_nil, or_false, not_or]
    constructor
    · intro h
      by_cases h1 : toLower (trimSpace name) = "swap"
      · rw [if_pos h1] at h; exact absurd h (by decide)
      · rw [if_neg h1] at h
        by_cases h2 : toLower (trimSpace name) = "mint"
        · rw [if_pos h2] at h; exact absurd h (by decide)
        · rw [if_neg h2] at h
          by_cases h3 : toLower (trimSpace name) = "burn"
          · rw [if_pos h3] at h; exact absurd h (by decide)
          · rw [if_neg h3] at h
            by_cases h4 : toLower (trimSpace name) = "collect"
            · rw [if_pos h4] at h; exact absurd h (by decide)
            · exact ⟨h1, h2, h3, h4⟩
    · rintro ⟨h1, h2, h3, h4⟩
      rw [if_neg h1, if_neg h2, if_neg h3, if_neg h4]
  · rw [newDecoder_fold, ← mergeFold_fails cfg.Topic0Map (builtinTopics k)]
    cases hf : cfg.Topic0Map.foldl mergeTopic0 (Except.ok (builtinTopics k)) with
    | error e => exact ⟨fun _ => ⟨e, rfl⟩, fun _ => ⟨e, rfl⟩⟩
    | ok m =>
      constructor
      · rintro ⟨e, he⟩
        cases he
      · rintro ⟨e, he⟩
        cases he
  · intro d hd
    rw [newDecoder_fold] at hd
    cases hf : cfg.Topic0Map.foldl mergeTopic0 (Except.ok (builtinTopics k)) with
    | error e =>
      rw [hf] at hd
      cases hd
    | ok m =>
      rw [hf] at hd
      cases hd
      have hkeys := mergeFold_keys cfg.Topic0Map (builtinTopics k) m hf
      have hcan : ∀ t, V3PoolDecoder.CanDecode { topicToName := m } t = true ↔
          (t ≠ "" ∧ (toLower t ∈ builtinKeys k ∨
            ∃ entry ∈ cfg.Topic0Map, entry.1 ≠ "" ∧ toLower t = toLower entry.1)) := by
        intro t
        unfold V3PoolDecoder.CanDecode
        by_cases ht : t = ""
        · rw [if_pos ht]
          exact ⟨fun h => (by cases h), fun h => absurd ht h.1⟩
        · rw [if_neg ht, hkeys, builtin_keys]
          exact ⟨fun h => ⟨ht, h⟩, fun h => h.2⟩
      have hempty : (mapGet m (toLower "")).isSome = false := by
        cases hs : (mapGet m (toLower "")).isSome with
        | false => rfl
        | true =>
          exfalso
          rcases (hkeys _).mp hs with h | ⟨entry, -, hne, he⟩
          · rw [builtin_keys] at h
            unfold builtinKeys at h
            simp only [List.mem_cons, List.mem_singleton, List.not_mem_nil, or_false] at h
            have e0 : toLower "" = "" := rfl
            rw [e0] at h
            rcases h with h | h | h | h
            · exact hid "Swap" (by decide) ((toLower_eq_empty _).mp h.symm)
            · exact hid "Mint" (by decide) ((toLower_eq_empty _).mp h.symm)
            · exact hid "Burn" (by decide) ((toLower_eq_empty _).mp h.symm)
            · exact hid "Collect" (by decide) ((toLower_eq_empty _).mp h.symm)
          · have e0 : toLower "" = "" := rfl
            rw [e0] at he
            exact hne ((toLower_eq_empty _).mp he.symm)
      refine ⟨hcan, ?_, ?_⟩
      · intro log ctx ht
        refine ⟨DecodeErr.missingTopics, ?_⟩
        unfold V3PoolDecoder.Decode
        rw [ht]
      · intro log ctx topic0 rest ht hc
        refine ⟨DecodeErr.unsupportedTopic0, ?_⟩
        have hnone : mapGet m (toLower topic0) = none := by
          unfold V3PoolDecoder.CanDecode at hc
          by_cases h0 : topic0 = ""
          · subst h0
            cases hg : mapGet m (toLower "") with
            | none => rfl
            | some v => rw [hg] at hempty; cases hempty
          · rw [if_neg h0] at hc
            cases hg : mapGet m (toLower topic0) with
            | none => rfl
            | some v => rw [hg] at hc; cases hc
        unfold V3PoolDecoder.Decode
        rw [ht]
        simp only [hnone]

set_option maxRecDepth 20000 in
theorem topic0_map_contract_witness :
    ((∀ n ∈ eventNames, sampleLib.eventID n ≠ "") ∧
      (∃ d, NewV3PoolDecoder sampleLib sampleTopic0Map = Except.ok d ∧
        d.CanDecode "0xAbCd" = true ∧ d.CanDecode "0xabce" = false ∧ d.CanDecode "" = false ∧
        d.CanDecode (sampleLib.eventID "Mint") = true) ∧
      NewV3PoolDecoder sampleLib { Topic0Map := [("0xabcd", "transfer")] } =
        Except.error DecodeErr.unsupportedNameInMap ∧
      NewV3PoolDecoder sampleLib { Topic0Map := [("", "transfer")] } =
        Except.error DecodeErr.unsupportedNameInMap) ∧
    ((∀ name, normalizeEventName name = "" ↔
      toLower (trimSpace name) ∉ ["swap", "mint", "burn", "collect"]) ∧
    ((∃ e, NewV3PoolDecoder sampleLib sampleTopic0Map = Except.error e) ↔
      ∃ entry ∈ sampleTopic0Map.Topic0Map, normalizeEventName entry.2 = "") ∧
    ∀ d, NewV3PoolDecoder sampleLib sampleTopic0Map = Except.ok d →
      (∀ t, d.CanDecode t = true ↔
        (t ≠ "" ∧ (toLower t ∈ builtinKeys sampleLib ∨
          ∃ entry ∈ sampleTopic0Map.Topic0Map, entry.1 ≠ "" ∧ toLower t = toLower entry.1))) ∧
      (∀ log ctx, log.Topics = [] →
        ∃ e, d.Decode sampleLib log ctx = (ctx, Except.error e)) ∧
      (∀ log ctx topic0 rest, log.Topics = topic0 :: rest → d.CanDecode topic0 = false →
        ∃ e, d.Decode sampleLib log ctx = (ctx, Except.error e))) :=
  ⟨⟨by decide, ⟨_, rfl, by decide, by decide, by decide, by decide⟩, rfl, rfl⟩,
    topic0_map_contract sampleLib sampleTopic0Map (by decide)⟩

/-! ## Splitting a block range -/

theorem add64_small (a b : Nat) (h : a + b < uint64Size) : add64 a b = a + b :=
  Nat.mod_eq_of_lt h

theorem sub64_le (a b : Nat) (ha : a < uint64Size) (h : b ≤ a) : sub64 a b = a - b := by
  unfold sub64
  have hb : b % uint64Size = b := Nat.mod_eq_of_lt (by omega)
  rw [hb]
  have : a + uint64Size - b = (a - b) + uint64Size := by omega
  rw [this, Nat.add_mod_right]
  exact Nat.mod_eq_of_lt (by omega)

/-- The loop, from `start` on: the ranges it appends. -/
theorem splitLoop_spec (toBlock n : Nat) (ht : toBlock < uint64Size) (hn : 0 < n) :
    ∀ (fuel start : Nat) (acc : List BlockRange), start ≤ toBlock → toBlock - start < fuel →
      ∃ tail, splitLoop toBlock n fuel start acc = some (acc ++ tail) ∧
        tail.head?.map BlockRange.From = some start ∧
        tail.getLast?.map BlockRange.To = some toBlock ∧
        (∀ b ∈ tail, b.From ≤ b.To) ∧
        List.Chain' (fun a b => b.From = a.To + 1) tail ∧
        tail.flatMap BlockRange.blocks = List.range' start (toBlock - start + 1) ∧
        (toBlock - start + 1 < uint64Size → ∀ b ∈ tail, b.To - b.From + 1 ≤ n) := by
  intro fuel
  induction fuel with
  | zero => intro start acc _ h; omega
  | succ fuel ih =>
    intro start acc hs hf
    have hsub : sub64 toBlock start = toBlock - start := sub64_le _ _ ht hs
    by_cases hr : add64 (sub64 toBlock start) 1 ≤ n
    · refine ⟨[{ From := start, To := toBlock }], ?_, rfl, rfl, ?_, ?_, ?_, ?_⟩
      · simp only [splitLoop, if_pos hs, if_pos hr, if_true]
      · intro b hb
        rw [List.mem_singleton] at hb
        subst hb
        exact hs
      · exact List.chain'_singleton _
      · simp [BlockRange.blocks]
      · intro hw b hb
        rw [List.mem_singleton] at hb
        subst hb
        rw [hsub, add64_small _ _ hw] at hr
        exact hr
    · have hlt : toBlock - start + 1 < uint64Size := by
        by_contra hc
        have he : toBlock - start + 1 = uint64Size := by omega
        apply hr
        rw [hsub]
        unfold add64
        rw [he, Nat.mod_self]
        omega
      rw [hsub, add64_small _ _ hlt] at hr
      have hadd : add64 start n = start + n := add64_small _ _ (by omega)
      have hstop : sub64 (add64 start n) 1 = start + n - 1 := by
        rw [hadd, sub64_le _ _ (by omega) (by omega)]
      have hne : ¬ (start + n - 1 = toBlock) := by omega
      have hnext : add64 (start + n - 1) 1 = start + n := by
        rw [add64_small _ _ (by omega)]
        omega
      obtain ⟨tail, h1, h2, h3, h4, h5, h6, h7⟩ :=
        ih (start + n) (acc ++ [{ From := start, To := start + n - 1 }]) (by omega) (by omega)
      refine ⟨{ From := start, To := start + n - 1 } :: tail, ?_, rfl, ?_, ?_, ?_, ?_, ?_⟩
      · have hr2 : ¬ (add64 (sub64 toBlock start) 1 ≤ n) := by
          rw [hsub, add64_small _ _ hlt]
          exact hr
        simp only [splitLoop, if_pos hs, if_neg hr2, hstop, if_neg hne, hnext]
        rw [h1, List.append_assoc]
        rfl
      · cases tail with
        | nil => simp at h2
        | cons c cs =>
          rw [List.getLast?_cons_cons]
          exact h3
      · intro b hb
        rcases List.mem_cons.mp hb with h | h
        · subst h
          show start ≤ start + n - 1
          omega
        · exact h4 b h
      · cases tail with
        | nil => simp at h2
        | cons c cs =>
          refine List.Chain'.cons ?_ h5
          simp only [List.head?_cons, Option.map_some', Option.some.injEq] at h2
          show c.From = start + n - 1 + 1
          omega
      · rw [List.flatMap_cons, h6]
        have hb : BlockRange.blocks { From := start, To := start + n - 1 } = List.range' start n := by
          unfold BlockRange.blocks
          show List.range' start (start + n - 1 - start + 1) = _
          have e : start + n - 1 - start + 1 = n := by omega
          rw [e]
        rw [hb]
        have hlen : toBlock - start + 1 = (toBlock - (start + n) + 1) + n := by omega
        rw [hlen]
        exact List.range'_append_1 _ _ _
      · intro _ b hb
        rcases List.mem_cons.mp hb with h | h
        · subst h
          show start + n - 1 - start + 1 ≤ n
          omega
        · exact h7 (by omega) b h

/-- More rounds do not change what the loop returns. -/
theorem splitLoop_fuel (toBlock n : Nat) :
    ∀ (fuel start : Nat) (acc r : List BlockRange),
      splitLoop toBlock n fuel start acc = some r →
        splitLoop toBlock n (fuel + 1) start acc = some r := by
  intro fuel
  induction fuel with
  | zero =>
    intro start acc r h
    cases h
  | succ fuel ih =>
    intro start acc r h
    rw [splitLoop] at h ⊢
    by_cases hs : start ≤ toBlock
    · rw [if_pos hs] at h ⊢
      simp only at h ⊢
      generalize (if add64 (sub64 toBlock start) 1 ≤ n then toBlock
        else sub64 (add64 start n) 1) = stop at h ⊢
      by_cases hstop : stop = toBlock
      · rw [if_pos hstop] at h ⊢
        exact h
      · rw [if_neg hstop] at h ⊢
        exact ih _ _ _ h
    · rw [if_neg hs] at h ⊢
      exact h

/-- C26: `SplitRange(from, to, n)` returns once its loop has had more than
`to - from` rounds; it returns an error exactly when `n = 0` or `to < from`;
otherwise the list it returns is not empty, every range in it has
`From <= To`, the first range starts at `from`, the last one ends at `to`, each
range after the first starts at the `To + 1` of the one before, and the blocks
of the ranges, taken in order, are the blocks `from, from + 1, .., to`, each
once. -/
theorem splitRange_coverage (fromBlock toBlock n fuel : Nat)
    (ht : toBlock < uint64Size) (hfuel : toBlock - fromBlock < fuel) :
    ∃ r, SplitRange fromBlock toBlock n fuel = some r ∧
      ((∃ e, r = Except.error e) ↔ (n = 0 ∨ toBlock < fromBlock)) ∧
      ∀ ranges, r = Except.ok ranges →
        ranges ≠ [] ∧
        (∀ b ∈ ranges, b.From ≤ b.To) ∧
        ranges.head?.map BlockRange.From = some fromBlock ∧
        ranges.getLast?.map BlockRange.To = some toBlock ∧
        List.Chain' (fun a b => b.From = a.To + 1) ranges ∧
        ranges.flatMap BlockRange.blocks = List.range' fromBlock (toBlock - fromBlock + 1) := by
  unfold SplitRange
  by_cases hn : n = 0
  · rw [if_pos hn]
    refine ⟨_, rfl, ⟨fun _ => Or.inl hn, fun _ => ⟨_, rfl⟩⟩, ?_⟩
    intro ranges h
    cases h
  · rw [if_neg hn]
    by_cases hlt : toBlock < fromBlock
    · rw [if_pos hlt]
      refine ⟨_, rfl, ⟨fun _ => Or.inr hlt, fun _ => ⟨_, rfl⟩⟩, ?_⟩
      intro ranges h
      cases h
    · rw [if_neg hlt]
      obtain ⟨tail, h1, h2, h3, h4, h5, h6, -⟩ :=
        splitLoop_spec toBlock n ht (Nat.pos_of_ne_zero hn) fuel fromBlock [] (by omega) hfuel
      rw [h1, List.nil_append]
      refine ⟨_, rfl, ⟨?_, ?_⟩, ?_⟩
      · rintro ⟨e, he⟩
        cases he
      · rintro (h | h)
        · exact absurd h hn
        · exact absurd h hlt
      · intro ranges h
        cases h
        refine ⟨?_, h4, h2, h3, h5, h6⟩
        intro hnil
        rw [hnil] at h2
        cases h2

theorem splitRange_coverage_witness :
    (105 < uint64Size ∧ 105 - 100 < 6 ∧
      SplitRange 100 105 2 3 =
        some (Except.ok [{ From := 100, To := 101 }, { From := 102, To := 103 },
          { From := 104, To := 105 }]) ∧
      SplitRange 5 5 10 1 = some (Except.ok [{ From := 5, To := 5 }]) ∧
      SplitRange 10 9 1 1 = some (Except.error RangeErr.toBeforeFrom) ∧
      SplitRange 1 10 0 10 = some (Except.error RangeErr.batchSizeZero)) ∧
    ∃ r, SplitRange 100 105 2 6 = some r ∧
      ((∃ e, r = Except.error e) ↔ (2 = 0 ∨ 105 < 100)) ∧
      ∀ ranges, r = Except.ok ranges →
        ranges ≠ [] ∧
        (∀ b ∈ ranges, b.From ≤ b.To) ∧
        ranges.head?.map BlockRange.From = some 100 ∧
        ranges.getLast?.map BlockRange.To = some 105 ∧
        List.Chain' (fun a b => b.From = a.To + 1) ranges ∧
        ranges.flatMap BlockRange.blocks = List.range' 100 (105 - 100 + 1) :=
  ⟨⟨by decide, by decide, by decide, by decide, by decide, by decide⟩,
    splitRange_coverage 100 105 2 6 (by decide) (by decide)⟩

/-- C27: the width bound is right and `SplitRange` misses it on one input: for
`from = 0`, `to = 2^64 - 1` and `n = 1` the count `to - start + 1` wraps to 0
in the first round, so that the whole interval comes back as one range of
`2^64` blocks, not as batches of one block. -/
theorem splitRange_whole_domain :
    SplitRange 0 (2 ^ 64 - 1) 1 1 = some (Except.ok [{ From := 0, To := 2 ^ 64 - 1 }]) ∧
    ¬ ((2 ^ 64 - 1 : Nat) - 0 + 1 ≤ 1) ∧
    add64 (sub64 (2 ^ 64 - 1) 0) 1 = 0 := by
  decide

/-- On every other input the width bound holds: for 64-bit `from <= to` other
than `from = 0` with `to = 2^64 - 1`, and every `n > 0`, `SplitRange(from, to,
n)` returns a list in which every range has at most `n` blocks. -/
theorem splitRange_width (fromBlock toBlock n fuel : Nat)
    (ht : toBlock < uint64Size) (hle : fromBlock ≤ toBlock) (hn : 0 < n)
    (hspan : fromBlock ≠ 0 ∨ toBlock ≠ uint64Size - 1)
    (hfuel : toBlock - fromBlock < fuel) :
    ∃ ranges, SplitRange fromBlock toBlock n fuel = some (Except.ok ranges) ∧
      ∀ b ∈ ranges, b.To - b.From + 1 ≤ n := by
  unfold SplitRange
  rw [if_neg (by omega), if_neg (by omega)]
  obtain ⟨tail, h1, -, -, -, -, -, h7⟩ :=
    splitLoop_spec toBlock n ht hn fuel fromBlock [] hle hfuel
  rw [h1, List.nil_append]
  exact ⟨tail, rfl, h7 (by omega)⟩

theorem splitRange_width_witness :
    (105 < uint64Size ∧ 100 ≤ 105 ∧ 0 < 2 ∧ (100 ≠ 0 ∨ 105 ≠ uint64Size - 1) ∧ 105 - 100 < 6) ∧
    ∃ ranges, SplitRange 100 105 2 6 = some (Except.ok ranges) ∧
      ∀ b ∈ ranges, b.To - b.From + 1 ≤ 2 :=
  ⟨⟨by decide, by decide, by decide, by decide, by decide⟩,
    splitRange_width 100 105 2 6 (by decide) (by decide) (by decide) (by decide) (by decide)⟩

/-! ## JSON round trips -/

theorem validFrom_coerce : ∀ (s : List Nat) (k : Nat), validFrom k s = true → coerceFrom k s = s := by
  intro s
  induction s with
  | nil => intro k _; cases k <;> rfl
  | cons b rest ih =>
    intro k h
    cases k with
    | succ k =>
      rw [validFrom] at h
      rw [coerceFrom, ih k h]
    | zero =>
      rw [validFrom] at h
      rw [coerceFrom]
      cases hw : runeWidth (b :: rest) with
      | zero => rw [hw] at h; cases h
      | succ w =>
        rw [hw] at h
        simp only at h ⊢
        rw [ih w h]

theorem coerceFrom_length : ∀ (s : List Nat) (k : Nat), s.length ≤ (coerceFrom k s).length := by
  intro s
  induction s with
  | nil => intro k; cases k <;> simp [coerceFrom]
  | cons b rest ih =>
    intro k
    cases k with
    | succ k =>
      rw [coerceFrom]
      simp only [List.length_cons]
      have := ih k
      omega
    | zero =>
      rw [coerceFrom]
      cases hw : runeWidth (b :: rest) with
      | zero =>
        simp only [List.length_cons]
        have := ih 0
        omega
      | succ w =>
        simp only [List.length_cons]
        have := ih w
        omega

theorem coerce_validFrom : ∀ (s : List Nat) (k : Nat), coerceFrom k s = s → validFrom k s = true := by
  intro s
  induction s with
  | nil => intro k _; cases k <;> rfl
  | cons b rest ih =>
    intro k h
    cases k with
    | succ k =>
      rw [coerceFrom] at h
      rw [validFrom]
      exact ih k (List.cons.inj h).2
    | zero =>
      rw [coerceFrom] at h
      rw [validFrom]
      cases hw : runeWidth (b :: rest) with
      | zero =>
        rw [hw] at h
        simp only at h
        have hl := congrArg List.length h
        simp only [List.length_cons] at hl
        have := coerceFrom_length rest 0
        omega
      | succ w =>
        rw [hw] at h
        simp only at h ⊢
        exact ih w (List.cons.inj h).2

/-- The encoder leaves a string as it is exactly when the string is UTF-8. -/
theorem coerceUTF8_fixed (s : List Nat) : coerceUTF8 s = s ↔ validString s = true :=
  ⟨coerce_validFrom s 0, validFrom_coerce s 0⟩

theorem parseUint64_utoa (n : Nat) (h : n < uint64Size) : parseUint64 (utoa n) = some n := by
  obtain ⟨h1, h2, h3, -⟩ := utoa_spec n
  unfold parseUint64
  rw [h3]
  rw [if_pos ⟨h1, List.all_eq_true.mpr h2, h⟩]

theorem storeItems_strings (field : String) (ts : List (List Nat)) :
    storeItems field (ts.map (fun t => JsonValue.string (coerceUTF8 t))) =
      Except.ok (ts.map coerceUTF8) := by
  induction ts with
  | nil => rfl
  | cons t rest ih =>
    rw [List.map_cons, storeItems, ih]
    rfl

theorem map_coerce_fixed (ts : List (List Nat)) :
    ts.map coerceUTF8 = ts ↔ ∀ t ∈ ts, validString t = true := by
  induction ts with
  | nil => simp
  | cons t rest ih =>
    rw [List.map_cons]
    constructor
    · intro h
      have h1 := (List.cons.inj h).1
      have h2 := (List.cons.inj h).2
      intro x hx
      rcases List.mem_cons.mp hx with e | e
      · subst e
        exact (coerceUTF8_fixed _).mp h1
      · exact ih.mp h2 x e
    · intro h
      rw [(coerceUTF8_fixed t).mpr (h t (List.mem_cons_self _ _)),
        ih.mpr (fun x hx => h x (List.mem_cons_of_mem _ hx))]

theorem setField_uint (a : Model.LogRecord) (n : Nat) (h : n < uint64Size) :
    a.setField ("chain_id", JsonValue.number (utoa n)) = Except.ok { a with ChainID := n } ∧
    a.setField ("block_number", JsonValue.number (utoa n)) =
      Except.ok { a with BlockNumber := n } ∧
    a.setField ("tx_index", JsonValue.number (utoa n)) = Except.ok { a with TxIndex := n } ∧
    a.setField ("log_index", JsonValue.number (utoa n)) = Except.ok { a with LogIndex := n } ∧
    a.setField ("timestamp", JsonValue.number (utoa n)) = Except.ok { a with Timestamp := n } := by
  have e1 : fieldFor "chain_id" = some "chain_id" := by decide
  have e2 : fieldFor "block_number" = some "block_number" := by decide
  have e3 : fieldFor "tx_index" = some "tx_index" := by decide
  have e4 : fieldFor "log_index" = some "log_index" := by decide
  have e5 : fieldFor "timestamp" = some "timestamp" := by decide
  refine ⟨?_, ?_, ?_, ?_, ?_⟩
  · simp [Model.LogRecord.setField, e1, storeUint64, parseUint64_utoa n h, Except.map]
  · simp [Model.LogRecord.setField, e2, storeUint64, parseUint64_utoa n h, Except.map]
  · simp [Model.LogRecord.setField, e3, storeUint64, parseUint64_utoa n h, Except.map]
  · simp [Model.LogRecord.setField, e4, storeUint64, parseUint64_utoa n h, Except.map]
  · simp [Model.LogRecord.setField, e5, storeUint64, parseUint64_utoa n h, Except.map]

theorem setField_string (a : Model.LogRecord) (s : List Nat) :
    a.setField ("block_hash", JsonValue.string s) = Except.ok { a with BlockHash := s } ∧
    a.setField ("tx_hash", JsonValue.string s) = Except.ok { a with TxHash := s } ∧
    a.setField ("address", JsonValue.string s) = Except.ok { a with Address := s } ∧
    a.setField ("data", JsonValue.string s) = Except.ok { a with Data := s } ∧
    a.setField ("ingested_at", JsonValue.string s) = Except.ok { a with IngestedAt := s } := by
  have e1 : fieldFor "block_hash" = some "block_hash" := by decide
  have e2 : fieldFor "tx_hash" = some "tx_hash" := by decide
  have e3 : fieldFor "address" = some "address" := by decide
  have e4 : fieldFor "data" = some "data" := by decide
  have e5 : fieldFor "ingested_at" = some "ingested_at" := by decide
  refine ⟨?_, ?_, ?_, ?_, ?_⟩
  · simp [Model.LogRecord.setField, e1, storeString, Except.map]
  · simp [Model.LogRecord.setField, e2, storeString, Except.map]
  · simp [Model.LogRecord.setField, e3, storeString, Except.map]
  · simp [Model.LogRecord.setField, e4, storeString, Except.map]
  · simp [Model.LogRecord.setField, e5, storeString, Except.map]

theorem setField_removed (a : Model.LogRecord) (b : Bool) :
    a.setField ("removed", JsonValue.bool b) = Except.ok { a with Removed := b } := by
  have e1 : fieldFor "removed" = some "removed" := by decide
  simp [Model.LogRecord.setField, e1, storeBool, Except.map]

theorem setField_topics (a : Model.LogRecord) (t : Option (List (List Nat))) :
    a.setField ("topics",
        match t with
        | none => JsonValue.null
        | some ts => JsonValue.array (ts.map (fun t => JsonValue.string (coerceUTF8 t)))) =
      Except.ok
        (match t with
        | none => a
        | some ts => { a with Topics := some (ts.map coerceUTF8) }) := by
  have e1 : fieldFor "topics" = some "topics" := by decide
  cases t with
  | none => simp [Model.LogRecord.setField, e1, storeStrings, Except.map]
  | some ts =>
    simp [Model.LogRecord.setField, e1, storeStrings, storeItems_strings, Except.map]

/-- What comes back from the JSON form of a record: the record with its
strings coerced to UTF-8. -/
theorem unmarshal_marshal (lr : Model.LogRecord) (h : lr.inRange) :
    Model.LogRecord.UnmarshalJSON lr.MarshalJSON = Except.ok lr.coerced := by
  obtain ⟨h1, h2, h3, h4, h5⟩ := h
  unfold Model.LogRecord.UnmarshalJSON Model.LogRecord.MarshalJSON
  simp only [storeMembers]
  rw [(setField_uint _ _ h1).1]
  simp only
  rw [(setField_uint _ _ h2).2.1]
  simp only
  rw [(setField_string _ _).1]
  simp only
  rw [(setField_string _ _).2.1]
  simp only
  rw [(setField_uint _ _ h3).2.2.1]
  simp only
  rw [(setField_uint _ _ h4).2.2.2.1]
  simp only
  rw [(setField_string _ _).2.2.1]
  simp only
  rw [setField_topics]
  simp only
  rw [(setField_string _ _).2.2.2.1]
  simp only
  rw [setField_removed]
  simp only
  rw [(setField_uint _ _ h5).2.2.2.2]
  simp only
  rw [(setField_string _ _).2.2.2.2]
  cases lr with
  | mk c bn bh th ti li ad tp da rm ts ia =>
    cases tp <;> rfl

theorem ascii_valid : ∀ s : List Nat, (∀ b ∈ s, b < 0x80) → validFrom 0 s = true := by
  intro s
  induction s with
  | nil => intro _; rfl
  | cons b rest ih =>
    intro h
    have hb : b < 0x80 := h b (List.mem_cons_self _ _)
    have hw : runeWidth (b :: rest) = 1 := by
      simp only [runeWidth, if_pos hb]
    rw [validFrom, hw]
    exact ih (fun x hx => h x (List.mem_cons_of_mem _ hx))

theorem goBytes_ascii (cs : List Char) (h : ∀ c ∈ cs, c.toNat < 0x80) :
    goBytes (String.mk cs) = cs.map Char.toNat := by
  unfold goBytes
  show cs.flatMap (fun c => encodeRune c.toNat) = cs.map Char.toNat
  induction cs with
  | nil => rfl
  | cons c rest ih =>
    rw [List.flatMap_cons, List.map_cons, ih (fun x hx => h x (List.mem_cons_of_mem _ hx))]
    have hc : c.toNat < 0x80 := h c (List.mem_cons_self _ _)
    unfold encodeRune
    rw [if_pos hc]
    rfl

theorem isDigit_ascii (c : Char) (h : c.isDigit = true) : c.toNat < 0x80 := by
  unfold Char.isDigit at h
  simp only [ge_iff_le, Bool.and_eq_true, decide_eq_true_eq] at h
  have h2 : c.val.toNat ≤ (57 : UInt32).toNat := h.2
  exact Nat.lt_of_le_of_lt h2 (by decide)

theorem bigIntString_spec (x : Int) :
    (x < 0 → bigIntString x = '-' :: utoa x.natAbs) ∧
    (0 ≤ x → bigIntString x = utoa x.natAbs) ∧
    ∀ c ∈ bigIntString x, c.toNat < 0x80 := by
  refine ⟨?_, ?_, ?_⟩
  · intro h
    unfold bigIntString
    rw [if_pos h]
  · intro h
    unfold bigIntString
    rw [if_neg (by omega)]
  · intro c hc
    obtain ⟨-, hd, -, -⟩ := utoa_spec x.natAbs
    unfold bigIntString at hc
    by_cases h : x < 0
    · rw [if_pos h] at hc
      rcases List.mem_cons.mp hc with e | e
      · subst e
        decide
      · exact isDigit_ascii c (hd c e)
    · rw [if_neg h] at hc
      exact isDigit_ascii c (hd c hc)

theorem parseBigInt_bigIntString (x : Int) : parseBigInt (String.mk (bigIntString x)) = some x := by
  obtain ⟨hne, hd, hv, -⟩ := utoa_spec x.natAbs
  have hall : (utoa x.natAbs).all Char.isDigit = true := List.all_eq_true.mpr hd
  unfold parseBigInt
  have hdata : (String.mk (bigIntString x)).data = bigIntString x := rfl
  by_cases h : x < 0
  · rw [(bigIntString_spec x).1 h] at hdata ⊢
    have hs : ¬ (String.mk ('-' :: utoa x.natAbs) = "") := by
      intro e
      have := congrArg String.data e
      cases this
    rw [if_neg hs]
    show bigIntSetString ('-' :: utoa x.natAbs) = some x
    unfold bigIntSetString
    simp only
    rw [if_pos ⟨hne, hall⟩, hv]
    congr 1
    omega
  · have h0 : 0 ≤ x := by omega
    rw [(bigIntString_spec x).2.1 h0]
    have hs : ¬ (String.mk (utoa x.natAbs) = "") := by
      intro e
      have := congrArg String.data e
      exact hne this
    rw [if_neg hs]
    show bigIntSetString (utoa x.natAbs) = some x
    cases hu : utoa x.natAbs with
    | nil => exact absurd hu hne
    | cons c cs =>
      rw [hu] at hall hv hd
      have hc : c.isDigit = true := hd c (List.mem_cons_self _ _)
      have hm : c ≠ '-' := by
        intro e
        rw [e] at hc
        exact absurd hc (by decide)
      have hp : c ≠ '+' := by
        intro e
        rw [e] at hc
        exact absurd hc (by decide)
      unfold bigIntSetString
      split
      · rename_i heq
        cases heq
      · rename_i ds heq
        exact absurd (List.cons.inj heq).1 hm
      · rename_i ds heq
        exact absurd (List.cons.inj heq).1 hp
      · rw [if_pos hall, hv]
        congr 1
        omega

/-- C24: in the JSON form of every `SwapEventData` the members `amount0`,
`amount1`, `sqrt_price_x96` and `liquidity` are JSON strings, each holding the
field of that name; for every integer `x` the JSON string made from the decimal
text of `x`, in which the decoder writes these fields, holds exactly the
characters of that text; and `parseBigInt` of the decimal text of `x` is
`x`. -/
theorem swap_numeric_round_trip (s : Dex.SwapEventData) (x : Int) :
    jsonMember (marshalSwapEventData s) "amount0" =
      some (JsonValue.string (coerceUTF8 (goBytes s.Amount0))) ∧
    jsonMember (marshalSwapEventData s) "amount1" =
      some (JsonValue.string (coerceUTF8 (goBytes s.Amount1))) ∧
    jsonMember (marshalSwapEventData s) "sqrt_price_x96" =
      some (JsonValue.string (coerceUTF8 (goBytes s.SqrtPriceX96))) ∧
    jsonMember (marshalSwapEventData s) "liquidity" =
      some (JsonValue.string (coerceUTF8 (goBytes s.Liquidity))) ∧
    coerceUTF8 (goBytes (String.mk (bigIntString x))) = (bigIntString x).map Char.toNat ∧
    parseBigInt (String.mk (bigIntString x)) = some x := by
  refine ⟨rfl, rfl, rfl, rfl, ?_, parseBigInt_bigIntString x⟩
  have ha := (bigIntString_spec x).2.2
  rw [goBytes_ascii _ ha]
  apply validFrom_coerce
  apply ascii_valid
  intro b hb
  obtain ⟨c, hc, e⟩ := List.mem_map.mp hb
  rw [← e]
  exact ha c hc

/-- The payload of `TestSwapEventDataJSONStringFields`: its four numeric
members are JSON strings of the digits, and the digits parse to the numbers. -/
theorem swap_payload_strings :
    jsonMember (marshalSwapEventData testSwapPayload) "amount0" =
      some (JsonValue.string ("12345678901234567890".data.map Char.toNat)) ∧
    jsonMember (marshalSwapEventData testSwapPayload) "amount1" =
      some (JsonValue.string [45, 52, 50]) ∧
    jsonMember (marshalSwapEventData testSwapPayload) "sqrt_price_x96" =
      some (JsonValue.string ("79228162514264337593543950336".data.map Char.toNat)) ∧
    jsonMember (marshalSwapEventData testSwapPayload) "liquidity" =
      some (JsonValue.string ("5000000000000000000".data.map Char.toNat)) ∧
    parseBigInt testSwapPayload.Amount0 = some 12345678901234567890 ∧
    parseBigInt testSwapPayload.Amount1 = some (-42) :=
  ⟨rfl, rfl, rfl, rfl, by decide, by decide⟩

/-- C25 as stated fails: the block hash `0xFF` is no UTF-8, the JSON form holds
U+FFFD in its place, and the record read back has the three bytes of U+FFFD
as its block hash. -/
theorem logRecord_invalid_utf8 :
    brokenHashRecord.BlockHash = [0xFF] ∧
    Model.LogRecord.UnmarshalJSON brokenHashRecord.MarshalJSON =
      Except.ok { brokenHashRecord with BlockHash := [0xEF, 0xBF, 0xBD] } ∧
    Model.LogRecord.UnmarshalJSON brokenHashRecord.MarshalJSON ≠ Except.ok brokenHashRecord := by
  decide

/-- C25, amended: for every `LogRecord`, `UnmarshalJSON` of its `MarshalJSON`
returns a record, which is equal to the original in every field exactly when
every string of the original (block hash, tx hash, address, each topic, data,
ingested_at) is well-formed UTF-8; the numbers, the flag, and the number and
order of the topics (a nil list apart from an empty one) come back in every
case. -/
theorem logRecord_round_trip (lr : Model.LogRecord) (h : lr.inRange) :
    Model.LogRecord.UnmarshalJSON lr.MarshalJSON = Except.ok lr.coerced ∧
    (Model.LogRecord.UnmarshalJSON lr.MarshalJSON = Except.ok lr ↔ lr.validStrings) ∧
    (lr.coerced.ChainID = lr.ChainID ∧ lr.coerced.BlockNumber = lr.BlockNumber ∧
      lr.coerced.TxIndex = lr.TxIndex ∧ lr.coerced.LogIndex = lr.LogIndex ∧
      lr.coerced.Removed = lr.Removed ∧ lr.coerced.Timestamp = lr.Timestamp ∧
      lr.coerced.Topics.map List.length = lr.Topics.map List.length) := by
  refine ⟨unmarshal_marshal lr h, ?_, rfl, rfl, rfl, rfl, rfl, rfl, ?_⟩
  · rw [unmarshal_marshal lr h]
    cases lr with
    | mk c bn bh th ti li ad tp da rm ts ia =>
      unfold Model.LogRecord.coerced Model.LogRecord.validStrings
      simp only [Except.ok.injEq, Model.LogRecord.mk.injEq, true_and, and_true, coerceUTF8_fixed]
      cases tp with
      | none => simp
      | some l =>
        simp [map_coerce_fixed]
        tauto
  · cases lr with
    | mk c bn bh th ti li ad tp da rm ts ia =>
      cases tp with
      | none => rfl
      | some l => simp [Model.LogRecord.coerced]

set_option maxRecDepth 20000 in
theorem logRecord_round_trip_witness :
    (testLogRecord.inRange ∧ testLogRecord.validStrings) ∧
    (Model.LogRecord.UnmarshalJSON testLogRecord.MarshalJSON = Except.ok testLogRecord.coerced ∧
    (Model.LogRecord.UnmarshalJSON testLogRecord.MarshalJSON = Except.ok testLogRecord ↔
      testLogRecord.validStrings) ∧
    (testLogRecord.coerced.ChainID = testLogRecord.ChainID ∧
      testLogRecord.coerced.BlockNumber = testLogRecord.BlockNumber ∧
      testLogRecord.coerced.TxIndex = testLogRecord.TxIndex ∧
      testLogRecord.coerced.LogIndex = testLogRecord.LogIndex ∧
      testLogRecord.coerced.Removed = testLogRecord.Removed ∧
      testLogRecord.coerced.Timestamp = testLogRecord.Timestamp ∧
      testLogRecord.coerced.Topics.map List.length = testLogRecord.Topics.map List.length)) :=
  ⟨⟨⟨by decide, by decide, by decide, by decide, by decide⟩,
      (logRecord_round_trip testLogRecord
        ⟨by decide, by decide, by decide, by decide, by decide⟩).2.1.mp (by decide)⟩,
    logRecord_round_trip testLogRecord ⟨by decide, by decide, by decide, by decide, by decide⟩⟩

/-! ## The cut-off of a run -/

theorem run_guards (env : Env) (a : Aggregator) (input : List Line) (st : RunState)
    (hrun : a.Run env input = Except.ok st) :
    a.hasStore = true ∧ a.hasChainClient = true ∧ a.cfg.WindowSeconds ≠ 0 ∧
      ∃ startTs, a.loadStartTimestamp = Except.ok startTs := by
  unfold Aggregator.Run at hrun
  split_ifs at hrun with h1 h2 h3 h4
  · have hl : ({ a with cfg := { a.cfg with BatchSize := 1000 } } : Aggregator).loadStartTimestamp =
        a.loadStartTimestamp := rfl
    simp only [hl] at hrun
    refine ⟨by simpa using h1, by simpa using h2, h3, ?_⟩
    cases hs : a.loadStartTimestamp with
    | error e => rw [hs] at hrun; cases hrun
    | ok s => exact ⟨s, rfl⟩
  · dsimp only at hrun
    refine ⟨by simpa using h1, by simpa using h2, h3, ?_⟩
    cases hs : a.loadStartTimestamp with
    | error e => rw [hs] at hrun; cases hrun
    | ok s => exact ⟨s, rfl⟩

theorem flush_skipped (env : Env) (l : List (String × Accumulator)) : ∀ st : RunState,
    (l.foldl (fun s e => s.flush env e.2) st).skipped = st.skipped := by
  induction l with
  | nil => intro st; rfl
  | cons e rest ih =>
    intro st
    rw [List.foldl_cons, ih]
    rfl

theorem finishRun_skipped (env : Env) (st st1 : RunState) (h : finishRun env st = Except.ok st1) :
    st1.skipped = st.skipped := by
  unfold finishRun at h
  dsimp only at h
  split at h
  · cases h
  · split at h
    · cases h
    · injection h with h
      subst h
      exact flush_skipped env _ st

theorem processLine_skipped (env : Env) (startTs : Nat) (st st1 : RunState) (line : Line)
    (h : processLine env startTs st line = Except.ok st1) :
    st1.skipped = st.skipped +
      ((recordsOf [line]).filter (fun r => decide (r.Timestamp ≤ startTs))).length := by
  cases line with
  | blank =>
    cases h
    rfl
  | malformed =>
    cases h
    rfl
  | record r =>
    have hrec : recordsOf [Line.record r] = [r] := rfl
    rw [hrec]
    by_cases hle : r.Timestamp ≤ startTs
    · have h4 := (cutoff_step env st.a startTs st r).2.2.2.1 hle
      rw [h4] at h
      cases h
      simp [hle]
    · have h5 := ((cutoff_step env st.a startTs st r).2.2.2.2 (by omega)).2 st1 h
      rw [h5.1]
      simp [hle]

theorem runLoop_skipped (env : Env) (startTs : Nat) (input : List Line) :
    ∀ (st st1 : RunState), runLoop env startTs st input = Except.ok st1 →
      st1.skipped = st.skipped +
        ((recordsOf input).filter (fun r => decide (r.Timestamp ≤ startTs))).length := by
  induction input with
  | nil =>
    intro st st1 h
    cases h
    rfl
  | cons line rest ih =>
    intro st st1 h
    rw [runLoop] at h
    cases hp : processLine env startTs st line with
    | error e => rw [hp] at h; cases h
    | ok st2 =>
      rw [hp] at h
      have h1 := processLine_skipped env startTs st st2 line hp
      have h2 := ih st2 st1 h
      have hrec : recordsOf (line :: rest) = recordsOf [line] ++ recordsOf rest := by
        unfold recordsOf
        rw [← List.filterMap_append]
        rfl
      rw [h2, h1, hrec, List.filter_append, List.length_append]
      omega

/-- C7: a run that returns has taken its cut-off from `loadStartTimestamp`:
`RecomputeFrom - 1` when `RecomputeFrom > 0`, otherwise the stored checkpoint
when the state store has one, otherwise 0.  The run is the loop over the input
with that cut-off, followed by the drain; each record of the input meets the
loop in the state left by the lines before it, and there a record whose
timestamp is at most the cut-off is counted as skipped and changes nothing
else, while a record whose timestamp is above it is not counted as skipped and
is added to the accumulator of its pool and window; the run ends with as many
skipped records as the input has records at or below the cut-off. -/
theorem starting_cutoff (env : Env) (a : Aggregator) (input : List Line) (st : RunState)
    (hrun : a.Run env input = Except.ok st) :
    ∃ startTs stL, a.loadStartTimestamp = Except.ok startTs ∧
      (0 < a.cfg.RecomputeFrom → startTs = a.cfg.RecomputeFrom - 1) ∧
      (a.cfg.RecomputeFrom = 0 → ∀ store, a.cfg.StateStore = some store →
        store.load.ok = true → startTs = store.load.last) ∧
      (a.cfg.RecomputeFrom = 0 →
        (a.cfg.StateStore = none ∨ ∃ store, a.cfg.StateStore = some store ∧
          store.load.ok = false) → startTs = 0) ∧
      runLoop env startTs (a.initState startTs) input = Except.ok stL ∧
      finishRun env stL = Except.ok st ∧
      st.skipped = ((recordsOf input).filter (fun r => decide (r.Timestamp ≤ startTs))).length ∧
      ∀ pre r post, input = pre ++ Line.record r :: post →
        ∃ st1 st2, runLoop env startTs (a.initState startTs) pre = Except.ok st1 ∧
          processLine env startTs st1 (Line.record r) = Except.ok st2 ∧
          runLoop env startTs st2 post = Except.ok stL ∧
          (r.Timestamp ≤ startTs →
            st2 = { st1 with total := st1.total + 1, skipped := st1.skipped + 1 }) ∧
          (startTs < r.Timestamp → st2.skipped = st1.skipped ∧
            ∃ acc0 : Accumulator,
              acc0.WindowStart = windowStart r.Timestamp a.cfg.WindowSeconds ∧
              mapGet st2.a.accumulators (poolKey r.Address) = some (acc0.AddEvent r).1) := by
  obtain ⟨hs, hc, hW, startTs, hstart⟩ := run_guards env a input st hrun
  have hrun2 := hrun
  rw [run_eq_loop env a input startTs hs hc hW hstart] at hrun2
  cases hloop : runLoop env startTs (a.initState startTs) input with
  | error e => rw [hloop] at hrun2; cases hrun2
  | ok stL =>
    rw [hloop] at hrun2
    simp only at hrun2
    have hinit : (a.initState startTs).a.cfg.WindowSeconds = a.cfg.WindowSeconds := by
      unfold Aggregator.initState
      dsimp only
      split_ifs <;> rfl
    refine ⟨startTs, stL, hstart, ?_, ?_, ?_, hloop, hrun2, ?_, ?_⟩
    · intro h
      have := (cutoff_step env a startTs (a.initState startTs)
        (sampleSwap "" 0 "" "")).1 h
      rw [hstart] at this
      exact Except.ok.inj this
    · intro h store hstore hok
      have hf : store.load.failed = false := by
        cases hfl : store.load.failed with
        | false => rfl
        | true =>
          exfalso
          unfold Aggregator.loadStartTimestamp at hstart
          rw [if_neg (by omega)] at hstart
          simp [hstore, hfl] at hstart
      have := (cutoff_step env a startTs (a.initState startTs)
        (sampleSwap "" 0 "" "")).2.1 h store hstore hf hok
      rw [hstart] at this
      exact Except.ok.inj this
    · intro h hcase
      have hcase2 : a.cfg.StateStore = none ∨ ∃ store, a.cfg.StateStore = some store ∧
          store.load.failed = false ∧ store.load.ok = false := by
        rcases hcase with hn | ⟨store, hstore, hok⟩
        · exact Or.inl hn
        · refine Or.inr ⟨store, hstore, ?_, hok⟩
          cases hfl : store.load.failed with
          | false => rfl
          | true =>
            exfalso
            unfold Aggregator.loadStartTimestamp at hstart
            rw [if_neg (by omega)] at hstart
            simp [hstore, hfl] at hstart
      have := (cutoff_step env a startTs (a.initState startTs)
        (sampleSwap "" 0 "" "")).2.2.1 h hcase2
      rw [hstart] at this
      exact Except.ok.inj this
    · rw [finishRun_skipped env stL st hrun2, runLoop_skipped env startTs input _ stL hloop]
      unfold Aggregator.initState
      simp
    · intro pre r post hin
      rw [hin, runLoop_append] at hloop
      cases hpre : runLoop env startTs (a.initState startTs) pre with
      | error e => rw [hpre] at hloop; cases hloop
      | ok st1 =>
        rw [hpre] at hloop
        simp only at hloop
        rw [runLoop] at hloop
        cases hp : processLine env startTs st1 (Line.record r) with
        | error e => rw [hp] at hloop; cases hloop
        | ok st2 =>
          rw [hp] at hloop
          simp only at hloop
          have hcfg := (runLoop_maxTs env startTs pre _ st1 hpre).1
          refine ⟨st1, st2, rfl, hp, hloop, ?_, ?_⟩
          · intro hle
            have h4 := (cutoff_step env st1.a startTs st1 r).2.2.2.1 hle
            rw [hp] at h4
            exact Except.ok.inj h4
          · intro hlt
            have h5 := ((cutoff_step env st1.a startTs st1 r).2.2.2.2 hlt).2 st2 hp
            rw [hcfg, hinit] at h5
            exact h5

set_option maxRecDepth 20000 in
theorem starting_cutoff_witness :
    ∃ st, (NewAggregator (sampleConfigAt 300 1000 1700000200) true true).Run sampleEnv
        cutoffInput = Except.ok st ∧
      (NewAggregator (sampleConfigAt 300 1000 1700000200) true true).loadStartTimestamp =
        Except.ok 1700000200 ∧
      st.skipped = 1 ∧
      ((NewAggregator (sampleConfig 300 1000 1700000200) true true).Run sampleEnv
        cutoffInput).toOption.map (fun s => s.skipped) = some 0 := by
  have hok : ((NewAggregator (sampleConfigAt 300 1000 1700000200) true true).Run sampleEnv
      cutoffInput).toOption.isSome = true := by decide
  cases hrun : (NewAggregator (sampleConfigAt 300 1000 1700000200) true true).Run sampleEnv
      cutoffInput with
  | error e =>
    rw [hrun] at hok
    cases hok
  | ok st =>
    obtain ⟨startTs, stL, h1, -, h3, -, -, -, h7, -⟩ :=
      starting_cutoff sampleEnv (NewAggregator (sampleConfigAt 300 1000 1700000200) true true)
        cutoffInput st hrun
    have hs : startTs = 1700000200 := h3 rfl _ rfl rfl
    subst hs
    exact ⟨st, rfl, h1, h7.trans (by decide), by decide⟩

/-! ## Lower case beyond ASCII -/

set_option maxRecDepth 20000 in
/-- `strings.ToLower` on letters outside ASCII, and what hangs on it: two
spellings of one address are one pool key, one pool entry and one metrics row,
and an operator key of the topic0 map is found under its lower case. -/
theorem toLower_beyond_ascii :
    toLower "0xÉ" = "0xé" ∧ toLower "ΣΩ" = "σω" ∧ toLower "mİnt" = "mint" ∧
    toLower "K" = "k" ∧ toLower "ǅ" = "ǆ" ∧ toLower "straße" = "straße" ∧
    poolKey "0xÉ" = poolKey "0xé" ∧
    (((NewAggregator (sampleConfig 300 1000 0) true true).registerPool
        (NewAccumulator (sampleSwap "0xé" 5 "1" "-1") 0 300)).1.registerPool
      (NewAccumulator (sampleSwap "0xÉ" 7 "1" "-1") 0 300)).2 = none ∧
    ((NewAggregator (sampleConfig 300 1000 0) true true).Run sampleEnv
      accentInput).toOption.map (fun s => (metricRows s.calls).map (fun r => r.SwapCount)) =
        some [2] ∧
    (match NewV3PoolDecoder sampleLib { Topic0Map := [("0xÉ", "swap")] } with
      | Except.ok d => d.CanDecode "0xé"
      | Except.error _ => false) = true := by
  refine ⟨?_, ?_, ?_, ?_, ?_, ?_, ?_, ?_, ?_, ?_⟩ <;> decide

end LiquidityScope
